import Mathlib

/-!
# GL mesh cache: eviction, allocation and frame bookkeeping

A shallow embedding of `Src/Render/GL/GL_MeshCache.cpp` (class `GL::MeshCache`),
followed by the mapping of mesh buffers and `HAL::GetRenderSync` of
`Src/Render/GL/GL_HAL.cpp`, the matrix `Matrix3x4<T>` of
`Src/Render/Render_Matrix3x4.h` and the hash table `Hash<C, U>` of
`Src/Kernel/SF_Hash.h`, each introduced by its own section.

* Pointers to mesh buffers and cache items are natural-number identities.
* `UPInt` quantities are natural numbers; where the source relies on machine
  arithmetic (the memory-limit guard and subtraction of `allocBuffer`, the
  `(unsigned)` cast of `Evict`, the signed slack of `EndFrame`, the granularity
  helpers, `adjustMeshCacheParams`, `GetStats`) the reduction modulo `2 ^ w` is
  written out.
* The GPU fence of an item is the boolean `FencePending`; it is read by
  `IsPending(FenceType_Vertex)` and cleared by `WaitFence`.
* The range allocator (`AllocAddr`), the device and the heap are not part of the
  translated file: they are the fields of `Collaborators`, and every function
  below is parametric in them. What `Initialize` and `GetStats` ask of the HAL
  and of the absent headers is the record `Device`.
* `Log` is a ghost field: every call that leaves the translated file (`Free`,
  `Alloc`, `CreateBuffer`, `delete`, `destroy`, `WaitFence`) and every entry into
  `Evict` appends one `Event`, in program order.
-/

namespace GLMeshCache

/-! ## Data model -/

/-- The allocation class of a mesh buffer, `MeshBuffer::AllocType`. -/
inductive AllocType where
  | AT_None
  | AT_Reserve
  | AT_Chunk
  deriving DecidableEq, Repr

/-- The GL buffer target of a buffer set: `GL_ARRAY_BUFFER` (vertex) or
`GL_ELEMENT_ARRAY_BUFFER` (index). -/
inductive BufferKind where
  | Vertex
  | Index
  deriving DecidableEq, Repr

/-- The type tag of a cache item, `MeshCacheItem::MeshType`. -/
inductive MeshType where
  | Mesh_Regular
  | Mesh_Complex
  | Mesh_Destroyed
  deriving DecidableEq, Repr

/-- Modelled from the spec: the tiers of the cache list set (`MeshCacheListType`,
declared in the absent `Render_MeshCache.h`), in the order of the spec's `Tier`
enumeration. -/
inductive MeshCacheListType where
  | MCL_ThisFrame
  | MCL_PrevFrame
  | MCL_LRUTail
  | MCL_PendingFree
  deriving DecidableEq, Repr

/-- An `AllocAddr*` argument: the allocator of the vertex set, of the index set,
or some other address. -/
inductive AllocAddrRef where
  | VertexAllocator
  | IndexAllocator
  | Other (addr : Nat)
  deriving DecidableEq, Repr

/-- A mesh buffer (`GL::MeshBuffer`): identity, GL target, size in bytes and
allocation class. -/
structure MeshBuffer where
  id : Nat
  BufferType : BufferKind
  Size : Nat
  AType : AllocType
  deriving DecidableEq, Repr

/-- A cache item (`GL::MeshCacheItem`). `pVertexBuffer` and `pIndexBuffer` are
nullable buffer pointers; `FencePending` is what `IsPending(FenceType_Vertex)`
returns. -/
structure MeshCacheItem where
  id : Nat
  MType : MeshType
  pVertexBuffer : Option Nat
  pIndexBuffer : Option Nat
  VBAllocOffset : Nat
  VBAllocSize : Nat
  IBAllocOffset : Nat
  IBAllocSize : Nat
  FencePending : Bool
  deriving DecidableEq, Repr

/-- The configuration record `MeshCacheParams`, with the fields the translated
file reads. -/
structure MeshCacheParams where
  MemReserve : Nat
  MemLimit : Nat
  MemGranularity : Nat
  LRUTailSize : Nat
  StagingBufferSize : Nat
  VBLockEvictSizeLimit : Nat
  MaxBatchInstances : Nat
  MaxVerticesSizeInBatch : Nat
  MaxIndicesInBatch : Nat
  deriving DecidableEq, Repr

/-- One entry of the ghost call log. -/
inductive Event where
  /-- A call `MeshBufferSet::Free(size, buffer, offset)` on the set of the given kind,
  for the range of item `owner` whose fence status at the call is `pending`;
  `freed` is the returned byte count. -/
  | Free (kind : BufferKind) (owner : Option Nat) (pending : Bool)
      (size buffer offset freed : Nat)
  /-- Entry into `MeshCache::Evict` for `item`, found in `tier`, with
  `VBSizeEvictedInMap = counter` at the call. -/
  | Evict (item : Nat) (tier : Option MeshCacheListType) (counter : Nat)
  /-- A call `MeshCacheItem::destroy(pskipMesh, freeMemory)`. -/
  | Destroy (item : Nat) (freeMemory : Bool)
  /-- A call `WaitFence(FenceType_Vertex)` on `item`. -/
  | Wait (item : Nat)
  /-- A call `MeshBufferSet::Alloc(size, ..)`, with its outcome. -/
  | Alloc (kind : BufferKind) (size : Nat) (ok : Bool)
  /-- A call `MeshBufferSet::CreateBuffer(size, type, ..)`, with its outcome. -/
  | Create (kind : BufferKind) (size : Nat) (type : AllocType) (ok : Bool)
  /-- The `delete` of a mesh buffer. -/
  | Delete (buffer : Nat)
  deriving DecidableEq, Repr

/-- Modelled from the spec: the cache list set (`MeshCacheListSet`, absent
`Render_MeshCache.h`): one ordered list per tier, front first. -/
structure MeshCacheListSet where
  ThisFrame : List MeshCacheItem
  PrevFrame : List MeshCacheItem
  LRUTail : List MeshCacheItem
  PendingFree : List MeshCacheItem
  deriving DecidableEq, Repr

/-- Modelled from the spec: a buffer set (`MeshBufferSet`, absent
`GL_MeshCache.h`): its kind, its buffers, its growth granularity and the state
of its range allocator. -/
structure MeshBufferSet (A : Type) where
  Kind : BufferKind
  Buffers : List MeshBuffer
  Granularity : Nat
  Allocator : A
  deriving DecidableEq, Repr

/-- The parts the translated file calls but does not define.
* `MinSupportedGranularity`: the constant of that name.
* `AllocatorAlloc a size`: the range allocator serving `size` bytes, giving the
  buffer, the offset and the new allocator state, or failing.
* `AllocatorFree a size buffer offset`: bytes freed and the new state.
* `AddSegment`, `RemoveSegment`: a buffer joining or leaving the allocator.
* `DeviceCreate n kind size`: whether the device grants the buffer that would get
  identity `n`.
* `ItemCreate n`: whether the heap grants the cache item of identity `n`. -/
structure Collaborators (A : Type) where
  MinSupportedGranularity : Nat
  AllocatorAlloc : A → Nat → Option (Nat × Nat × A)
  AllocatorFree : A → Nat → Nat → Nat → Nat × A
  AddSegment : A → MeshBuffer → A
  RemoveSegment : A → MeshBuffer → A
  DeviceCreate : Nat → BufferKind → Nat → Bool
  ItemCreate : Nat → Bool

/-- The state of `GL::MeshCache` that the translated operations read or write. -/
structure MeshCache (A : Type) where
  Params : MeshCacheParams
  CacheList : MeshCacheListSet
  VertexBuffers : MeshBufferSet A
  IndexBuffers : MeshBufferSet A
  ChunkBuffers : List MeshBuffer
  PendingDestructionBuffers : List MeshBuffer
  Mapped : Bool
  VBSizeEvictedInMap : Nat
  MappedBuffers : List Nat
  pRQCaches : Bool
  CacheLocked : Bool
  NextBufferId : Nat
  NextItemId : Nat
  Log : List Event
  deriving DecidableEq, Repr

/-- The width of `UPInt`. -/
def UPIntBits : Nat := 64

/-- The byte size of `IndexType` (`UInt16`). -/
def sizeofIndexType : Nat := 2

/-! ## The cache list set -/

/-- The list of a tier, `MeshCacheListSet::GetSlot`. -/
def MeshCacheListSet.GetSlot (l : MeshCacheListSet) : MeshCacheListType → List MeshCacheItem
  | .MCL_ThisFrame => l.ThisFrame
  | .MCL_PrevFrame => l.PrevFrame
  | .MCL_LRUTail => l.LRUTail
  | .MCL_PendingFree => l.PendingFree

/-- Apply `f` to the list of every tier. -/
def MeshCacheListSet.mapSlots (l : MeshCacheListSet)
    (f : List MeshCacheItem → List MeshCacheItem) : MeshCacheListSet :=
  { ThisFrame := f l.ThisFrame, PrevFrame := f l.PrevFrame,
    LRUTail := f l.LRUTail, PendingFree := f l.PendingFree }

/-- Unlink the item of identity `id` from whichever list holds it
(`ListNode::RemoveNode`). -/
def MeshCacheListSet.RemoveNode (l : MeshCacheListSet) (id : Nat) : MeshCacheListSet :=
  l.mapSlots (fun xs => xs.filter (fun q => q.id != id))

/-- Modelled from the spec: `MeshCacheListSet::PushFront(type, p)` links `p` at
the front of the list of tier `type`. -/
def MeshCacheListSet.PushFront (l : MeshCacheListSet) (t : MeshCacheListType)
    (p : MeshCacheItem) : MeshCacheListSet :=
  match t with
  | .MCL_ThisFrame => { l with ThisFrame := p :: l.ThisFrame }
  | .MCL_PrevFrame => { l with PrevFrame := p :: l.PrevFrame }
  | .MCL_LRUTail => { l with LRUTail := p :: l.LRUTail }
  | .MCL_PendingFree => { l with PendingFree := p :: l.PendingFree }

/-- The tier whose list holds an item of identity `id`, if any. -/
def MeshCacheListSet.ListOf (l : MeshCacheListSet) (id : Nat) : Option MeshCacheListType :=
  if l.ThisFrame.any (fun q => q.id == id) then some .MCL_ThisFrame
  else if l.PrevFrame.any (fun q => q.id == id) then some .MCL_PrevFrame
  else if l.LRUTail.any (fun q => q.id == id) then some .MCL_LRUTail
  else if l.PendingFree.any (fun q => q.id == id) then some .MCL_PendingFree
  else none

/-- Modelled from the spec: `MeshCacheListSet::GetSlotSize`, the bytes held by
the items of a tier; an item holds `vertexAllocSize + indexAllocSize` bytes
(the `AllocSize` passed by the `MeshCacheItem` constructor). -/
def MeshCacheListSet.GetSlotSize (l : MeshCacheListSet) (t : MeshCacheListType) : Nat :=
  ((l.GetSlot t).map (fun q => q.VBAllocSize + q.IBAllocSize)).sum

/-- Modelled from the spec: `MeshCacheListSet::EndFrame` (§4.3): every item of
`PrevFrame` is appended to the back of `LRUTail`, and `ThisFrame` becomes the
new `PrevFrame`. -/
def MeshCacheListSet.EndFrame (l : MeshCacheListSet) : MeshCacheListSet :=
  { ThisFrame := [], PrevFrame := l.ThisFrame,
    LRUTail := l.LRUTail ++ l.PrevFrame, PendingFree := l.PendingFree }

/-! ## Buffer sets -/

variable {A : Type}

/-- The buffer set a `MeshBufferSet&` of the given kind refers to. -/
def MeshCache.mbs (s : MeshCache A) : BufferKind → MeshBufferSet A
  | .Vertex => s.VertexBuffers
  | .Index => s.IndexBuffers

/-- Store a buffer set back into the cache. -/
def MeshCache.setMbs (s : MeshCache A) (k : BufferKind) (m : MeshBufferSet A) : MeshCache A :=
  match k with
  | .Vertex => { s with VertexBuffers := m }
  | .Index => { s with IndexBuffers := m }

/-- The address of the allocator of the set of the given kind. -/
def allocatorOf : BufferKind → AllocAddrRef
  | .Vertex => .VertexAllocator
  | .Index => .IndexAllocator

/-- Modelled from the spec: `MeshBufferSet::GetTotalSize`, the bytes of all
buffers of the set. -/
def MeshBufferSet.GetTotalSize (m : MeshBufferSet A) : Nat :=
  (m.Buffers.map (fun b => b.Size)).sum

/-- Modelled from the spec: `MeshCache::getTotalSize` (absent `GL_MeshCache.h`),
the currently allocated total of both buffer sets. -/
def getTotalSize (s : MeshCache A) : Nat :=
  s.VertexBuffers.GetTotalSize + s.IndexBuffers.GetTotalSize

/-- Modelled from the spec: `MeshBufferSet::Free(size, buffer, offset)` (§4.2)
delegates to the range allocator and returns the bytes freed. The ghost
arguments `owner`, `pending` name the item whose range it is. -/
def MeshCache.Free (env : Collaborators A) (s : MeshCache A) (k : BufferKind)
    (owner : Option Nat) (pending : Bool) (size buffer offset : Nat) : Nat × MeshCache A :=
  let r := env.AllocatorFree (s.mbs k).Allocator size buffer offset
  (r.1, { s.setMbs k { s.mbs k with Allocator := r.2 } with
            Log := s.Log ++ [Event.Free k owner pending size buffer offset r.1] })

/-- Modelled from the spec: `MeshBufferSet::Alloc(size, &buffer, &offset)` (§4.2)
asks the range allocator of the set; on success the buffer and offset are
returned. -/
def MeshCache.Alloc (env : Collaborators A) (s : MeshCache A) (k : BufferKind)
    (size : Nat) : Option (Nat × Nat) × MeshCache A :=
  match env.AllocatorAlloc (s.mbs k).Allocator size with
  | some (b, off, a) =>
      (some (b, off), { s.setMbs k { s.mbs k with Allocator := a } with
                          Log := s.Log ++ [Event.Alloc k size true] })
  | none => (none, { s with Log := s.Log ++ [Event.Alloc k size false] })

/-- Modelled from the spec: `MeshBufferSet::CreateBuffer(size, type, ..)` (§4.2)
asks the device for storage of `size` bytes and wraps it in a new buffer of the
set, or returns null when the device refuses. -/
def MeshCache.CreateBuffer (env : Collaborators A) (s : MeshCache A) (k : BufferKind)
    (size : Nat) (type : AllocType) : Option MeshBuffer × MeshCache A :=
  if env.DeviceCreate s.NextBufferId k size then
    let b : MeshBuffer := { id := s.NextBufferId, BufferType := k, Size := size, AType := type }
    let m := s.mbs k
    (some b, { s.setMbs k { m with Buffers := m.Buffers ++ [b],
                                   Allocator := env.AddSegment m.Allocator b } with
                 NextBufferId := s.NextBufferId + 1,
                 Log := s.Log ++ [Event.Create k size type true] })
  else
    (none, { s with Log := s.Log ++ [Event.Create k size type false] })

/-- Modelled from the spec: `MeshBufferSet::DestroyBuffer(p, lost, deleteBuffer)`
takes `p` out of the set and of its allocator, and deletes it when
`deleteBuffer` is set. -/
def MeshCache.DestroyBuffer (env : Collaborators A) (s : MeshCache A) (k : BufferKind)
    (p : MeshBuffer) (deleteBuffer : Bool) : MeshCache A :=
  let m := s.mbs k
  let s1 := s.setMbs k { m with Buffers := m.Buffers.filter (fun b => b.id != p.id),
                                Allocator := env.RemoveSegment m.Allocator p }
  if deleteBuffer then { s1 with Log := s1.Log ++ [Event.Delete p.id] } else s1

/-- Modelled from the spec: `MeshBufferSet::CheckAllocationSize(size, ..)`: a
single request must not exceed the growth granularity of the set (§4.4 step 7). -/
def MeshBufferSet.CheckAllocationSize (m : MeshBufferSet A) (size : Nat) : Bool :=
  decide (size ≤ m.Granularity)

/-! ## Items -/

/-- Modelled from the spec: `MeshCacheItem::destroy(pskipMesh, freeMemory)` (absent
`Render_MeshCache.cpp`): the item is unlinked from its tier and becomes
`Mesh_Destroyed`; with `freeMemory` its memory is released, without it the husk
persists. The husk is returned. -/
def MeshCache.destroy (s : MeshCache A) (p : MeshCacheItem) (freeMemory : Bool) :
    MeshCacheItem × MeshCache A :=
  ({ p with MType := MeshType.Mesh_Destroyed },
   { s with CacheList := s.CacheList.RemoveNode p.id,
            Log := s.Log ++ [Event.Destroy p.id freeMemory] })

/-- Modelled from the spec: `WaitFence(FenceType_Vertex)` blocks until the fence
of the item is no longer pending. The item with the cleared fence is returned. -/
def MeshCache.WaitFence (s : MeshCache A) (p : MeshCacheItem) : MeshCacheItem × MeshCache A :=
  ({ p with FencePending := false },
   { s with CacheList := s.CacheList.mapSlots
              (fun xs => xs.map (fun q => if q.id == p.id then { q with FencePending := false } else q)),
            Log := s.Log ++ [Event.Wait p.id] })

/-! ## `MeshCache::Evict` -/

/-- The function `MeshCache::Evict(pbatch, pallocator, pskipMesh)`, lines 636-665.
The deletion of the item's vertex array object is a GL call outside the state. -/
def Evict (env : Collaborators A) (s : MeshCache A) (p : MeshCacheItem)
    (pallocator : Option AllocAddrRef) : Nat × MeshCache A :=
  let s0 := { s with Log := s.Log ++ [Event.Evict p.id (s.CacheList.ListOf p.id) s.VBSizeEvictedInMap] }
  if !p.FencePending then
    let r1 := match p.pVertexBuffer with
      | some b => s0.Free env .Vertex (some p.id) p.FencePending p.VBAllocSize b p.VBAllocOffset
      | none => (0, s0)
    let vbfree := r1.1
    let r2 := match p.pIndexBuffer with
      | some b => r1.2.Free env .Index (some p.id) p.FencePending p.IBAllocSize b p.IBAllocOffset
      | none => (0, r1.2)
    let ibfree := r2.1
    let freedSize := match pallocator with
      | some a => if a = AllocAddrRef.VertexAllocator then vbfree else ibfree
      | none => vbfree + ibfree
    let s3 := { r2.2 with VBSizeEvictedInMap := r2.2.VBSizeEvictedInMap + p.VBAllocSize % 2 ^ 32 }
    (freedSize, (s3.destroy p true).2)
  else
    let d := s0.destroy p false
    (0, { d.2 with CacheList := d.2.CacheList.PushFront .MCL_PendingFree d.1 })

/-! ## Bulk eviction of the cache list set -/

/-- The walk of `EvictPendingFree` over a snapshot of `PendingFree`; the first
component accumulates the bytes the `Evict` calls returned. -/
def EvictPendingFreeLoop (env : Collaborators A) (a : AllocAddrRef) (wait : Bool) :
    List MeshCacheItem → Nat × MeshCache A → Nat × MeshCache A
  | [], acc => acc
  | p :: rest, acc =>
    let w := if wait && p.FencePending then acc.2.WaitFence p else (p, acc.2)
    if !w.1.FencePending then
      let e := Evict env w.2 w.1 (some a)
      EvictPendingFreeLoop env a wait rest (acc.1 + e.1, e.2)
    else
      EvictPendingFreeLoop env a wait rest (acc.1, w.2)

/-- Modelled from the spec: `MeshCacheListSet::EvictPendingFree(allocator, wait)`
(absent `Render_MeshCache.cpp`) reclaims the memory of the `PendingFree` items
whose fences have since cleared (§4.4 step 2), through `Evict`; with `wait` it
first waits on each fence, which empties the list. It reports success when
bytes were reclaimed in the given allocator. -/
def EvictPendingFree (env : Collaborators A) (s : MeshCache A) (a : AllocAddrRef)
    (wait : Bool) : Bool × MeshCache A :=
  let r := EvictPendingFreeLoop env a wait s.CacheList.PendingFree (0, s)
  (decide (0 < r.1), r.2)

/-- The loop of `EvictLRUTillLimit`, at most `fuel` iterations. -/
def EvictLRUTillLimitLoop (env : Collaborators A) (type : MeshCacheListType)
    (a : AllocAddrRef) (size limit : Nat) : Nat → MeshCache A → Bool × MeshCache A
  | 0, s => (false, s)
  | fuel + 1, s =>
    match s.CacheList.GetSlot type with
    | [] => (false, s)
    | p :: _ =>
      if s.CacheList.GetSlotSize type > limit then
        let r := Evict env s p (some a)
        if r.1 ≥ size then (true, r.2)
        else EvictLRUTillLimitLoop env type a size limit fuel r.2
      else (false, s)

/-- Modelled from the spec: `MeshCacheListSet::EvictLRUTillLimit(type, allocator,
size, limit)` evicts items of the tier, oldest (front) first, while the tier
holds more than its byte budget `limit`, and reports success as soon as one
eviction frees `size` bytes (§4.4 step 3). -/
def EvictLRUTillLimit (env : Collaborators A) (s : MeshCache A) (type : MeshCacheListType)
    (a : AllocAddrRef) (size limit : Nat) : Bool × MeshCache A :=
  EvictLRUTillLimitLoop env type a size limit (s.CacheList.GetSlot type).length s

/-- The loop of `EvictLRU`, at most `fuel` iterations. -/
def EvictLRULoop (env : Collaborators A) (type : MeshCacheListType)
    (a : AllocAddrRef) (size : Nat) : Nat → MeshCache A → Bool × MeshCache A
  | 0, s => (false, s)
  | fuel + 1, s =>
    match s.CacheList.GetSlot type with
    | [] => (false, s)
    | p :: _ =>
      let r := Evict env s p (some a)
      if r.1 ≥ size then (true, r.2)
      else EvictLRULoop env type a size fuel r.2

/-- Modelled from the spec: `MeshCacheListSet::EvictLRU(type, allocator, size)`
evicts items of the tier, oldest (front) first, regardless of any budget, and
reports success as soon as one eviction frees `size` bytes (§4.4 step 4). -/
def EvictLRU (env : Collaborators A) (s : MeshCache A) (type : MeshCacheListType)
    (a : AllocAddrRef) (size : Nat) : Bool × MeshCache A :=
  EvictLRULoop env type a size (s.CacheList.GetSlot type).length s

/-! ## `MeshCache::allocBuffer` -/

/-- Addition of two `UPInt` values. -/
def addUPInt (a b : Nat) : Nat := (a + b) % 2 ^ UPIntBits

/-- Subtraction of two `UPInt` values. -/
def subUPInt (a b : Nat) : Nat := (a % 2 ^ UPIntBits + 2 ^ UPIntBits - b % 2 ^ UPIntBits) % 2 ^ UPIntBits

/-- The value of a machine word read as `SPInt`, in two's complement. -/
def toSPInt (n : Int) : Int :=
  (n + 2 ^ (UPIntBits - 1)) % 2 ^ UPIntBits - 2 ^ (UPIntBits - 1)

/-- Lines 690-714 of `allocBuffer`, the body of the memory-limit branch. The first
component is `none` when the function returns false here, and the value of
`needMoreSpace` otherwise. -/
def allocBuffer.limitStage (env : Collaborators A) (s : MeshCache A) (k : BufferKind)
    (size : Nat) : Option Bool × MeshCache A :=
  let r := EvictLRUTillLimit env s .MCL_LRUTail (allocatorOf k) size s.Params.LRUTailSize
  if r.1 then (some false, r.2)
  else if size > (r.2.mbs k).Granularity then (none, r.2)
  else
    let allocSize := min (subUPInt r.2.Params.MemLimit (getTotalSize r.2)) (r.2.mbs k).Granularity
    if size ≤ allocSize then
      let c := r.2.CreateBuffer env k allocSize .AT_Chunk
      match c.1 with
      | some pbuff => (some false, { c.2 with ChunkBuffers := c.2.ChunkBuffers ++ [pbuff] })
      | none => (some true, c.2)
    else (some true, r.2)

/-- Lines 726-748 of `allocBuffer`, the MRU walk over `PrevFrame`: the cursor
skips items whose fence is pending, evicts the first one whose fence is not,
stops when that eviction frees `size` bytes and otherwise starts again from the
front. The first component is `needMoreSpace`. Each round evicts one item, so
`fuel` rounds suffice for a list of `fuel` items. -/
def allocBuffer.mruWalk (env : Collaborators A) (k : BufferKind) (size : Nat) :
    Nat → MeshCache A → Bool × MeshCache A
  | 0, s => (true, s)
  | fuel + 1, s =>
    match s.CacheList.PrevFrame.find? (fun p => !p.FencePending) with
    | none => (true, s)
    | some p =>
      let r := Evict env s p (some (allocatorOf k))
      if r.1 ≥ size then (false, r.2)
      else allocBuffer.mruWalk env k size fuel r.2

/-- Lines 753-768 of `allocBuffer`, the waiting walk over `ThisFrame`: while
`waitForCache` and the list is not empty, wait on the fence of the first item
if it is pending, evict it, stop when that frees `size` bytes. The first
component is `needMoreSpace`. -/
def allocBuffer.thisFrameWalk (env : Collaborators A) (k : BufferKind) (size : Nat)
    (waitForCache : Bool) : Nat → MeshCache A → Bool × MeshCache A
  | 0, s => (true, s)
  | fuel + 1, s =>
    if waitForCache then
      match s.CacheList.ThisFrame with
      | [] => (true, s)
      | p :: _ =>
        let w := if p.FencePending then s.WaitFence p else (p, s)
        let r := Evict env w.2 w.1 (some (allocatorOf k))
        if r.1 ≥ size then (false, r.2)
        else allocBuffer.thisFrameWalk env k size waitForCache fuel r.2
    else (true, s)

/-- Lines 686-718 of `allocBuffer`: the memory-limit branch (#2) and the
unconditional LRU eviction, entered with `needMoreSpace = need1`. The first
component is `none` when the function returns false inside the memory-limit
branch, and the value of `needMoreSpace` otherwise. -/
def allocBuffer.growOrEvict (env : Collaborators A) (s : MeshCache A) (k : BufferKind)
    (size : Nat) (need1 : Bool) : Option Bool × MeshCache A :=
  let st2 : Option Bool × MeshCache A :=
    if need1 && decide (addUPInt (getTotalSize s) env.MinSupportedGranularity ≤ s.Params.MemLimit)
    then allocBuffer.limitStage env s k size
    else (some need1, s)
  match st2.1 with
  | none => (none, st2.2)
  | some need2 =>
    if need2 then
      let r := EvictLRU env st2.2 .MCL_LRUTail (allocatorOf k) size
      (some (!r.1), r.2)
    else (some false, st2.2)

/-- Lines 677-718 of `allocBuffer`, from the failed direct suballocation up to
the eviction-limit check: PendingFree reclamation (#1), whose success clears
`needMoreSpace`, then the memory-limit branch and the LRU eviction. -/
def allocBuffer.beforeLimitCheck (env : Collaborators A) (s : MeshCache A) (k : BufferKind)
    (size : Nat) : Option Bool × MeshCache A :=
  let e1 := EvictPendingFree env s (allocatorOf k) false
  allocBuffer.growOrEvict env e1.2 k size (!e1.1)

/-- Lines 723-788 of `allocBuffer`, what follows the eviction-limit check: the MRU
walk (#3), the waiting walk (#4), the forced PendingFree reclamation (#5) and
the final suballocation. -/
def allocBuffer.afterLimitCheck (env : Collaborators A) (s : MeshCache A) (k : BufferKind)
    (size : Nat) (waitForCache : Bool) (needMoreSpace : Bool) :
    Option (Nat × Nat) × MeshCache A :=
  let st4 : Bool × MeshCache A :=
    if needMoreSpace then allocBuffer.mruWalk env k size s.CacheList.PrevFrame.length s
    else (needMoreSpace, s)
  let st5 : Bool × MeshCache A :=
    if st4.1 then
      allocBuffer.thisFrameWalk env k size waitForCache st4.2.CacheList.ThisFrame.length st4.2
    else st4
  let s6 : MeshCache A :=
    if st5.1 && waitForCache then (EvictPendingFree env st5.2 (allocatorOf k) true).2
    else st5.2
  if st5.1 then (none, s6)
  else s6.Alloc env k size

/-- Lines 677-788 of `allocBuffer`, what follows a failed direct suballocation. -/
def allocBuffer.slowPath (env : Collaborators A) (s : MeshCache A) (k : BufferKind)
    (size : Nat) (waitForCache : Bool) : Option (Nat × Nat) × MeshCache A :=
  let b := allocBuffer.beforeLimitCheck env s k size
  match b.1 with
  | none => (none, b.2)
  | some needMoreSpace =>
    if b.2.VBSizeEvictedInMap > b.2.Params.VBLockEvictSizeLimit then (none, b.2)
    else allocBuffer.afterLimitCheck env b.2 k size waitForCache needMoreSpace

/-- The function `MeshCache::allocBuffer(poffset, pbuffer, mbs, size,
waitForCache)`, lines 669-788; `mbs` is the buffer set of kind `k`. The result
is `some (buffer, offset)` when the source returns true. -/
def allocBuffer (env : Collaborators A) (s : MeshCache A) (k : BufferKind)
    (size : Nat) (waitForCache : Bool) : Option (Nat × Nat) × MeshCache A :=
  let a0 := s.Alloc env k size
  match a0.1 with
  | some r => (some r, a0.2)
  | none => allocBuffer.slowPath env a0.2 k size waitForCache

/-! ## Shrinking: `evictMeshesInBuffer`, `destroyPendingBuffers`, `EndFrame` -/

/-- Whether the item refers to buffer `b` through either pointer (line 601). -/
def MeshCacheItem.refers (p : MeshCacheItem) (b : Nat) : Bool :=
  p.pVertexBuffer == some b || p.pIndexBuffer == some b

/-- The assignment `pitem->pVertexBuffer = 0` on the item of identity `id`. -/
def MeshCache.clearVertexBuffer (s : MeshCache A) (id : Nat) : MeshCache A :=
  { s with
    CacheList := s.CacheList.mapSlots
      (fun xs => xs.map (fun q => if q.id == id then { q with pVertexBuffer := none } else q)) }

/-- The assignment `pitem->pIndexBuffer = 0` on the item of identity `id`. -/
def MeshCache.clearIndexBuffer (s : MeshCache A) (id : Nat) : MeshCache A :=
  { s with
    CacheList := s.CacheList.mapSlots
      (fun xs => xs.map (fun q => if q.id == id then { q with pIndexBuffer := none } else q)) }

/-- Lines 612-621 of `evictMeshesInBuffer`, after `Evict` has returned 0 for
`pitem`: each range of the item that lies in `pbuffer` is freed in its buffer
set and the pointer of the item to `pbuffer` is set to null. -/
def evictMeshesInBuffer.release (env : Collaborators A) (s : MeshCache A) (pbuffer : Nat)
    (p : MeshCacheItem) : MeshCache A :=
  let s1 := if p.pVertexBuffer = some pbuffer then
      ((s.Free env .Vertex (some p.id) p.FencePending p.VBAllocSize pbuffer p.VBAllocOffset).2).clearVertexBuffer p.id
    else s
  if p.pIndexBuffer = some pbuffer then
    ((s1.Free env .Index (some p.id) p.FencePending p.IBAllocSize pbuffer p.IBAllocOffset).2).clearIndexBuffer p.id
  else s1

/-- Lines 598-630, the scan of one list by `evictMeshesInBuffer`: the cursor
passes the items that do not refer to `pbuffer`; the first one that does is
evicted, and the scan starts again from the front. The first component is
`evictionFailed`. Each round takes one referring item out of the list or nulls
its pointers, so `fuel` rounds suffice for a list of `fuel` items. -/
def evictMeshesInBuffer.scan (env : Collaborators A) (pbuffer : Nat) (t : MeshCacheListType) :
    Nat → Bool × MeshCache A → Bool × MeshCache A
  | 0, acc => acc
  | fuel + 1, acc =>
    match (acc.2.CacheList.GetSlot t).find? (fun q => q.refers pbuffer) with
    | none => acc
    | some p =>
      let e := Evict env acc.2 p none
      if e.1 = 0 then
        evictMeshesInBuffer.scan env pbuffer t fuel
          (true, evictMeshesInBuffer.release env e.2 pbuffer p)
      else
        evictMeshesInBuffer.scan env pbuffer t fuel (acc.1, e.2)

/-- The lists `plist[0 .. MCL_ItemCount)` in index order. -/
def allSlots : List MeshCacheListType :=
  [.MCL_ThisFrame, .MCL_PrevFrame, .MCL_LRUTail, .MCL_PendingFree]

/-- The function `MeshCache::evictMeshesInBuffer(plist, count, pbuffer)`, lines
592-633, called on all lists of the cache. It returns `!evictionFailed`. -/
def evictMeshesInBuffer (env : Collaborators A) (s : MeshCache A) (pbuffer : Nat) :
    Bool × MeshCache A :=
  let r := allSlots.foldl
    (fun (acc : Bool × MeshCache A) t =>
      evictMeshesInBuffer.scan env pbuffer t (acc.2.CacheList.GetSlot t).length acc)
    (false, s)
  (!r.1, r.2)

/-- Lines 399-423 of `destroyPendingBuffers`, for one buffer `p` taken off the
pending list: `itemsRemaining` is set when a `PendingFree` item refers to `p`
and its fence is pending, and `p` is then pushed to the front of
`remainingBuffers`; otherwise `p` is deleted. -/
def destroyPendingBuffers.step (acc : List MeshBuffer × MeshCache A) (p : MeshBuffer) :
    List MeshBuffer × MeshCache A :=
  let itemsRemaining := acc.2.CacheList.PendingFree.any
    (fun pitem => pitem.refers p.id && pitem.FencePending)
  if itemsRemaining then (p :: acc.1, acc.2)
  else (acc.1, { acc.2 with Log := acc.2.Log ++ [Event.Delete p.id] })

/-- The function `MeshCache::destroyPendingBuffers(lost)`, lines 392-427. Every
buffer is unlinked from `PendingDestructionBuffers` in turn, and the buffers
kept are linked back at the end. The flag `lost` only clears the GL handle of a
buffer before its deletion. -/
def destroyPendingBuffers (s : MeshCache A) : MeshCache A :=
  let r := s.PendingDestructionBuffers.foldl destroyPendingBuffers.step
    ([], { s with PendingDestructionBuffers := [] })
  { r.2 with PendingDestructionBuffers := r.1 ++ r.2.PendingDestructionBuffers }

/-- Lines 459-481 of `EndFrame`, the shrink loop; `extraSpace` is an `SPInt`. One
chunk buffer leaves `ChunkBuffers` per round, so `fuel` rounds suffice for a
list of `fuel` buffers. -/
def EndFrame.shrinkLoop (env : Collaborators A) : Nat → Int → MeshCache A → MeshCache A
  | 0, _, s => s
  | fuel + 1, extraSpace, s =>
    match s.ChunkBuffers.getLast? with
    | none => s
    | some p =>
      if extraSpace > toSPInt (s.Params.MemGranularity : Int) then
        let s1 := { s with ChunkBuffers := s.ChunkBuffers.dropLast }
        let extraSpace1 := toSPInt (extraSpace - toSPInt (p.Size : Int))
        let r := evictMeshesInBuffer env s1 p.id
        let allEvicted := r.1
        let s2 := r.2.DestroyBuffer env p.BufferType p allEvicted
        let s3 := if !allEvicted then
            { s2 with PendingDestructionBuffers := s2.PendingDestructionBuffers ++ [p] }
          else s2
        EndFrame.shrinkLoop env fuel extraSpace1 s3
      else s

/-- The function `MeshCache::EndFrame()`, lines 429-483. -/
def EndFrame (env : Collaborators A) (s : MeshCache A) : MeshCache A :=
  let s1 := { s with CacheList := s.CacheList.EndFrame }
  let s2 := (EvictPendingFree env s1 .IndexAllocator false).2
  let s3 := (EvictPendingFree env s2 .VertexAllocator false).2
  let s4 := destroyPendingBuffers s3
  let totalFrameSize := s4.CacheList.GetSlotSize .MCL_PrevFrame
  let lruTailSize := s4.CacheList.GetSlotSize .MCL_LRUTail
  let expectedSize0 := addUPInt totalFrameSize (min lruTailSize s4.Params.LRUTailSize)
  let expectedSize := addUPInt expectedSize0 (expectedSize0 / 4)
  let extraSpace : Int := toSPInt ((getTotalSize s4 : Int) - toSPInt (expectedSize : Int))
  if extraSpace > toSPInt (s4.Params.MemGranularity : Int) then
    EndFrame.shrinkLoop env s4.ChunkBuffers.length extraSpace s4
  else s4

/-! ## Locking and `AllocCacheItem` -/

/-- The function `MeshCache::LockBuffers()`, lines 572-580. -/
def LockBuffers (s : MeshCache A) : Bool × MeshCache A :=
  (true, { s with Mapped := true, VBSizeEvictedInMap := 0,
                  CacheLocked := if s.pRQCaches then true else s.CacheLocked })

/-- The function `MeshCache::UnlockBuffers()`, lines 582-589. -/
def UnlockBuffers (s : MeshCache A) : MeshCache A :=
  { s with MappedBuffers := [], Mapped := false,
           CacheLocked := if s.pRQCaches then false else s.CacheLocked }

/-- The result codes `MeshCache::AllocResult`. -/
inductive AllocResult where
  | Alloc_Success
  | Alloc_Fail
  | Alloc_Fail_TooBig
  | Alloc_StateError
  deriving DecidableEq, Repr

/-- The function `MeshCache::AllocCacheItem(pdata, meshType, mc,
vertexBufferSize, vertexCount, indexCount, waitForCache, ..)`, lines 791-838.
The second component is `*pdata`. A created item is linked at the front of
`ThisFrame` (spec §4.3). -/
def AllocCacheItem (env : Collaborators A) (s : MeshCache A) (meshType : MeshType)
    (vertexBufferSize indexCount : Nat) (waitForCache : Bool) :
    AllocResult × Option MeshCacheItem × MeshCache A :=
  let l := if !s.Mapped then LockBuffers s else (true, s)
  if !s.Mapped && !l.1 then (.Alloc_StateError, none, l.2)
  else
    let v := allocBuffer env l.2 .Vertex vertexBufferSize waitForCache
    match v.1 with
    | none =>
      let failType := if !v.2.VertexBuffers.CheckAllocationSize vertexBufferSize
        then AllocResult.Alloc_Fail_TooBig else AllocResult.Alloc_Fail
      (failType, none, v.2)
    | some (pvb, vbOffset) =>
      let i := allocBuffer env v.2 .Index (indexCount * sizeofIndexType) waitForCache
      match i.1 with
      | none =>
        let failType := if !i.2.IndexBuffers.CheckAllocationSize (indexCount * sizeofIndexType)
          then AllocResult.Alloc_Fail_TooBig else AllocResult.Alloc_Fail
        (failType, none, (i.2.Free env .Vertex none false vertexBufferSize pvb vbOffset).2)
      | some (pib, ibOffset) =>
        if env.ItemCreate i.2.NextItemId then
          let item : MeshCacheItem :=
            { id := i.2.NextItemId, MType := meshType,
              pVertexBuffer := some pvb, pIndexBuffer := some pib,
              VBAllocOffset := vbOffset % 2 ^ 32, VBAllocSize := vertexBufferSize,
              IBAllocOffset := ibOffset % 2 ^ 32, IBAllocSize := indexCount * sizeofIndexType,
              FencePending := false }
          (.Alloc_Success, some item,
            { i.2 with CacheList := i.2.CacheList.PushFront .MCL_ThisFrame item,
                       NextItemId := i.2.NextItemId + 1 })
        else
          let f1 := i.2.Free env .Vertex none false vertexBufferSize pvb vbOffset
          let f2 := f1.2.Free env .Index none false (indexCount * sizeofIndexType) pib ibOffset
          (.Alloc_StateError, none, f2.2)

/-! ## Initialization, reset and statistics -/

/-- The enumerators of `MeshCache::BufferUpdateType` that the file names;
`BufferUpdate_Count` bounds the search of `Initialize` and stands for "no method
found". -/
inductive BufferUpdateType where
  | BufferUpdate_MapBufferUnsynchronized
  | BufferUpdate_ClientBuffers
  | BufferUpdate_MapBuffer
  | BufferUpdate_UpdateBuffer
  | BufferUpdate_Count
  deriving DecidableEq, Repr

/-- What the HAL, the GL device and the absent headers provide to `Initialize` and
`GetStats`.
* `CapSync`, `CapMapBufferRange`, `CapMapBuffer`: whether `GetCaps()` has the bit.
* `ShouldUseVAOs`: the answer of the HAL.
* `SoftwareDeferredContext`: whether `GetConfigFlags()` has that bit.
* `Methods`: the enumerators from `BufferUpdate_MapBufferUnsynchronized` up to, not
  including, `BufferUpdate_Count`, in numeric order (the enumeration is declared in
  the absent `GL_MeshCache.h`).
* `StagingInitialize size`: the result of `StagingBuffer.Initialize(pHeap, size)`.
* `SF_RENDER_MAX_BATCHES`, `MeshCache_AllocatorUnitShift`, `MeshBuffer_Vertex`,
  `MeshBuffer_Index`, `MeshBuffer_GpuMem`: the constants of these names.
* `GetFreeSize a`: the free size of a range allocator, in allocator units. -/
structure Device (A : Type) where
  CapSync : Bool
  CapMapBufferRange : Bool
  CapMapBuffer : Bool
  ShouldUseVAOs : Bool
  SoftwareDeferredContext : Bool
  Methods : List BufferUpdateType
  StagingInitialize : Nat → Bool
  SF_RENDER_MAX_BATCHES : Nat
  MeshCache_AllocatorUnitShift : Nat
  MeshBuffer_Vertex : Nat
  MeshBuffer_Index : Nat
  MeshBuffer_GpuMem : Nat
  GetFreeSize : A → Nat

/-- The `GL::MeshCache` object: the state `core` of the allocation paths together
with the fields that `Initialize`, `Reset` and `GetStats` read or write. The
field `StagingBuffer` holds the size the staging buffer was initialized with. -/
structure MeshCacheGL (A : Type) where
  core : MeshCache A
  pHal : Option Nat
  BufferUpdate : BufferUpdateType
  UseSeparateIndexBuffers : Bool
  StagingBuffer : Option Nat

/-- The function `calcVBGranularity(granularity)`, lines 189-192, on `UPInt`. -/
def calcVBGranularity (granularity : Nat) : Nat :=
  ((((granularity / 2 ^ 4) * 5) % 2 ^ UPIntBits / 9) * 2 ^ 4) % 2 ^ UPIntBits

/-- The function `calcIBGranularity(granularity, vbGranularity)`, lines 193-196,
on `UPInt`. -/
def calcIBGranularity (granularity vbGranularity : Nat) : Nat :=
  (subUPInt (granularity / 2 ^ 4) (vbGranularity / 2 ^ 4) * 2 ^ 4) % 2 ^ UPIntBits

/-- The function `MeshCache::adjustMeshCacheParams(p)`, lines 377-389. -/
def adjustMeshCacheParams (dev : Device A) (p : MeshCacheParams) : MeshCacheParams :=
  let p1 := if p.MaxBatchInstances > dev.SF_RENDER_MAX_BATCHES
    then { p with MaxBatchInstances := dev.SF_RENDER_MAX_BATCHES } else p
  let p2 := if p1.VBLockEvictSizeLimit < 1024 * 256
    then { p1 with VBLockEvictSizeLimit := 1024 * 256 } else p1
  let maxStagingItemSize :=
    addUPInt p2.MaxVerticesSizeInBatch ((2 * p2.MaxIndicesInBatch) % 2 ^ UPIntBits)
  if (maxStagingItemSize * 2) % 2 ^ UPIntBits > p2.StagingBufferSize
  then { p2 with StagingBufferSize := (maxStagingItemSize * 2) % 2 ^ UPIntBits } else p2

/-- The `switch` of lines 237-255 of `Initialize`: whether the device can use the
update method. -/
def Initialize.usable (dev : Device A) : BufferUpdateType → Bool
  | .BufferUpdate_MapBufferUnsynchronized => dev.CapSync && dev.CapMapBufferRange
  | .BufferUpdate_ClientBuffers => !dev.ShouldUseVAOs && !dev.SoftwareDeferredContext
  | .BufferUpdate_MapBuffer => dev.CapMapBuffer
  | .BufferUpdate_UpdateBuffer => true
  | .BufferUpdate_Count => false

/-- Lines 234-260 of `Initialize`: the first usable method in numeric order, or
`BufferUpdate_Count`. -/
def Initialize.findMethod (dev : Device A) : BufferUpdateType :=
  (dev.Methods.find? (Initialize.usable dev)).getD .BufferUpdate_Count

/-- Modelled from the spec: `MeshCacheListSet::EvictAll()` (§4.3) evicts every
item, tier by tier, `PendingFree` first. -/
def EvictAll (env : Collaborators A) (s : MeshCache A) : MeshCache A :=
  (s.CacheList.PendingFree ++ s.CacheList.LRUTail ++ s.CacheList.PrevFrame ++
    s.CacheList.ThisFrame).foldl (fun t p => (Evict env t p none).2) s

/-- Modelled from the spec: `MeshBufferSet::DestroyBuffers(at, lost)` (§4.2) tears
down all buffers of the class `at`; the class `AT_None` stands for every class
(§3: a reserve buffer goes on a full reset). -/
def MeshCache.DestroyBuffers (env : Collaborators A) (s : MeshCache A) (k : BufferKind)
    (type : AllocType) : MeshCache A :=
  let m := s.mbs k
  let gone := m.Buffers.filter (fun b => decide (type = .AT_None) || decide (b.AType = type))
  { s.setMbs k { m with
      Buffers := m.Buffers.filter
        (fun b => !(decide (type = .AT_None) || decide (b.AType = type))),
      Allocator := gone.foldl env.RemoveSegment m.Allocator } with
    Log := s.Log ++ gone.map (fun b => Event.Delete b.id) }

/-- The function `MeshCache::destroyBuffers(at, lost)`, lines 325-332. -/
def destroyBuffers (env : Collaborators A) (s : MeshCache A) (type : AllocType) : MeshCache A :=
  let s1 := EvictAll env s
  let s2 := s1.DestroyBuffers env .Vertex type
  let s3 := s2.DestroyBuffers env .Index type
  { s3 with ChunkBuffers := [] }

/-- The function `MeshCache::Reset(lost)`, lines 292-315. The deletion of the GL
objects of the mask-erase batch is not part of the state. -/
def Reset (env : Collaborators A) (c : MeshCacheGL A) : MeshCacheGL A :=
  let c1 := match c.pHal with
    | some _ =>
      { c with core := destroyPendingBuffers (destroyBuffers env c.core .AT_None),
               pHal := none }
    | none => c
  { c1 with StagingBuffer := none }

/-- The function `MeshCache::allocCacheBuffers(size, type, arena)`, lines 499-527.
The call `VertexBuffers.DestroyBuffer(pvb)` of line 512 leaves the flags of
`DestroyBuffer` to their defaults, taken to delete the buffer. -/
def allocCacheBuffers (env : Collaborators A) (c : MeshCacheGL A) (size : Nat)
    (type : AllocType) : Bool × MeshCacheGL A :=
  if c.UseSeparateIndexBuffers then
    let vbsize := calcVBGranularity size
    let ibsize := calcIBGranularity size vbsize
    let v := c.core.CreateBuffer env .Vertex vbsize type
    match v.1 with
    | none => (false, { c with core := v.2 })
    | some pvb =>
      let i := v.2.CreateBuffer env .Index ibsize type
      match i.1 with
      | none => (false, { c with core := i.2.DestroyBuffer env .Vertex pvb true })
      | some _ => (true, { c with core := i.2 })
  else
    let b := c.core.CreateBuffer env .Vertex size type
    match b.1 with
    | none => (false, { c with core := b.2 })
    | some _ => (true, { c with core := b.2 })

/-- The function `MeshCache::createStaticVertexBuffers()`, lines 529-564: both
helpers return true. -/
def createStaticVertexBuffers : Bool := true

/-- The cache at line 271 of `Initialize`, when a method was found and the staging
buffer was initialized: the HAL attached, the parameters adjusted, separate index
buffers in use and both granularities set. -/
def Initialize.prepared (dev : Device A) (c : MeshCacheGL A) (phal : Nat) : MeshCacheGL A :=
  let params := adjustMeshCacheParams dev c.core.Params
  let vgran := calcVBGranularity params.MemGranularity
  { c with
    pHal := some phal
    BufferUpdate := Initialize.findMethod dev
    StagingBuffer := some params.StagingBufferSize
    UseSeparateIndexBuffers := true
    core := { c.core with
      Params := params
      VertexBuffers := { c.core.VertexBuffers with Granularity := vgran }
      IndexBuffers := { c.core.IndexBuffers with
        Granularity := calcIBGranularity params.MemGranularity vgran } } }

/-- The function `MeshCache::Initialize(phal)`, lines 225-290. -/
def Initialize (env : Collaborators A) (dev : Device A) (c : MeshCacheGL A) (phal : Nat) :
    Bool × MeshCacheGL A :=
  let params := adjustMeshCacheParams dev c.core.Params
  let c1 := { c with pHal := some phal, core := { c.core with Params := params },
                     BufferUpdate := Initialize.findMethod dev }
  if c1.BufferUpdate = .BufferUpdate_Count then (false, c1)
  else if !dev.StagingInitialize params.StagingBufferSize then (false, c1)
  else
    let c3 := Initialize.prepared dev c phal
    if !createStaticVertexBuffers then (false, Reset env c3)
    else if c3.core.Params.MemReserve ≠ 0 then
      let r := allocCacheBuffers env c3 c3.core.Params.MemReserve .AT_Reserve
      if !r.1 then (false, Reset env r.2) else (true, r.2)
    else (true, c3)

/-- The record `MeshCache::Stats`: the entries of the arrays `TotalSize` and
`UsedSize`, by index. -/
structure Stats where
  TotalSize : Nat → Nat
  UsedSize : Nat → Nat

/-- The function `MeshCache::GetStats(stats)`, lines 854-864. A fresh `Stats()` has
every entry zero; the index is an `unsigned`, the sizes are `UPInt`. -/
def GetStats (dev : Device A) (c : MeshCacheGL A) : Stats :=
  let stats0 : Stats := { TotalSize := fun _ => 0, UsedSize := fun _ => 0 }
  let memType := if c.BufferUpdate ≠ .BufferUpdate_ClientBuffers
    then dev.MeshBuffer_GpuMem else 0
  let v := (memType + dev.MeshBuffer_Vertex) % 2 ^ 32
  let i := (memType + dev.MeshBuffer_Index) % 2 ^ 32
  let stats1 := { stats0 with
    TotalSize := Function.update stats0.TotalSize v c.core.VertexBuffers.GetTotalSize }
  let stats2 := { stats1 with
    UsedSize := Function.update stats1.UsedSize v
      ((dev.GetFreeSize c.core.VertexBuffers.Allocator *
        2 ^ dev.MeshCache_AllocatorUnitShift) % 2 ^ UPIntBits) }
  let stats3 := { stats2 with
    TotalSize := Function.update stats2.TotalSize i c.core.IndexBuffers.GetTotalSize }
  { stats3 with
    UsedSize := Function.update stats3.UsedSize i
      ((dev.GetFreeSize c.core.IndexBuffers.Allocator *
        2 ^ dev.MeshCache_AllocatorUnitShift) % 2 ^ UPIntBits) }

/-- Lines 343-353 of `SetParams`: the staging buffer is initialized again when its
size changes; when that fails the old size is tried and the function returns
false. After a failed `StagingBuffer.Initialize` the staging buffer holds no
size. -/
def SetParams.staging (dev : Device A) (c : MeshCacheGL A) (params : MeshCacheParams) :
    Bool × MeshCacheGL A :=
  if c.core.Params.StagingBufferSize ≠ params.StagingBufferSize then
    if dev.StagingInitialize params.StagingBufferSize then
      (true, { c with StagingBuffer := some params.StagingBufferSize })
    else
      let restored : Option Nat :=
        if dev.StagingInitialize c.core.Params.StagingBufferSize
        then some c.core.Params.StagingBufferSize else none
      (false, { c with StagingBuffer := restored })
  else (true, c)

/-- Lines 355-371 of `SetParams`: when the reserve size or the granularity
changes, the buffers are destroyed and a new reserve is allocated; when that fails
the old reserve is tried and the function returns false. The call
`destroyBuffers()` of line 358 leaves the class to its default, taken to be
`AT_None`. -/
def SetParams.reserve (env : Collaborators A) (c : MeshCacheGL A) (params : MeshCacheParams) :
    Bool × MeshCacheGL A :=
  if c.core.Params.MemReserve ≠ params.MemReserve ∨
      c.core.Params.MemGranularity ≠ params.MemGranularity then
    let c3 := { c with core := destroyBuffers env c.core .AT_None }
    if params.MemReserve ≠ 0 then
      let r := allocCacheBuffers env c3 params.MemReserve .AT_Reserve
      if r.1 then (true, r.2)
      else if c.core.Params.MemReserve ≠ 0 then
        (false, (allocCacheBuffers env r.2 c.core.Params.MemReserve .AT_Reserve).2)
      else (false, r.2)
    else (true, c3)
  else (true, c)

/-- The function `MeshCache::SetParams(argParams)`, lines 334-375. -/
def SetParams (env : Collaborators A) (dev : Device A) (c : MeshCacheGL A)
    (argParams : MeshCacheParams) : Bool × MeshCacheGL A :=
  let params := adjustMeshCacheParams dev argParams
  match c.pHal with
  | none => (true, { c with core := { c.core with Params := params } })
  | some _ =>
    let st := SetParams.staging dev { c with core := EvictAll env c.core } params
    if st.1 then
      let rs := SetParams.reserve env st.2 params
      if rs.1 then (true, { rs.2 with core := { rs.2.core with Params := params } })
      else (false, rs.2)
    else (false, st.2)

/-! ## Mapping of buffers and the render sync -/

/-- What the heap and the GL driver answer to `DoMap`. An address is a number, 0
for null; an answer may depend on the number of calls made before.
* `SF_ALLOC calls size`: the address of the block `SF_ALLOC(size, ..)` returns.
* `Fresh calls`: the bytes a block allocated by that call holds, by offset.
* `glMapBufferRange calls buffer size`, `glMapBuffer calls buffer`: the address the
  driver maps the buffer at. -/
structure MapCollaborators where
  SF_ALLOC : Nat → Nat → Nat
  Fresh : Nat → Nat → Nat
  glMapBufferRange : Nat → Nat → Nat → Nat
  glMapBuffer : Nat → Nat → Nat

/-- A call that `Unmap` makes to the GL for a mapped buffer, with the buffer name;
`glBufferSubData` carries offset, size and source address. -/
inductive GLCall where
  | glFlushMappedBufferRange (buffer offset size : Nat)
  | glUnmapBuffer (buffer : Nat)
  | glBufferSubData (buffer offset size address : Nat)
  deriving DecidableEq, Repr

/-- The fields of a `MeshBuffer` that `DoMap` and `Unmap` use: `Buffer` is the GL
buffer name (0 for none), `BufferData` the client memory block and `pData` the
mapped pointer (0 for null), `MeshBufferUpdates` the recorded (offset, size)
entries. `Data` holds the bytes of the block `BufferData`, by offset. -/
structure MeshBufferMap where
  Size : Nat
  Buffer : Nat
  BufferData : Nat
  pData : Nat
  MeshBufferUpdates : List (Nat × Nat)
  Data : Nat → Nat

/-- The mapping state: the mesh buffers by id, the list `MappedBuffers` of the
cache, the number of heap and map calls made so far, and the calls made to the
GL by `Unmap`. -/
structure MapState where
  Buffers : Nat → MeshBufferMap
  MappedBuffers : List Nat
  Calls : Nat
  GLCalls : List GLCall

/-- Lines 76-104 of `MeshBuffer::DoMap`: the buffer `id` gets a mapped pointer if
it has none. -/
def DoMap.mapped (h : MapCollaborators) (updateType : BufferUpdateType) (ms : MapState)
    (id : Nat) : MapState :=
  let b := ms.Buffers id
  if b.pData = 0 then
    if updateType = .BufferUpdate_MapBuffer ∨
        updateType = .BufferUpdate_MapBufferUnsynchronized then
      if updateType = .BufferUpdate_MapBufferUnsynchronized then
        { ms with
          Buffers := Function.update ms.Buffers id
            { b with pData := h.glMapBufferRange ms.Calls b.Buffer b.Size }
          Calls := ms.Calls + 1 }
      else if updateType = .BufferUpdate_MapBuffer then
        { ms with
          Buffers := Function.update ms.Buffers id
            { b with pData := h.glMapBuffer ms.Calls b.Buffer }
          Calls := ms.Calls + 1 }
      else ms
    else if b.BufferData = 0 then
      { ms with
        Buffers := Function.update ms.Buffers id
          { b with BufferData := h.SF_ALLOC ms.Calls b.Size
                   pData := h.SF_ALLOC ms.Calls b.Size
                   Data := h.Fresh ms.Calls }
        Calls := ms.Calls + 1 }
    else
      { ms with Buffers := Function.update ms.Buffers id { b with pData := b.BufferData } }
  else ms

/-- The function `MeshBuffer::DoMap(offset, size)`, lines 73-115, on the buffer
`id`; `updateType` is what `GetBufferUpdateType()` returns. -/
def DoMap (h : MapCollaborators) (updateType : BufferUpdateType) (ms : MapState)
    (id offset size : Nat) : Bool × MapState :=
  let ms1 := DoMap.mapped h updateType ms id
  let b := ms1.Buffers id
  let ms2 : MapState :=
    if b.pData ≠ 0 ∧ (updateType = .BufferUpdate_UpdateBuffer ∨
        updateType = .BufferUpdate_MapBufferUnsynchronized) then
      { ms1 with
        Buffers := Function.update ms1.Buffers id
          { b with MeshBufferUpdates := b.MeshBufferUpdates ++ [(offset, size)] } }
    else ms1
  (decide (b.pData ≠ 0), ms2)

/-- Lines 120-151 of `MeshBuffer::Unmap`: the calls made to the GL for the buffer. -/
def Unmap.calls (updateType : BufferUpdateType) (b : MeshBufferMap) : List GLCall :=
  if b.pData ≠ 0 ∧ b.Buffer ≠ 0 then
    (if updateType = .BufferUpdate_MapBufferUnsynchronized then
      b.MeshBufferUpdates.map (fun e => GLCall.glFlushMappedBufferRange b.Buffer e.1 e.2)
     else []) ++
    (if updateType = .BufferUpdate_MapBufferUnsynchronized ∨
        updateType = .BufferUpdate_MapBuffer then [GLCall.glUnmapBuffer b.Buffer]
     else if updateType = .BufferUpdate_UpdateBuffer then
      b.MeshBufferUpdates.map
        (fun e => GLCall.glBufferSubData b.Buffer e.1 e.2 (b.pData + e.1))
     else [])
  else []

/-- The function `MeshBuffer::Unmap()`, lines 117-156, on the buffer `id`. -/
def Unmap (updateType : BufferUpdateType) (ms : MapState) (id : Nat) : MapState :=
  let b := ms.Buffers id
  { ms with
    Buffers := Function.update ms.Buffers id { b with MeshBufferUpdates := [], pData := 0 }
    GLCalls := ms.GLCalls ++ Unmap.calls updateType b }

/-- Modelled from the spec: `MeshBuffer::Map(mapped, offset, size)` (§4.4: "maps (if
not already mapped) the owning Buffers and returns pointers") calls `DoMap`, links
a buffer it has newly mapped into the list, and returns the mapped pointer, null
when `DoMap` fails. -/
def Map (h : MapCollaborators) (updateType : BufferUpdateType) (ms : MapState)
    (id offset size : Nat) : Nat × MapState :=
  let r := DoMap h updateType ms id offset size
  if r.1 then
    ((r.2.Buffers id).pData,
      if (ms.Buffers id).pData = 0 then { r.2 with MappedBuffers := r.2.MappedBuffers ++ [id] }
      else r.2)
  else (0, r.2)

/-- Modelled from the spec: `MappedBuffers.UnmapAll()` (§4.4: "flushes/unmaps every
Buffer touched since the matching `LockBuffers()`") calls `Unmap` on every buffer
of the list and empties it. -/
def UnmapAll (updateType : BufferUpdateType) (ms : MapState) : MapState :=
  { ms.MappedBuffers.foldl (Unmap updateType) ms with MappedBuffers := [] }

/-- The function `MeshCache::LockMeshCacheItem`, lines 840-852: the vertex and the
index pointer written to the two out parameters; no result when a buffer pointer
of the item is null. -/
def LockMeshCacheItem (h : MapCollaborators) (updateType : BufferUpdateType) (ms : MapState)
    (pdata : MeshCacheItem) : Option ((Nat × Nat) × MapState) :=
  match pdata.pVertexBuffer, pdata.pIndexBuffer with
  | some pvb, some pib =>
    let v := Map h updateType ms pvb pdata.VBAllocOffset pdata.VBAllocSize
    let i := Map h updateType v.2 pib pdata.IBAllocOffset pdata.IBAllocSize
    some ((v.1 + pdata.VBAllocOffset, i.1 + pdata.IBAllocOffset), i.2)
  | _, _ => none

/-- The caller of `LockMeshCacheItem` writing mesh data through the pointers it got:
the client block of every buffer `id` then holds the bytes `w id`. -/
def MapState.write (ms : MapState) (w : Nat → Nat → Nat) : MapState :=
  { ms with Buffers := fun id => { ms.Buffers id with Data := w id } }


/-! ## The matrix `Matrix3x4<T>` of `Render_Matrix3x4.h` -/

/-- The class `Matrix3x4<T>`: the field `Mij` is the element `M[i][j]` of the
array of 3 rows and 4 columns. -/
structure Matrix3x4 (T : Type) where
  M00 : T
  M01 : T
  M02 : T
  M03 : T
  M10 : T
  M11 : T
  M12 : T
  M13 : T
  M20 : T
  M21 : T
  M22 : T
  M23 : T
  deriving DecidableEq, Repr

/-- The function `Matrix3x4<T>::SetIdentity()`, lines 506-514, as the matrix a
default-constructed `Matrix3x4<T>` holds. -/
def Matrix3x4.SetIdentity {T : Type} [Zero T] [One T] : Matrix3x4 T :=
  { M00 := 1, M01 := 0, M02 := 0, M03 := 0,
    M10 := 0, M11 := 1, M12 := 0, M13 := 0,
    M20 := 0, M21 := 0, M22 := 1, M23 := 0 }

/-- The function `Matrix3x4<T>::MultiplyMatrix_NonOpt(m1, m2)`, lines 534-552, as
the matrix it stores in `*this`. -/
def Matrix3x4.MultiplyMatrix_NonOpt {T : Type} [Add T] [Mul T] (m1 m2 : Matrix3x4 T) :
    Matrix3x4 T :=
  { M00 := m1.M00 * m2.M00 + m1.M01 * m2.M10 + m1.M02 * m2.M20
    M01 := m1.M00 * m2.M01 + m1.M01 * m2.M11 + m1.M02 * m2.M21
    M02 := m1.M00 * m2.M02 + m1.M01 * m2.M12 + m1.M02 * m2.M22
    M03 := m1.M00 * m2.M03 + m1.M01 * m2.M13 + m1.M02 * m2.M23 + m1.M03
    M10 := m1.M10 * m2.M00 + m1.M11 * m2.M10 + m1.M12 * m2.M20
    M11 := m1.M10 * m2.M01 + m1.M11 * m2.M11 + m1.M12 * m2.M21
    M12 := m1.M10 * m2.M02 + m1.M11 * m2.M12 + m1.M12 * m2.M22
    M13 := m1.M10 * m2.M03 + m1.M11 * m2.M13 + m1.M12 * m2.M23 + m1.M13
    M20 := m1.M20 * m2.M00 + m1.M21 * m2.M10 + m1.M22 * m2.M20
    M21 := m1.M20 * m2.M01 + m1.M21 * m2.M11 + m1.M22 * m2.M21
    M22 := m1.M20 * m2.M02 + m1.M21 * m2.M12 + m1.M22 * m2.M22
    M23 := m1.M20 * m2.M03 + m1.M21 * m2.M13 + m1.M22 * m2.M23 + m1.M23 }

/-- The function `Matrix3x4<T>::MultiplyMatrix(m1, m2)`, lines 516-520. -/
def Matrix3x4.MultiplyMatrix {T : Type} [Add T] [Mul T] (m1 m2 : Matrix3x4 T) :
    Matrix3x4 T :=
  Matrix3x4.MultiplyMatrix_NonOpt m1 m2

/-- The function `Matrix3x4<T>::GetDeterminant()`, lines 926-943. -/
def Matrix3x4.GetDeterminant {T : Type} [Add T] [Sub T] [Mul T] (m : Matrix3x4 T) : T :=
  let t1 := m.M00 * (m.M11 * m.M22 - m.M21 * m.M12)
  let t2 := m.M01 * (m.M10 * m.M22 - m.M20 * m.M12)
  let t3 := m.M02 * (m.M10 * m.M21 - m.M20 * m.M11)
  t1 - t2 + t3

/-- Lines 948-964 of `GetInverse`: the value `det` that is compared with 0. -/
def Matrix3x4.GetInverse.det {T : Type} [Field T] (m : Matrix3x4 T) : T :=
  let m30 : T := 0
  let m31 : T := 0
  let m32 : T := 0
  let m33 : T := 1
  let v0 := m.M20 * m31 - m.M21 * m30
  let v1 := m.M20 * m32 - m.M22 * m30
  let v2 := m.M20 * m33 - m.M23 * m30
  let v3 := m.M21 * m32 - m.M22 * m31
  let v4 := m.M21 * m33 - m.M23 * m31
  let v5 := m.M22 * m33 - m.M23 * m32
  let t00 := v5 * m.M11 - v4 * m.M12 + v3 * m.M13
  let t10 := -(v5 * m.M10 - v2 * m.M12 + v1 * m.M13)
  let t20 := v4 * m.M10 - v2 * m.M11 + v0 * m.M13
  let t30 := -(v3 * m.M10 - v1 * m.M11 + v0 * m.M12)
  t00 * m.M00 + t10 * m.M01 + t20 * m.M02 + t30 * m.M03

/-- The function `Matrix3x4<T>::GetInverse()`, lines 945-1018, over a field `T`
with exact arithmetic. -/
def Matrix3x4.GetInverse {T : Type} [Field T] [DecidableEq T] (m : Matrix3x4 T) :
    Matrix3x4 T :=
  let m00 := m.M00
  let m01 := m.M01
  let m02 := m.M02
  let m03 := m.M03
  let m10 := m.M10
  let m11 := m.M11
  let m12 := m.M12
  let m13 := m.M13
  let m20 := m.M20
  let m21 := m.M21
  let m22 := m.M22
  let m23 := m.M23
  let m30 : T := 0
  let m31 : T := 0
  let m32 : T := 0
  let m33 : T := 1
  let v0 := m20 * m31 - m21 * m30
  let v1 := m20 * m32 - m22 * m30
  let v2 := m20 * m33 - m23 * m30
  let v3 := m21 * m32 - m22 * m31
  let v4 := m21 * m33 - m23 * m31
  let v5 := m22 * m33 - m23 * m32
  let t00 := v5 * m11 - v4 * m12 + v3 * m13
  let t10 := -(v5 * m10 - v2 * m12 + v1 * m13)
  let t20 := v4 * m10 - v2 * m11 + v0 * m13
  let t30 := -(v3 * m10 - v1 * m11 + v0 * m12)
  let det := t00 * m00 + t10 * m01 + t20 * m02 + t30 * m03
  if det = 0 then
    { (Matrix3x4.SetIdentity : Matrix3x4 T) with M03 := -m03, M13 := -m13, M23 := -m23 }
  else
    let invDet := 1 / det
    let d00 := t00 * invDet
    let d10 := t10 * invDet
    let d20 := t20 * invDet
    let d01 := -(v5 * m01 - v4 * m02 + v3 * m03) * invDet
    let d11 := (v5 * m00 - v2 * m02 + v1 * m03) * invDet
    let d21 := -(v4 * m00 - v2 * m01 + v0 * m03) * invDet
    let w0 := m10 * m31 - m11 * m30
    let w1 := m10 * m32 - m12 * m30
    let w2 := m10 * m33 - m13 * m30
    let w3 := m11 * m32 - m12 * m31
    let w4 := m11 * m33 - m13 * m31
    let w5 := m12 * m33 - m13 * m32
    let d02 := (w5 * m01 - w4 * m02 + w3 * m03) * invDet
    let d12 := -(w5 * m00 - w2 * m02 + w1 * m03) * invDet
    let d22 := (w4 * m00 - w2 * m01 + w0 * m03) * invDet
    let x0 := m21 * m10 - m20 * m11
    let x1 := m22 * m10 - m20 * m12
    let x2 := m23 * m10 - m20 * m13
    let x3 := m22 * m11 - m21 * m12
    let x4 := m23 * m11 - m21 * m13
    let x5 := m23 * m12 - m22 * m13
    let d03 := -(x5 * m01 - x4 * m02 + x3 * m03) * invDet
    let d13 := (x5 * m00 - x2 * m02 + x1 * m03) * invDet
    let d23 := -(x4 * m00 - x2 * m01 + x0 * m03) * invDet
    { M00 := d00, M01 := d01, M02 := d02, M03 := d03,
      M10 := d10, M11 := d11, M12 := d12, M13 := d13,
      M20 := d20, M21 := d21, M22 := d22, M23 := d23 }


/-! ## The hash table `Hash<C, U>` of `SF_Hash.h`

`Hash<C, U>` keeps a `HashSet` of nodes `HashNode<C, U>` in entries of the class
`HashsetCachedNodeEntry`. The table is an array of `SizeMask + 1` entries; an
entry is empty (`NextInChain = -2`), the last of its chain (`-1`), or holds the
index of the next entry of its chain. The hash functor `HashF` is a parameter,
and so is `Alg::UpperBit` of the absent `SF_Alg.h`. A function whose loop or
recursion does not come to an end has no result (`none`). Counts and sizes are
natural numbers: a table never holds `2 ^ 61` entries, so no product or
increment of the file wraps. -/

/-- The node `HashNode<C, U>`. -/
structure HashNode (C U : Type) where
  First : C
  Second : U
  deriving DecidableEq, Repr

/-- The entry `HashsetCachedNodeEntry<HashNode, NodeHashF>`. `Value` is `none`
while no node is constructed in the entry. -/
structure HashsetCachedNodeEntry (C U : Type) where
  NextInChain : Int
  HashValue : Nat
  Value : Option (HashNode C U)

/-- The function `IsEmpty()` of an entry. -/
def HashsetCachedNodeEntry.IsEmpty {C U : Type} (e : HashsetCachedNodeEntry C U) : Bool :=
  decide (e.NextInChain = -2)

/-- The function `IsEndOfChain()` of an entry. -/
def HashsetCachedNodeEntry.IsEndOfChain {C U : Type} (e : HashsetCachedNodeEntry C U) :
    Bool :=
  decide (e.NextInChain = -1)

/-- The function `Clear()` of an entry: the node is destructed and the entry
marked empty. -/
def HashsetCachedNodeEntry.Clear {C U : Type} (e : HashsetCachedNodeEntry C U) :
    HashsetCachedNodeEntry C U :=
  { e with Value := none, NextInChain := -2 }

/-- The comparison `e->Value == key` (`HashNode::operator ==`): the first member
of the node equals the key. -/
def HashsetCachedNodeEntry.ValueIs {C U : Type} [DecidableEq C]
    (e : HashsetCachedNodeEntry C U) (key : C) : Bool :=
  match e.Value with
  | some node => decide (node.First = key)
  | none => false

/-- The structure `TableType` with the entry array `E` that follows it in memory. -/
structure TableType (C U : Type) where
  EntryCount : Nat
  SizeMask : Nat
  E : Nat → HashsetCachedNodeEntry C U

/-- The class `HashSetBase` over nodes: the pointer `pTable`, `none` for null. -/
structure HashSetBase (C U : Type) where
  pTable : Option (TableType C U)

/-- The enumerator `HashMinSize`. -/
def HashMinSize : Nat := 8

/-- The loop of `findIndexCore`, lines 741-762, from the entry `index`. -/
def HashSetBase.findIndexCore.loop {C U : Type} [DecidableEq C] (t : TableType C U) (key : C)
    (hashValue : Nat) : Nat → Nat → Option Int
  | 0, _ => none
  | fuel + 1, index =>
    if (t.E index).HashValue = hashValue ∧ (t.E index).ValueIs key = true then
      some (index : Int)
    else if (t.E index).NextInChain = -1 then some (-1)
    else HashSetBase.findIndexCore.loop t key hashValue fuel (t.E index).NextInChain.toNat

/-- The function `findIndexCore(key, hashValue)`, lines 724-764, on the table. -/
def HashSetBase.findIndexCore {C U : Type} [DecidableEq C] (t : TableType C U) (key : C)
    (hashValue : Nat) : Option Int :=
  if (t.E hashValue).IsEmpty = true ∨ (t.E hashValue).HashValue ≠ hashValue then some (-1)
  else HashSetBase.findIndexCore.loop t key hashValue (t.SizeMask + 1) hashValue

/-- The function `findIndexAlt(key)`, lines 715-722, with `AltHashF` being `HashF` on the key. -/
def HashSetBase.findIndexAlt {C U : Type} [DecidableEq C] (HashF : C → Nat)
    (h : HashSetBase C U) (key : C) : Option Int :=
  match h.pTable with
  | none => some (-1)
  | some t => HashSetBase.findIndexCore t key (HashF key &&& t.SizeMask)

/-- The function `GetAlt(key)`, lines 393-400: the node the returned pointer
refers to, `some none` for the null pointer. -/
def HashSetBase.GetAlt {C U : Type} [DecidableEq C] (HashF : C → Nat)
    (h : HashSetBase C U) (key : C) : Option (Option (HashNode C U)) :=
  match h.pTable, HashSetBase.findIndexAlt HashF h key with
  | some t, some index =>
    if index ≥ 0 then
      match (t.E index.toNat).Value with
      | some node => some (some node)
      | none => none
    else some none
  | none, some _ => some none
  | _, none => none

/-- The function `GetSize()`, lines 425-428. -/
def HashSetBase.GetSize {C U : Type} (h : HashSetBase C U) : Nat :=
  match h.pTable with
  | none => 0
  | some t => t.EntryCount

/-- The loop of lines 788-790 of `add`: the first empty entry after `blankIndex`,
in cyclic order. -/
def HashSetBase.add.findBlank {C U : Type} (t : TableType C U) : Nat → Nat → Option Nat
  | 0, _ => none
  | fuel + 1, blankIndex =>
    if (t.E ((blankIndex + 1) &&& t.SizeMask)).IsEmpty = true
    then some ((blankIndex + 1) &&& t.SizeMask)
    else HashSetBase.add.findBlank t fuel ((blankIndex + 1) &&& t.SizeMask)

/-- The loop of lines 815-829 of `add`: the entry of the chain from `collidedIndex`
whose `NextInChain` is `index`. There is no result when the chain ends before. -/
def HashSetBase.add.findPrev {C U : Type} (t : TableType C U) (index : Nat) :
    Nat → Nat → Option Nat
  | 0, _ => none
  | fuel + 1, collidedIndex =>
    if (t.E collidedIndex).NextInChain = (index : Int) then some collidedIndex
    else if (t.E collidedIndex).NextInChain < 0 then none
    else HashSetBase.add.findPrev t index fuel (t.E collidedIndex).NextInChain.toNat

/-- Lines 771-838 of `add`, after `CheckExpand`: the node is placed in the table. -/
def HashSetBase.add.placed {C U : Type} (t : TableType C U) (key : HashNode C U)
    (hashValue : Nat) : Option (TableType C U) :=
  let index := hashValue &&& t.SizeMask
  let count := t.EntryCount + 1
  let naturalEntry := t.E index
  if naturalEntry.IsEmpty = true then
    some { t with
      EntryCount := count
      E := Function.update t.E index
        { NextInChain := -1, HashValue := index, Value := some key } }
  else
    match HashSetBase.add.findBlank t (t.SizeMask + 1) index with
    | none => none
    | some blankIndex =>
      if naturalEntry.HashValue = index then
        some { t with
          EntryCount := count
          E := Function.update (Function.update t.E blankIndex naturalEntry) index
            { NextInChain := (blankIndex : Int), HashValue := index, Value := some key } }
      else
        match HashSetBase.add.findPrev t index (t.SizeMask + 1) naturalEntry.HashValue with
        | none => none
        | some prev =>
          let moved := Function.update t.E blankIndex naturalEntry
          let spliced := Function.update moved prev
            { moved prev with NextInChain := (blankIndex : Int) }
          some { t with
            EntryCount := count
            E := Function.update spliced index
              { NextInChain := -1, HashValue := index, Value := some key } }

/-- The function `setRawCapacity(pheapAddr, newSize)`, lines 855-920; `Add` is the
function `Add` of the new table, and the allocation is taken to succeed. -/
def HashSetBase.setRawCapacity {C U : Type} (UpperBit : Nat → Nat)
    (Add : HashSetBase C U → HashNode C U → Option (HashSetBase C U))
    (h : HashSetBase C U) (newSize : Nat) : Option (HashSetBase C U) :=
  if newSize = 0 then some { pTable := none }
  else
    let size := if newSize < HashMinSize then HashMinSize
      else 2 ^ (UpperBit (newSize - 1) + 1)
    let newHash : HashSetBase C U :=
      { pTable := some
          { EntryCount := 0, SizeMask := size - 1,
            E := fun _ => { NextInChain := -2, HashValue := 0, Value := none } } }
    match h.pTable with
    | none => some newHash
    | some t =>
      (List.range (t.SizeMask + 1)).foldlM
        (fun (nh : HashSetBase C U) (i : Nat) =>
          if (t.E i).IsEmpty = false then
            match (t.E i).Value with
            | some node => Add nh node
            | none => none
          else some nh)
        newHash

/-- The function `CheckExpand(pmemAddr)`, lines 433-446. -/
def HashSetBase.CheckExpand {C U : Type} (UpperBit : Nat → Nat)
    (Add : HashSetBase C U → HashNode C U → Option (HashSetBase C U))
    (h : HashSetBase C U) : Option (HashSetBase C U) :=
  match h.pTable with
  | none => HashSetBase.setRawCapacity UpperBit Add h HashMinSize
  | some t =>
    if t.EntryCount * 5 > (t.SizeMask + 1) * 4 then
      HashSetBase.setRawCapacity UpperBit Add h ((t.SizeMask + 1) * 2)
    else some h

/-- The function `add(pmemAddr, key, hashValue)`, lines 767-839. It calls itself
through `CheckExpand`, `setRawCapacity` and `Add` (lines 296-301); `depth` bounds
the nesting of these calls. -/
def HashSetBase.add {C U : Type} (UpperBit : Nat → Nat) (HashF : C → Nat) :
    Nat → HashSetBase C U → HashNode C U → Nat → Option (HashSetBase C U)
  | 0, _, _, _ => none
  | depth + 1, h, key, hashValue =>
    match HashSetBase.CheckExpand UpperBit
        (fun nh node => HashSetBase.add UpperBit HashF depth nh node (HashF node.First)) h with
    | none => none
    | some h1 =>
      match h1.pTable with
      | none => none
      | some t =>
        match HashSetBase.add.placed t key hashValue with
        | none => none
        | some t2 => some { pTable := some t2 }

/-- The function `Add(pmemAddr, key)`, lines 296-301: the node is added without a
lookup of its key. -/
def HashSetBase.Add {C U : Type} (UpperBit : Nat → Nat) (HashF : C → Nat) (depth : Nat)
    (h : HashSetBase C U) (key : HashNode C U) : Option (HashSetBase C U) :=
  HashSetBase.add UpperBit HashF depth h key (HashF key.First)

/-- The function `Set(pmemAddr, key)`, lines 273-294, with the node reference
`key`. -/
def HashSetBase.Set {C U : Type} [DecidableEq C] (UpperBit : Nat → Nat) (HashF : C → Nat)
    (depth : Nat) (h : HashSetBase C U) (key : HashNode C U) : Option (HashSetBase C U) :=
  match h.pTable with
  | none => HashSetBase.add UpperBit HashF depth h key (HashF key.First)
  | some t =>
    match HashSetBase.findIndexCore t key.First (HashF key.First &&& t.SizeMask) with
    | none => none
    | some index =>
      if index ≥ 0 then
        some { pTable := some { t with
          E := Function.update t.E index.toNat { t.E index.toNat with Value := some key } } }
      else HashSetBase.add UpperBit HashF depth h key (HashF key.First)

/-- The loop of `RemoveAlt`, lines 324-333, from the entry `index`: `some none`
when the function returns false in the loop, else the values of `prevIndex` and
`index` after it. -/
def HashSetBase.RemoveAlt.loop {C U : Type} [DecidableEq C] (t : TableType C U) (key : C)
    (naturalIndex : Nat) : Nat → Int → Nat → Option (Option (Int × Nat))
  | 0, _, _ => none
  | fuel + 1, prevIndex, index =>
    if (t.E index).HashValue ≠ naturalIndex ∨ (t.E index).ValueIs key = false then
      if (t.E index).NextInChain = -1 then some none
      else HashSetBase.RemoveAlt.loop t key naturalIndex fuel (index : Int)
        (t.E index).NextInChain.toNat
    else some (some (prevIndex, index))

/-- Lines 335-358 of `RemoveAlt`: the entry found at `index` is taken out of the
chain of `naturalIndex`. -/
def HashSetBase.RemoveAlt.unlink {C U : Type} (t : TableType C U) (naturalIndex : Nat)
    (prevIndex : Int) (index : Nat) : TableType C U :=
  let e := t.E index
  let entries : Nat → HashsetCachedNodeEntry C U :=
    if naturalIndex = index then
      if e.IsEndOfChain = false then
        Function.update (Function.update t.E index (t.E e.NextInChain.toNat))
          e.NextInChain.toNat (t.E e.NextInChain.toNat).Clear
      else Function.update t.E index e.Clear
    else
      let relinked := Function.update t.E prevIndex.toNat
        { t.E prevIndex.toNat with NextInChain := e.NextInChain }
      Function.update relinked index (relinked index).Clear
  { t with E := entries, EntryCount := t.EntryCount - 1 }

/-- The function `RemoveAlt(key)`, lines 303-361. -/
def HashSetBase.RemoveAlt {C U : Type} [DecidableEq C] (HashF : C → Nat)
    (h : HashSetBase C U) (key : C) : Option (Bool × HashSetBase C U) :=
  match h.pTable with
  | none => some (false, h)
  | some t =>
    let index := HashF key &&& t.SizeMask
    if (t.E index).IsEmpty = true ∨ (t.E index).HashValue ≠ index then some (false, h)
    else
      match HashSetBase.RemoveAlt.loop t key index (t.SizeMask + 1) (-1) index with
      | none => none
      | some none => some (false, h)
      | some (some (prevIndex, found)) =>
        some (true, { pTable := some (HashSetBase.RemoveAlt.unlink t index prevIndex found) })

/-- The class `Hash<C, U>`: its member `mHash`. -/
structure Hash (C U : Type) where
  mHash : HashSetBase C U

/-- The function `Hash::Set(key, value)`, lines 1349-1353. -/
def Hash.Set {C U : Type} [DecidableEq C] (UpperBit : Nat → Nat) (HashF : C → Nat)
    (depth : Nat) (h : Hash C U) (key : C) (value : U) : Option (Hash C U) :=
  match HashSetBase.Set UpperBit HashF depth h.mHash { First := key, Second := value } with
  | none => none
  | some m => some { mHash := m }

/-- The function `Hash::Add(key, value)`, lines 1354-1358. -/
def Hash.Add {C U : Type} (UpperBit : Nat → Nat) (HashF : C → Nat)
    (depth : Nat) (h : Hash C U) (key : C) (value : U) : Option (Hash C U) :=
  match HashSetBase.Add UpperBit HashF depth h.mHash { First := key, Second := value } with
  | none => none
  | some m => some { mHash := m }

/-- The function `Hash::Remove(key)`, lines 1362-1365. -/
def Hash.Remove {C U : Type} [DecidableEq C] (HashF : C → Nat) (h : Hash C U) (key : C) :
    Option (Bool × Hash C U) :=
  match HashSetBase.RemoveAlt HashF h.mHash key with
  | none => none
  | some r => some (r.1, { mHash := r.2 })

/-- The function `Hash::Get(key, pvalue)`, lines 1377-1387. `pvalue` is `none` for
a null pointer, else the value it points to; the result holds the value it points
to afterwards. -/
def Hash.Get {C U : Type} [DecidableEq C] (HashF : C → Nat) (h : Hash C U) (key : C)
    (pvalue : Option U) : Option (Bool × Option U) :=
  match HashSetBase.GetAlt HashF h.mHash key with
  | none => none
  | some (some p) => some (true, pvalue.map (fun _ => p.Second))
  | some none => some (false, pvalue)

/-- The function `Hash::GetSize()`, line 1430. -/
def Hash.GetSize {C U : Type} (h : Hash C U) : Nat :=
  h.mHash.GetSize


/-! ## Auxiliary predicates on runs -/

/-- The outcome of the vertex `Free` of `Evict`. -/
def Evict.vb (env : Collaborators A) (s : MeshCache A) (p : MeshCacheItem) : Nat × A :=
  match p.pVertexBuffer with
  | some b => env.AllocatorFree s.VertexBuffers.Allocator p.VBAllocSize b p.VBAllocOffset
  | none => (0, s.VertexBuffers.Allocator)

/-- The outcome of the index `Free` of `Evict`. -/
def Evict.ib (env : Collaborators A) (s : MeshCache A) (p : MeshCacheItem) : Nat × A :=
  match p.pIndexBuffer with
  | some b => env.AllocatorFree s.IndexBuffers.Allocator p.IBAllocSize b p.IBAllocOffset
  | none => (0, s.IndexBuffers.Allocator)

/-- Events of an eviction that frees no range of an item with a pending fence. -/
def Event.evictOnly : Event → Bool
  | .Free _ _ pending _ _ _ _ => !pending
  | .Evict _ _ _ => true
  | .Destroy _ _ => true
  | .Wait _ => true
  | _ => false

/-- The log of `s'` extends the log of `s` by events that satisfy `P`. -/
def LogExt (P : Event → Prop) (s s' : MeshCache A) : Prop :=
  ∃ l, s'.Log = s.Log ++ l ∧ ∀ e ∈ l, P e

/-- What the steps of the cache leave alone unless they create or destroy a
buffer: the parameters, the buffers and granularities of both sets, the chunk
and pending-destruction lists, the lock state and the next identities; the
eviction counter does not decrease; the log grows by events that satisfy `P`. -/
structure Keeps (P : Event → Prop) (s s' : MeshCache A) : Prop where
  params : s'.Params = s.Params
  vbuffers : s'.VertexBuffers.Buffers = s.VertexBuffers.Buffers
  vgran : s'.VertexBuffers.Granularity = s.VertexBuffers.Granularity
  ibuffers : s'.IndexBuffers.Buffers = s.IndexBuffers.Buffers
  igran : s'.IndexBuffers.Granularity = s.IndexBuffers.Granularity
  chunk : s'.ChunkBuffers = s.ChunkBuffers
  pendingBuffers : s'.PendingDestructionBuffers = s.PendingDestructionBuffers
  mapped : s'.Mapped = s.Mapped
  nextBuffer : s'.NextBufferId = s.NextBufferId
  nextItem : s'.NextItemId = s.NextItemId
  counter : s.VBSizeEvictedInMap ≤ s'.VBSizeEvictedInMap
  log : LogExt P s s'

/-- The steps made of `Evict` and `WaitFence` calls only. -/
abbrev Evicts (s s' : MeshCache A) : Prop := Keeps (fun e => e.evictOnly = true) s s'

/-- Events that `allocBuffer` may log: those of evictions, suballocation
attempts and attempts to create a chunk buffer. -/
def Event.allocOnly : Event → Bool
  | .Alloc _ _ _ => true
  | .Create _ _ type _ => decide (type = AllocType.AT_Chunk)
  | e => e.evictOnly

/-- The cache grew by the chunk buffer `b` of kind `k`, and nothing else happened
to its buffers. -/
structure GrewBy (k : BufferKind) (b : MeshBuffer) (s s' : MeshCache A) : Prop where
  params : s'.Params = s.Params
  buffers : (s'.mbs k).Buffers = (s.mbs k).Buffers ++ [b]
  others : ∀ k', k' ≠ k → (s'.mbs k').Buffers = (s.mbs k').Buffers
  gran : ∀ k', (s'.mbs k').Granularity = (s.mbs k').Granularity
  chunk : s'.ChunkBuffers = s.ChunkBuffers ++ [b]
  pendingBuffers : s'.PendingDestructionBuffers = s.PendingDestructionBuffers
  mapped : s'.Mapped = s.Mapped
  counter : s.VBSizeEvictedInMap ≤ s'.VBSizeEvictedInMap
  log : LogExt (fun e => e.allocOnly = true) s s'

/-- The size `allocBuffer` requests for a new chunk buffer (line 701). -/
def allocBuffer.allocSize (s : MeshCache A) (k : BufferKind) : Nat :=
  min (subUPInt s.Params.MemLimit (getTotalSize s)) (s.mbs k).Granularity

/-- The cache grew by one chunk buffer of kind `k`: the memory-limit guard of line
688 held, and the buffer has the size of line 701 and holds the request. -/
def Grew (env : Collaborators A) (k : BufferKind) (size : Nat) (s s' : MeshCache A) : Prop :=
  addUPInt (getTotalSize s) env.MinSupportedGranularity ≤ s.Params.MemLimit ∧
  ∃ b, GrewBy k b s s' ∧ b.Size = allocBuffer.allocSize s k ∧ size ≤ b.Size ∧
    b.AType = .AT_Chunk ∧ b.BufferType = k

/-- An eviction event in which every entry into `Evict` is for an item whose
identity is in `ids`. -/
def EvictOf (ids : List Nat) (ev : Event) : Prop :=
  ev.evictOnly = true ∧ ∀ id t c, ev = Event.Evict id t c → id ∈ ids

/-- The outcome of step #1 of `allocBuffer` (line 683) after the direct
suballocation of line 674 has failed: PendingFree reclamation for the target
allocator. -/
def allocBuffer.reclaimed (env : Collaborators A) (s : MeshCache A) (k : BufferKind)
    (size : Nat) : Bool × MeshCache A :=
  EvictPendingFree env { s with Log := s.Log ++ [Event.Alloc k size false] } (allocatorOf k) false

/-- An event that is neither an attempt to create a buffer nor an entry into
`Evict` for an item outside `ids`. -/
def ReclaimOnly (ids : List Nat) (ev : Event) : Prop :=
  (∀ id t c, ev = Event.Evict id t c → id ∈ ids) ∧ ∀ k sz ty ok, ev ≠ Event.Create k sz ty ok

/-- Whether a log entry is an entry into `Evict`. -/
def Event.isEvict : Event → Bool
  | .Evict _ _ _ => true
  | _ => false

/-- From `t` to `t'` the log grows, and either `Evict` is not entered and the
eviction counter is unchanged, or the first entry into `Evict` is made with the
counter of `t`. -/
def StartsAt (t t' : MeshCache A) : Prop :=
  ∃ l, t'.Log = t.Log ++ l ∧
    ((l.find? Event.isEvict = none ∧ t'.VBSizeEvictedInMap = t.VBSizeEvictedInMap) ∨
     ∃ id tier, l.find? Event.isEvict = some (Event.Evict id tier t.VBSizeEvictedInMap))

/-- The outcome of lines 677-718 of `allocBuffer` after the direct suballocation
of line 674 has failed: the state in which the eviction-limit check of line 720
is made. -/
def allocBuffer.atLimitCheck (env : Collaborators A) (s : MeshCache A) (k : BufferKind)
    (size : Nat) : Option Bool × MeshCache A :=
  allocBuffer.beforeLimitCheck env { s with Log := s.Log ++ [Event.Alloc k size false] } k size

/-- Events that the shrink step of `EndFrame` may log for the chunk buffers
`bufs`: those of evictions, deletions of buffers, and `Free` calls for ranges of
items with a pending fence only when the range lies in one of `bufs`. -/
def Event.shrinkOnly (bufs : List Nat) : Event → Bool
  | .Free _ _ pending _ b _ _ => !pending || bufs.contains b
  | .Evict _ _ _ => true
  | .Destroy _ _ => true
  | .Wait _ => true
  | .Delete _ => true
  | _ => false

/-- What `EndFrame` leaves alone: the parameters and the lock state; the eviction
counter does not decrease; the log grows by events of a shrink of `bufs`. -/
structure Shrinks (bufs : List Nat) (s s' : MeshCache A) : Prop where
  params : s'.Params = s.Params
  mapped : s'.Mapped = s.Mapped
  chunk : ∀ b ∈ s'.ChunkBuffers, b ∈ s.ChunkBuffers
  counter : s.VBSizeEvictedInMap ≤ s'.VBSizeEvictedInMap
  log : LogExt (fun e => e.shrinkOnly bufs = true) s s'

/-- From `s` to `s'` the log grows, and every `Free` logged for a range of an
item whose fence is pending at the call is for a range in one of the buffers
`bufs`. -/
def FreesPendingOnlyIn (bufs : List Nat) (s s' : MeshCache A) : Prop :=
  ∃ l, s'.Log = s.Log ++ l ∧
    ∀ k owner size b offset freed, Event.Free k owner true size b offset freed ∈ l → b ∈ bufs

/-- What lines 612-621 of `evictMeshesInBuffer` do to one item `q` of a list when
they release the ranges of `p` in buffer `b`: an item with the identity of `p`
loses each pointer that `p` has to `b`. -/
def nullify (b : Nat) (p q : MeshCacheItem) : MeshCacheItem :=
  if q.id == p.id then
    { q with pVertexBuffer := if p.pVertexBuffer = some b then none else q.pVertexBuffer,
             pIndexBuffer := if p.pIndexBuffer = some b then none else q.pIndexBuffer }
  else q

/-! ## Auxiliary predicates on the walks of `allocBuffer` -/

/-- A log entry that is no wait on a fence and, when it is an entry into `Evict`,
is for an item whose identity is in `E`. -/
def EvictsOnly (E : List Nat) (ev : Event) : Prop :=
  (∀ id, ev ≠ Event.Wait id) ∧ ∀ id t c, ev = Event.Evict id t c → id ∈ E

/-- From `s` to `s'` the tiers other than `PendingFree` lose exactly the items
whose identity is in `E`, no fence is waited on, and `Evict` is entered only for
identities in `E`. -/
structure Removes (E : List Nat) (s s' : MeshCache A) : Prop where
  slots : ∀ t, t ≠ MeshCacheListType.MCL_PendingFree →
    s'.CacheList.GetSlot t = (s.CacheList.GetSlot t).filter (fun q => !E.contains q.id)
  log : LogExt (EvictsOnly E) s s'

/-- The identities of the items of tier `t`. -/
def tierIds (s : MeshCache A) (t : MeshCacheListType) : List Nat :=
  (s.CacheList.GetSlot t).map (fun q => q.id)

/-- The identity `id` belongs to an item of `PrevFrame` whose fence is not
pending. -/
def ClearInPrevFrame (s : MeshCache A) (id : Nat) : Prop :=
  ∃ p ∈ s.CacheList.PrevFrame, p.id = id ∧ p.FencePending = false

/-- The identity `id` belongs to an item of `LRUTail` or to an item of `PrevFrame`
whose fence is not pending. -/
def StaleOrClear (s : MeshCache A) (id : Nat) : Prop :=
  id ∈ tierIds s .MCL_LRUTail ∨ ClearInPrevFrame s id

/-- The identity `id` belongs to an item of `PendingFree`, to an item of `LRUTail`,
or to an item of `PrevFrame` whose fence is not pending. -/
def EvictableWithoutWait (s : MeshCache A) (id : Nat) : Prop :=
  id ∈ tierIds s .MCL_PendingFree ∨ StaleOrClear s id

/-- The cache after line 799 of `AllocCacheItem`: locked by `LockBuffers` when it
was not mapped. -/
def AllocCacheItem.entered (s : MeshCache A) : MeshCache A :=
  if s.Mapped then s else (LockBuffers s).2

/-! ## Auxiliary definitions for the shrink step of `EndFrame` -/

/-- The cache at line 451 of `EndFrame`: after the list set's `EndFrame`, the two
calls of `EvictPendingFree` and `destroyPendingBuffers`, before the shrink step. -/
def EndFrame.beforeShrink (env : Collaborators A) (s : MeshCache A) : MeshCache A :=
  let s1 := { s with CacheList := s.CacheList.EndFrame }
  let s2 := (EvictPendingFree env s1 .IndexAllocator false).2
  let s3 := (EvictPendingFree env s2 .VertexAllocator false).2
  destroyPendingBuffers s3

/-- The value of `extraSpace` at line 456 of `EndFrame`, computed in the cache `b`
of line 451. -/
def EndFrame.extraSpace (b : MeshCache A) : Int :=
  let totalFrameSize := b.CacheList.GetSlotSize .MCL_PrevFrame
  let lruTailSize := b.CacheList.GetSlotSize .MCL_LRUTail
  let expectedSize0 := addUPInt totalFrameSize (min lruTailSize b.Params.LRUTailSize)
  let expectedSize := addUPInt expectedSize0 (expectedSize0 / 4)
  toSPInt ((getTotalSize b : Int) - toSPInt (expectedSize : Int))

/-- The base of the shrink heuristic in the words of the specification: the size
of `PrevFrame` plus the smaller of the size of `LRUTail` and the tail budget. -/
def shrinkBase (b : MeshCache A) : Nat :=
  b.CacheList.GetSlotSize .MCL_PrevFrame +
    min (b.CacheList.GetSlotSize .MCL_LRUTail) b.Params.LRUTailSize

/-- The slack of the shrink heuristic in the words of the specification: the
allocated total minus the expected size `base + floor(base / 4)`, as an integer. -/
def shrinkSlack (b : MeshCache A) : Int :=
  (getTotalSize b : Int) - ((shrinkBase b + shrinkBase b / 4 : Nat) : Int)

/-- The shrink step in the words of the specification, on the chunk list read from
its back: buffers are removed one at a time, each size subtracted from the slack,
while the slack exceeds the granularity and a buffer is left. -/
def shrinkSpec.fromBack (gran : Int) : Int → List MeshBuffer → List MeshBuffer
  | _, [] => []
  | slack, p :: rest =>
    if slack > gran then shrinkSpec.fromBack gran (slack - (p.Size : Int)) rest
    else p :: rest

/-- The chunk list left by the shrink step in the words of the specification. -/
def shrinkSpec (gran slack : Int) (chunks : List MeshBuffer) : List MeshBuffer :=
  (shrinkSpec.fromBack gran slack chunks.reverse).reverse

/-- Every buffer of `ChunkBuffers` and of `PendingDestructionBuffers` has the
allocation class `AT_Chunk`. -/
def ChunksOnly (s : MeshCache A) : Prop :=
  ∀ b ∈ s.ChunkBuffers ++ s.PendingDestructionBuffers, b.AType = AllocType.AT_Chunk

/-- An event other than the deletion of a buffer whose identity is not in `ids`. -/
def DeletesIn (ids : List Nat) (ev : Event) : Prop :=
  ∀ id, ev = Event.Delete id → id ∈ ids

/-- When the buffers of `ChunkBuffers` and `PendingDestructionBuffers` of `s` are
among `bufs`, then so are those of `s'`, every buffer of a buffer set of `s` whose
identity is not that of a buffer of `bufs` is still in the set in `s'`, and only
buffers with the identity of a buffer of `bufs` are deleted. -/
def DestroysOnly (bufs : List MeshBuffer) (s s' : MeshCache A) : Prop :=
  (∀ b ∈ s.ChunkBuffers ++ s.PendingDestructionBuffers, b ∈ bufs) →
    (∀ b ∈ s'.ChunkBuffers ++ s'.PendingDestructionBuffers, b ∈ bufs) ∧
    (∀ k b, b ∈ (s.mbs k).Buffers → b.id ∉ bufs.map (fun c => c.id) →
      b ∈ (s'.mbs k).Buffers) ∧
    LogExt (DeletesIn (bufs.map (fun c => c.id))) s s'

/-- Lines 461-472 of `EndFrame`: one round of the shrink loop, for the last chunk
buffer `p`. -/
def EndFrame.shrinkRound (env : Collaborators A) (s : MeshCache A) (p : MeshBuffer) :
    MeshCache A :=
  let s1 := { s with ChunkBuffers := s.ChunkBuffers.dropLast }
  let r := evictMeshesInBuffer env s1 p.id
  let s2 := r.2.DestroyBuffer env p.BufferType p r.1
  if !r.1 then { s2 with PendingDestructionBuffers := s2.PendingDestructionBuffers ++ [p] }
  else s2

/-- The value of `memType` at line 857 of `GetStats`. -/
def GetStats.memType (dev : Device A) (c : MeshCacheGL A) : Nat :=
  if c.BufferUpdate ≠ .BufferUpdate_ClientBuffers then dev.MeshBuffer_GpuMem else 0

/-! ## Auxiliary definitions for the failure paths -/

/-- An event other than a suballocation attempt. -/
def NoAlloc (ev : Event) : Prop := ∀ k size ok, ev ≠ Event.Alloc k size ok

/-- The byte counts that the successive `Evict` calls of the scan of one list by
`evictMeshesInBuffer` return, in call order. -/
def evictMeshesInBuffer.scanReturns (env : Collaborators A) (pbuffer : Nat)
    (t : MeshCacheListType) : Nat → MeshCache A → List Nat
  | 0, _ => []
  | fuel + 1, s =>
    match (s.CacheList.GetSlot t).find? (fun q => q.refers pbuffer) with
    | none => []
    | some p =>
      let e := Evict env s p none
      e.1 :: evictMeshesInBuffer.scanReturns env pbuffer t fuel
        (if e.1 = 0 then evictMeshesInBuffer.release env e.2 pbuffer p else e.2)

/-- The byte counts that the `Evict` calls of `evictMeshesInBuffer` return while
it scans the lists `ts` one after the other, in call order. -/
def evictMeshesInBuffer.returnsFrom (env : Collaborators A) (pbuffer : Nat) :
    List MeshCacheListType → MeshCache A → List Nat
  | [], _ => []
  | t :: rest, s =>
    evictMeshesInBuffer.scanReturns env pbuffer t (s.CacheList.GetSlot t).length s ++
      evictMeshesInBuffer.returnsFrom env pbuffer rest
        (evictMeshesInBuffer.scan env pbuffer t (s.CacheList.GetSlot t).length (false, s)).2

/-- The byte counts that all `Evict` calls of `evictMeshesInBuffer` return. -/
def evictMeshesInBuffer.returns (env : Collaborators A) (s : MeshCache A) (pbuffer : Nat) :
    List Nat :=
  evictMeshesInBuffer.returnsFrom env pbuffer allSlots s

/-- The least staging buffer size `adjustMeshCacheParams` accepts: twice the value
of `maxStagingItemSize`, line 385, in `UPInt`. -/
def adjustMeshCacheParams.minStaging (p : MeshCacheParams) : Nat :=
  (addUPInt p.MaxVerticesSizeInBatch ((2 * p.MaxIndicesInBatch) % 2 ^ UPIntBits) * 2)
    % 2 ^ UPIntBits

/-- The mapped pointer of the buffer `id`, if any, is its client block: what the
client-buffer strategy maintains. -/
def MapState.ClientInv (ms : MapState) (id : Nat) : Prop :=
  (ms.Buffers id).pData = 0 ∨ (ms.Buffers id).pData = (ms.Buffers id).BufferData

/-- No client block that exists in `ms` is replaced or overwritten in `ms2`. -/
def MapState.KeepsBlocks (ms ms2 : MapState) : Prop :=
  ∀ j, (ms.Buffers j).BufferData ≠ 0 →
    (ms2.Buffers j).BufferData = (ms.Buffers j).BufferData ∧
    (ms2.Buffers j).Data = (ms.Buffers j).Data


/-! ## Sample collaborators and states for concrete runs -/

/-- A counting allocator: its state is the number of free bytes; a request is
served at buffer 0, offset 0 when that many bytes are free, and `Free` gives the
bytes back. The device and the heap grant every request. -/
def sampleEnv : Collaborators Nat :=
  { MinSupportedGranularity := 16
    AllocatorAlloc := fun a size => if size ≤ a then some (0, 0, a - size) else none
    AllocatorFree := fun a size _ _ => (size, a + size)
    AddSegment := fun a b => a + b.Size
    RemoveSegment := fun a b => a - b.Size
    DeviceCreate := fun _ _ _ => true
    ItemCreate := fun _ => true }

/-- Sample parameters: a limit of 1000 bytes and an eviction budget of 50 bytes. -/
def sampleParams : MeshCacheParams :=
  { MemReserve := 100, MemLimit := 1000, MemGranularity := 100, LRUTailSize := 0,
    StagingBufferSize := 0, VBLockEvictSizeLimit := 50, MaxBatchInstances := 0,
    MaxVerticesSizeInBatch := 0, MaxIndicesInBatch := 0 }

/-- A regular item with the given identity, buffers, sizes and fence status. -/
def sampleItem (id : Nat) (vb ib : Option Nat) (vsize isize : Nat) (pending : Bool) :
    MeshCacheItem :=
  { id := id, MType := .Mesh_Regular, pVertexBuffer := vb, pIndexBuffer := ib,
    VBAllocOffset := 0, VBAllocSize := vsize, IBAllocOffset := 0, IBAllocSize := isize,
    FencePending := pending }

/-- A locked cache with a full vertex reserve buffer 0 (80 bytes) and a full
index reserve buffer 1 (20 bytes), granularities 55 and 44, and the given
lists. -/
def sampleCache (thisFrame prevFrame lruTail pendingFree : List MeshCacheItem) (limit : Nat)
    (counter : Nat) : MeshCache Nat :=
  { Params := { sampleParams with MemLimit := limit }
    CacheList := { ThisFrame := thisFrame, PrevFrame := prevFrame, LRUTail := lruTail,
                   PendingFree := pendingFree }
    VertexBuffers := { Kind := .Vertex, Buffers := [⟨0, .Vertex, 80, .AT_Reserve⟩],
                       Granularity := 55, Allocator := 0 }
    IndexBuffers := { Kind := .Index, Buffers := [⟨1, .Index, 20, .AT_Reserve⟩],
                      Granularity := 44, Allocator := 0 }
    ChunkBuffers := [], PendingDestructionBuffers := [], Mapped := true,
    VBSizeEvictedInMap := counter, MappedBuffers := [], pRQCaches := false,
    CacheLocked := false, NextBufferId := 2, NextItemId := 10, Log := [] }

/-- The sample cache with one more vertex buffer, the chunk buffer 2 of 100
bytes, which holds the vertex range of the single `ThisFrame` item 7 whose
fence is pending. -/
def sampleChunkCache : MeshCache Nat :=
  { sampleCache [sampleItem 7 (some 2) (some 1) 10 4 true] [] [] [] 1000 0 with
    VertexBuffers := { Kind := .Vertex,
                       Buffers := [⟨0, .Vertex, 80, .AT_Reserve⟩, ⟨2, .Vertex, 100, .AT_Chunk⟩],
                       Granularity := 55, Allocator := 90 }
    ChunkBuffers := [⟨2, .Vertex, 100, .AT_Chunk⟩]
    Params := { sampleParams with MemGranularity := 10 }
    NextBufferId := 3 }

/-- The empty sample cache with 30 free bytes in the vertex set and an eviction
counter of 9999, far above the limit. -/
def sampleRoomyCache : MeshCache Nat :=
  { sampleCache [] [] [] [] 1000 9999 with
    VertexBuffers := { Kind := .Vertex, Buffers := [⟨0, .Vertex, 80, .AT_Reserve⟩],
                       Granularity := 55, Allocator := 30 } }

/-- The empty sample cache, full (no free byte), with a memory limit of 130 bytes:
30 bytes of headroom above the 100 bytes of the two reserve buffers, less than
the vertex granularity of 55. -/
def sampleTightCache : MeshCache Nat := sampleCache [] [] [] [] 130 0

/-- The full sample cache with two clear items of 40 vertex bytes in `PrevFrame`,
no headroom under the limit of 100 bytes, and an eviction counter of 50, equal
to the limit `VBLockEvictSizeLimit`. -/
def sampleBusyCache : MeshCache Nat :=
  sampleCache [] [sampleItem 1 (some 0) (some 1) 40 10 false,
                  sampleItem 2 (some 0) (some 1) 40 10 false] [] [] 100 50

/-- The full sample cache with one clear item of 40 vertex bytes in `PendingFree`. -/
def sampleReclaimCache : MeshCache Nat :=
  sampleCache [] [] [] [sampleItem 3 (some 0) (some 1) 40 10 false] 1000 0

/-- The full sample cache whose `PrevFrame` holds item 1, fence pending, in front
of item 2, fence clear, each with 40 vertex bytes. -/
def sampleMixedCache : MeshCache Nat :=
  sampleCache [] [sampleItem 1 (some 0) (some 1) 40 10 true,
                  sampleItem 2 (some 0) (some 1) 40 10 false] [] [] 100 0

/-- The full sample cache, without headroom under the limit of 100 bytes, whose
`PrevFrame` holds three clear items of 40 vertex bytes each. -/
def sampleWalkCache : MeshCache Nat :=
  sampleCache [] [sampleItem 1 (some 0) (some 1) 40 10 false,
                  sampleItem 2 (some 0) (some 1) 40 10 false,
                  sampleItem 3 (some 0) (some 1) 40 10 false] [] [] 100 0

/-- The full sample cache, without headroom under the limit of 100 bytes, whose
only item is the `PendingFree` item 3 of 40 vertex bytes, fence pending. -/
def sampleForcedCache : MeshCache Nat :=
  sampleCache [] [] [] [sampleItem 3 (some 0) (some 1) 40 10 true] 100 0

/-- The empty sample cache with both reserve buffers entirely free: 80 vertex
bytes and 20 index bytes, with granularities 55 and 44. -/
def sampleFreeCache : MeshCache Nat :=
  { sampleCache [] [] [] [] 1000 0 with
    VertexBuffers := { Kind := .Vertex, Buffers := [⟨0, .Vertex, 80, .AT_Reserve⟩],
                       Granularity := 55, Allocator := 80 }
    IndexBuffers := { Kind := .Index, Buffers := [⟨1, .Index, 20, .AT_Reserve⟩],
                      Granularity := 44, Allocator := 20 } }

/-- The sample cache with the vertex chunk buffers 2 and 3 of 100 bytes each,
created in this order, both in `ChunkBuffers`; no item is cached. -/
def sampleTwoChunkCache : MeshCache Nat :=
  { sampleCache [] [] [] [] 1000 0 with
    VertexBuffers := { Kind := .Vertex,
                       Buffers := [⟨0, .Vertex, 80, .AT_Reserve⟩, ⟨2, .Vertex, 100, .AT_Chunk⟩,
                                   ⟨3, .Vertex, 100, .AT_Chunk⟩],
                       Granularity := 55, Allocator := 280 }
    ChunkBuffers := [⟨2, .Vertex, 100, .AT_Chunk⟩, ⟨3, .Vertex, 100, .AT_Chunk⟩]
    NextBufferId := 4 }

/-- The full sample cache with item 1 of 48 bytes in `ThisFrame`, after two
requests of 50 vertex bytes made it grow by the chunk buffer 2 and then by the
chunk buffer 3, of 55 bytes each. -/
def sampleGrownCache : MeshCache Nat :=
  (allocBuffer sampleEnv
    (allocBuffer sampleEnv
      (sampleCache [sampleItem 1 (some 0) (some 1) 40 8 false] [] [] [] 1000 0)
      .Vertex 50 false).2 .Vertex 50 false).2

/-- A sample device: every capability present, no VAOs, no deferred context, the
four methods in the order of the `switch` of `Initialize`, a staging buffer that
always initializes, allocator units of 16 bytes, and sample values for the
constants of the absent headers. -/
def sampleDevice : Device Nat :=
  { CapSync := true, CapMapBufferRange := true, CapMapBuffer := true,
    ShouldUseVAOs := false, SoftwareDeferredContext := false,
    Methods := [.BufferUpdate_MapBufferUnsynchronized, .BufferUpdate_ClientBuffers,
                .BufferUpdate_MapBuffer, .BufferUpdate_UpdateBuffer],
    StagingInitialize := fun _ => true,
    SF_RENDER_MAX_BATCHES := 24, MeshCache_AllocatorUnitShift := 4,
    MeshBuffer_Vertex := 0, MeshBuffer_Index := 1, MeshBuffer_GpuMem := 2,
    GetFreeSize := fun a => a / 16 }

/-- The sample collaborators with a device that grants vertex buffers only. -/
def sampleEnvNoIndex : Collaborators Nat :=
  { sampleEnv with DeviceCreate := fun _ k _ => decide (k = .Vertex) }

/-- A freshly constructed cache object: no HAL, no buffer, no item, the sample
parameters with a reserve of 100 bytes. -/
def sampleFreshGL : MeshCacheGL Nat :=
  { core := { sampleCache [] [] [] [] 1000 0 with
      VertexBuffers := { Kind := .Vertex, Buffers := [],
                         Granularity := calcVBGranularity 100, Allocator := 0 }
      IndexBuffers := { Kind := .Index, Buffers := [],
                        Granularity := calcIBGranularity 100 (calcVBGranularity 100),
                        Allocator := 0 }
      Mapped := false
      NextBufferId := 0 },
    pHal := none, BufferUpdate := .BufferUpdate_MapBufferUnsynchronized,
    UseSeparateIndexBuffers := false, StagingBuffer := none }

/-- An initialized cache object over the empty sample cache whose reserve buffers
of 80 vertex bytes and 20 index bytes are entirely free. -/
def sampleFreeGL : MeshCacheGL Nat :=
  { core := sampleFreeCache, pHal := some 7,
    BufferUpdate := .BufferUpdate_MapBufferUnsynchronized,
    UseSeparateIndexBuffers := true, StagingBuffer := some 0 }

/-- The sample collaborators with a heap that grants no cache item. -/
def sampleEnvNoItem : Collaborators Nat :=
  { sampleEnv with ItemCreate := fun _ => false }

/-- A heap that always grants memory, at a new address for every call, and a GL
driver that maps every buffer. -/
def sampleHeap : MapCollaborators :=
  { SF_ALLOC := fun calls _ => 4096 * (calls + 1),
    Fresh := fun _ _ => 0,
    glMapBufferRange := fun calls _ _ => 4096 * (calls + 1),
    glMapBuffer := fun calls _ => 4096 * (calls + 1) }

/-- A mapping state in which no buffer has a GL buffer, a client block or a mapped
pointer; every buffer is 64 bytes large. -/
def sampleMapState : MapState :=
  { Buffers := fun _ => { Size := 64, Buffer := 0, BufferData := 0, pData := 0,
                          MeshBufferUpdates := [], Data := fun _ => 0 },
    MappedBuffers := [], Calls := 0, GLCalls := [] }

/-- The item 7 in the vertex buffer 2 at offset 16 and the index buffer 1 at
offset 8. -/
def sampleMappedItem : MeshCacheItem :=
  { sampleItem 7 (some 2) (some 1) 10 4 true with VBAllocOffset := 16, IBAllocOffset := 8 }

/-- A matrix of rationals with determinant 25. -/
def sampleMatrix : Matrix3x4 ℚ :=
  { M00 := 1, M01 := 2, M02 := 0, M03 := 1,
    M10 := 0, M11 := 1, M12 := 3, M13 := 2,
    M20 := 4, M21 := 0, M22 := 1, M23 := 3 }


/-! ### The invariant of the hash table -/

/-- The entry `i` of the array holds a node. -/
def HashSetBase.Live {C U : Type} (E : Nat → HashsetCachedNodeEntry C U) (i : Nat) : Prop :=
  (E i).NextInChain ≠ -2

/-- The link `nxt` leads through exactly the entries `l`, in this order, all of
them within the table and holding a node, and the last of them has the link
`fin`. -/
def HashSetBase.Seg {C U : Type} (E : Nat → HashsetCachedNodeEntry C U) (mask : Nat) :
    Int → List Nat → Int → Prop
  | nxt, [], fin => nxt = fin
  | nxt, i :: l, fin =>
    nxt = (i : Int) ∧ i ≤ mask ∧ HashSetBase.Live E i ∧
      HashSetBase.Seg E mask (E i).NextInChain l fin

/-- The indices of the entries of the table that hold a node. -/
def HashSetBase.liveSet {C U : Type} (E : Nat → HashsetCachedNodeEntry C U) (mask : Nat) :
    Finset Nat :=
  (Finset.range (mask + 1)).filter (fun i => (E i).NextInChain ≠ -2)

/-- The chains of the table: `ch r` lists the entries whose cached hash is `r`, as
they are linked from the entry `r`. -/
def HashSetBase.Chains {C U : Type} (E : Nat → HashsetCachedNodeEntry C U) (mask : Nat)
    (ch : Nat → List Nat) : Prop :=
  (∀ r, (ch r).Nodup) ∧
  (∀ r, ch r ≠ [] → HashSetBase.Seg E mask (r : Int) (ch r) (-1)) ∧
  (∀ r i, i ∈ ch r → (E i).HashValue = r) ∧
  (∀ i, i ≤ mask → HashSetBase.Live E i → i ∈ ch (E i).HashValue)

/-- The nodes of the table: an entry that holds a node caches the masked hash of
its key, and no two entries hold the same key. -/
def HashSetBase.Nodes {C U : Type} (HashF : C → Nat) (E : Nat → HashsetCachedNodeEntry C U)
    (mask : Nat) : Prop :=
  (∀ i, i ≤ mask → HashSetBase.Live E i →
    ∃ node, (E i).Value = some node ∧ (E i).HashValue = HashF node.First &&& mask) ∧
  (∀ i j ni nj, i ≤ mask → j ≤ mask → HashSetBase.Live E i → HashSetBase.Live E j →
    (E i).Value = some ni → (E j).Value = some nj → ni.First = nj.First → i = j)

/-- The invariant of a table: the size is a power of two, at least 8;
`EntryCount` counts the entries that hold a node; the nodes and the chains are as
described above. -/
structure TableType.WF {C U : Type} (HashF : C → Nat) (t : TableType C U) : Prop where
  pow : ∃ n, 3 ≤ n ∧ t.SizeMask + 1 = 2 ^ n
  count : t.EntryCount = (HashSetBase.liveSet t.E t.SizeMask).card
  nodes : HashSetBase.Nodes HashF t.E t.SizeMask
  chains : ∃ ch, HashSetBase.Chains t.E t.SizeMask ch

/-- The table holds the value `v` under the key `k`. -/
def TableType.Holds {C U : Type} (t : TableType C U) (k : C) (v : U) : Prop :=
  ∃ i, i ≤ t.SizeMask ∧ HashSetBase.Live t.E i ∧ (t.E i).Value = some { First := k, Second := v }

/-- The invariant of a hash set: that of its table, if it has one. -/
def HashSetBase.WF {C U : Type} (HashF : C → Nat) (h : HashSetBase C U) : Prop :=
  match h.pTable with
  | none => True
  | some t => t.WF HashF

/-- The hash set holds the value `v` under the key `k`. -/
def HashSetBase.Holds {C U : Type} (h : HashSetBase C U) (k : C) (v : U) : Prop :=
  match h.pTable with
  | none => False
  | some t => t.Holds k v

/-- The table after `Hash::Set` of every pair of the list, in order. -/
def Hash.SetAll {C U : Type} [DecidableEq C] (UpperBit : Nat → Nat) (HashF : C → Nat)
    (depth : Nat) (h : Hash C U) (l : List (C × U)) : Option (Hash C U) :=
  l.foldlM (fun acc kv => Hash.Set UpperBit HashF depth acc kv.1 kv.2) h

/-- The tables built from the empty table by `Set`, by `Remove` and by `Add` of a
key that `Get` does not find. The nesting depth of a call is at least 2, with
which `Set` and `Add` return. -/
inductive Hash.Built {C U : Type} [DecidableEq C] (UpperBit : Nat → Nat) (HashF : C → Nat) :
    Hash C U → Prop where
  | empty : Hash.Built UpperBit HashF { mHash := { pTable := none } }
  | set (h h2 : Hash C U) (depth : Nat) (k : C) (v : U) :
      Hash.Built UpperBit HashF h →
      Hash.Set UpperBit HashF (depth + 2) h k v = some h2 → Hash.Built UpperBit HashF h2
  | add (h h2 : Hash C U) (depth : Nat) (k : C) (v : U) :
      Hash.Built UpperBit HashF h → Hash.Get HashF h k none = some (false, none) →
      Hash.Add UpperBit HashF (depth + 2) h k v = some h2 → Hash.Built UpperBit HashF h2
  | remove (h h2 : Hash C U) (k : C) (b : Bool) :
      Hash.Built UpperBit HashF h →
      Hash.Remove HashF h k = some (b, h2) → Hash.Built UpperBit HashF h2


/-- The hash functor `IdentityHash` on natural numbers. -/
def IdentityHash (data : Nat) : Nat := data

/-- The index of the highest set bit of `n`, by halving at most `fuel` times. -/
def sampleUpperBit.go : Nat → Nat → Nat
  | 0, _ => 0
  | fuel + 1, n => if n < 2 then 0 else sampleUpperBit.go fuel (n / 2) + 1

/-- The index of the highest set bit of `n`, standing for `Alg::UpperBit`. -/
def sampleUpperBit (n : Nat) : Nat := sampleUpperBit.go n n

/-- A hash table of seven entries: the keys 1, 9 and 17 form one chain, and the
keys 2 and 3 were added when their natural entries were taken by that chain. -/
def sampleHash : Hash Nat Nat :=
  (Hash.SetAll sampleUpperBit IdentityHash 2 { mHash := { pTable := none } }
    [(1, 10), (9, 90), (2, 20), (17, 170), (3, 30), (4, 40), (5, 50)]).getD
    { mHash := { pTable := none } }

/-- A hash table of seven entries in which `Add` has inserted the key 1 a second
time: `Set(1, 10)`, `Add(1, 11)`, then `Set` of the keys 2, 3, 4, 5 and 7. -/
def sampleDupHash : Hash Nat Nat :=
  (((Hash.Set sampleUpperBit IdentityHash 2 { mHash := { pTable := none } } 1 10).bind
      (fun h => Hash.Add sampleUpperBit IdentityHash 2 h 1 11)).bind
      (fun h => Hash.SetAll sampleUpperBit IdentityHash 2 h
        [(2, 20), (3, 30), (4, 40), (5, 50), (7, 70)])).getD
    { mHash := { pTable := none } }


/-! ## Lemmas on evictions and on `allocBuffer` -/

theorem Evict_pending_eq (env : Collaborators A) (s : MeshCache A) (p : MeshCacheItem)
    (pallocator : Option AllocAddrRef) (h : p.FencePending = true) :
    Evict env s p pallocator =
      (0, { s with
              CacheList := (s.CacheList.RemoveNode p.id).PushFront .MCL_PendingFree
                { p with MType := MeshType.Mesh_Destroyed },
              Log := s.Log ++ [Event.Evict p.id (s.CacheList.ListOf p.id) s.VBSizeEvictedInMap,
                               Event.Destroy p.id false] }) := by
  simp [Evict, h, MeshCache.destroy]

theorem Evict_clear_eq (env : Collaborators A) (s : MeshCache A) (p : MeshCacheItem)
    (pallocator : Option AllocAddrRef) (h : p.FencePending = false) :
    Evict env s p pallocator =
      ((match pallocator with
        | some a => if a = AllocAddrRef.VertexAllocator then (Evict.vb env s p).1 else (Evict.ib env s p).1
        | none => (Evict.vb env s p).1 + (Evict.ib env s p).1),
       { s with
          CacheList := s.CacheList.RemoveNode p.id,
          VertexBuffers := { s.VertexBuffers with Allocator := (Evict.vb env s p).2 },
          IndexBuffers := { s.IndexBuffers with Allocator := (Evict.ib env s p).2 },
          VBSizeEvictedInMap := s.VBSizeEvictedInMap + p.VBAllocSize % 2 ^ 32,
          Log := s.Log ++ [Event.Evict p.id (s.CacheList.ListOf p.id) s.VBSizeEvictedInMap]
            ++ (match p.pVertexBuffer with
                | some b => [Event.Free .Vertex (some p.id) false p.VBAllocSize b p.VBAllocOffset (Evict.vb env s p).1]
                | none => [])
            ++ (match p.pIndexBuffer with
                | some b => [Event.Free .Index (some p.id) false p.IBAllocSize b p.IBAllocOffset (Evict.ib env s p).1]
                | none => [])
            ++ [Event.Destroy p.id true] }) := by
  cases hv : p.pVertexBuffer <;> cases hi : p.pIndexBuffer <;>
    simp [Evict, h, hv, hi, Evict.vb, Evict.ib, MeshCache.destroy, MeshCache.Free, MeshCache.mbs, MeshCache.setMbs]

theorem LogExt.lrefl (P : Event → Prop) (s : MeshCache A) : LogExt P s s :=
  ⟨[], by simp, by simp⟩

theorem LogExt.ltrans {P : Event → Prop} {s1 s2 s3 : MeshCache A}
    (h1 : LogExt P s1 s2) (h2 : LogExt P s2 s3) : LogExt P s1 s3 := by
  obtain ⟨l1, e1, p1⟩ := h1
  obtain ⟨l2, e2, p2⟩ := h2
  refine ⟨l1 ++ l2, by rw [e2, e1, List.append_assoc], ?_⟩
  intro e he
  rcases List.mem_append.mp he with h | h
  · exact p1 e h
  · exact p2 e h

theorem LogExt.lmono {P Q : Event → Prop} {s1 s2 : MeshCache A}
    (hPQ : ∀ e, P e → Q e) (h : LogExt P s1 s2) : LogExt Q s1 s2 := by
  obtain ⟨l, e, p⟩ := h
  exact ⟨l, e, fun x hx => hPQ x (p x hx)⟩

theorem Keeps.krefl (P : Event → Prop) (s : MeshCache A) : Keeps P s s :=
  ⟨rfl, rfl, rfl, rfl, rfl, rfl, rfl, rfl, rfl, rfl, le_refl _, LogExt.lrefl _ s⟩

theorem Keeps.ktrans {P : Event → Prop} {s1 s2 s3 : MeshCache A} (h1 : Keeps P s1 s2)
    (h2 : Keeps P s2 s3) : Keeps P s1 s3 :=
  ⟨h2.params.trans h1.params, h2.vbuffers.trans h1.vbuffers, h2.vgran.trans h1.vgran,
   h2.ibuffers.trans h1.ibuffers, h2.igran.trans h1.igran, h2.chunk.trans h1.chunk,
   h2.pendingBuffers.trans h1.pendingBuffers, h2.mapped.trans h1.mapped,
   h2.nextBuffer.trans h1.nextBuffer, h2.nextItem.trans h1.nextItem,
   le_trans h1.counter h2.counter, h1.log.ltrans h2.log⟩

theorem Keeps.kmono {P Q : Event → Prop} {s1 s2 : MeshCache A} (hPQ : ∀ e, P e → Q e)
    (h : Keeps P s1 s2) : Keeps Q s1 s2 :=
  ⟨h.params, h.vbuffers, h.vgran, h.ibuffers, h.igran, h.chunk, h.pendingBuffers, h.mapped,
   h.nextBuffer, h.nextItem, h.counter, h.log.lmono hPQ⟩

theorem Evicts.erefl (s : MeshCache A) : Evicts s s := Keeps.krefl _ s

theorem Evict_evicts (env : Collaborators A) (s : MeshCache A) (p : MeshCacheItem)
    (a : Option AllocAddrRef) : Evicts s (Evict env s p a).2 := by
  cases h : p.FencePending
  · rw [Evict_clear_eq env s p a h]
    refine ⟨rfl, rfl, rfl, rfl, rfl, rfl, rfl, rfl, rfl, rfl, Nat.le_add_right _ _, ?_⟩
    refine ⟨_, by simp only [List.append_assoc]; rfl, ?_⟩
    intro e he
    cases hv : p.pVertexBuffer <;> cases hi : p.pIndexBuffer <;>
      simp [hv, hi] at he <;> rcases he with h | h | h | h <;> simp [h, Event.evictOnly]
  · rw [Evict_pending_eq env s p a h]
    refine ⟨rfl, rfl, rfl, rfl, rfl, rfl, rfl, rfl, rfl, rfl, le_refl _, ?_⟩
    refine ⟨_, rfl, ?_⟩
    intro e he
    simp at he
    rcases he with h | h <;> simp [h, Event.evictOnly]

theorem WaitFence_evicts (s : MeshCache A) (p : MeshCacheItem) : Evicts s (s.WaitFence p).2 := by
  refine ⟨rfl, rfl, rfl, rfl, rfl, rfl, rfl, rfl, rfl, rfl, le_refl _, ⟨_, rfl, ?_⟩⟩
  intro e he
  simp at he
  simp [he, Event.evictOnly]

theorem EvictPendingFreeLoop_evicts (env : Collaborators A) (a : AllocAddrRef) (wait : Bool)
    (xs : List MeshCacheItem) (acc : Nat × MeshCache A) :
    Evicts acc.2 (EvictPendingFreeLoop env a wait xs acc).2 := by
  induction xs generalizing acc with
  | nil => exact Evicts.erefl _
  | cons p rest ih =>
    simp only [EvictPendingFreeLoop]
    generalize hw' : (if (wait && p.FencePending) = true then acc.2.WaitFence p else (p, acc.2)) = w
    have hw : Evicts acc.2 w.2 := by
      rw [← hw']
      split
      · exact WaitFence_evicts _ _
      · exact Evicts.erefl _
    split
    · exact (hw.ktrans (Evict_evicts env w.2 w.1 (some a))).ktrans
        (ih (acc.1 + (Evict env w.2 w.1 (some a)).1, (Evict env w.2 w.1 (some a)).2))
    · exact hw.ktrans (ih (acc.1, w.2))

theorem EvictPendingFree_evicts (env : Collaborators A) (s : MeshCache A) (a : AllocAddrRef)
    (wait : Bool) : Evicts s (EvictPendingFree env s a wait).2 :=
  EvictPendingFreeLoop_evicts env a wait _ (0, s)

theorem EvictLRUTillLimitLoop_evicts (env : Collaborators A) (type : MeshCacheListType)
    (a : AllocAddrRef) (size limit fuel : Nat) (s : MeshCache A) :
    Evicts s (EvictLRUTillLimitLoop env type a size limit fuel s).2 := by
  induction fuel generalizing s with
  | zero => exact Evicts.erefl _
  | succ n ih =>
    unfold EvictLRUTillLimitLoop
    split
    · exact Evicts.erefl _
    · split
      · dsimp only
        split
        · exact Evict_evicts _ _ _ _
        · exact (Evict_evicts _ _ _ _).ktrans (ih _)
      · exact Evicts.erefl _

theorem EvictLRULoop_evicts (env : Collaborators A) (type : MeshCacheListType)
    (a : AllocAddrRef) (size fuel : Nat) (s : MeshCache A) :
    Evicts s (EvictLRULoop env type a size fuel s).2 := by
  induction fuel generalizing s with
  | zero => exact Evicts.erefl _
  | succ n ih =>
    unfold EvictLRULoop
    split
    · exact Evicts.erefl _
    · dsimp only
      split
      · exact Evict_evicts _ _ _ _
      · exact (Evict_evicts _ _ _ _).ktrans (ih _)

theorem mruWalk_evicts (env : Collaborators A) (k : BufferKind) (size fuel : Nat)
    (s : MeshCache A) : Evicts s (allocBuffer.mruWalk env k size fuel s).2 := by
  induction fuel generalizing s with
  | zero => exact Evicts.erefl _
  | succ n ih =>
    unfold allocBuffer.mruWalk
    split
    · exact Evicts.erefl _
    · dsimp only
      split
      · exact Evict_evicts _ _ _ _
      · exact (Evict_evicts _ _ _ _).ktrans (ih _)

theorem thisFrameWalk_evicts (env : Collaborators A) (k : BufferKind) (size : Nat) (w : Bool)
    (fuel : Nat) (s : MeshCache A) :
    Evicts s (allocBuffer.thisFrameWalk env k size w fuel s).2 := by
  induction fuel generalizing s with
  | zero => exact Evicts.erefl _
  | succ n ih =>
    unfold allocBuffer.thisFrameWalk
    split
    · split
      · exact Evicts.erefl _
      · rename_i p _ _
        dsimp only
        generalize hw' : (if p.FencePending = true then s.WaitFence p else (p, s)) = w
        have hw : Evicts s w.2 := by
          rw [← hw']
          split
          · exact WaitFence_evicts _ _
          · exact Evicts.erefl _
        split
        · exact hw.ktrans (Evict_evicts _ _ _ _)
        · exact (hw.ktrans (Evict_evicts _ _ _ _)).ktrans (ih _)
    · exact Evicts.erefl _

theorem Event.allocOnly_of_evictOnly (e : Event) (h : e.evictOnly = true) :
    e.allocOnly = true := by
  cases e <;> simp_all [Event.allocOnly, Event.evictOnly]

theorem Evicts.toAlloc {s s' : MeshCache A} (h : Evicts s s') :
    Keeps (fun e => e.allocOnly = true) s s' :=
  h.kmono Event.allocOnly_of_evictOnly

theorem Keeps.mbs_buffers {P : Event → Prop} {s s' : MeshCache A} (h : Keeps P s s')
    (k : BufferKind) : (s'.mbs k).Buffers = (s.mbs k).Buffers := by
  cases k
  · exact h.vbuffers
  · exact h.ibuffers

theorem Keeps.mbs_gran {P : Event → Prop} {s s' : MeshCache A} (h : Keeps P s s')
    (k : BufferKind) : (s'.mbs k).Granularity = (s.mbs k).Granularity := by
  cases k
  · exact h.vgran
  · exact h.igran

theorem Keeps.sameTotal {P : Event → Prop} {s s' : MeshCache A} (h : Keeps P s s') :
    getTotalSize s' = getTotalSize s := by
  simp [getTotalSize, MeshBufferSet.GetTotalSize, h.vbuffers, h.ibuffers]

theorem GrewBy.byAfter {k : BufferKind} {b : MeshBuffer} {s s1 s2 : MeshCache A}
    (h1 : Keeps (fun e => e.allocOnly = true) s s1) (h2 : GrewBy k b s1 s2) : GrewBy k b s s2 :=
  ⟨h2.params.trans h1.params, by rw [h2.buffers, h1.mbs_buffers],
   fun k' hk => by rw [h2.others k' hk, h1.mbs_buffers],
   fun k' => by rw [h2.gran, h1.mbs_gran], by rw [h2.chunk, h1.chunk],
   h2.pendingBuffers.trans h1.pendingBuffers, h2.mapped.trans h1.mapped,
   le_trans h1.counter h2.counter, h1.log.ltrans h2.log⟩

theorem GrewBy.byBefore {k : BufferKind} {b : MeshBuffer} {s s1 s2 : MeshCache A}
    (h1 : GrewBy k b s s1) (h2 : Keeps (fun e => e.allocOnly = true) s1 s2) : GrewBy k b s s2 :=
  ⟨h2.params.trans h1.params, by rw [h2.mbs_buffers, h1.buffers],
   fun k' hk => by rw [h2.mbs_buffers, h1.others k' hk],
   fun k' => by rw [h2.mbs_gran, h1.gran], by rw [h2.chunk, h1.chunk],
   h2.pendingBuffers.trans h1.pendingBuffers, h2.mapped.trans h1.mapped,
   le_trans h1.counter h2.counter, h1.log.ltrans h2.log⟩

theorem GrewBy.grownTotal {k : BufferKind} {b : MeshBuffer} {s s' : MeshCache A}
    (h : GrewBy k b s s') : getTotalSize s' = getTotalSize s + b.Size := by
  have hb := h.buffers
  cases k
  · have ho := h.others .Index (by decide)
    simp only [MeshCache.mbs] at hb ho
    simp [getTotalSize, MeshBufferSet.GetTotalSize, hb, ho]
    omega
  · have ho := h.others .Vertex (by decide)
    simp only [MeshCache.mbs] at hb ho
    simp [getTotalSize, MeshBufferSet.GetTotalSize, hb, ho]
    omega

theorem Alloc_keeps (env : Collaborators A) (s : MeshCache A) (k : BufferKind) (size : Nat) :
    Keeps (fun e => e.allocOnly = true) s (s.Alloc env k size).2 := by
  unfold MeshCache.Alloc
  split
  · cases k <;>
      exact ⟨rfl, rfl, rfl, rfl, rfl, rfl, rfl, rfl, rfl, rfl, le_refl _,
        ⟨_, rfl, by simp [Event.allocOnly]⟩⟩
  · exact ⟨rfl, rfl, rfl, rfl, rfl, rfl, rfl, rfl, rfl, rfl, le_refl _,
      ⟨_, rfl, by simp [Event.allocOnly]⟩⟩

theorem CreateBuffer_cases (env : Collaborators A) (s : MeshCache A) (k : BufferKind)
    (size : Nat) :
    ((s.CreateBuffer env k size .AT_Chunk).1 = none ∧
        Keeps (fun e => e.allocOnly = true) s (s.CreateBuffer env k size .AT_Chunk).2) ∨
    (∃ b, (s.CreateBuffer env k size .AT_Chunk).1 = some b ∧ b.Size = size ∧
        b.AType = .AT_Chunk ∧ b.BufferType = k ∧
        GrewBy k b s { (s.CreateBuffer env k size .AT_Chunk).2 with
          ChunkBuffers := (s.CreateBuffer env k size .AT_Chunk).2.ChunkBuffers ++ [b] }) := by
  unfold MeshCache.CreateBuffer
  split
  · right
    refine ⟨_, rfl, rfl, rfl, rfl, ?_⟩
    cases k <;>
      exact ⟨rfl, rfl, fun k' hk => by cases k' <;> simp_all [MeshCache.mbs, MeshCache.setMbs],
        fun k' => by cases k' <;> rfl, rfl, rfl, rfl, le_refl _,
        ⟨_, rfl, by simp [Event.allocOnly]⟩⟩
  · left
    exact ⟨rfl, rfl, rfl, rfl, rfl, rfl, rfl, rfl, rfl, rfl, rfl, le_refl _,
      ⟨_, rfl, by simp [Event.allocOnly]⟩⟩

theorem allocSize_keeps {P : Event → Prop} {s s' : MeshCache A} (h : Keeps P s s')
    (k : BufferKind) : allocBuffer.allocSize s' k = allocBuffer.allocSize s k := by
  simp [allocBuffer.allocSize, h.params, h.sameTotal, h.mbs_gran]

theorem limitStage_outcome (env : Collaborators A) (s : MeshCache A) (k : BufferKind)
    (size : Nat) :
    (Keeps (fun e => e.allocOnly = true) s (allocBuffer.limitStage env s k size).2) ∨
    ((allocBuffer.limitStage env s k size).1 = some false ∧
      ∃ b, GrewBy k b s (allocBuffer.limitStage env s k size).2 ∧
        b.Size = allocBuffer.allocSize s k ∧ size ≤ b.Size ∧
        b.AType = .AT_Chunk ∧ b.BufferType = k) := by
  have hr : Evicts s (EvictLRUTillLimit env s .MCL_LRUTail (allocatorOf k) size s.Params.LRUTailSize).2 :=
    EvictLRUTillLimitLoop_evicts _ _ _ _ _ _ _
  unfold allocBuffer.limitStage
  generalize EvictLRUTillLimit env s .MCL_LRUTail (allocatorOf k) size s.Params.LRUTailSize = r at hr
  dsimp only
  split
  · exact Or.inl hr.toAlloc
  · split
    · exact Or.inl hr.toAlloc
    · split
      · rename_i hsz
        rcases CreateBuffer_cases env r.2 k
            (min (subUPInt r.2.Params.MemLimit (getTotalSize r.2)) (r.2.mbs k).Granularity) with
          ⟨hn, hk⟩ | ⟨b, hb, hsize, hty, hkind, hg⟩
        · left
          simp only [hn]
          exact hr.toAlloc.ktrans hk
        · right
          simp only [hb]
          refine ⟨trivial, b, GrewBy.byAfter hr.toAlloc hg, ?_, ?_, hty, hkind⟩
          · rw [hsize]; exact allocSize_keeps hr k
          · rw [hsize]; exact hsz
      · exact Or.inl hr.toAlloc

theorem Grew.after {env : Collaborators A} {k : BufferKind} {size : Nat} {s s1 s2 : MeshCache A}
    (h1 : Keeps (fun e => e.allocOnly = true) s s1) (h2 : Grew env k size s1 s2) :
    Grew env k size s s2 := by
  obtain ⟨hg, b, hb, hs, hsz, ht, hk⟩ := h2
  refine ⟨by rw [← h1.sameTotal, ← h1.params]; exact hg, b, GrewBy.byAfter h1 hb, ?_, hsz, ht, hk⟩
  rw [hs, allocSize_keeps h1]

theorem Grew.before {env : Collaborators A} {k : BufferKind} {size : Nat} {s s1 s2 : MeshCache A}
    (h1 : Grew env k size s s1) (h2 : Keeps (fun e => e.allocOnly = true) s1 s2) :
    Grew env k size s s2 := by
  obtain ⟨hg, b, hb, hs, hsz, ht, hk⟩ := h1
  exact ⟨hg, b, GrewBy.byBefore hb h2, hs, hsz, ht, hk⟩

theorem growOrEvict_outcome (env : Collaborators A) (s : MeshCache A) (k : BufferKind)
    (size : Nat) (need1 : Bool) :
    Keeps (fun e => e.allocOnly = true) s (allocBuffer.growOrEvict env s k size need1).2 ∨
    ((allocBuffer.growOrEvict env s k size need1).1 = some false ∧
      Grew env k size s (allocBuffer.growOrEvict env s k size need1).2) := by
  unfold allocBuffer.growOrEvict
  dsimp only
  by_cases hc : (need1 && decide (addUPInt (getTotalSize s) env.MinSupportedGranularity
      ≤ s.Params.MemLimit)) = true
  · -- the memory-limit branch is taken
    rw [if_pos hc]
    simp only [Bool.and_eq_true, decide_eq_true_eq] at hc
    rcases limitStage_outcome env s k size with hk | ⟨h1, b, hb⟩
    · generalize allocBuffer.limitStage env s k size = st2 at hk
      rcases st2 with ⟨o, s2⟩
      cases o with
      | none => exact Or.inl hk
      | some need2 =>
        dsimp only
        split
        · exact Or.inl (hk.ktrans (Evicts.toAlloc (EvictLRULoop_evicts _ _ _ _ _ _)))
        · exact Or.inl hk
    · right
      generalize allocBuffer.limitStage env s k size = st2 at h1 hb
      rcases st2 with ⟨o, s2⟩
      simp only at h1
      subst h1
      simp only [Bool.false_eq_true, if_false, true_and]
      exact ⟨hc.2, b, hb⟩
  · rw [if_neg hc]
    dsimp only
    split
    · exact Or.inl (Evicts.toAlloc (EvictLRULoop_evicts _ _ _ _ _ _))
    · exact Or.inl (Keeps.krefl _ _)

theorem growOrEvict_satisfied (env : Collaborators A) (s : MeshCache A) (k : BufferKind)
    (size : Nat) : allocBuffer.growOrEvict env s k size false = (some false, s) := by
  simp [allocBuffer.growOrEvict]

theorem beforeLimitCheck_outcome (env : Collaborators A) (s : MeshCache A) (k : BufferKind)
    (size : Nat) :
    Keeps (fun e => e.allocOnly = true) s (allocBuffer.beforeLimitCheck env s k size).2 ∨
    ((allocBuffer.beforeLimitCheck env s k size).1 = some false ∧
      Grew env k size s (allocBuffer.beforeLimitCheck env s k size).2) := by
  have he : Evicts s (EvictPendingFree env s (allocatorOf k) false).2 :=
    EvictPendingFree_evicts _ _ _ _
  unfold allocBuffer.beforeLimitCheck
  dsimp only
  rcases growOrEvict_outcome env (EvictPendingFree env s (allocatorOf k) false).2 k size
      (!(EvictPendingFree env s (allocatorOf k) false).1) with hk | ⟨h1, hg⟩
  · exact Or.inl (he.toAlloc.ktrans hk)
  · exact Or.inr ⟨h1, Grew.after he.toAlloc hg⟩

theorem afterLimitCheck_evicts_then_alloc (env : Collaborators A) (s : MeshCache A)
    (k : BufferKind) (size : Nat) (w need : Bool) :
    Keeps (fun e => e.allocOnly = true) s (allocBuffer.afterLimitCheck env s k size w need).2 := by
  unfold allocBuffer.afterLimitCheck
  generalize h4 : (if need = true then allocBuffer.mruWalk env k size s.CacheList.PrevFrame.length s
      else (need, s)) = st4
  have k4 : Evicts s st4.2 := by
    rw [← h4]; split
    · exact mruWalk_evicts _ _ _ _ _
    · exact Evicts.erefl _
  dsimp only
  generalize h5 : (if st4.1 = true then
      allocBuffer.thisFrameWalk env k size w st4.2.CacheList.ThisFrame.length st4.2 else st4) = st5
  have k5 : Evicts st4.2 st5.2 := by
    rw [← h5]; split
    · exact thisFrameWalk_evicts _ _ _ _ _ _
    · exact Evicts.erefl _
  generalize h6 : (if (st5.1 && w) = true then (EvictPendingFree env st5.2 (allocatorOf k) true).2
      else st5.2) = s6
  have k6 : Evicts st5.2 s6 := by
    rw [← h6]; split
    · exact EvictPendingFree_evicts _ _ _ _
    · exact Evicts.erefl _
  have k456 := Evicts.toAlloc ((k4.ktrans k5).ktrans k6)
  split
  · exact k456
  · exact k456.ktrans (Alloc_keeps _ _ _ _)

theorem slowPath_outcome (env : Collaborators A) (s : MeshCache A) (k : BufferKind)
    (size : Nat) (w : Bool) :
    Keeps (fun e => e.allocOnly = true) s (allocBuffer.slowPath env s k size w).2 ∨
    Grew env k size s (allocBuffer.slowPath env s k size w).2 := by
  unfold allocBuffer.slowPath
  rcases beforeLimitCheck_outcome env s k size with hk | ⟨_, hg⟩
  · generalize allocBuffer.beforeLimitCheck env s k size = b at hk
    rcases b with ⟨o, s2⟩
    cases o with
    | none => exact Or.inl hk
    | some need =>
      dsimp only
      split
      · exact Or.inl hk
      · exact Or.inl (hk.ktrans (afterLimitCheck_evicts_then_alloc _ _ _ _ _ _))
  · generalize allocBuffer.beforeLimitCheck env s k size = b at hg
    rcases b with ⟨o, s2⟩
    cases o with
    | none => exact Or.inr hg
    | some need =>
      dsimp only
      split
      · exact Or.inr hg
      · exact Or.inr (hg.before (afterLimitCheck_evicts_then_alloc _ _ _ _ _ _))

theorem allocBuffer_outcome (env : Collaborators A) (s : MeshCache A) (k : BufferKind)
    (size : Nat) (w : Bool) :
    Keeps (fun e => e.allocOnly = true) s (allocBuffer env s k size w).2 ∨
    Grew env k size s (allocBuffer env s k size w).2 := by
  unfold allocBuffer
  have ha := Alloc_keeps env s k size
  generalize s.Alloc env k size = a0 at ha
  rcases a0 with ⟨o, s0⟩
  cases o with
  | some r => exact Or.inl ha
  | none =>
    dsimp only
    rcases slowPath_outcome env s0 k size w with hk | hg
    · exact Or.inl (ha.ktrans hk)
    · exact Or.inr (Grew.after ha hg)

/-! ### The log of `allocBuffer` after a failed direct suballocation -/

theorem Evict_log_item (env : Collaborators A) (s : MeshCache A) (p : MeshCacheItem)
    (a : Option AllocAddrRef) : LogExt (EvictOf [p.id]) s (Evict env s p a).2 := by
  cases h : p.FencePending
  · rw [Evict_clear_eq env s p a h]
    refine ⟨_, by simp only [List.append_assoc]; rfl, ?_⟩
    intro e he
    cases hv : p.pVertexBuffer <;> cases hi : p.pIndexBuffer <;>
      simp [hv, hi] at he <;> rcases he with h | h | h | h <;>
      simp [h, EvictOf, Event.evictOnly]
  · rw [Evict_pending_eq env s p a h]
    refine ⟨_, rfl, ?_⟩
    intro e he
    simp at he
    rcases he with h | h <;> simp [h, EvictOf, Event.evictOnly]

theorem EvictOf.subset {ids ids' : List Nat} (h : ∀ i ∈ ids, i ∈ ids') (ev : Event)
    (he : EvictOf ids ev) : EvictOf ids' ev :=
  ⟨he.1, fun id t c hc => h id (he.2 id t c hc)⟩

theorem EvictPendingFreeLoop_log_items (env : Collaborators A) (a : AllocAddrRef) (wait : Bool)
    (xs : List MeshCacheItem) (acc : Nat × MeshCache A) :
    LogExt (EvictOf (xs.map (fun q => q.id))) acc.2 (EvictPendingFreeLoop env a wait xs acc).2 := by
  induction xs generalizing acc with
  | nil => exact LogExt.lrefl _ _
  | cons p rest ih =>
    simp only [EvictPendingFreeLoop]
    have hsub : ∀ ev, EvictOf (rest.map (fun q => q.id)) ev →
        EvictOf ((p :: rest).map (fun q => q.id)) ev :=
      EvictOf.subset (fun i hi => by simp [hi])
    generalize hw' : (if (wait && p.FencePending) = true then acc.2.WaitFence p else (p, acc.2)) = w
    have hw : LogExt (EvictOf ((p :: rest).map (fun q => q.id))) acc.2 w.2 ∧ w.1.id = p.id := by
      rw [← hw']
      split
      · exact ⟨⟨_, rfl, by simp [EvictOf, Event.evictOnly]⟩, rfl⟩
      · exact ⟨LogExt.lrefl _ _, rfl⟩
    split
    · have he : LogExt (EvictOf ((p :: rest).map (fun q => q.id))) w.2
          (Evict env w.2 w.1 (some a)).2 :=
        (Evict_log_item env w.2 w.1 (some a)).lmono
          (EvictOf.subset (fun i hi => by simp at hi; simp [hi, hw.2]))
      exact (hw.1.ltrans he).ltrans
        ((ih (acc.1 + (Evict env w.2 w.1 (some a)).1, (Evict env w.2 w.1 (some a)).2)).lmono hsub)
    · exact hw.1.ltrans ((ih (acc.1, w.2)).lmono hsub)

theorem growOrEvict_log (env : Collaborators A) (s : MeshCache A) (k : BufferKind)
    (size : Nat) (need1 : Bool) :
    LogExt (fun e => e.allocOnly = true) s (allocBuffer.growOrEvict env s k size need1).2 := by
  rcases growOrEvict_outcome env s k size need1 with hk | ⟨_, _, b, hb, _⟩
  · exact hk.log
  · exact hb.log

theorem slowPath_log_after_reclaim (env : Collaborators A) (s : MeshCache A) (k : BufferKind)
    (size : Nat) (w : Bool) :
    LogExt (fun e => e.allocOnly = true) (EvictPendingFree env s (allocatorOf k) false).2
      (allocBuffer.slowPath env s k size w).2 := by
  unfold allocBuffer.slowPath allocBuffer.beforeLimitCheck
  dsimp only
  have hg := growOrEvict_log env (EvictPendingFree env s (allocatorOf k) false).2 k size
    (!(EvictPendingFree env s (allocatorOf k) false).1)
  generalize allocBuffer.growOrEvict env (EvictPendingFree env s (allocatorOf k) false).2 k size
    (!(EvictPendingFree env s (allocatorOf k) false).1) = b at hg
  rcases b with ⟨o, s2⟩
  cases o with
  | none => exact hg
  | some need =>
    dsimp only
    split
    · exact hg
    · exact hg.ltrans (afterLimitCheck_evicts_then_alloc _ _ _ _ _ _).log

theorem afterLimitCheck_satisfied (env : Collaborators A) (s : MeshCache A) (k : BufferKind)
    (size : Nat) (w : Bool) :
    allocBuffer.afterLimitCheck env s k size w false = s.Alloc env k size := by
  simp [allocBuffer.afterLimitCheck]

theorem allocBuffer_of_direct_failure (env : Collaborators A) (s : MeshCache A) (k : BufferKind)
    (size : Nat) (w : Bool) (hfail : env.AllocatorAlloc (s.mbs k).Allocator size = none) :
    allocBuffer env s k size w =
      allocBuffer.slowPath env { s with Log := s.Log ++ [Event.Alloc k size false] } k size w := by
  simp [allocBuffer, MeshCache.Alloc, hfail]

theorem Alloc_log (env : Collaborators A) (s : MeshCache A) (k : BufferKind) (size : Nat) :
    LogExt (fun ev => ∃ ok, ev = Event.Alloc k size ok) s (s.Alloc env k size).2 := by
  unfold MeshCache.Alloc
  split
  · cases k <;> exact ⟨_, rfl, by simp⟩
  · exact ⟨_, rfl, by simp⟩

theorem ReclaimOnly.of_evictOf {ids : List Nat} (ev : Event) (h : EvictOf ids ev) :
    ReclaimOnly ids ev := by
  refine ⟨h.2, ?_⟩
  intro k' sz ty ok hc
  have := h.1
  simp [hc, Event.evictOnly] at this

theorem ReclaimOnly.of_alloc {ids : List Nat} {k : BufferKind} {size : Nat} (ev : Event)
    (h : ∃ ok, ev = Event.Alloc k size ok) : ReclaimOnly ids ev := by
  obtain ⟨ok, rfl⟩ := h
  exact ⟨by simp, by simp⟩

theorem reclaimed_keeps (env : Collaborators A) (s : MeshCache A) (k : BufferKind) (size : Nat) :
    Keeps (fun e => e.allocOnly = true) s (allocBuffer.reclaimed env s k size).2 := by
  have h1 : Keeps (fun e => e.allocOnly = true) s
      { s with Log := s.Log ++ [Event.Alloc k size false] } :=
    ⟨rfl, rfl, rfl, rfl, rfl, rfl, rfl, rfl, rfl, rfl, le_refl _,
      ⟨_, rfl, by simp [Event.allocOnly]⟩⟩
  exact h1.ktrans (Evicts.toAlloc (EvictPendingFree_evicts env _ (allocatorOf k) false))

theorem reclaimed_log (env : Collaborators A) (s : MeshCache A) (k : BufferKind) (size : Nat) :
    LogExt (ReclaimOnly (s.CacheList.PendingFree.map (fun q => q.id))) s
      (allocBuffer.reclaimed env s k size).2 := by
  have h1 : LogExt (ReclaimOnly (s.CacheList.PendingFree.map (fun q => q.id))) s
      { s with Log := s.Log ++ [Event.Alloc k size false] } :=
    ⟨_, rfl, fun ev hev => ReclaimOnly.of_alloc ev ⟨false, by simpa using hev⟩⟩
  exact h1.ltrans ((EvictPendingFreeLoop_log_items env (allocatorOf k) false
    s.CacheList.PendingFree (0, { s with Log := s.Log ++ [Event.Alloc k size false] })).lmono
      ReclaimOnly.of_evictOf)

/-! ### The counter at the first eviction after the limit check -/

theorem StartsAt.here (t : MeshCache A) : StartsAt t t :=
  ⟨[], by simp, Or.inl ⟨rfl, rfl⟩⟩

theorem StartsAt.next {t1 t2 t3 : MeshCache A} (h1 : StartsAt t1 t2) (h2 : StartsAt t2 t3) :
    StartsAt t1 t3 := by
  obtain ⟨l1, e1, c1⟩ := h1
  obtain ⟨l2, e2, c2⟩ := h2
  refine ⟨l1 ++ l2, by rw [e2, e1, List.append_assoc], ?_⟩
  rcases c1 with ⟨hn, hc⟩ | ⟨id, tier, hs⟩
  · rcases c2 with ⟨hn2, hc2⟩ | ⟨id, tier, hs2⟩
    · exact Or.inl ⟨by simp [List.find?_append, hn, hn2], hc2.trans hc⟩
    · exact Or.inr ⟨id, tier, by simp [List.find?_append, hn, hs2, hc]⟩
  · exact Or.inr ⟨id, tier, by simp [List.find?_append, hs]⟩

theorem Evict_startsAt (env : Collaborators A) (s : MeshCache A) (p : MeshCacheItem)
    (a : Option AllocAddrRef) : StartsAt s (Evict env s p a).2 := by
  cases h : p.FencePending
  · rw [Evict_clear_eq env s p a h]
    refine ⟨_, by simp only [List.append_assoc]; rfl, Or.inr ⟨p.id, s.CacheList.ListOf p.id, ?_⟩⟩
    simp [List.find?, Event.isEvict]
  · rw [Evict_pending_eq env s p a h]
    exact ⟨_, rfl, Or.inr ⟨p.id, s.CacheList.ListOf p.id, by simp [List.find?, Event.isEvict]⟩⟩

theorem WaitFence_startsAt (s : MeshCache A) (p : MeshCacheItem) :
    StartsAt s (s.WaitFence p).2 :=
  ⟨_, rfl, Or.inl ⟨by simp [List.find?, Event.isEvict], rfl⟩⟩

theorem Alloc_startsAt (env : Collaborators A) (s : MeshCache A) (k : BufferKind) (size : Nat) :
    StartsAt s (s.Alloc env k size).2 := by
  unfold MeshCache.Alloc
  split
  · cases k <;> exact ⟨_, rfl, Or.inl ⟨by simp [List.find?, Event.isEvict], rfl⟩⟩
  · exact ⟨_, rfl, Or.inl ⟨by simp [List.find?, Event.isEvict], rfl⟩⟩

theorem EvictPendingFreeLoop_startsAt (env : Collaborators A) (a : AllocAddrRef) (wait : Bool)
    (xs : List MeshCacheItem) (acc : Nat × MeshCache A) :
    StartsAt acc.2 (EvictPendingFreeLoop env a wait xs acc).2 := by
  induction xs generalizing acc with
  | nil => exact StartsAt.here _
  | cons p rest ih =>
    simp only [EvictPendingFreeLoop]
    generalize hw' : (if (wait && p.FencePending) = true then acc.2.WaitFence p else (p, acc.2)) = w
    have hw : StartsAt acc.2 w.2 := by
      rw [← hw']
      split
      · exact WaitFence_startsAt _ _
      · exact StartsAt.here _
    split
    · exact (hw.next (Evict_startsAt env w.2 w.1 (some a))).next
        (ih (acc.1 + (Evict env w.2 w.1 (some a)).1, (Evict env w.2 w.1 (some a)).2))
    · exact hw.next (ih (acc.1, w.2))

theorem mruWalk_startsAt (env : Collaborators A) (k : BufferKind) (size fuel : Nat)
    (s : MeshCache A) : StartsAt s (allocBuffer.mruWalk env k size fuel s).2 := by
  induction fuel generalizing s with
  | zero => exact StartsAt.here _
  | succ n ih =>
    unfold allocBuffer.mruWalk
    split
    · exact StartsAt.here _
    · dsimp only
      split
      · exact Evict_startsAt _ _ _ _
      · exact (Evict_startsAt _ _ _ _).next (ih _)

theorem thisFrameWalk_startsAt (env : Collaborators A) (k : BufferKind) (size : Nat) (w : Bool)
    (fuel : Nat) (s : MeshCache A) :
    StartsAt s (allocBuffer.thisFrameWalk env k size w fuel s).2 := by
  induction fuel generalizing s with
  | zero => exact StartsAt.here _
  | succ n ih =>
    unfold allocBuffer.thisFrameWalk
    split
    · split
      · exact StartsAt.here _
      · rename_i p _ _
        dsimp only
        generalize hw' : (if p.FencePending = true then s.WaitFence p else (p, s)) = w
        have hw : StartsAt s w.2 := by
          rw [← hw']
          split
          · exact WaitFence_startsAt _ _
          · exact StartsAt.here _
        split
        · exact hw.next (Evict_startsAt _ _ _ _)
        · exact (hw.next (Evict_startsAt _ _ _ _)).next (ih _)
    · exact StartsAt.here _

theorem afterLimitCheck_startsAt (env : Collaborators A) (s : MeshCache A)
    (k : BufferKind) (size : Nat) (w need : Bool) :
    StartsAt s (allocBuffer.afterLimitCheck env s k size w need).2 := by
  unfold allocBuffer.afterLimitCheck
  generalize h4 : (if need = true then allocBuffer.mruWalk env k size s.CacheList.PrevFrame.length s
      else (need, s)) = st4
  have k4 : StartsAt s st4.2 := by
    rw [← h4]; split
    · exact mruWalk_startsAt _ _ _ _ _
    · exact StartsAt.here _
  dsimp only
  generalize h5 : (if st4.1 = true then
      allocBuffer.thisFrameWalk env k size w st4.2.CacheList.ThisFrame.length st4.2 else st4) = st5
  have k5 : StartsAt st4.2 st5.2 := by
    rw [← h5]; split
    · exact thisFrameWalk_startsAt _ _ _ _ _ _
    · exact StartsAt.here _
  generalize h6 : (if (st5.1 && w) = true then (EvictPendingFree env st5.2 (allocatorOf k) true).2
      else st5.2) = s6
  have k6 : StartsAt st5.2 s6 := by
    rw [← h6]; split
    · exact EvictPendingFreeLoop_startsAt _ _ _ _ _
    · exact StartsAt.here _
  have k456 := (k4.next k5).next k6
  split
  · exact k456
  · exact k456.next (Alloc_startsAt _ _ _ _)

theorem beforeLimitCheck_params (env : Collaborators A) (s : MeshCache A) (k : BufferKind)
    (size : Nat) : (allocBuffer.beforeLimitCheck env s k size).2.Params = s.Params := by
  rcases beforeLimitCheck_outcome env s k size with hk | ⟨_, _, b, hb, _⟩
  · exact hk.params
  · exact hb.params

/-! ### What `EndFrame` and its shrink step do -/

theorem Event.shrinkOnly_of_evictOnly (bufs : List Nat) (e : Event) (h : e.evictOnly = true) :
    e.shrinkOnly bufs = true := by
  cases e <;> simp_all [Event.shrinkOnly, Event.evictOnly]

theorem Event.shrinkOnly_subset {bufs bufs' : List Nat} (hsub : ∀ x ∈ bufs, x ∈ bufs')
    (e : Event) (h : e.shrinkOnly bufs = true) : e.shrinkOnly bufs' = true := by
  cases e <;> simp_all [Event.shrinkOnly]
  rcases h with h | h
  · exact Or.inl h
  · exact Or.inr (hsub _ h)

theorem Free_keeps (env : Collaborators A) (s : MeshCache A) (k : BufferKind)
    (owner : Option Nat) (pending : Bool) (size b off : Nat) :
    Keeps (fun e => e.shrinkOnly [b] = true) s (s.Free env k owner pending size b off).2 := by
  cases k <;>
    exact ⟨rfl, rfl, rfl, rfl, rfl, rfl, rfl, rfl, rfl, rfl, le_refl _,
      ⟨_, rfl, by simp [Event.shrinkOnly]⟩⟩

theorem clearVertexBuffer_keeps (P : Event → Prop) (s : MeshCache A) (id : Nat) :
    Keeps P s (s.clearVertexBuffer id) :=
  ⟨rfl, rfl, rfl, rfl, rfl, rfl, rfl, rfl, rfl, rfl, le_refl _, ⟨[], by simp [MeshCache.clearVertexBuffer], by simp⟩⟩

theorem clearIndexBuffer_keeps (P : Event → Prop) (s : MeshCache A) (id : Nat) :
    Keeps P s (s.clearIndexBuffer id) :=
  ⟨rfl, rfl, rfl, rfl, rfl, rfl, rfl, rfl, rfl, rfl, le_refl _, ⟨[], by simp [MeshCache.clearIndexBuffer], by simp⟩⟩

theorem Evicts.toShrink {s s' : MeshCache A} (bufs : List Nat) (h : Evicts s s') :
    Keeps (fun e => e.shrinkOnly bufs = true) s s' :=
  h.kmono (Event.shrinkOnly_of_evictOnly bufs)

theorem release_keeps (env : Collaborators A) (s : MeshCache A) (pbuffer : Nat)
    (p : MeshCacheItem) :
    Keeps (fun e => e.shrinkOnly [pbuffer] = true) s
      (evictMeshesInBuffer.release env s pbuffer p) := by
  unfold evictMeshesInBuffer.release
  generalize h1 : (if p.pVertexBuffer = some pbuffer then
      ((s.Free env .Vertex (some p.id) p.FencePending p.VBAllocSize pbuffer
        p.VBAllocOffset).2).clearVertexBuffer p.id else s) = s1
  have k1 : Keeps (fun e => e.shrinkOnly [pbuffer] = true) s s1 := by
    rw [← h1]; split
    · exact (Free_keeps _ _ _ _ _ _ _ _).ktrans (clearVertexBuffer_keeps _ _ _)
    · exact Keeps.krefl _ _
  dsimp only
  split
  · exact k1.ktrans ((Free_keeps _ _ _ _ _ _ _ _).ktrans (clearIndexBuffer_keeps _ _ _))
  · exact k1

theorem scan_keeps (env : Collaborators A) (pbuffer : Nat) (t : MeshCacheListType)
    (fuel : Nat) (acc : Bool × MeshCache A) :
    Keeps (fun e => e.shrinkOnly [pbuffer] = true) acc.2
      (evictMeshesInBuffer.scan env pbuffer t fuel acc).2 := by
  induction fuel generalizing acc with
  | zero => exact Keeps.krefl _ _
  | succ n ih =>
    unfold evictMeshesInBuffer.scan
    split
    · exact Keeps.krefl _ _
    · rename_i p _
      dsimp only
      have he := Evicts.toShrink [pbuffer] (Evict_evicts env acc.2 p none)
      generalize Evict env acc.2 p none = e at he
      split
      · exact (he.ktrans (release_keeps env e.2 pbuffer p)).ktrans (ih (true, _))
      · exact he.ktrans (ih (acc.1, e.2))

theorem evictMeshesInBuffer_keeps (env : Collaborators A) (s : MeshCache A) (pbuffer : Nat) :
    Keeps (fun e => e.shrinkOnly [pbuffer] = true) s (evictMeshesInBuffer env s pbuffer).2 := by
  unfold evictMeshesInBuffer
  simp only [allSlots, List.foldl]
  exact (((scan_keeps env pbuffer _ _ (false, s)).ktrans (scan_keeps env pbuffer _ _ _)).ktrans
    (scan_keeps env pbuffer _ _ _)).ktrans (scan_keeps env pbuffer _ _ _)

theorem Shrinks.still (bufs : List Nat) (s : MeshCache A) : Shrinks bufs s s :=
  ⟨rfl, rfl, fun _ h => h, le_refl _, LogExt.lrefl _ _⟩

theorem Shrinks.andThen {bufs : List Nat} {s1 s2 s3 : MeshCache A} (h1 : Shrinks bufs s1 s2)
    (h2 : Shrinks bufs s2 s3) : Shrinks bufs s1 s3 :=
  ⟨h2.params.trans h1.params, h2.mapped.trans h1.mapped,
   fun b hb => h1.chunk b (h2.chunk b hb), le_trans h1.counter h2.counter, h1.log.ltrans h2.log⟩

theorem Shrinks.widen {bufs bufs' : List Nat} {s1 s2 : MeshCache A}
    (hsub : ∀ b ∈ bufs, b ∈ bufs') (h : Shrinks bufs s1 s2) : Shrinks bufs' s1 s2 :=
  ⟨h.params, h.mapped, h.chunk, h.counter, h.log.lmono (Event.shrinkOnly_subset hsub)⟩

theorem Keeps.toShrinks {bufs : List Nat} {s s' : MeshCache A}
    (h : Keeps (fun e => e.shrinkOnly bufs = true) s s') : Shrinks bufs s s' :=
  ⟨h.params, h.mapped, fun _ hb => h.chunk ▸ hb, h.counter, h.log⟩

theorem DestroyBuffer_shrinks (env : Collaborators A) (s : MeshCache A) (k : BufferKind)
    (p : MeshBuffer) (d : Bool) (bufs : List Nat) :
    Shrinks bufs s (s.DestroyBuffer env k p d) := by
  unfold MeshCache.DestroyBuffer
  dsimp only
  split
  · cases k <;>
      exact ⟨rfl, rfl, fun _ h => h, le_refl _, ⟨_, rfl, by simp [Event.shrinkOnly]⟩⟩
  · cases k <;> exact ⟨rfl, rfl, fun _ h => h, le_refl _, ⟨[], by simp [MeshCache.setMbs], by simp⟩⟩

theorem shrinkLoop_shrinks (env : Collaborators A) (fuel : Nat) (extraSpace : Int)
    (s : MeshCache A) :
    Shrinks (s.ChunkBuffers.map (fun b => b.id)) s (EndFrame.shrinkLoop env fuel extraSpace s) := by
  induction fuel generalizing s extraSpace with
  | zero => exact Shrinks.still _ _
  | succ n ih =>
    unfold EndFrame.shrinkLoop
    split
    · exact Shrinks.still _ _
    · rename_i p hp
      split
      · dsimp only
        have hmem : p ∈ s.ChunkBuffers := List.mem_of_getLast?_eq_some hp
        have h0 : Shrinks (s.ChunkBuffers.map (fun b => b.id)) s
            { s with ChunkBuffers := s.ChunkBuffers.dropLast } :=
          ⟨rfl, rfl, fun b hb => List.dropLast_subset _ hb, le_refl _, ⟨[], by simp, by simp⟩⟩
        have h1 : Shrinks (s.ChunkBuffers.map (fun b => b.id))
            { s with ChunkBuffers := s.ChunkBuffers.dropLast }
            (evictMeshesInBuffer env { s with ChunkBuffers := s.ChunkBuffers.dropLast } p.id).2 :=
          (evictMeshesInBuffer_keeps env _ p.id).toShrinks.widen
            (fun b hb => by
              simp only [List.mem_singleton] at hb
              exact List.mem_map.mpr ⟨p, hmem, hb.symm⟩)
        have hch : (evictMeshesInBuffer env { s with ChunkBuffers := s.ChunkBuffers.dropLast }
            p.id).2.ChunkBuffers = s.ChunkBuffers.dropLast :=
          (evictMeshesInBuffer_keeps env _ p.id).chunk
        generalize evictMeshesInBuffer env { s with ChunkBuffers := s.ChunkBuffers.dropLast } p.id
          = r at h1 hch
        have h2 := DestroyBuffer_shrinks env r.2 p.BufferType p r.1
          (s.ChunkBuffers.map (fun b => b.id))
        have hch2 : (r.2.DestroyBuffer env p.BufferType p r.1).ChunkBuffers
            = s.ChunkBuffers.dropLast := by
          rw [← hch]
          unfold MeshCache.DestroyBuffer
          dsimp only
          split <;> cases p.BufferType <;> rfl
        generalize r.2.DestroyBuffer env p.BufferType p r.1 = s2 at h2 hch2
        generalize h3' : (if (!r.1) = true then
            { s2 with PendingDestructionBuffers := s2.PendingDestructionBuffers ++ [p] }
          else s2) = s3
        have h3 : Shrinks (s.ChunkBuffers.map (fun b => b.id)) s2 s3 ∧
            s3.ChunkBuffers = s.ChunkBuffers.dropLast := by
          rw [← h3']; split
          · exact ⟨⟨rfl, rfl, fun _ h => h, le_refl _, ⟨[], by simp, by simp⟩⟩, hch2⟩
          · exact ⟨Shrinks.still _ _, hch2⟩
        have h4 : Shrinks (s.ChunkBuffers.map (fun b => b.id)) s3
            (EndFrame.shrinkLoop env n (toSPInt (extraSpace - toSPInt (p.Size : Int))) s3) :=
          (ih _ s3).widen (fun b hb => by
            rw [h3.2] at hb
            obtain ⟨q, hq, rfl⟩ := List.mem_map.mp hb
            exact List.mem_map.mpr ⟨q, List.dropLast_subset _ hq, rfl⟩)
        exact (((h0.andThen h1).andThen h2).andThen h3.1).andThen h4
      · exact Shrinks.still _ _

theorem destroyPendingBuffers_step_spec (bufs : List Nat) (xs : List MeshBuffer)
    (acc : List MeshBuffer × MeshCache A) :
    Shrinks bufs acc.2 (xs.foldl destroyPendingBuffers.step acc).2 ∧
      (xs.foldl destroyPendingBuffers.step acc).2.ChunkBuffers = acc.2.ChunkBuffers := by
  induction xs generalizing acc with
  | nil => exact ⟨Shrinks.still _ _, rfl⟩
  | cons p rest ih =>
    simp only [List.foldl]
    have h1 : Shrinks bufs acc.2 (destroyPendingBuffers.step acc p).2 ∧
        (destroyPendingBuffers.step acc p).2.ChunkBuffers = acc.2.ChunkBuffers := by
      unfold destroyPendingBuffers.step
      dsimp only
      split
      · exact ⟨Shrinks.still _ _, rfl⟩
      · exact ⟨⟨rfl, rfl, fun _ h => h, le_refl _, ⟨_, rfl, by simp [Event.shrinkOnly]⟩⟩, rfl⟩
    have h2 := ih (destroyPendingBuffers.step acc p)
    exact ⟨h1.1.andThen h2.1, h2.2.trans h1.2⟩

theorem destroyPendingBuffers_shrinks (bufs : List Nat) (s : MeshCache A) :
    Shrinks bufs s (destroyPendingBuffers s) ∧
      (destroyPendingBuffers s).ChunkBuffers = s.ChunkBuffers := by
  unfold destroyPendingBuffers
  have h := destroyPendingBuffers_step_spec bufs s.PendingDestructionBuffers
    ([], { s with PendingDestructionBuffers := [] })
  generalize s.PendingDestructionBuffers.foldl destroyPendingBuffers.step
    ([], { s with PendingDestructionBuffers := [] }) = r at h
  have h0 : Shrinks bufs s { s with PendingDestructionBuffers := [] } :=
    ⟨rfl, rfl, fun _ h => h, le_refl _, ⟨[], by simp, by simp⟩⟩
  have h1 : Shrinks bufs r.2
      { r.2 with PendingDestructionBuffers := r.1 ++ r.2.PendingDestructionBuffers } :=
    ⟨rfl, rfl, fun _ h => h, le_refl _, ⟨[], by simp, by simp⟩⟩
  exact ⟨(h0.andThen h.1).andThen h1, h.2⟩

theorem EndFrame_shrinks (env : Collaborators A) (s : MeshCache A) :
    Shrinks (s.ChunkBuffers.map (fun b => b.id)) s (EndFrame env s) := by
  unfold EndFrame
  dsimp only
  have h1 : Shrinks (s.ChunkBuffers.map (fun b => b.id)) s
      { s with CacheList := s.CacheList.EndFrame } :=
    ⟨rfl, rfl, fun _ h => h, le_refl _, ⟨[], by simp, by simp⟩⟩
  have k2 := EvictPendingFree_evicts env { s with CacheList := s.CacheList.EndFrame }
    .IndexAllocator false
  generalize (EvictPendingFree env { s with CacheList := s.CacheList.EndFrame }
    .IndexAllocator false).2 = s2 at k2
  have k3 := EvictPendingFree_evicts env s2 .VertexAllocator false
  generalize (EvictPendingFree env s2 .VertexAllocator false).2 = s3 at k3
  have k4 := destroyPendingBuffers_shrinks (s.ChunkBuffers.map (fun b => b.id)) s3
  have hch : (destroyPendingBuffers s3).ChunkBuffers = s.ChunkBuffers := by
    rw [k4.2, k3.chunk, k2.chunk]
  generalize destroyPendingBuffers s3 = s4 at k4 hch
  have h14 := ((h1.andThen (Evicts.toShrink _ k2).toShrinks).andThen
    (Evicts.toShrink _ k3).toShrinks).andThen k4.1
  split
  · exact h14.andThen ((shrinkLoop_shrinks env _ _ s4).widen
      (fun b hb => by rw [hch] at hb; exact hb))
  · exact h14

/-! ### Consequences for the log and the counter -/

theorem FreesPendingOnlyIn.of_log {P : Event → Prop} {bufs : List Nat} {s s' : MeshCache A}
    (h : LogExt P s s')
    (hP : ∀ k owner size b offset freed, P (Event.Free k owner true size b offset freed) →
      b ∈ bufs) : FreesPendingOnlyIn bufs s s' := by
  obtain ⟨l, hl, hall⟩ := h
  exact ⟨l, hl, fun k owner size b offset freed hm => hP _ _ _ _ _ _ (hall _ hm)⟩

theorem allocBuffer_log (env : Collaborators A) (s : MeshCache A) (k : BufferKind)
    (size : Nat) (w : Bool) :
    LogExt (fun e => e.allocOnly = true) s (allocBuffer env s k size w).2 := by
  rcases allocBuffer_outcome env s k size w with hk | ⟨_, b, hb, _⟩
  · exact hk.log
  · exact hb.log

theorem allocBuffer_counter (env : Collaborators A) (s : MeshCache A) (k : BufferKind)
    (size : Nat) (w : Bool) :
    s.VBSizeEvictedInMap ≤ (allocBuffer env s k size w).2.VBSizeEvictedInMap := by
  rcases allocBuffer_outcome env s k size w with hk | ⟨_, b, hb, _⟩
  · exact hk.counter
  · exact hb.counter

theorem Free_counter (env : Collaborators A) (s : MeshCache A) (k : BufferKind)
    (owner : Option Nat) (pending : Bool) (size b off : Nat) :
    (s.Free env k owner pending size b off).2.VBSizeEvictedInMap = s.VBSizeEvictedInMap := by
  cases k <;> rfl

theorem AllocCacheItem_counter (env : Collaborators A) (s : MeshCache A) (meshType : MeshType)
    (vertexBufferSize indexCount : Nat) (w : Bool) (hm : s.Mapped = true) :
    s.VBSizeEvictedInMap ≤
      (AllocCacheItem env s meshType vertexBufferSize indexCount w).2.2.VBSizeEvictedInMap := by
  unfold AllocCacheItem
  simp only [hm, Bool.not_true, Bool.false_eq_true, if_false, Bool.false_and]
  have hv := allocBuffer_counter env s .Vertex vertexBufferSize w
  generalize allocBuffer env s .Vertex vertexBufferSize w = v at hv
  rcases v with ⟨ov, sv⟩
  cases ov with
  | none => exact hv
  | some r =>
    rcases r with ⟨pvb, vbOffset⟩
    dsimp only
    have hi := allocBuffer_counter env sv .Index (indexCount * sizeofIndexType) w
    generalize allocBuffer env sv .Index (indexCount * sizeofIndexType) w = i at hi
    rcases i with ⟨oi, si⟩
    cases oi with
    | none =>
      dsimp only
      rw [Free_counter]
      exact le_trans hv hi
    | some r2 =>
      rcases r2 with ⟨pib, ibOffset⟩
      dsimp only
      split
      · exact le_trans hv hi
      · dsimp only
        rw [Free_counter, Free_counter]
        exact le_trans hv hi

/-! ### The fuel of the loops is enough -/

theorem Evict_slot (env : Collaborators A) (s : MeshCache A) (p : MeshCacheItem)
    (a : Option AllocAddrRef) (t : MeshCacheListType) (ht : t ≠ .MCL_PendingFree) :
    (Evict env s p a).2.CacheList.GetSlot t =
      (s.CacheList.GetSlot t).filter (fun q => q.id != p.id) := by
  cases h : p.FencePending
  · rw [Evict_clear_eq env s p a h]
    cases t <;> rfl
  · rw [Evict_pending_eq env s p a h]
    cases t <;> first | rfl | exact absurd rfl ht

theorem length_filter_lt_of_mem (xs : List MeshCacheItem) (p : MeshCacheItem) (hp : p ∈ xs) :
    (xs.filter (fun q => q.id != p.id)).length < xs.length := by
  induction xs with
  | nil => cases hp
  | cons x rest ih =>
    rcases List.mem_cons.mp hp with h | h
    · subst h
      have : (rest.filter (fun q => q.id != p.id)).length ≤ rest.length :=
        List.length_filter_le _ _
      simp
      omega
    · have := ih h
      by_cases hx : (x.id != p.id) = true
      · simp [List.filter, hx]; omega
      · simp only [Bool.not_eq_true] at hx
        simp [List.filter, hx]; omega

theorem mruWalk_fuel (env : Collaborators A) (k : BufferKind) (size fuel : Nat)
    (s : MeshCache A) (h : s.CacheList.PrevFrame.length ≤ fuel) :
    allocBuffer.mruWalk env k size (fuel + 1) s = allocBuffer.mruWalk env k size fuel s := by
  induction fuel generalizing s with
  | zero =>
    have he : s.CacheList.PrevFrame = [] := List.length_eq_zero.mp (Nat.le_zero.mp h)
    simp [allocBuffer.mruWalk, he]
  | succ n ih =>
    rw [allocBuffer.mruWalk]
    conv => rhs; rw [allocBuffer.mruWalk]
    split
    · rfl
    · rename_i p hp
      dsimp only
      split
      · rfl
      · apply ih
        have hslot := Evict_slot env s p (some (allocatorOf k)) .MCL_PrevFrame (by decide)
        simp only [MeshCacheListSet.GetSlot] at hslot
        rw [hslot]
        have := length_filter_lt_of_mem _ p (List.mem_of_find?_eq_some hp)
        omega

theorem WaitFence_slot_ids (s : MeshCache A) (p : MeshCacheItem) (t : MeshCacheListType) :
    ((s.WaitFence p).2.CacheList.GetSlot t).map (fun q => q.id) =
      (s.CacheList.GetSlot t).map (fun q => q.id) := by
  cases t <;>
    · simp only [MeshCache.WaitFence, MeshCacheListSet.mapSlots, MeshCacheListSet.GetSlot,
        List.map_map]
      apply List.map_congr_left
      intro q _
      simp only [Function.comp]
      split <;> rfl

theorem thisFrameWalk_fuel (env : Collaborators A) (k : BufferKind) (size : Nat) (w : Bool)
    (fuel : Nat) (s : MeshCache A) (h : s.CacheList.ThisFrame.length ≤ fuel) :
    allocBuffer.thisFrameWalk env k size w (fuel + 1) s =
      allocBuffer.thisFrameWalk env k size w fuel s := by
  induction fuel generalizing s with
  | zero =>
    have he : s.CacheList.ThisFrame = [] := List.length_eq_zero.mp (Nat.le_zero.mp h)
    simp [allocBuffer.thisFrameWalk, he]
  | succ n ih =>
    rw [allocBuffer.thisFrameWalk]
    conv => rhs; rw [allocBuffer.thisFrameWalk]
    split
    · split
      · rfl
      · rename_i p rest hp
        dsimp only
        generalize hw' : (if p.FencePending = true then s.WaitFence p else (p, s)) = wt
        split
        · rfl
        · apply ih
          have hw : wt.1.id = p.id ∧
              (wt.2.CacheList.ThisFrame).map (fun q => q.id) =
                (s.CacheList.ThisFrame).map (fun q => q.id) := by
            rw [← hw']
            split
            · exact ⟨rfl, WaitFence_slot_ids s p .MCL_ThisFrame⟩
            · exact ⟨rfl, rfl⟩
          have hslot := Evict_slot env wt.2 wt.1 (some (allocatorOf k)) .MCL_ThisFrame (by decide)
          simp only [MeshCacheListSet.GetSlot] at hslot
          rw [hslot]
          have hlen : wt.2.CacheList.ThisFrame.length = s.CacheList.ThisFrame.length := by
            have := congrArg List.length hw.2
            simpa using this
          obtain ⟨q, hq, hqid⟩ : ∃ q ∈ wt.2.CacheList.ThisFrame, q.id = p.id := by
            have hmem : p.id ∈ (wt.2.CacheList.ThisFrame).map (fun q => q.id) := by
              rw [hw.2, hp]; simp
            obtain ⟨q, hq, hqid⟩ := List.mem_map.mp hmem
            exact ⟨q, hq, hqid⟩
          have hlt := length_filter_lt_of_mem wt.2.CacheList.ThisFrame q hq
          rw [hqid, ← hw.1] at hlt
          rw [hp] at hlen h
          simp only [List.length_cons] at hlen h
          omega
    · rfl

theorem DestroyBuffer_chunk (env : Collaborators A) (s : MeshCache A) (k : BufferKind)
    (p : MeshBuffer) (d : Bool) : (s.DestroyBuffer env k p d).ChunkBuffers = s.ChunkBuffers := by
  unfold MeshCache.DestroyBuffer
  dsimp only
  split <;> cases k <;> rfl

theorem shrinkLoop_chunk_length (env : Collaborators A) (s : MeshCache A) (p : MeshBuffer)
    (d : Bool) :
    ((evictMeshesInBuffer env { s with ChunkBuffers := s.ChunkBuffers.dropLast } p.id).2.DestroyBuffer
        env p.BufferType p d).ChunkBuffers = s.ChunkBuffers.dropLast := by
  rw [DestroyBuffer_chunk]
  exact (evictMeshesInBuffer_keeps env _ p.id).chunk

theorem shrinkLoop_fuel (env : Collaborators A) (fuel : Nat) (extraSpace : Int)
    (s : MeshCache A) (h : s.ChunkBuffers.length ≤ fuel) :
    EndFrame.shrinkLoop env (fuel + 1) extraSpace s = EndFrame.shrinkLoop env fuel extraSpace s := by
  induction fuel generalizing s extraSpace with
  | zero =>
    have he : s.ChunkBuffers = [] := List.length_eq_zero.mp (Nat.le_zero.mp h)
    simp [EndFrame.shrinkLoop, he]
  | succ n ih =>
    rw [EndFrame.shrinkLoop]
    conv => rhs; rw [EndFrame.shrinkLoop]
    split
    · rfl
    · rename_i p hp
      split
      · dsimp only
        apply ih
        have hlen : s.ChunkBuffers.dropLast.length ≤ n := by
          rw [List.length_dropLast]; omega
        split
        · dsimp only
          rw [shrinkLoop_chunk_length]; exact hlen
        · rw [shrinkLoop_chunk_length]; exact hlen
      · rfl

theorem EvictLRULoop_fuel (env : Collaborators A) (type : MeshCacheListType)
    (a : AllocAddrRef) (size fuel : Nat) (s : MeshCache A) (ht : type ≠ .MCL_PendingFree)
    (h : (s.CacheList.GetSlot type).length ≤ fuel) :
    EvictLRULoop env type a size (fuel + 1) s = EvictLRULoop env type a size fuel s := by
  induction fuel generalizing s with
  | zero =>
    have he : s.CacheList.GetSlot type = [] := List.length_eq_zero.mp (Nat.le_zero.mp h)
    simp [EvictLRULoop, he]
  | succ n ih =>
    rw [EvictLRULoop]
    conv => rhs; rw [EvictLRULoop]
    split
    · rfl
    · rename_i p rest hp
      dsimp only
      split
      · rfl
      · apply ih
        rw [Evict_slot env s p (some a) type ht]
        have := length_filter_lt_of_mem (s.CacheList.GetSlot type) p (by rw [hp]; simp)
        omega

theorem EvictLRUTillLimitLoop_fuel (env : Collaborators A) (type : MeshCacheListType)
    (a : AllocAddrRef) (size limit fuel : Nat) (s : MeshCache A)
    (ht : type ≠ .MCL_PendingFree) (h : (s.CacheList.GetSlot type).length ≤ fuel) :
    EvictLRUTillLimitLoop env type a size limit (fuel + 1) s =
      EvictLRUTillLimitLoop env type a size limit fuel s := by
  induction fuel generalizing s with
  | zero =>
    have he : s.CacheList.GetSlot type = [] := List.length_eq_zero.mp (Nat.le_zero.mp h)
    simp [EvictLRUTillLimitLoop, he]
  | succ n ih =>
    rw [EvictLRUTillLimitLoop]
    conv => rhs; rw [EvictLRUTillLimitLoop]
    split
    · rfl
    · rename_i p rest hp
      split
      · dsimp only
        split
        · rfl
        · apply ih
          rw [Evict_slot env s p (some a) type ht]
          have := length_filter_lt_of_mem (s.CacheList.GetSlot type) p (by rw [hp]; simp)
          omega
      · rfl

/-! ### The scan of `evictMeshesInBuffer` ends within its fuel -/

theorem Free_lists (env : Collaborators A) (s : MeshCache A) (k : BufferKind)
    (owner : Option Nat) (pending : Bool) (size b off : Nat) :
    (s.Free env k owner pending size b off).2.CacheList = s.CacheList := by
  cases k <;> rfl

theorem release_slot (env : Collaborators A) (s : MeshCache A) (b : Nat) (p : MeshCacheItem)
    (t : MeshCacheListType) :
    (evictMeshesInBuffer.release env s b p).CacheList.GetSlot t =
      (s.CacheList.GetSlot t).map (nullify b p) := by
  have hmap : ∀ (xs : List MeshCacheItem) (f : MeshCacheItem → MeshCacheItem),
      (∀ q, f q = nullify b p q) → xs.map f = xs.map (nullify b p) :=
    fun xs f hf => List.map_congr_left (fun q _ => hf q)
  unfold evictMeshesInBuffer.release
  by_cases hv : p.pVertexBuffer = some b <;> by_cases hi : p.pIndexBuffer = some b
  · simp only [hv, hi, if_true]
    cases t <;>
      · simp only [MeshCache.clearIndexBuffer, MeshCache.clearVertexBuffer, Free_lists,
          MeshCacheListSet.mapSlots, MeshCacheListSet.GetSlot, List.map_map]
        apply hmap
        intro q
        simp only [Function.comp, nullify, hv, hi, if_true]
        by_cases hq : (q.id == p.id) = true <;> simp [hq]
  · simp only [hv, hi, if_true, if_false]
    cases t <;>
      · simp only [MeshCache.clearVertexBuffer, Free_lists,
          MeshCacheListSet.mapSlots, MeshCacheListSet.GetSlot]
        apply hmap
        intro q
        simp only [nullify, hv, hi, if_true, if_false]
  · simp only [hv, hi, if_true, if_false]
    cases t <;>
      · simp only [MeshCache.clearIndexBuffer, Free_lists,
          MeshCacheListSet.mapSlots, MeshCacheListSet.GetSlot]
        apply hmap
        intro q
        simp only [nullify, hv, hi, if_true, if_false]
  · simp only [hv, hi, if_false]
    have : ∀ q, q = nullify b p q := by
      intro q
      simp only [nullify, hv, hi, if_false]
      split <;> rfl
    conv => lhs; rw [← List.map_id (s.CacheList.GetSlot t)]
    exact List.map_congr_left (fun q _ => this q)

theorem nullify_refers (b : Nat) (p q : MeshCacheItem) (h : (nullify b p q).refers b = true) :
    q.refers b = true := by
  unfold nullify at h
  split at h
  · simp only [MeshCacheItem.refers, Bool.or_eq_true, beq_iff_eq] at h ⊢
    rcases h with h | h
    · left
      split at h
      · cases h
      · exact h
    · right
      split at h
      · cases h
      · exact h
  · exact h

theorem nullify_husk (b : Nat) (p : MeshCacheItem) :
    (nullify b p { p with MType := MeshType.Mesh_Destroyed }).refers b = false := by
  simp only [nullify, beq_self_eq_true, if_true, MeshCacheItem.refers, Bool.or_eq_false_iff,
    beq_eq_false_iff_ne, ne_eq]
  constructor
  · split
    · simp
    · assumption
  · split
    · simp
    · assumption

theorem countP_map_nullify_le (b : Nat) (p : MeshCacheItem) (xs : List MeshCacheItem) :
    (xs.map (nullify b p)).countP (fun q => q.refers b) ≤ xs.countP (fun q => q.refers b) := by
  induction xs with
  | nil => simp
  | cons x rest ih =>
    simp only [List.map_cons, List.countP_cons]
    have : (if (nullify b p x).refers b = true then 1 else 0) ≤
        (if x.refers b = true then 1 else 0) := by
      by_cases h : (nullify b p x).refers b = true
      · simp [h, nullify_refers b p x h]
      · simp [h]
    omega

theorem countP_filter_lt_of_mem (b : Nat) (xs : List MeshCacheItem) (p : MeshCacheItem)
    (hp : p ∈ xs) (href : p.refers b = true) :
    (xs.filter (fun q => q.id != p.id)).countP (fun q => q.refers b) <
      xs.countP (fun q => q.refers b) := by
  induction xs with
  | nil => cases hp
  | cons x rest ih =>
    have hle : (rest.filter (fun q => q.id != p.id)).countP (fun q => q.refers b) ≤
        rest.countP (fun q => q.refers b) := by
      rw [List.countP_filter]
      exact List.countP_mono_left (fun q _ h => by simp at h; exact h.1)
    rcases List.mem_cons.mp hp with h | h
    · subst h
      simp [List.countP_cons, href]
      omega
    · have := ih h
      by_cases hx : (x.id != p.id) = true
      · simp only [List.filter, hx, List.countP_cons]; omega
      · simp only [Bool.not_eq_true] at hx
        simp only [List.filter, hx, List.countP_cons]; omega

theorem Evict_slot_cases (env : Collaborators A) (s : MeshCache A) (p : MeshCacheItem)
    (a : Option AllocAddrRef) (t : MeshCacheListType) :
    (Evict env s p a).2.CacheList.GetSlot t =
        (s.CacheList.GetSlot t).filter (fun q => q.id != p.id) ∨
    ((Evict env s p a).1 = 0 ∧
      (Evict env s p a).2.CacheList.GetSlot t =
        { p with MType := MeshType.Mesh_Destroyed } ::
          (s.CacheList.GetSlot t).filter (fun q => q.id != p.id)) := by
  rcases Bool.eq_false_or_eq_true p.FencePending with h | h
  · rw [Evict_pending_eq env s p a h]
    cases t
    · left; rfl
    · left; rfl
    · left; rfl
    · right; exact ⟨rfl, rfl⟩
  · rw [Evict_clear_eq env s p a h]
    left
    cases t <;> rfl

theorem scan_round_released (env : Collaborators A) (s : MeshCache A) (b : Nat)
    (t : MeshCacheListType) (p : MeshCacheItem) (hp : p ∈ s.CacheList.GetSlot t)
    (href : p.refers b = true) :
    ((evictMeshesInBuffer.release env (Evict env s p none).2 b p).CacheList.GetSlot t).countP
        (fun q => q.refers b) < (s.CacheList.GetSlot t).countP (fun q => q.refers b) := by
  rw [release_slot]
  have hlt := countP_filter_lt_of_mem b _ p hp href
  rcases Evict_slot_cases env s p none t with h | ⟨_, h⟩
  · rw [h]
    exact lt_of_le_of_lt (countP_map_nullify_le b p _) hlt
  · rw [h]
    simp only [List.map_cons, List.countP_cons, nullify_husk]
    have := countP_map_nullify_le b p ((s.CacheList.GetSlot t).filter (fun q => q.id != p.id))
    simp only [Bool.false_eq_true, if_false]
    omega

theorem scan_round_evicted (env : Collaborators A) (s : MeshCache A) (b : Nat)
    (t : MeshCacheListType) (p : MeshCacheItem) (hp : p ∈ s.CacheList.GetSlot t)
    (href : p.refers b = true) (hne : (Evict env s p none).1 ≠ 0) :
    ((Evict env s p none).2.CacheList.GetSlot t).countP (fun q => q.refers b) <
      (s.CacheList.GetSlot t).countP (fun q => q.refers b) := by
  rcases Evict_slot_cases env s p none t with h | ⟨h0, _⟩
  · rw [h]
    exact countP_filter_lt_of_mem b _ p hp href
  · exact absurd h0 hne

theorem scan_fuel (env : Collaborators A) (pbuffer : Nat) (t : MeshCacheListType)
    (fuel : Nat) (acc : Bool × MeshCache A)
    (h : (acc.2.CacheList.GetSlot t).countP (fun q => q.refers pbuffer) ≤ fuel) :
    evictMeshesInBuffer.scan env pbuffer t (fuel + 1) acc =
      evictMeshesInBuffer.scan env pbuffer t fuel acc := by
  induction fuel generalizing acc with
  | zero =>
    have h0 : (acc.2.CacheList.GetSlot t).countP (fun q => q.refers pbuffer) = 0 :=
      Nat.le_zero.mp h
    have hnone : (acc.2.CacheList.GetSlot t).find? (fun q => q.refers pbuffer) = none := by
      rw [List.find?_eq_none]
      intro q hq
      exact (List.countP_eq_zero.mp h0) q hq
    simp [evictMeshesInBuffer.scan, hnone]
  | succ n ih =>
    rw [evictMeshesInBuffer.scan]
    conv => rhs; rw [evictMeshesInBuffer.scan]
    split
    · rfl
    · rename_i p hp
      have hmem : p ∈ acc.2.CacheList.GetSlot t := List.mem_of_find?_eq_some hp
      have href : p.refers pbuffer = true := by
        have := List.find?_some hp
        simpa using this
      dsimp only
      split
      · apply ih
        have := scan_round_released env acc.2 pbuffer t p hmem href
        dsimp only
        omega
      · rename_i hne
        apply ih
        have := scan_round_evicted env acc.2 pbuffer t p hmem href hne
        dsimp only
        omega

/-! ### Which items the stages of `allocBuffer` evict -/

theorem EvictsOnly.enlarge {E E' : List Nat} (h : ∀ i ∈ E, i ∈ E') (ev : Event)
    (he : EvictsOnly E ev) : EvictsOnly E' ev :=
  ⟨he.1, fun id t c hc => h id (he.2 id t c hc)⟩

theorem Removes.none (s : MeshCache A) : Removes [] s s :=
  ⟨fun t _ => by simp, LogExt.lrefl _ _⟩

theorem Removes.join {E1 E2 : List Nat} {s1 s2 s3 : MeshCache A} (h1 : Removes E1 s1 s2)
    (h2 : Removes E2 s2 s3) : Removes (E1 ++ E2) s1 s3 := by
  refine ⟨?_, ?_⟩
  · intro t ht
    rw [h2.slots t ht, h1.slots t ht, List.filter_filter]
    apply List.filter_congr
    intro q _
    simp only [List.contains_eq_any_beq, List.any_append, Bool.not_or]
    exact Bool.and_comm _ _
  · exact (h1.log.lmono (EvictsOnly.enlarge (fun i hi => List.mem_append_left _ hi))).ltrans
      (h2.log.lmono (EvictsOnly.enlarge (fun i hi => List.mem_append_right _ hi)))

theorem Removes.silent {s s' : MeshCache A} (hl : s'.CacheList = s.CacheList)
    (hlog : LogExt (fun ev => (∃ k size ok, ev = Event.Alloc k size ok) ∨
      ∃ k size ty ok, ev = Event.Create k size ty ok) s s') : Removes [] s s' := by
  refine ⟨fun t _ => by simp [hl], hlog.lmono ?_⟩
  intro ev hev
  rcases hev with ⟨k, size, ok, rfl⟩ | ⟨k, size, ty, ok, rfl⟩ <;> exact ⟨by simp, by simp⟩

theorem Evict_no_wait (env : Collaborators A) (s : MeshCache A) (p : MeshCacheItem)
    (a : Option AllocAddrRef) : LogExt (EvictsOnly [p.id]) s (Evict env s p a).2 := by
  rcases Bool.eq_false_or_eq_true p.FencePending with h | h
  · rw [Evict_pending_eq env s p a h]
    refine ⟨_, rfl, ?_⟩
    intro e he
    simp at he
    rcases he with h | h <;> simp [h, EvictsOnly]
  · rw [Evict_clear_eq env s p a h]
    refine ⟨_, by simp only [List.append_assoc]; rfl, ?_⟩
    intro e he
    cases hv : p.pVertexBuffer <;> cases hi : p.pIndexBuffer <;>
      simp [hv, hi] at he <;> rcases he with h | h | h | h <;>
      simp [h, EvictsOnly]

theorem Evict_removes (env : Collaborators A) (s : MeshCache A) (p : MeshCacheItem)
    (a : Option AllocAddrRef) : Removes [p.id] s (Evict env s p a).2 := by
  refine ⟨?_, Evict_no_wait env s p a⟩
  intro t ht
  rw [Evict_slot env s p a t ht]
  apply List.filter_congr
  intro q _
  by_cases h : q.id = p.id <;> simp [bne, h]

theorem Removes.tier_sub {E : List Nat} {s s' : MeshCache A} (h : Removes E s s')
    (t : MeshCacheListType) (ht : t ≠ .MCL_PendingFree) (id : Nat) (hid : id ∈ tierIds s' t) :
    id ∈ tierIds s t := by
  unfold tierIds at hid ⊢
  rw [h.slots t ht] at hid
  obtain ⟨q, hq, rfl⟩ := List.mem_map.mp hid
  exact List.mem_map.mpr ⟨q, (List.mem_filter.mp hq).1, rfl⟩

theorem EvictPendingFreeLoop_removes (env : Collaborators A) (a : AllocAddrRef)
    (xs : List MeshCacheItem) (acc : Nat × MeshCache A) :
    ∃ E, Removes E acc.2 (EvictPendingFreeLoop env a false xs acc).2 ∧
      ∀ id ∈ E, id ∈ xs.map (fun q => q.id) := by
  induction xs generalizing acc with
  | nil => exact ⟨[], Removes.none _, by simp⟩
  | cons p rest ih =>
    simp only [EvictPendingFreeLoop, Bool.false_and, Bool.false_eq_true, if_false]
    split
    · obtain ⟨E, hE, hsub⟩ := ih (acc.1 + (Evict env acc.2 p (some a)).1,
        (Evict env acc.2 p (some a)).2)
      refine ⟨[p.id] ++ E, (Evict_removes env acc.2 p (some a)).join hE, ?_⟩
      intro id hid
      rcases List.mem_append.mp hid with h | h
      · simp at h; simp [h]
      · exact List.mem_cons_of_mem _ (hsub id h)
    · obtain ⟨E, hE, hsub⟩ := ih (acc.1, acc.2)
      exact ⟨E, hE, fun id hid => List.mem_cons_of_mem _ (hsub id hid)⟩

theorem EvictLRULoop_removes (env : Collaborators A) (type : MeshCacheListType)
    (a : AllocAddrRef) (size fuel : Nat) (s : MeshCache A) (ht : type ≠ .MCL_PendingFree) :
    ∃ E, Removes E s (EvictLRULoop env type a size fuel s).2 ∧ ∀ id ∈ E, id ∈ tierIds s type := by
  induction fuel generalizing s with
  | zero => exact ⟨[], Removes.none _, by simp⟩
  | succ n ih =>
    unfold EvictLRULoop
    split
    · exact ⟨[], Removes.none _, by simp⟩
    · rename_i p rest hp
      dsimp only
      have hr := Evict_removes env s p (some a)
      have hpid : p.id ∈ tierIds s type := by
        unfold tierIds; rw [hp]; simp
      split
      · exact ⟨[p.id], hr, fun id hid => by simp at hid; rw [hid]; exact hpid⟩
      · obtain ⟨E, hE, hsub⟩ := ih (Evict env s p (some a)).2
        refine ⟨[p.id] ++ E, hr.join hE, ?_⟩
        intro id hid
        rcases List.mem_append.mp hid with h | h
        · simp at h; rw [h]; exact hpid
        · exact hr.tier_sub type ht id (hsub id h)

theorem EvictLRUTillLimitLoop_removes (env : Collaborators A) (type : MeshCacheListType)
    (a : AllocAddrRef) (size limit fuel : Nat) (s : MeshCache A)
    (ht : type ≠ .MCL_PendingFree) :
    ∃ E, Removes E s (EvictLRUTillLimitLoop env type a size limit fuel s).2 ∧
      ∀ id ∈ E, id ∈ tierIds s type := by
  induction fuel generalizing s with
  | zero => exact ⟨[], Removes.none _, by simp⟩
  | succ n ih =>
    unfold EvictLRUTillLimitLoop
    split
    · exact ⟨[], Removes.none _, by simp⟩
    · rename_i p rest hp
      split
      · dsimp only
        have hr := Evict_removes env s p (some a)
        have hpid : p.id ∈ tierIds s type := by
          unfold tierIds; rw [hp]; simp
        split
        · exact ⟨[p.id], hr, fun id hid => by simp at hid; rw [hid]; exact hpid⟩
        · obtain ⟨E, hE, hsub⟩ := ih (Evict env s p (some a)).2
          refine ⟨[p.id] ++ E, hr.join hE, ?_⟩
          intro id hid
          rcases List.mem_append.mp hid with h | h
          · simp at h; rw [h]; exact hpid
          · exact hr.tier_sub type ht id (hsub id h)
      · exact ⟨[], Removes.none _, by simp⟩

theorem ClearInPrevFrame.earlier {E : List Nat} {s s' : MeshCache A} (h : Removes E s s')
    (id : Nat) (hid : ClearInPrevFrame s' id) : ClearInPrevFrame s id := by
  obtain ⟨p, hp, hpid, hclear⟩ := hid
  have hs := h.slots .MCL_PrevFrame (by decide)
  simp only [MeshCacheListSet.GetSlot] at hs
  rw [hs] at hp
  exact ⟨p, (List.mem_filter.mp hp).1, hpid, hclear⟩

theorem mruWalk_removes (env : Collaborators A) (k : BufferKind) (size fuel : Nat)
    (s : MeshCache A) :
    ∃ E, Removes E s (allocBuffer.mruWalk env k size fuel s).2 ∧
      ∀ id ∈ E, ClearInPrevFrame s id := by
  induction fuel generalizing s with
  | zero => exact ⟨[], Removes.none _, by simp⟩
  | succ n ih =>
    unfold allocBuffer.mruWalk
    split
    · exact ⟨[], Removes.none _, by simp⟩
    · rename_i p hp
      dsimp only
      have hr := Evict_removes env s p (some (allocatorOf k))
      have hpc : ClearInPrevFrame s p.id :=
        ⟨p, List.mem_of_find?_eq_some hp, rfl, by simpa using List.find?_some hp⟩
      split
      · exact ⟨[p.id], hr, fun id hid => by simp at hid; rw [hid]; exact hpc⟩
      · obtain ⟨E, hE, hsub⟩ := ih (Evict env s p (some (allocatorOf k))).2
        refine ⟨[p.id] ++ E, hr.join hE, ?_⟩
        intro id hid
        rcases List.mem_append.mp hid with h | h
        · simp at h; rw [h]; exact hpc
        · exact ClearInPrevFrame.earlier hr id (hsub id h)

theorem StaleOrClear.back {E : List Nat} {s s' : MeshCache A} (h : Removes E s s')
    (id : Nat) (hid : StaleOrClear s' id) : StaleOrClear s id := by
  rcases hid with h1 | h1
  · exact Or.inl (h.tier_sub .MCL_LRUTail (by decide) id h1)
  · exact Or.inr (ClearInPrevFrame.earlier h id h1)

theorem Removes.chain {E1 E2 : List Nat} {s t u : MeshCache A} (h1 : Removes E1 s t)
    (q1 : ∀ id ∈ E1, StaleOrClear s id) (h2 : Removes E2 t u)
    (q2 : ∀ id ∈ E2, StaleOrClear t id) :
    ∃ E, Removes E s u ∧ ∀ id ∈ E, StaleOrClear s id := by
  refine ⟨E1 ++ E2, h1.join h2, ?_⟩
  intro id hid
  rcases List.mem_append.mp hid with h | h
  · exact q1 id h
  · exact StaleOrClear.back h1 id (q2 id h)

theorem Alloc_lists (env : Collaborators A) (s : MeshCache A) (k : BufferKind) (size : Nat) :
    (s.Alloc env k size).2.CacheList = s.CacheList := by
  unfold MeshCache.Alloc
  split
  · cases k <;> rfl
  · rfl

theorem Alloc_removes (env : Collaborators A) (s : MeshCache A) (k : BufferKind) (size : Nat) :
    Removes [] s (s.Alloc env k size).2 :=
  Removes.silent (Alloc_lists env s k size)
    ((Alloc_log env s k size).lmono (fun _ h => Or.inl (by
      obtain ⟨ok, rfl⟩ := h
      exact ⟨k, size, ok, rfl⟩)))

theorem CreateBuffer_removes (env : Collaborators A) (s : MeshCache A) (k : BufferKind)
    (size : Nat) (type : AllocType) :
    Removes [] s (s.CreateBuffer env k size type).2 ∧
      ∀ b, Removes [] s { (s.CreateBuffer env k size type).2 with
        ChunkBuffers := (s.CreateBuffer env k size type).2.ChunkBuffers ++ [b] } := by
  unfold MeshCache.CreateBuffer
  split
  · constructor
    · cases k <;> exact Removes.silent rfl ⟨_, rfl, by simp⟩
    · intro b
      cases k <;> exact Removes.silent rfl ⟨_, rfl, by simp⟩
  · exact ⟨Removes.silent rfl ⟨_, rfl, by simp⟩, fun b => Removes.silent rfl ⟨_, rfl, by simp⟩⟩

theorem limitStage_removes (env : Collaborators A) (s : MeshCache A) (k : BufferKind)
    (size : Nat) :
    ∃ E, Removes E s (allocBuffer.limitStage env s k size).2 ∧
      ∀ id ∈ E, StaleOrClear s id := by
  obtain ⟨E, hE, hsub⟩ := EvictLRUTillLimitLoop_removes env .MCL_LRUTail (allocatorOf k) size
    s.Params.LRUTailSize (s.CacheList.GetSlot .MCL_LRUTail).length s (by decide)
  have hq : ∀ id ∈ E, StaleOrClear s id := fun id hid => Or.inl (hsub id hid)
  unfold allocBuffer.limitStage
  unfold EvictLRUTillLimit
  generalize EvictLRUTillLimitLoop env .MCL_LRUTail (allocatorOf k) size s.Params.LRUTailSize
    (s.CacheList.GetSlot .MCL_LRUTail).length s = r at hE
  dsimp only
  split
  · exact ⟨E, hE, hq⟩
  · split
    · exact ⟨E, hE, hq⟩
    · split
      · have hc := CreateBuffer_removes env r.2 k
          (min (subUPInt r.2.Params.MemLimit (getTotalSize r.2)) (r.2.mbs k).Granularity) .AT_Chunk
        generalize r.2.CreateBuffer env k
          (min (subUPInt r.2.Params.MemLimit (getTotalSize r.2)) (r.2.mbs k).Granularity)
            .AT_Chunk = c at hc
        rcases c with ⟨o, c2⟩
        cases o with
        | none => exact Removes.chain hE hq hc.1 (by simp)
        | some b => exact Removes.chain hE hq (hc.2 b) (by simp)
      · exact ⟨E, hE, hq⟩

theorem growOrEvict_removes (env : Collaborators A) (s : MeshCache A) (k : BufferKind)
    (size : Nat) (need1 : Bool) :
    ∃ E, Removes E s (allocBuffer.growOrEvict env s k size need1).2 ∧
      ∀ id ∈ E, StaleOrClear s id := by
  unfold allocBuffer.growOrEvict
  dsimp only
  generalize hst : (if (need1 && decide (addUPInt (getTotalSize s) env.MinSupportedGranularity ≤
      s.Params.MemLimit)) = true then allocBuffer.limitStage env s k size
    else (some need1, s)) = st2
  have h2 : ∃ E, Removes E s st2.2 ∧ ∀ id ∈ E, StaleOrClear s id := by
    rw [← hst]
    split
    · exact limitStage_removes env s k size
    · exact ⟨[], Removes.none _, by simp⟩
  obtain ⟨E, hE, hq⟩ := h2
  rcases st2 with ⟨o, s2⟩
  cases o with
  | none => exact ⟨E, hE, hq⟩
  | some need2 =>
    dsimp only
    split
    · obtain ⟨E2, hE2, hsub⟩ := EvictLRULoop_removes env .MCL_LRUTail (allocatorOf k) size
        (s2.CacheList.GetSlot .MCL_LRUTail).length s2 (by decide)
      exact Removes.chain hE hq hE2 (fun id hid => Or.inl (hsub id hid))
    · exact ⟨E, hE, hq⟩

theorem afterLimitCheck_removes (env : Collaborators A) (s : MeshCache A) (k : BufferKind)
    (size : Nat) (need : Bool) :
    ∃ E, Removes E s (allocBuffer.afterLimitCheck env s k size false need).2 ∧
      ∀ id ∈ E, StaleOrClear s id := by
  unfold allocBuffer.afterLimitCheck
  generalize h4 : (if need = true then allocBuffer.mruWalk env k size s.CacheList.PrevFrame.length s
      else (need, s)) = st4
  have k4 : ∃ E, Removes E s st4.2 ∧ ∀ id ∈ E, StaleOrClear s id := by
    rw [← h4]; split
    · obtain ⟨E, hE, hc⟩ := mruWalk_removes env k size s.CacheList.PrevFrame.length s
      exact ⟨E, hE, fun id hid => Or.inr (hc id hid)⟩
    · exact ⟨[], Removes.none _, by simp⟩
  obtain ⟨E, hE, hq⟩ := k4
  have h5 : ∀ n t, allocBuffer.thisFrameWalk env k size false n t = (true, t) := by
    intro n t
    cases n <;> simp [allocBuffer.thisFrameWalk]
  simp only [h5, Bool.and_false, Bool.false_eq_true, if_false]
  rcases st4 with ⟨b4, t4⟩
  cases b4
  · simp only [Bool.false_eq_true, if_false]
    exact Removes.chain hE hq (Alloc_removes env _ k size) (by simp)
  · simp only [if_true]
    exact ⟨E, hE, hq⟩

theorem slowPath_removes (env : Collaborators A) (s : MeshCache A) (k : BufferKind)
    (size : Nat) :
    ∃ E, Removes E s (allocBuffer.slowPath env s k size false).2 ∧
      ∀ id ∈ E, EvictableWithoutWait s id := by
  unfold allocBuffer.slowPath allocBuffer.beforeLimitCheck
  dsimp only
  obtain ⟨E1, hE1, hsub1⟩ := EvictPendingFreeLoop_removes env (allocatorOf k)
    s.CacheList.PendingFree (0, s)
  have he1 : (EvictPendingFree env s (allocatorOf k) false).2 =
      (EvictPendingFreeLoop env (allocatorOf k) false s.CacheList.PendingFree (0, s)).2 := rfl
  rw [he1]
  generalize (EvictPendingFreeLoop env (allocatorOf k) false s.CacheList.PendingFree
    (0, s)).2 = s1 at hE1
  generalize (!(EvictPendingFree env s (allocatorOf k) false).1) = need1
  have hq1 : ∀ id ∈ E1, EvictableWithoutWait s id := fun id hid => Or.inl (hsub1 id hid)
  obtain ⟨E2, hE2, hq2⟩ := growOrEvict_removes env s1 k size need1
  generalize allocBuffer.growOrEvict env s1 k size need1 = b at hE2
  have h12 : ∀ id ∈ E1 ++ E2, EvictableWithoutWait s id := by
    intro id hid
    rcases List.mem_append.mp hid with h | h
    · exact hq1 id h
    · exact Or.inr (StaleOrClear.back hE1 id (hq2 id h))
  rcases b with ⟨o, s2⟩
  cases o with
  | none => exact ⟨E1 ++ E2, hE1.join hE2, h12⟩
  | some need =>
    dsimp only
    split
    · exact ⟨E1 ++ E2, hE1.join hE2, h12⟩
    · obtain ⟨E3, hE3, hq3⟩ := afterLimitCheck_removes env s2 k size need
      refine ⟨(E1 ++ E2) ++ E3, (hE1.join hE2).join hE3, ?_⟩
      intro id hid
      rcases List.mem_append.mp hid with h | h
      · exact h12 id h
      · exact Or.inr (StaleOrClear.back (hE1.join hE2) id (hq3 id h))

theorem EvictableWithoutWait.of_lists {s s' : MeshCache A} (h : s'.CacheList = s.CacheList)
    (id : Nat) (hid : EvictableWithoutWait s' id) : EvictableWithoutWait s id := by
  unfold EvictableWithoutWait StaleOrClear ClearInPrevFrame tierIds at hid ⊢
  rw [h] at hid
  exact hid

theorem allocBuffer_removes (env : Collaborators A) (s : MeshCache A) (k : BufferKind)
    (size : Nat) :
    ∃ E, Removes E s (allocBuffer env s k size false).2 ∧
      ∀ id ∈ E, EvictableWithoutWait s id := by
  unfold allocBuffer
  have ha := Alloc_removes env s k size
  have hl := Alloc_lists env s k size
  generalize s.Alloc env k size = a0 at ha hl
  rcases a0 with ⟨o, s0⟩
  cases o with
  | some r => exact ⟨[], ha, by simp⟩
  | none =>
    dsimp only
    obtain ⟨E, hE, hq⟩ := slowPath_removes env s0 k size
    refine ⟨[] ++ E, ha.join hE, ?_⟩
    intro id hid
    simp only [List.nil_append] at hid
    exact EvictableWithoutWait.of_lists hl id (hq id hid)

/-! ### The MRU walk and `AllocCacheItem` -/

theorem LogExt.both {P Q : Event → Prop} {s s' : MeshCache A} (h1 : LogExt P s s')
    (h2 : LogExt Q s s') : LogExt (fun ev => P ev ∧ Q ev) s s' := by
  obtain ⟨l1, e1, p1⟩ := h1
  obtain ⟨l2, e2, p2⟩ := h2
  have : l1 = l2 := List.append_cancel_left (e1.symm.trans e2)
  subst this
  exact ⟨l1, e1, fun ev hev => ⟨p1 ev hev, p2 ev hev⟩⟩

theorem mruWalk_exhausts (env : Collaborators A) (k : BufferKind) (size fuel : Nat)
    (s : MeshCache A) (h : s.CacheList.PrevFrame.length ≤ fuel)
    (hr : (allocBuffer.mruWalk env k size fuel s).1 = true) :
    ∀ q ∈ (allocBuffer.mruWalk env k size fuel s).2.CacheList.PrevFrame,
      q.FencePending = true := by
  induction fuel generalizing s with
  | zero =>
    have he : s.CacheList.PrevFrame = [] := List.length_eq_zero.mp (Nat.le_zero.mp h)
    simp [allocBuffer.mruWalk, he]
  | succ n ih =>
    rw [allocBuffer.mruWalk] at hr ⊢
    split at hr
    · rename_i hnone
      intro q hq
      have := List.find?_eq_none.mp hnone q hq
      simpa using this
    · rename_i p hp
      dsimp only at hr ⊢
      split at hr
      · cases hr
      · rename_i hlt
        rw [if_neg hlt]
        apply ih _ _ hr
        have hslot := Evict_slot env s p (some (allocatorOf k)) .MCL_PrevFrame (by decide)
        simp only [MeshCacheListSet.GetSlot] at hslot
        rw [hslot]
        have := length_filter_lt_of_mem _ p (List.mem_of_find?_eq_some hp)
        omega

theorem mruWalk_hit (env : Collaborators A) (k : BufferKind) (size fuel : Nat)
    (s : MeshCache A) (hr : (allocBuffer.mruWalk env k size fuel s).1 = false) :
    ∃ t p, t.CacheList.PrevFrame.find? (fun q => !q.FencePending) = some p ∧
      size ≤ (Evict env t p (some (allocatorOf k))).1 ∧
      (allocBuffer.mruWalk env k size fuel s).2 = (Evict env t p (some (allocatorOf k))).2 := by
  induction fuel generalizing s with
  | zero => simp [allocBuffer.mruWalk] at hr
  | succ n ih =>
    rw [allocBuffer.mruWalk] at hr ⊢
    split at hr
    · cases hr
    · rename_i p hp
      dsimp only at hr ⊢
      split at hr
      · rename_i hge
        rw [if_pos hge]
        exact ⟨s, p, hp, hge, rfl⟩
      · rename_i hlt
        rw [if_neg hlt]
        exact ih _ hr

theorem AllocCacheItem_entered (env : Collaborators A) (s : MeshCache A) (meshType : MeshType)
    (vertexBufferSize indexCount : Nat) (w : Bool) :
    AllocCacheItem env s meshType vertexBufferSize indexCount w =
      AllocCacheItem env (AllocCacheItem.entered s) meshType vertexBufferSize indexCount w := by
  unfold AllocCacheItem.entered
  cases hm : s.Mapped
  · simp [AllocCacheItem, LockBuffers, hm]
  · simp

theorem allocBuffer_gran (env : Collaborators A) (s : MeshCache A) (k : BufferKind)
    (size : Nat) (w : Bool) (k' : BufferKind) :
    ((allocBuffer env s k size w).2.mbs k').Granularity = (s.mbs k').Granularity := by
  rcases allocBuffer_outcome env s k size w with hk | ⟨_, b, hb, _⟩
  · exact hk.mbs_gran k'
  · exact hb.gran k'

theorem allocBuffer_mapped (env : Collaborators A) (s : MeshCache A) (k : BufferKind)
    (size : Nat) (w : Bool) : (allocBuffer env s k size w).2.Mapped = s.Mapped := by
  rcases allocBuffer_outcome env s k size w with hk | ⟨_, b, hb, _⟩
  · exact hk.mapped
  · exact hb.mapped

theorem entered_mapped (s : MeshCache A) : (AllocCacheItem.entered s).Mapped = true := by
  unfold AllocCacheItem.entered
  cases hm : s.Mapped <;> simp [LockBuffers, hm]

theorem entered_gran (s : MeshCache A) (k : BufferKind) :
    ((AllocCacheItem.entered s).mbs k).Granularity = (s.mbs k).Granularity := by
  unfold AllocCacheItem.entered
  cases hm : s.Mapped <;> cases k <;> simp [LockBuffers, MeshCache.mbs]

/-! ### The arithmetic of the shrink step -/

theorem toSPInt_of_range (n : Int) (h1 : -(2 ^ 63) ≤ n) (h2 : n < 2 ^ 63) : toSPInt n = n := by
  unfold toSPInt UPIntBits
  norm_num
  omega

theorem EndFrame_eq (env : Collaborators A) (s : MeshCache A) :
    EndFrame env s =
      if EndFrame.extraSpace (EndFrame.beforeShrink env s) >
          toSPInt ((EndFrame.beforeShrink env s).Params.MemGranularity : Int) then
        EndFrame.shrinkLoop env (EndFrame.beforeShrink env s).ChunkBuffers.length
          (EndFrame.extraSpace (EndFrame.beforeShrink env s)) (EndFrame.beforeShrink env s)
      else EndFrame.beforeShrink env s := rfl

theorem addUPInt_of_lt (a b : Nat) (h : a + b < 2 ^ 64) : addUPInt a b = a + b := by
  unfold addUPInt UPIntBits
  exact Nat.mod_eq_of_lt h

theorem extraSpace_eq (b : MeshCache A) (htotal : getTotalSize b < 2 ^ 63)
    (hexp : shrinkBase b + shrinkBase b / 4 < 2 ^ 63) :
    EndFrame.extraSpace b = shrinkSlack b := by
  unfold EndFrame.extraSpace shrinkSlack
  unfold shrinkBase at hexp ⊢
  dsimp only
  have h0 : addUPInt (b.CacheList.GetSlotSize .MCL_PrevFrame)
      (min (b.CacheList.GetSlotSize .MCL_LRUTail) b.Params.LRUTailSize) =
      b.CacheList.GetSlotSize .MCL_PrevFrame +
        min (b.CacheList.GetSlotSize .MCL_LRUTail) b.Params.LRUTailSize :=
    addUPInt_of_lt _ _ (by omega)
  rw [h0]
  generalize b.CacheList.GetSlotSize .MCL_PrevFrame +
    min (b.CacheList.GetSlotSize .MCL_LRUTail) b.Params.LRUTailSize = base at hexp ⊢
  generalize getTotalSize b = total at htotal ⊢
  have h1 : addUPInt base (base / 4) = base + base / 4 := addUPInt_of_lt _ _ (by omega)
  have h2 : toSPInt ((base + base / 4 : Nat) : Int) = ((base + base / 4 : Nat) : Int) :=
    toSPInt_of_range _ (by omega) (by omega)
  rw [h1, h2]
  exact toSPInt_of_range _ (by omega) (by omega)

theorem shrinkLoop_succ (env : Collaborators A) (n : Nat) (x : Int) (s : MeshCache A) :
    EndFrame.shrinkLoop env (n + 1) x s =
      match s.ChunkBuffers.getLast? with
      | none => s
      | some p =>
        if x > toSPInt (s.Params.MemGranularity : Int) then
          EndFrame.shrinkLoop env n (toSPInt (x - toSPInt (p.Size : Int)))
            (EndFrame.shrinkRound env s p)
        else s := by
  rw [EndFrame.shrinkLoop]
  rfl

theorem shrinkRound_chunk (env : Collaborators A) (s : MeshCache A) (p : MeshBuffer) :
    (EndFrame.shrinkRound env s p).ChunkBuffers = s.ChunkBuffers.dropLast := by
  unfold EndFrame.shrinkRound
  dsimp only
  split
  · dsimp only
    rw [shrinkLoop_chunk_length]
  · rw [shrinkLoop_chunk_length]

theorem shrinkRound_params (env : Collaborators A) (s : MeshCache A) (p : MeshBuffer) :
    (EndFrame.shrinkRound env s p).Params = s.Params := by
  unfold EndFrame.shrinkRound
  dsimp only
  have h1 := (evictMeshesInBuffer_keeps env
    { s with ChunkBuffers := s.ChunkBuffers.dropLast } p.id).params
  generalize evictMeshesInBuffer env { s with ChunkBuffers := s.ChunkBuffers.dropLast } p.id
    = r at h1
  have h2 := (DestroyBuffer_shrinks env r.2 p.BufferType p r.1 []).params
  split
  · exact h2.trans h1
  · exact h2.trans h1

theorem shrinkSpec_nil (gran slack : Int) : shrinkSpec gran slack [] = [] := rfl

theorem shrinkSpec_append (gran slack : Int) (l : List MeshBuffer) (p : MeshBuffer) :
    shrinkSpec gran slack (l ++ [p]) =
      if slack > gran then shrinkSpec gran (slack - (p.Size : Int)) l else l ++ [p] := by
  unfold shrinkSpec
  rw [List.reverse_append, List.reverse_singleton, List.singleton_append,
    shrinkSpec.fromBack]
  split
  · rfl
  · simp

theorem shrinkLoop_prefix (env : Collaborators A) (fuel : Nat) (x : Int) (s : MeshCache A) :
    ∃ removed, s.ChunkBuffers = (EndFrame.shrinkLoop env fuel x s).ChunkBuffers ++ removed := by
  induction fuel generalizing s x with
  | zero => exact ⟨[], by simp [EndFrame.shrinkLoop]⟩
  | succ n ih =>
    rw [shrinkLoop_succ]
    split
    · exact ⟨[], by simp⟩
    · rename_i p hp
      split
      · obtain ⟨removed, hr⟩ := ih (toSPInt (x - toSPInt (p.Size : Int)))
          (EndFrame.shrinkRound env s p)
        rw [shrinkRound_chunk] at hr
        refine ⟨removed ++ [p], ?_⟩
        rw [← List.append_assoc, ← hr]
        exact (List.dropLast_append_getLast? p hp).symm
      · exact ⟨[], by simp⟩

theorem shrinkLoop_spec (env : Collaborators A) (fuel : Nat) (x : Int) (s : MeshCache A)
    (hfuel : s.ChunkBuffers.length ≤ fuel) (hgran : s.Params.MemGranularity < 2 ^ 63)
    (hlo : -(2 ^ 63) ≤ x) (hhi : x < 2 ^ 63) (hsizes : ∀ p ∈ s.ChunkBuffers, p.Size < 2 ^ 63) :
    (EndFrame.shrinkLoop env fuel x s).ChunkBuffers =
      shrinkSpec (s.Params.MemGranularity : Int) x s.ChunkBuffers := by
  have hg : toSPInt (s.Params.MemGranularity : Int) = (s.Params.MemGranularity : Int) :=
    toSPInt_of_range _ (by omega) (by omega)
  induction fuel generalizing s x with
  | zero =>
    have he : s.ChunkBuffers = [] := List.length_eq_zero.mp (Nat.le_zero.mp hfuel)
    simp [EndFrame.shrinkLoop, he, shrinkSpec_nil]
  | succ n ih =>
    rw [shrinkLoop_succ]
    split
    · rename_i hnone
      rw [List.getLast?_eq_none_iff.mp hnone, shrinkSpec_nil]
    · rename_i p hp
      have hsplit := List.dropLast_append_getLast? p hp
      have hpsize : p.Size < 2 ^ 63 := hsizes p (List.mem_of_getLast?_eq_some hp)
      rw [← hsplit, shrinkSpec_append, hsplit, hg]
      split
      · rename_i hx
        have hps : toSPInt (p.Size : Int) = (p.Size : Int) :=
          toSPInt_of_range _ (by omega) (by omega)
        have hx1 : toSPInt (x - toSPInt (p.Size : Int)) = x - (p.Size : Int) := by
          rw [hps]
          exact toSPInt_of_range _ (by omega) (by omega)
        rw [hx1]
        have := ih (x - (p.Size : Int)) (EndFrame.shrinkRound env s p)
          (by rw [shrinkRound_chunk, List.length_dropLast]; omega)
          (by rw [shrinkRound_params]; exact hgran)
          (by omega) (by omega)
          (by rw [shrinkRound_chunk]
              exact fun q hq => hsizes q (List.dropLast_subset _ hq))
          (by rw [shrinkRound_params]; exact hg)
        rw [this, shrinkRound_chunk, shrinkRound_params]
      · rfl

theorem beforeShrink_chunk (env : Collaborators A) (s : MeshCache A) :
    (EndFrame.beforeShrink env s).ChunkBuffers = s.ChunkBuffers := by
  unfold EndFrame.beforeShrink
  dsimp only
  rw [(destroyPendingBuffers_shrinks [] _).2, (EvictPendingFree_evicts env _ _ _).chunk,
    (EvictPendingFree_evicts env _ _ _).chunk]

theorem beforeShrink_params (env : Collaborators A) (s : MeshCache A) :
    (EndFrame.beforeShrink env s).Params = s.Params := by
  unfold EndFrame.beforeShrink
  dsimp only
  rw [(destroyPendingBuffers_shrinks [] _).1.params, (EvictPendingFree_evicts env _ _ _).params,
    (EvictPendingFree_evicts env _ _ _).params]

theorem shrinkLoop_idle (env : Collaborators A) (fuel : Nat) (x : Int) (s : MeshCache A)
    (h : ¬ x > toSPInt (s.Params.MemGranularity : Int)) :
    EndFrame.shrinkLoop env fuel x s = s := by
  cases fuel with
  | zero => rfl
  | succ n =>
    rw [shrinkLoop_succ]
    split
    · rfl
    · exact if_neg h

theorem EndFrame_eq_shrinkLoop (env : Collaborators A) (s : MeshCache A) :
    EndFrame env s =
      EndFrame.shrinkLoop env (EndFrame.beforeShrink env s).ChunkBuffers.length
        (EndFrame.extraSpace (EndFrame.beforeShrink env s)) (EndFrame.beforeShrink env s) := by
  rw [EndFrame_eq]
  split
  · rfl
  · rename_i h
    exact (shrinkLoop_idle env _ _ _ h).symm

theorem shrinkLoop_more_fuel (env : Collaborators A) (x : Int) (s : MeshCache A) (n : Nat) :
    EndFrame.shrinkLoop env (s.ChunkBuffers.length + n) x s =
      EndFrame.shrinkLoop env s.ChunkBuffers.length x s := by
  induction n with
  | zero => rfl
  | succ m ih =>
    rw [← Nat.add_assoc, shrinkLoop_fuel env _ x s (Nat.le_add_right _ _), ih]

/-! ### Which buffers `EndFrame` destroys -/

theorem Free_keeps_of (P : Event → Prop)
    (hF : ∀ k owner pending size b off freed, P (Event.Free k owner pending size b off freed))
    (env : Collaborators A) (s : MeshCache A) (k : BufferKind)
    (owner : Option Nat) (pending : Bool) (size b off : Nat) :
    Keeps P s (s.Free env k owner pending size b off).2 := by
  cases k <;>
    exact ⟨rfl, rfl, rfl, rfl, rfl, rfl, rfl, rfl, rfl, rfl, le_refl _,
      ⟨_, rfl, by simp [hF]⟩⟩

theorem release_keeps_of (P : Event → Prop)
    (hF : ∀ k owner pending size b off freed, P (Event.Free k owner pending size b off freed))
    (env : Collaborators A) (s : MeshCache A) (pbuffer : Nat) (p : MeshCacheItem) :
    Keeps P s (evictMeshesInBuffer.release env s pbuffer p) := by
  unfold evictMeshesInBuffer.release
  generalize h1 : (if p.pVertexBuffer = some pbuffer then
      ((s.Free env .Vertex (some p.id) p.FencePending p.VBAllocSize pbuffer
        p.VBAllocOffset).2).clearVertexBuffer p.id else s) = s1
  have k1 : Keeps P s s1 := by
    rw [← h1]; split
    · exact (Free_keeps_of P hF _ _ _ _ _ _ _ _).ktrans (clearVertexBuffer_keeps _ _ _)
    · exact Keeps.krefl _ _
  dsimp only
  split
  · exact k1.ktrans ((Free_keeps_of P hF _ _ _ _ _ _ _ _).ktrans (clearIndexBuffer_keeps _ _ _))
  · exact k1

theorem scan_keeps_of (P : Event → Prop)
    (hF : ∀ k owner pending size b off freed, P (Event.Free k owner pending size b off freed))
    (hE : ∀ e : Event, e.evictOnly = true → P e)
    (env : Collaborators A) (pbuffer : Nat) (t : MeshCacheListType)
    (fuel : Nat) (acc : Bool × MeshCache A) :
    Keeps P acc.2 (evictMeshesInBuffer.scan env pbuffer t fuel acc).2 := by
  induction fuel generalizing acc with
  | zero => exact Keeps.krefl _ _
  | succ n ih =>
    unfold evictMeshesInBuffer.scan
    split
    · exact Keeps.krefl _ _
    · rename_i p _
      dsimp only
      have he : Keeps P acc.2 (Evict env acc.2 p none).2 :=
        (Evict_evicts env acc.2 p none).kmono hE
      generalize Evict env acc.2 p none = e at he
      split
      · exact (he.ktrans (release_keeps_of P hF env e.2 pbuffer p)).ktrans (ih (true, _))
      · exact he.ktrans (ih (acc.1, e.2))

theorem evictMeshesInBuffer_keeps_of (P : Event → Prop)
    (hF : ∀ k owner pending size b off freed, P (Event.Free k owner pending size b off freed))
    (hE : ∀ e : Event, e.evictOnly = true → P e)
    (env : Collaborators A) (s : MeshCache A) (pbuffer : Nat) :
    Keeps P s (evictMeshesInBuffer env s pbuffer).2 := by
  unfold evictMeshesInBuffer
  simp only [allSlots, List.foldl]
  exact (((scan_keeps_of P hF hE env pbuffer _ _ (false, s)).ktrans
    (scan_keeps_of P hF hE env pbuffer _ _ _)).ktrans
    (scan_keeps_of P hF hE env pbuffer _ _ _)).ktrans (scan_keeps_of P hF hE env pbuffer _ _ _)

theorem DeletesIn.of_free (ids : List Nat) (k : BufferKind) (owner : Option Nat)
    (pending : Bool) (size b off freed : Nat) :
    DeletesIn ids (Event.Free k owner pending size b off freed) := by
  intro id h; cases h

theorem DeletesIn.of_evictOnly (ids : List Nat) (e : Event) (h : e.evictOnly = true) :
    DeletesIn ids e := by
  intro id he
  rw [he] at h
  simp [Event.evictOnly] at h

theorem DestroysOnly.same (bufs : List MeshBuffer) (s : MeshCache A) : DestroysOnly bufs s s :=
  fun h => ⟨h, fun _ _ hb _ => hb, LogExt.lrefl _ _⟩

theorem DestroysOnly.comp {bufs : List MeshBuffer} {s1 s2 s3 : MeshCache A}
    (h1 : DestroysOnly bufs s1 s2) (h2 : DestroysOnly bufs s2 s3) : DestroysOnly bufs s1 s3 := by
  intro h
  obtain ⟨a1, b1, c1⟩ := h1 h
  obtain ⟨a2, b2, c2⟩ := h2 a1
  exact ⟨a2, fun k b hb hn => b2 k b (b1 k b hb hn) hn, c1.ltrans c2⟩

theorem DestroysOnly.of_keeps {bufs : List MeshBuffer} {s s' : MeshCache A}
    (h : Keeps (DeletesIn (bufs.map (fun c => c.id))) s s') : DestroysOnly bufs s s' := by
  intro hl
  refine ⟨?_, ?_, h.log⟩
  · rw [h.chunk, h.pendingBuffers]; exact hl
  · intro k b hb _
    cases k
    · simp only [MeshCache.mbs] at hb ⊢; rw [h.vbuffers]; exact hb
    · simp only [MeshCache.mbs] at hb ⊢; rw [h.ibuffers]; exact hb

theorem DestroyBuffer_kept (env : Collaborators A) (s : MeshCache A) (k k' : BufferKind)
    (p b : MeshBuffer) (d : Bool) (hb : b ∈ (s.mbs k').Buffers) (hne : b.id ≠ p.id) :
    b ∈ ((s.DestroyBuffer env k p d).mbs k').Buffers := by
  unfold MeshCache.DestroyBuffer
  dsimp only
  split <;> cases k <;> cases k' <;>
    simp_all [MeshCache.setMbs, MeshCache.mbs, List.mem_filter]

theorem DestroyBuffer_lists (env : Collaborators A) (s : MeshCache A) (k : BufferKind)
    (p : MeshBuffer) (d : Bool) :
    (s.DestroyBuffer env k p d).PendingDestructionBuffers = s.PendingDestructionBuffers := by
  unfold MeshCache.DestroyBuffer
  dsimp only
  split <;> cases k <;> rfl

theorem DestroyBuffer_deletes (env : Collaborators A) (s : MeshCache A) (k : BufferKind)
    (p : MeshBuffer) (d : Bool) (ids : List Nat) (hp : p.id ∈ ids) :
    LogExt (DeletesIn ids) s (s.DestroyBuffer env k p d) := by
  unfold MeshCache.DestroyBuffer
  dsimp only
  split
  · cases k <;> exact ⟨[Event.Delete p.id], rfl, by
      intro e he id hid
      simp only [List.mem_singleton] at he
      rw [he] at hid
      cases hid
      exact hp⟩
  · cases k <;> exact ⟨[], by simp [MeshCache.setMbs], by simp⟩

theorem destroyPendingBuffers_fold (ids : List Nat) (xs : List MeshBuffer)
    (acc : List MeshBuffer × MeshCache A) (hx : ∀ p ∈ xs, p.id ∈ ids) :
    (xs.foldl destroyPendingBuffers.step acc).2.ChunkBuffers = acc.2.ChunkBuffers ∧
    (xs.foldl destroyPendingBuffers.step acc).2.PendingDestructionBuffers =
      acc.2.PendingDestructionBuffers ∧
    (∀ k, (xs.foldl destroyPendingBuffers.step acc).2.mbs k = acc.2.mbs k) ∧
    (∀ b ∈ (xs.foldl destroyPendingBuffers.step acc).1, b ∈ acc.1 ∨ b ∈ xs) ∧
    LogExt (DeletesIn ids) acc.2 (xs.foldl destroyPendingBuffers.step acc).2 := by
  induction xs generalizing acc with
  | nil => exact ⟨rfl, rfl, fun _ => rfl, fun b hb => Or.inl hb, LogExt.lrefl _ _⟩
  | cons p rest ih =>
    simp only [List.foldl]
    obtain ⟨a, b, c, d, e⟩ := ih (destroyPendingBuffers.step acc p)
      (fun q hq => hx q (List.mem_cons_of_mem _ hq))
    have h1 : (destroyPendingBuffers.step acc p).2.ChunkBuffers = acc.2.ChunkBuffers ∧
        (destroyPendingBuffers.step acc p).2.PendingDestructionBuffers =
          acc.2.PendingDestructionBuffers ∧
        (∀ k, (destroyPendingBuffers.step acc p).2.mbs k = acc.2.mbs k) ∧
        (∀ b ∈ (destroyPendingBuffers.step acc p).1, b ∈ acc.1 ∨ b = p) ∧
        LogExt (DeletesIn ids) acc.2 (destroyPendingBuffers.step acc p).2 := by
      unfold destroyPendingBuffers.step
      dsimp only
      split
      · refine ⟨rfl, rfl, fun _ => rfl, ?_, LogExt.lrefl _ _⟩
        intro b hb
        rcases List.mem_cons.mp hb with h | h
        · exact Or.inr h
        · exact Or.inl h
      · refine ⟨rfl, rfl, fun k => by cases k <;> rfl, fun b hb => Or.inl hb,
          ⟨[Event.Delete p.id], rfl, ?_⟩⟩
        intro ev hev id hid
        simp only [List.mem_singleton] at hev
        rw [hev] at hid
        cases hid
        exact hx p (List.mem_cons_self _ _)
    refine ⟨a.trans h1.1, b.trans h1.2.1, fun k => (c k).trans (h1.2.2.1 k), ?_,
      h1.2.2.2.2.ltrans e⟩
    intro q hq
    rcases d q hq with h | h
    · rcases h1.2.2.2.1 q h with h' | h'
      · exact Or.inl h'
      · exact Or.inr (h' ▸ List.mem_cons_self _ _)
    · exact Or.inr (List.mem_cons_of_mem _ h)

theorem destroyPendingBuffers_destroys (bufs : List MeshBuffer) (s : MeshCache A) :
    DestroysOnly bufs s (destroyPendingBuffers s) := by
  intro hl
  have hx : ∀ p ∈ s.PendingDestructionBuffers, p.id ∈ bufs.map (fun c => c.id) :=
    fun p hp => List.mem_map.mpr ⟨p, hl p (List.mem_append_right _ hp), rfl⟩
  obtain ⟨a, b, c, d, e⟩ := destroyPendingBuffers_fold (bufs.map (fun c => c.id))
    s.PendingDestructionBuffers ([], { s with PendingDestructionBuffers := [] }) hx
  unfold destroyPendingBuffers
  dsimp only at a b c d e ⊢
  refine ⟨?_, ?_, ?_⟩
  · intro q hq
    rw [a, b, List.append_nil] at hq
    rcases List.mem_append.mp hq with h | h
    · exact hl q (List.mem_append_left _ h)
    · rcases d q h with h' | h'
      · cases h'
      · exact hl q (List.mem_append_right _ h')
  · intro k q hq _
    have := c k
    cases k
    · simp only [MeshCache.mbs] at this hq ⊢; rw [this]; exact hq
    · simp only [MeshCache.mbs] at this hq ⊢; rw [this]; exact hq
  · obtain ⟨l, hl1, hl2⟩ := e
    exact ⟨l, hl1, hl2⟩

theorem shrinkRound_destroys (env : Collaborators A) (bufs : List MeshBuffer)
    (s : MeshCache A) (p : MeshBuffer) (hp : p ∈ s.ChunkBuffers) :
    DestroysOnly bufs s (EndFrame.shrinkRound env s p) := by
  intro hl
  have hpb : p ∈ bufs := hl p (List.mem_append_left _ hp)
  have hpid : p.id ∈ bufs.map (fun c => c.id) := List.mem_map.mpr ⟨p, hpb, rfl⟩
  have hch := shrinkRound_chunk env s p
  unfold EndFrame.shrinkRound at hch ⊢
  dsimp only at hch ⊢
  have k1 := evictMeshesInBuffer_keeps_of (DeletesIn (bufs.map (fun c => c.id)))
    (DeletesIn.of_free _) (DeletesIn.of_evictOnly _) env
    { s with ChunkBuffers := s.ChunkBuffers.dropLast } p.id
  generalize evictMeshesInBuffer env { s with ChunkBuffers := s.ChunkBuffers.dropLast } p.id
    = r at k1 hch ⊢
  have k2 := DestroyBuffer_deletes env r.2 p.BufferType p r.1 _ hpid
  have k3 := DestroyBuffer_lists env r.2 p.BufferType p r.1
  have k4 : ∀ k b, b ∈ (s.mbs k).Buffers → b.id ∉ bufs.map (fun c => c.id) →
      b ∈ ((r.2.DestroyBuffer env p.BufferType p r.1).mbs k).Buffers := by
    intro k b hb hn
    apply DestroyBuffer_kept
    · cases k
      · simp only [MeshCache.mbs] at hb ⊢; rw [k1.vbuffers]; exact hb
      · simp only [MeshCache.mbs] at hb ⊢; rw [k1.ibuffers]; exact hb
    · intro h; exact hn (h ▸ hpid)
  have k5 : LogExt (DeletesIn (bufs.map (fun c => c.id))) s
      (r.2.DestroyBuffer env p.BufferType p r.1) := by
    obtain ⟨l1, e1, p1⟩ := k1.log
    exact LogExt.ltrans ⟨l1, e1, p1⟩ k2
  have k6 : ∀ b ∈ (r.2.DestroyBuffer env p.BufferType p r.1).PendingDestructionBuffers,
      b ∈ bufs := by
    intro b hb
    rw [k3, k1.pendingBuffers] at hb
    exact hl b (List.mem_append_right _ hb)
  generalize r.2.DestroyBuffer env p.BufferType p r.1 = s2 at hch k4 k5 k6 ⊢
  by_cases hr : (!r.1) = true
  · rw [if_pos hr] at hch ⊢
    refine ⟨?_, fun k b hb hn => ?_, ?_⟩
    · intro b hb
      dsimp only at hch hb
      rcases List.mem_append.mp hb with h | h
      · rw [hch] at h
        exact hl b (List.mem_append_left _ (List.dropLast_subset _ h))
      · rcases List.mem_append.mp h with h' | h'
        · exact k6 b h'
        · rw [List.mem_singleton.mp h']; exact hpb
    · have := k4 k b hb hn
      cases k <;> exact this
    · obtain ⟨l, e, q⟩ := k5
      exact ⟨l, e, q⟩
  · rw [if_neg hr] at hch ⊢
    refine ⟨?_, k4, k5⟩
    intro b hb
    rcases List.mem_append.mp hb with h | h
    · rw [hch] at h
      exact hl b (List.mem_append_left _ (List.dropLast_subset _ h))
    · exact k6 b h

theorem shrinkLoop_destroys (env : Collaborators A) (bufs : List MeshBuffer) (fuel : Nat)
    (x : Int) (s : MeshCache A) : DestroysOnly bufs s (EndFrame.shrinkLoop env fuel x s) := by
  induction fuel generalizing s x with
  | zero => exact DestroysOnly.same _ _
  | succ n ih =>
    rw [shrinkLoop_succ]
    split
    · exact DestroysOnly.same _ _
    · rename_i p hp
      split
      · exact (shrinkRound_destroys env bufs s p (List.mem_of_getLast?_eq_some hp)).comp
          (ih _ _)
      · exact DestroysOnly.same _ _

theorem beforeShrink_destroys (env : Collaborators A) (bufs : List MeshBuffer)
    (s : MeshCache A) : DestroysOnly bufs s (EndFrame.beforeShrink env s) := by
  unfold EndFrame.beforeShrink
  dsimp only
  have h1 : DestroysOnly bufs s { s with CacheList := s.CacheList.EndFrame } :=
    fun h => ⟨h, fun k b hb _ => by cases k <;> exact hb, ⟨[], by simp, by simp⟩⟩
  have h2 := DestroysOnly.of_keeps ((EvictPendingFree_evicts env
    { s with CacheList := s.CacheList.EndFrame } .IndexAllocator false).kmono
    (DeletesIn.of_evictOnly (bufs.map (fun c => c.id))))
  generalize (EvictPendingFree env { s with CacheList := s.CacheList.EndFrame }
    .IndexAllocator false).2 = s2 at h2 ⊢
  have h3 := DestroysOnly.of_keeps ((EvictPendingFree_evicts env s2 .VertexAllocator
    false).kmono (DeletesIn.of_evictOnly (bufs.map (fun c => c.id))))
  exact ((h1.comp h2).comp h3).comp (destroyPendingBuffers_destroys bufs _)

theorem EndFrame_destroys (env : Collaborators A) (bufs : List MeshBuffer) (s : MeshCache A) :
    DestroysOnly bufs s (EndFrame env s) := by
  rw [EndFrame_eq_shrinkLoop]
  exact (beforeShrink_destroys env bufs s).comp (shrinkLoop_destroys env bufs _ _ _)

theorem allocBuffer_chunk_cases (env : Collaborators A) (s : MeshCache A) (k : BufferKind)
    (size : Nat) (w : Bool) :
    ((allocBuffer env s k size w).2.ChunkBuffers = s.ChunkBuffers ∨
      ∃ b, b.AType = AllocType.AT_Chunk ∧ b ∈ ((allocBuffer env s k size w).2.mbs k).Buffers ∧
        (allocBuffer env s k size w).2.ChunkBuffers = s.ChunkBuffers ++ [b]) ∧
    (allocBuffer env s k size w).2.PendingDestructionBuffers = s.PendingDestructionBuffers := by
  rcases allocBuffer_outcome env s k size w with hk | ⟨_, b, hb, _, _, hat, _⟩
  · exact ⟨Or.inl hk.chunk, hk.pendingBuffers⟩
  · exact ⟨Or.inr ⟨b, hat, by rw [hb.buffers]; simp, hb.chunk⟩, hb.pendingBuffers⟩

/-! ### Initialization and reset -/

theorem adjustMeshCacheParams_reserve (dev : Device A) (p : MeshCacheParams) :
    (adjustMeshCacheParams dev p).MemReserve = p.MemReserve := by
  unfold adjustMeshCacheParams
  dsimp only
  split <;> split <;> split <;> rfl

theorem DestroyBuffers_all (env : Collaborators A) (s : MeshCache A) (k : BufferKind) :
    ((s.DestroyBuffers env k .AT_None).mbs k).Buffers = [] ∧
    (∀ k', k' ≠ k → (s.DestroyBuffers env k .AT_None).mbs k' = s.mbs k') := by
  unfold MeshCache.DestroyBuffers
  cases k
  · refine ⟨by simp [MeshCache.setMbs, MeshCache.mbs], ?_⟩
    intro k' hk
    cases k'
    · exact absurd rfl hk
    · rfl
  · refine ⟨by simp [MeshCache.setMbs, MeshCache.mbs], ?_⟩
    intro k' hk
    cases k'
    · rfl
    · exact absurd rfl hk

theorem destroyBuffers_all (env : Collaborators A) (s : MeshCache A) :
    (destroyBuffers env s .AT_None).VertexBuffers.Buffers = [] ∧
    (destroyBuffers env s .AT_None).IndexBuffers.Buffers = [] ∧
    (destroyBuffers env s .AT_None).ChunkBuffers = [] := by
  unfold destroyBuffers
  dsimp only
  generalize EvictAll env s = s1
  have h1 := DestroyBuffers_all env s1 .Vertex
  generalize s1.DestroyBuffers env .Vertex .AT_None = s2 at h1
  have h2 := DestroyBuffers_all env s2 .Index
  generalize s2.DestroyBuffers env .Index .AT_None = s3 at h2
  refine ⟨?_, h2.1, rfl⟩
  have := h2.2 .Vertex (by decide)
  simp only [MeshCache.mbs] at this h1
  show s3.VertexBuffers.Buffers = []
  rw [this]
  exact h1.1

theorem destroyPendingBuffers_mbs (s : MeshCache A) (k : BufferKind) :
    (destroyPendingBuffers s).mbs k = s.mbs k := by
  unfold destroyPendingBuffers
  have h := (destroyPendingBuffers_fold (s.PendingDestructionBuffers.map (fun b => b.id))
    s.PendingDestructionBuffers ([], { s with PendingDestructionBuffers := [] })
    (fun p hp => List.mem_map.mpr ⟨p, hp, rfl⟩)).2.2.1 k
  dsimp only at h ⊢
  cases k
  · simp only [MeshCache.mbs] at h ⊢; exact h
  · simp only [MeshCache.mbs] at h ⊢; exact h

theorem Reset_attached (env : Collaborators A) (c : MeshCacheGL A) (h : Nat)
    (hp : c.pHal = some h) :
    (Reset env c).pHal = none ∧ (Reset env c).StagingBuffer = none ∧
    (Reset env c).core.VertexBuffers.Buffers = [] ∧
    (Reset env c).core.IndexBuffers.Buffers = [] ∧
    (Reset env c).core.ChunkBuffers = [] := by
  unfold Reset
  rw [hp]
  dsimp only
  obtain ⟨a, b, d⟩ := destroyBuffers_all env c.core
  have hv := destroyPendingBuffers_mbs (destroyBuffers env c.core .AT_None) .Vertex
  have hi := destroyPendingBuffers_mbs (destroyBuffers env c.core .AT_None) .Index
  simp only [MeshCache.mbs] at hv hi
  refine ⟨rfl, rfl, ?_, ?_, ?_⟩
  · rw [hv]; exact a
  · rw [hi]; exact b
  · rw [(destroyPendingBuffers_shrinks [] _).2]; exact d

theorem allocCacheBuffers_pHal (env : Collaborators A) (c : MeshCacheGL A) (size : Nat)
    (type : AllocType) : (allocCacheBuffers env c size type).2.pHal = c.pHal := by
  unfold allocCacheBuffers
  split
  · dsimp only
    split
    · rfl
    · split <;> rfl
  · dsimp only
    split <;> rfl

/-! ### The eviction-limit check of `allocBuffer` -/

theorem NoAlloc.from_evictOnly (e : Event) (h : e.evictOnly = true) : NoAlloc e := by
  intro k size ok he
  rw [he] at h
  simp [Event.evictOnly] at h

theorem Evicts.noAlloc {s s' : MeshCache A} (h : Evicts s s') : LogExt NoAlloc s s' :=
  h.log.lmono NoAlloc.from_evictOnly

theorem CreateBuffer_noAlloc (env : Collaborators A) (s : MeshCache A) (k : BufferKind)
    (size : Nat) (type : AllocType) :
    (s.CreateBuffer env k size type).2.Log =
      s.Log ++ [Event.Create k size type (s.CreateBuffer env k size type).1.isSome] := by
  unfold MeshCache.CreateBuffer
  split
  · cases k <;> rfl
  · rfl

theorem limitStage_noAlloc (env : Collaborators A) (s : MeshCache A) (k : BufferKind)
    (size : Nat) : LogExt NoAlloc s (allocBuffer.limitStage env s k size).2 := by
  have hr : LogExt NoAlloc s
      (EvictLRUTillLimit env s .MCL_LRUTail (allocatorOf k) size s.Params.LRUTailSize).2 :=
    (EvictLRUTillLimitLoop_evicts _ _ _ _ _ _ _).noAlloc
  unfold allocBuffer.limitStage
  generalize EvictLRUTillLimit env s .MCL_LRUTail (allocatorOf k) size s.Params.LRUTailSize
    = r at hr
  dsimp only
  have hc : ∀ sz, LogExt NoAlloc r.2 (r.2.CreateBuffer env k sz .AT_Chunk).2 := by
    intro sz
    exact ⟨_, CreateBuffer_noAlloc env r.2 k sz .AT_Chunk, by
      intro e he kk ss ok h
      simp only [List.mem_singleton] at he
      rw [he] at h
      cases h⟩
  split
  · exact hr
  · split
    · exact hr
    · split
      · split
        · obtain ⟨l, hl, hp⟩ := hc (min (subUPInt r.2.Params.MemLimit (getTotalSize r.2))
            (r.2.mbs k).Granularity)
          exact hr.ltrans ⟨l, hl, hp⟩
        · exact hr.ltrans (hc _)
      · exact hr

theorem growOrEvict_noAlloc (env : Collaborators A) (s : MeshCache A) (k : BufferKind)
    (size : Nat) (need1 : Bool) :
    LogExt NoAlloc s (allocBuffer.growOrEvict env s k size need1).2 := by
  unfold allocBuffer.growOrEvict
  dsimp only
  generalize hst : (if (need1 && decide (addUPInt (getTotalSize s) env.MinSupportedGranularity ≤
      s.Params.MemLimit)) = true then allocBuffer.limitStage env s k size
    else (some need1, s)) = st2
  have h2 : LogExt NoAlloc s st2.2 := by
    rw [← hst]
    split
    · exact limitStage_noAlloc env s k size
    · exact LogExt.lrefl _ _
  rcases st2 with ⟨o, s2⟩
  cases o with
  | none => exact h2
  | some need2 =>
    dsimp only
    split
    · exact h2.ltrans (EvictLRULoop_evicts _ _ _ _ _ _).noAlloc
    · exact h2

theorem beforeLimitCheck_noAlloc (env : Collaborators A) (s : MeshCache A) (k : BufferKind)
    (size : Nat) : LogExt NoAlloc s (allocBuffer.beforeLimitCheck env s k size).2 := by
  unfold allocBuffer.beforeLimitCheck
  dsimp only
  exact (EvictPendingFree_evicts env s (allocatorOf k) false).noAlloc.ltrans
    (growOrEvict_noAlloc env _ k size _)

/-! ### What `evictMeshesInBuffer` leaves behind -/

theorem countP_filter_id_le (b : Nat) (xs : List MeshCacheItem) (id : Nat) :
    (xs.filter (fun q => q.id != id)).countP (fun q => q.refers b) ≤
      xs.countP (fun q => q.refers b) := by
  rw [List.countP_filter]
  exact List.countP_mono_left (fun q _ h => by simp at h; exact h.1)

theorem round_released_le (env : Collaborators A) (s : MeshCache A) (b : Nat)
    (u : MeshCacheListType) (p : MeshCacheItem) :
    ((evictMeshesInBuffer.release env (Evict env s p none).2 b p).CacheList.GetSlot u).countP
        (fun q => q.refers b) ≤ (s.CacheList.GetSlot u).countP (fun q => q.refers b) := by
  rw [release_slot]
  have hle := countP_filter_id_le b (s.CacheList.GetSlot u) p.id
  rcases Evict_slot_cases env s p none u with h | ⟨_, h⟩
  · rw [h]
    exact le_trans (countP_map_nullify_le b p _) hle
  · rw [h]
    simp only [List.map_cons, List.countP_cons, nullify_husk]
    have := countP_map_nullify_le b p ((s.CacheList.GetSlot u).filter (fun q => q.id != p.id))
    simp only [Bool.false_eq_true, if_false]
    omega

theorem round_evicted_le (env : Collaborators A) (s : MeshCache A) (b : Nat)
    (u : MeshCacheListType) (p : MeshCacheItem) (hne : (Evict env s p none).1 ≠ 0) :
    ((Evict env s p none).2.CacheList.GetSlot u).countP (fun q => q.refers b) ≤
      (s.CacheList.GetSlot u).countP (fun q => q.refers b) := by
  rcases Evict_slot_cases env s p none u with h | ⟨h0, _⟩
  · rw [h]
    exact countP_filter_id_le b _ p.id
  · exact absurd h0 hne

theorem scan_le (env : Collaborators A) (pbuffer : Nat) (t u : MeshCacheListType)
    (fuel : Nat) (acc : Bool × MeshCache A) :
    ((evictMeshesInBuffer.scan env pbuffer t fuel acc).2.CacheList.GetSlot u).countP
        (fun q => q.refers pbuffer) ≤
      (acc.2.CacheList.GetSlot u).countP (fun q => q.refers pbuffer) := by
  induction fuel generalizing acc with
  | zero => exact le_refl _
  | succ n ih =>
    rw [evictMeshesInBuffer.scan]
    split
    · exact le_refl _
    · rename_i p hp
      dsimp only
      split
      · exact le_trans (ih (true, _)) (round_released_le env acc.2 pbuffer u p)
      · rename_i hne
        exact le_trans (ih (acc.1, _)) (round_evicted_le env acc.2 pbuffer u p hne)

theorem scan_clears (env : Collaborators A) (pbuffer : Nat) (t : MeshCacheListType)
    (fuel : Nat) (acc : Bool × MeshCache A)
    (h : (acc.2.CacheList.GetSlot t).countP (fun q => q.refers pbuffer) ≤ fuel) :
    ((evictMeshesInBuffer.scan env pbuffer t fuel acc).2.CacheList.GetSlot t).countP
        (fun q => q.refers pbuffer) = 0 := by
  induction fuel generalizing acc with
  | zero => exact Nat.le_zero.mp h
  | succ n ih =>
    rw [evictMeshesInBuffer.scan]
    split
    · rename_i hnone
      rw [List.countP_eq_zero]
      intro q hq
      exact List.find?_eq_none.mp hnone q hq
    · rename_i p hp
      have hmem : p ∈ acc.2.CacheList.GetSlot t := List.mem_of_find?_eq_some hp
      have href : p.refers pbuffer = true := by
        have := List.find?_some hp
        simpa using this
      dsimp only
      split
      · apply ih
        have := scan_round_released env acc.2 pbuffer t p hmem href
        dsimp only
        omega
      · rename_i hne
        apply ih
        have := scan_round_evicted env acc.2 pbuffer t p hmem href hne
        dsimp only
        omega

theorem scan_full (env : Collaborators A) (pbuffer : Nat) (t : MeshCacheListType)
    (acc : Bool × MeshCache A) :
    ((evictMeshesInBuffer.scan env pbuffer t (acc.2.CacheList.GetSlot t).length
      acc).2.CacheList.GetSlot t).countP (fun q => q.refers pbuffer) = 0 :=
  scan_clears env pbuffer t _ acc (List.countP_le_length _)

theorem scan_state (env : Collaborators A) (pbuffer : Nat) (t : MeshCacheListType)
    (fuel : Nat) (acc : Bool × MeshCache A) :
    (evictMeshesInBuffer.scan env pbuffer t fuel acc).2 =
      (evictMeshesInBuffer.scan env pbuffer t fuel (false, acc.2)).2 ∧
    (evictMeshesInBuffer.scan env pbuffer t fuel acc).1 =
      (acc.1 || (evictMeshesInBuffer.scanReturns env pbuffer t fuel acc.2).any
        (fun r => r == 0)) := by
  induction fuel generalizing acc with
  | zero => simp [evictMeshesInBuffer.scan, evictMeshesInBuffer.scanReturns]
  | succ n ih =>
    rw [evictMeshesInBuffer.scan, evictMeshesInBuffer.scan, evictMeshesInBuffer.scanReturns]
    cases hf : (acc.2.CacheList.GetSlot t).find? (fun q => q.refers pbuffer) with
    | none => simp
    | some p =>
      dsimp only
      by_cases h0 : (Evict env acc.2 p none).1 = 0
      · have h1 := ih (true, evictMeshesInBuffer.release env (Evict env acc.2 p none).2 pbuffer p)
        constructor
        · simp only [h0, if_true]
        · simp only [h0, if_true]
          rw [h1.2]
          simp
      · have h1 := ih (acc.1, (Evict env acc.2 p none).2)
        have h2 := ih (false, (Evict env acc.2 p none).2)
        have hb : ((Evict env acc.2 p none).1 == 0) = false := by simpa using h0
        constructor
        · simp only [h0, if_false]
          exact h1.1.trans h2.1.symm
        · simp only [h0, if_false]
          rw [h1.2]
          simp [hb]

theorem scanAll_spec (env : Collaborators A) (pbuffer : Nat) (ts : List MeshCacheListType)
    (acc : Bool × MeshCache A) :
    (∀ u, (((ts.foldl (fun (acc : Bool × MeshCache A) t =>
        evictMeshesInBuffer.scan env pbuffer t (acc.2.CacheList.GetSlot t).length acc)
        acc).2.CacheList.GetSlot u).countP (fun q => q.refers pbuffer)) ≤
      (acc.2.CacheList.GetSlot u).countP (fun q => q.refers pbuffer)) ∧
    (∀ t ∈ ts, ((ts.foldl (fun (acc : Bool × MeshCache A) t =>
        evictMeshesInBuffer.scan env pbuffer t (acc.2.CacheList.GetSlot t).length acc)
        acc).2.CacheList.GetSlot t).countP (fun q => q.refers pbuffer) = 0) := by
  induction ts generalizing acc with
  | nil => exact ⟨fun _ => le_refl _, fun _ h => by cases h⟩
  | cons t rest ih =>
    simp only [List.foldl]
    obtain ⟨h1, h2⟩ := ih (evictMeshesInBuffer.scan env pbuffer t
      (acc.2.CacheList.GetSlot t).length acc)
    refine ⟨fun u => le_trans (h1 u) (scan_le env pbuffer t u _ acc), ?_⟩
    intro u hu
    rcases List.mem_cons.mp hu with h | h
    · subst h
      have := h1 u
      have := scan_full env pbuffer u acc
      omega
    · exact h2 u h

theorem evictMeshesInBuffer_no_referrer (env : Collaborators A) (s : MeshCache A)
    (pbuffer : Nat) (t : MeshCacheListType) :
    ∀ q ∈ (evictMeshesInBuffer env s pbuffer).2.CacheList.GetSlot t,
      q.refers pbuffer = false := by
  have h := (scanAll_spec env pbuffer allSlots (false, s)).2 t (by cases t <;> decide)
  unfold evictMeshesInBuffer
  dsimp only
  intro q hq
  have := List.countP_eq_zero.mp h q hq
  simpa using this

theorem scanAll_returns (env : Collaborators A) (pbuffer : Nat) (ts : List MeshCacheListType)
    (acc : Bool × MeshCache A) :
    (ts.foldl (fun (acc : Bool × MeshCache A) t =>
        evictMeshesInBuffer.scan env pbuffer t (acc.2.CacheList.GetSlot t).length acc)
        acc).1 =
      (acc.1 || (evictMeshesInBuffer.returnsFrom env pbuffer ts acc.2).any
        (fun r => r == 0)) := by
  induction ts generalizing acc with
  | nil => simp [evictMeshesInBuffer.returnsFrom]
  | cons t rest ih =>
    simp only [List.foldl, evictMeshesInBuffer.returnsFrom]
    have hs := scan_state env pbuffer t (acc.2.CacheList.GetSlot t).length acc
    rw [ih, hs.2, hs.1]
    simp [Bool.or_assoc]

theorem evictMeshesInBuffer_returns (env : Collaborators A) (s : MeshCache A)
    (pbuffer : Nat) :
    (evictMeshesInBuffer env s pbuffer).1 = true ↔
      ∀ r ∈ evictMeshesInBuffer.returns env s pbuffer, r ≠ 0 := by
  unfold evictMeshesInBuffer evictMeshesInBuffer.returns
  dsimp only
  rw [scanAll_returns]
  simp

theorem release_log (env : Collaborators A) (s : MeshCache A) (b : Nat) (p : MeshCacheItem) :
    (evictMeshesInBuffer.release env s b p).Log = s.Log ++
      ((if p.pVertexBuffer = some b then
          [Event.Free .Vertex (some p.id) p.FencePending p.VBAllocSize b p.VBAllocOffset
            (env.AllocatorFree s.VertexBuffers.Allocator p.VBAllocSize b p.VBAllocOffset).1]
        else []) ++
       (if p.pIndexBuffer = some b then
          [Event.Free .Index (some p.id) p.FencePending p.IBAllocSize b p.IBAllocOffset
            (env.AllocatorFree s.IndexBuffers.Allocator p.IBAllocSize b p.IBAllocOffset).1]
        else [])) := by
  unfold evictMeshesInBuffer.release
  by_cases hv : p.pVertexBuffer = some b <;> by_cases hi : p.pIndexBuffer = some b <;>
    simp [hv, hi, MeshCache.Free, MeshCache.clearVertexBuffer, MeshCache.clearIndexBuffer,
      MeshCache.setMbs, MeshCache.mbs]

/-! ### Parameters and granularities -/

theorem EvictAll_evicts (env : Collaborators A) (s : MeshCache A) : Evicts s (EvictAll env s) := by
  unfold EvictAll
  generalize s.CacheList.PendingFree ++ s.CacheList.LRUTail ++ s.CacheList.PrevFrame ++
    s.CacheList.ThisFrame = xs
  induction xs generalizing s with
  | nil => exact Evicts.erefl _
  | cons p rest ih =>
    simp only [List.foldl]
    exact (Evict_evicts env s p none).ktrans (ih _)

theorem CreateBuffer_params (env : Collaborators A) (s : MeshCache A) (k : BufferKind)
    (size : Nat) (type : AllocType) : (s.CreateBuffer env k size type).2.Params = s.Params := by
  unfold MeshCache.CreateBuffer
  split
  · cases k <;> rfl
  · rfl

theorem DestroyBuffer_params (env : Collaborators A) (s : MeshCache A) (k : BufferKind)
    (p : MeshBuffer) (d : Bool) : (s.DestroyBuffer env k p d).Params = s.Params := by
  unfold MeshCache.DestroyBuffer
  dsimp only
  split <;> cases k <;> rfl

theorem DestroyBuffers_params (env : Collaborators A) (s : MeshCache A) (k : BufferKind)
    (type : AllocType) : (s.DestroyBuffers env k type).Params = s.Params := by
  unfold MeshCache.DestroyBuffers
  cases k <;> rfl

theorem destroyBuffers_params (env : Collaborators A) (s : MeshCache A) (type : AllocType) :
    (destroyBuffers env s type).Params = s.Params := by
  unfold destroyBuffers
  dsimp only
  rw [DestroyBuffers_params, DestroyBuffers_params, (EvictAll_evicts env s).params]

theorem allocCacheBuffers_params (env : Collaborators A) (c : MeshCacheGL A) (size : Nat)
    (type : AllocType) : (allocCacheBuffers env c size type).2.core.Params = c.core.Params := by
  unfold allocCacheBuffers
  split
  · dsimp only
    split
    · exact CreateBuffer_params _ _ _ _ _
    · split
      · dsimp only
        rw [DestroyBuffer_params, CreateBuffer_params, CreateBuffer_params]
      · dsimp only
        rw [CreateBuffer_params, CreateBuffer_params]
  · dsimp only
    split <;> exact CreateBuffer_params _ _ _ _ _

theorem staging_core (dev : Device A) (c : MeshCacheGL A) (params : MeshCacheParams) :
    (SetParams.staging dev c params).2.core = c.core := by
  unfold SetParams.staging
  split
  · split <;> rfl
  · rfl

theorem reserve_params (env : Collaborators A) (c : MeshCacheGL A) (params : MeshCacheParams) :
    (SetParams.reserve env c params).2.core.Params = c.core.Params := by
  unfold SetParams.reserve
  split
  · dsimp only
    split
    · split
      · rw [allocCacheBuffers_params]
        exact destroyBuffers_params _ _ _
      · split
        · rw [allocCacheBuffers_params, allocCacheBuffers_params]
          exact destroyBuffers_params _ _ _
        · rw [allocCacheBuffers_params]
          exact destroyBuffers_params _ _ _
    · exact destroyBuffers_params _ _ _
  · rfl

theorem SetParams_params (env : Collaborators A) (dev : Device A) (c : MeshCacheGL A)
    (argParams : MeshCacheParams) :
    (SetParams env dev c argParams).2.core.Params =
      if (SetParams env dev c argParams).1 then adjustMeshCacheParams dev argParams
      else c.core.Params := by
  unfold SetParams
  dsimp only
  have he : (EvictAll env c.core).Params = c.core.Params := (EvictAll_evicts env c.core).params
  have hs := staging_core dev { c with core := EvictAll env c.core }
    (adjustMeshCacheParams dev argParams)
  generalize SetParams.staging dev { c with core := EvictAll env c.core }
    (adjustMeshCacheParams dev argParams) = st at hs
  rcases st with ⟨b1, c1⟩
  have hr := reserve_params env c1 (adjustMeshCacheParams dev argParams)
  generalize SetParams.reserve env c1 (adjustMeshCacheParams dev argParams) = rs at hr
  rcases rs with ⟨b2, c2⟩
  dsimp only at hr hs
  cases c.pHal with
  | none => rfl
  | some h =>
    dsimp only
    cases b1
    · show c1.core.Params = c.core.Params
      rw [hs]
      exact he
    · cases b2
      · show c2.core.Params = c.core.Params
        rw [hr, hs]
        exact he
      · rfl

theorem SetParams_detached (env : Collaborators A) (dev : Device A) (c : MeshCacheGL A)
    (argParams : MeshCacheParams) (h : c.pHal = none) :
    (SetParams env dev c argParams).1 = true := by
  unfold SetParams
  rw [h]

theorem adjustMeshCacheParams_eq (dev : Device A) (p : MeshCacheParams) :
    adjustMeshCacheParams dev p =
      { p with MaxBatchInstances := min p.MaxBatchInstances dev.SF_RENDER_MAX_BATCHES,
               VBLockEvictSizeLimit := max p.VBLockEvictSizeLimit (1024 * 256),
               StagingBufferSize := max p.StagingBufferSize
                 (adjustMeshCacheParams.minStaging p) } := by
  unfold adjustMeshCacheParams adjustMeshCacheParams.minStaging
  rcases p with ⟨r, l, g, t, sb, vl, mb, mv, mi⟩
  dsimp only
  split_ifs <;> dsimp only at * <;> simp only [MeshCacheParams.mk.injEq, true_and, and_true] <;>
    refine ⟨?_, ?_, ?_⟩ <;> omega

theorem adjustMeshCacheParams_idem (dev : Device A) (p : MeshCacheParams) :
    adjustMeshCacheParams dev (adjustMeshCacheParams dev p) = adjustMeshCacheParams dev p := by
  rw [adjustMeshCacheParams_eq dev (adjustMeshCacheParams dev p), adjustMeshCacheParams_eq dev p]
  simp [adjustMeshCacheParams.minStaging]

theorem minStaging_exact (p : MeshCacheParams)
    (h : 2 * (p.MaxVerticesSizeInBatch + 2 * p.MaxIndicesInBatch) < 2 ^ 64) :
    adjustMeshCacheParams.minStaging p =
      2 * (p.MaxVerticesSizeInBatch + 2 * p.MaxIndicesInBatch) := by
  unfold adjustMeshCacheParams.minStaging addUPInt UPIntBits
  have h1 : 2 * p.MaxIndicesInBatch % 2 ^ 64 = 2 * p.MaxIndicesInBatch :=
    Nat.mod_eq_of_lt (by omega)
  rw [h1]
  have h2 : (p.MaxVerticesSizeInBatch + 2 * p.MaxIndicesInBatch) % 2 ^ 64 =
      p.MaxVerticesSizeInBatch + 2 * p.MaxIndicesInBatch := Nat.mod_eq_of_lt (by omega)
  rw [h2]
  rw [Nat.mod_eq_of_lt (by omega)]
  omega

theorem calcVBGranularity_eq (g : Nat) (hg : g < 2 ^ 64) :
    calcVBGranularity g = 16 * (5 * (g / 16) / 9) := by
  unfold calcVBGranularity UPIntBits
  norm_num
  have h1 : g / 16 * 5 % 18446744073709551616 = g / 16 * 5 := Nat.mod_eq_of_lt (by omega)
  rw [h1]
  rw [Nat.mod_eq_of_lt (by omega)]
  omega

theorem calcIBGranularity_eq (g vb : Nat) (hg : g < 2 ^ 64) (hvb : vb / 16 ≤ g / 16) :
    calcIBGranularity g vb = 16 * (g / 16 - vb / 16) := by
  unfold calcIBGranularity subUPInt UPIntBits
  norm_num
  omega

theorem CreateBuffer_total (env : Collaborators A) (s : MeshCache A) (k : BufferKind)
    (size : Nat) (type : AllocType) (b : MeshBuffer)
    (h : (s.CreateBuffer env k size type).1 = some b) :
    getTotalSize (s.CreateBuffer env k size type).2 = getTotalSize s + size := by
  unfold MeshCache.CreateBuffer at h ⊢
  split
  · cases k <;>
      simp [getTotalSize, MeshBufferSet.GetTotalSize, MeshCache.setMbs, MeshCache.mbs] <;> omega
  · rename_i hn
    simp [hn] at h

/-! ### The update method and the mapping of buffers -/

theorem DoMap_client (h : MapCollaborators) (ms : MapState) (id offset size : Nat) :
    DoMap h .BufferUpdate_ClientBuffers ms id offset size =
      (decide (((DoMap.mapped h .BufferUpdate_ClientBuffers ms id).Buffers id).pData ≠ 0),
        DoMap.mapped h .BufferUpdate_ClientBuffers ms id) := by
  unfold DoMap
  simp

theorem mapped_client_of_mapped (h : MapCollaborators) (ms : MapState) (id : Nat)
    (hp : (ms.Buffers id).pData ≠ 0) :
    DoMap.mapped h .BufferUpdate_ClientBuffers ms id = ms := by
  unfold DoMap.mapped
  simp [hp]

theorem mapped_client_of_block (h : MapCollaborators) (ms : MapState) (id : Nat)
    (hp : (ms.Buffers id).pData = 0) (hb : (ms.Buffers id).BufferData ≠ 0) :
    DoMap.mapped h .BufferUpdate_ClientBuffers ms id =
      { ms with
        Buffers := Function.update ms.Buffers id
          { ms.Buffers id with pData := (ms.Buffers id).BufferData } } := by
  unfold DoMap.mapped
  simp [hp, hb]

theorem mapped_client_of_none (h : MapCollaborators) (ms : MapState) (id : Nat)
    (hp : (ms.Buffers id).pData = 0) (hb : (ms.Buffers id).BufferData = 0) :
    DoMap.mapped h .BufferUpdate_ClientBuffers ms id =
      { ms with
        Buffers := Function.update ms.Buffers id
          { ms.Buffers id with BufferData := h.SF_ALLOC ms.Calls (ms.Buffers id).Size
                               pData := h.SF_ALLOC ms.Calls (ms.Buffers id).Size
                               Data := h.Fresh ms.Calls }
        Calls := ms.Calls + 1 } := by
  unfold DoMap.mapped
  simp [hp, hb]

theorem mapped_client_spec (h : MapCollaborators) (ms : MapState) (id : Nat) :
    (∀ j, j ≠ id → (DoMap.mapped h .BufferUpdate_ClientBuffers ms id).Buffers j =
      ms.Buffers j) ∧
    (∀ j, ms.ClientInv j → (DoMap.mapped h .BufferUpdate_ClientBuffers ms id).ClientInv j) ∧
    ms.KeepsBlocks (DoMap.mapped h .BufferUpdate_ClientBuffers ms id) ∧
    (DoMap.mapped h .BufferUpdate_ClientBuffers ms id).MappedBuffers = ms.MappedBuffers ∧
    (ms.ClientInv id → (ms.Buffers id).BufferData ≠ 0 →
      ((DoMap.mapped h .BufferUpdate_ClientBuffers ms id).Buffers id).pData =
        (ms.Buffers id).BufferData ∧
      (DoMap.mapped h .BufferUpdate_ClientBuffers ms id).Calls = ms.Calls) := by
  by_cases hp : (ms.Buffers id).pData = 0
  · by_cases hb : (ms.Buffers id).BufferData = 0
    · rw [mapped_client_of_none h ms id hp hb]
      refine ⟨?_, ?_, ?_, rfl, ?_⟩
      · intro j hj
        exact Function.update_noteq hj _ _
      · intro j hinv
        unfold MapState.ClientInv
        by_cases hj : j = id
        · subst hj
          right
          simp only [Function.update_same]
        · simp only [Function.update_noteq hj]
          exact hinv
      · intro j hne
        have hj : j ≠ id := by
          rintro rfl
          exact hne hb
        simp only [Function.update_noteq hj, and_self]
      · intro _ hne
        exact absurd hb hne
    · rw [mapped_client_of_block h ms id hp hb]
      refine ⟨?_, ?_, ?_, rfl, ?_⟩
      · intro j hj
        exact Function.update_noteq hj _ _
      · intro j hinv
        unfold MapState.ClientInv
        by_cases hj : j = id
        · subst hj
          right
          simp only [Function.update_same]
        · simp only [Function.update_noteq hj]
          exact hinv
      · intro j _
        by_cases hj : j = id
        · subst hj
          simp only [Function.update_same, and_self]
        · simp only [Function.update_noteq hj, and_self]
      · intro _ _
        simp only [Function.update_same, and_self]
  · rw [mapped_client_of_mapped h ms id hp]
    refine ⟨fun _ _ => rfl, fun _ hinv => hinv, fun _ _ => ⟨rfl, rfl⟩, rfl, ?_⟩
    intro hinv _
    rcases hinv with h0 | h1
    · exact absurd h0 hp
    · exact ⟨h1, rfl⟩

theorem Map_client_spec (h : MapCollaborators) (ms : MapState) (id offset size : Nat) :
    (Map h .BufferUpdate_ClientBuffers ms id offset size).1 =
      ((Map h .BufferUpdate_ClientBuffers ms id offset size).2.Buffers id).pData ∧
    (Map h .BufferUpdate_ClientBuffers ms id offset size).2.Buffers =
      (DoMap.mapped h .BufferUpdate_ClientBuffers ms id).Buffers ∧
    (Map h .BufferUpdate_ClientBuffers ms id offset size).2.Calls =
      (DoMap.mapped h .BufferUpdate_ClientBuffers ms id).Calls := by
  unfold Map
  rw [DoMap_client]
  dsimp only
  by_cases hp : ((DoMap.mapped h .BufferUpdate_ClientBuffers ms id).Buffers id).pData = 0
  · simp [hp]
  · simp only [hp, ne_eq, not_false_eq_true, decide_True, if_true]
    split_ifs <;> exact ⟨rfl, rfl, rfl⟩

theorem Map_client (h : MapCollaborators) (ms : MapState) (id offset size : Nat) :
    (∀ j, ms.ClientInv j →
      (Map h .BufferUpdate_ClientBuffers ms id offset size).2.ClientInv j) ∧
    ms.KeepsBlocks (Map h .BufferUpdate_ClientBuffers ms id offset size).2 ∧
    (ms.ClientInv id → (ms.Buffers id).BufferData ≠ 0 →
      (Map h .BufferUpdate_ClientBuffers ms id offset size).1 = (ms.Buffers id).BufferData ∧
      (Map h .BufferUpdate_ClientBuffers ms id offset size).2.Calls = ms.Calls) ∧
    (ms.ClientInv id → (Map h .BufferUpdate_ClientBuffers ms id offset size).1 ≠ 0 →
      ((Map h .BufferUpdate_ClientBuffers ms id offset size).2.Buffers id).BufferData =
        (Map h .BufferUpdate_ClientBuffers ms id offset size).1) := by
  obtain ⟨h1, h2, h3⟩ := Map_client_spec h ms id offset size
  obtain ⟨_, g2, g3, _, g5⟩ := mapped_client_spec h ms id
  have hinv : ∀ j, ms.ClientInv j →
      (Map h .BufferUpdate_ClientBuffers ms id offset size).2.ClientInv j := by
    intro j hj
    have := g2 j hj
    unfold MapState.ClientInv at this ⊢
    rw [h2]
    exact this
  refine ⟨hinv, ?_, ?_, ?_⟩
  · intro j hj
    rw [h2]
    exact g3 j hj
  · intro hi hb
    rw [h1, h2, h3]
    exact g5 hi hb
  · intro hi hne
    have := hinv id hi
    unfold MapState.ClientInv at this
    rw [← h1] at this
    rcases this with h0 | h0
    · exact absurd h0 hne
    · exact h0.symm

theorem Unmap_spec (updateType : BufferUpdateType) (ms : MapState) (id j : Nat) :
    ((Unmap updateType ms id).Buffers j).BufferData = (ms.Buffers j).BufferData ∧
    ((Unmap updateType ms id).Buffers j).Data = (ms.Buffers j).Data ∧
    (((Unmap updateType ms id).Buffers j).pData = 0 ∨
      ((Unmap updateType ms id).Buffers j).pData = (ms.Buffers j).pData) ∧
    ((Unmap updateType ms id).Buffers id).pData = 0 ∧
    (Unmap updateType ms id).Calls = ms.Calls := by
  unfold Unmap
  dsimp only
  by_cases hj : j = id
  · subst hj
    simp only [Function.update_same, true_or, and_self]
  · simp only [Function.update_noteq hj, Function.update_same, or_true, and_self]

theorem foldl_Unmap_spec (updateType : BufferUpdateType) (l : List Nat) :
    ∀ (ms : MapState) (j : Nat),
    (((l.foldl (Unmap updateType) ms).Buffers j).BufferData = (ms.Buffers j).BufferData ∧
    ((l.foldl (Unmap updateType) ms).Buffers j).Data = (ms.Buffers j).Data ∧
    (((l.foldl (Unmap updateType) ms).Buffers j).pData = 0 ∨
      ((l.foldl (Unmap updateType) ms).Buffers j).pData = (ms.Buffers j).pData) ∧
    (l.foldl (Unmap updateType) ms).Calls = ms.Calls) := by
  induction l with
  | nil => intro ms j; exact ⟨rfl, rfl, Or.inr rfl, rfl⟩
  | cons a l ih =>
    intro ms j
    rw [List.foldl_cons]
    obtain ⟨a1, a2, a3, a4⟩ := ih (Unmap updateType ms a) j
    obtain ⟨b1, b2, b3, _, b5⟩ := Unmap_spec updateType ms a j
    refine ⟨a1.trans b1, a2.trans b2, ?_, a4.trans b5⟩
    rcases a3 with h0 | h0
    · exact Or.inl h0
    · rw [h0]; exact b3

theorem UnmapAll_write (updateType : BufferUpdateType) (ms : MapState)
    (w : Nat → Nat → Nat) (j : Nat) :
    ((UnmapAll updateType (ms.write w)).Buffers j).BufferData = (ms.Buffers j).BufferData ∧
    ((UnmapAll updateType (ms.write w)).Buffers j).Data = w j ∧
    (ms.ClientInv j → (UnmapAll updateType (ms.write w)).ClientInv j) ∧
    (UnmapAll updateType (ms.write w)).Calls = ms.Calls := by
  obtain ⟨a1, a2, a3, a4⟩ := foldl_Unmap_spec updateType (ms.write w).MappedBuffers
    (ms.write w) j
  have e1 : ((UnmapAll updateType (ms.write w)).Buffers j).BufferData =
      (ms.Buffers j).BufferData := a1
  have e2 : ((UnmapAll updateType (ms.write w)).Buffers j).Data = w j := a2
  refine ⟨e1, e2, ?_, a4⟩
  intro hinv
  unfold MapState.ClientInv at hinv ⊢
  rw [e1]
  have a3' : ((UnmapAll updateType (ms.write w)).Buffers j).pData = 0 ∨
      ((UnmapAll updateType (ms.write w)).Buffers j).pData = (ms.Buffers j).pData := a3
  rcases a3' with h0 | h0
  · exact Or.inl h0
  · rw [h0]; exact hinv

/-! ### The inverse of a matrix -/

theorem GetInverse_det_eq {T : Type} [Field T] (m : Matrix3x4 T) :
    Matrix3x4.GetInverse.det m = m.GetDeterminant := by
  unfold Matrix3x4.GetInverse.det Matrix3x4.GetDeterminant
  simp only []
  ring

theorem GetInverse_singular {T : Type} [Field T] [DecidableEq T] (m : Matrix3x4 T)
    (h : m.GetDeterminant = 0) :
    m.GetInverse = { (Matrix3x4.SetIdentity : Matrix3x4 T) with
      M03 := -m.M03, M13 := -m.M13, M23 := -m.M23 } := by
  have hd := GetInverse_det_eq m
  rw [h] at hd
  unfold Matrix3x4.GetInverse.det at hd
  unfold Matrix3x4.GetInverse
  simp only [] at hd ⊢
  rw [if_pos hd]

theorem GetInverse_regular {T : Type} [Field T] [DecidableEq T] (m : Matrix3x4 T)
    (h : m.GetDeterminant ≠ 0) :
    Matrix3x4.MultiplyMatrix m m.GetInverse = Matrix3x4.SetIdentity ∧
    Matrix3x4.MultiplyMatrix m.GetInverse m = Matrix3x4.SetIdentity := by
  have hd := GetInverse_det_eq m
  have hne : Matrix3x4.GetInverse.det m ≠ 0 := by rw [hd]; exact h
  obtain ⟨i, hi⟩ : ∃ i, i = 1 / Matrix3x4.GetInverse.det m := ⟨_, rfl⟩
  have hmul : Matrix3x4.GetInverse.det m * i = 1 := by
    rw [hi]; exact mul_one_div_cancel hne
  unfold Matrix3x4.GetInverse.det at hne hi hmul
  unfold Matrix3x4.GetInverse Matrix3x4.MultiplyMatrix Matrix3x4.MultiplyMatrix_NonOpt
    Matrix3x4.SetIdentity
  simp only [] at hne hi hmul ⊢
  rw [if_neg hne, ← hi]
  clear hi hne hd h
  rcases m with ⟨m00, m01, m02, m03, m10, m11, m12, m13, m20, m21, m22, m23⟩
  simp only [Matrix3x4.mk.injEq] at hmul ⊢
  refine ⟨⟨?_, ?_, ?_, ?_, ?_, ?_, ?_, ?_, ?_, ?_, ?_, ?_⟩,
    ⟨?_, ?_, ?_, ?_, ?_, ?_, ?_, ?_, ?_, ?_, ?_, ?_⟩⟩ <;>
  first
  | ring1
  | linear_combination hmul
  | linear_combination (-m03) * hmul
  | linear_combination (-m13) * hmul
  | linear_combination (-m23) * hmul


/-! ### The hash table: links, chains and searches -/

theorem hs_land_le (a m : Nat) : a &&& m ≤ m := Nat.and_le_right

theorem hs_land_mod (a m n : Nat) (hm : m + 1 = 2 ^ n) : a &&& m = a % (m + 1) := by
  have : m = 2 ^ n - 1 := by omega
  rw [this, Nat.and_pow_two_sub_one_eq_mod]
  congr 1
  have : 0 < 2 ^ n := Nat.pos_pow_of_pos _ (by decide)
  omega

theorem hs_nodup_length_le (l : List Nat) (m : Nat) (hn : l.Nodup) (hb : ∀ i ∈ l, i ≤ m) :
    l.length ≤ m + 1 := by
  have h1 : l.toFinset ⊆ Finset.range (m + 1) := by
    intro i hi
    rw [List.mem_toFinset] at hi
    exact Finset.mem_range.mpr (Nat.lt_succ_of_le (hb i hi))
  have h2 := Finset.card_le_card h1
  rw [List.toFinset_card_of_nodup hn, Finset.card_range] at h2
  exact h2

section HashLemmas

variable {C U : Type}

theorem Seg_nil (E : Nat → HashsetCachedNodeEntry C U) (m : Nat) (a f : Int) :
    HashSetBase.Seg E m a [] f ↔ a = f := Iff.rfl

theorem Seg_cons (E : Nat → HashsetCachedNodeEntry C U) (m : Nat) (a f : Int) (i : Nat)
    (l : List Nat) :
    HashSetBase.Seg E m a (i :: l) f ↔
      (a = (i : Int) ∧ i ≤ m ∧ HashSetBase.Live E i ∧
        HashSetBase.Seg E m (E i).NextInChain l f) := Iff.rfl

theorem Seg_append (E : Nat → HashsetCachedNodeEntry C U) (m : Nat) (l1 l2 : List Nat) :
    ∀ (a f : Int), HashSetBase.Seg E m a (l1 ++ l2) f ↔
      ∃ b, HashSetBase.Seg E m a l1 b ∧ HashSetBase.Seg E m b l2 f := by
  induction l1 with
  | nil =>
    intro a f
    simp only [List.nil_append, Seg_nil]
    constructor
    · intro h; exact ⟨a, rfl, h⟩
    · rintro ⟨b, rfl, h⟩; exact h
  | cons i l ih =>
    intro a f
    simp only [List.cons_append, Seg_cons, ih]
    constructor
    · rintro ⟨h1, h2, h3, b, h4, h5⟩
      exact ⟨b, ⟨h1, h2, h3, h4⟩, h5⟩
    · rintro ⟨b, ⟨h1, h2, h3, h4⟩, h5⟩
      exact ⟨h1, h2, h3, b, h4, h5⟩

theorem Seg_frame (E E2 : Nat → HashsetCachedNodeEntry C U) (m : Nat) (l : List Nat) :
    ∀ (a f : Int), (∀ i ∈ l, E2 i = E i) → HashSetBase.Seg E m a l f →
      HashSetBase.Seg E2 m a l f := by
  induction l with
  | nil => intro a f _ h; exact h
  | cons i l ih =>
    intro a f heq h
    rw [Seg_cons] at h ⊢
    obtain ⟨h1, h2, h3, h4⟩ := h
    have hi : E2 i = E i := heq i (List.mem_cons_self _ _)
    refine ⟨h1, h2, ?_, ?_⟩
    · unfold HashSetBase.Live at h3 ⊢
      rw [hi]; exact h3
    · rw [hi]
      exact ih _ _ (fun j hj => heq j (List.mem_cons_of_mem _ hj)) h4

theorem Seg_mem (E : Nat → HashsetCachedNodeEntry C U) (m : Nat) (l : List Nat) :
    ∀ (a f : Int), HashSetBase.Seg E m a l f → ∀ i ∈ l, i ≤ m ∧ HashSetBase.Live E i := by
  induction l with
  | nil => intro a f _ i hi; cases hi
  | cons j l ih =>
    intro a f h i hi
    rw [Seg_cons] at h
    obtain ⟨_, h2, h3, h4⟩ := h
    rcases List.mem_cons.mp hi with rfl | hi
    · exact ⟨h2, h3⟩
    · exact ih _ _ h4 i hi

theorem Live_iff (E : Nat → HashsetCachedNodeEntry C U) (i : Nat) :
    HashSetBase.Live E i ↔ (E i).IsEmpty = false := by
  unfold HashSetBase.Live HashsetCachedNodeEntry.IsEmpty
  simp

theorem mem_liveSet (E : Nat → HashsetCachedNodeEntry C U) (m i : Nat) :
    i ∈ HashSetBase.liveSet E m ↔ i ≤ m ∧ HashSetBase.Live E i := by
  unfold HashSetBase.liveSet HashSetBase.Live
  simp only [Finset.mem_filter, Finset.mem_range]
  constructor
  · rintro ⟨h1, h2⟩; exact ⟨by omega, h2⟩
  · rintro ⟨h1, h2⟩; exact ⟨by omega, h2⟩

theorem ValueIs_iff [DecidableEq C] (e : HashsetCachedNodeEntry C U) (key : C) :
    e.ValueIs key = true ↔ ∃ node, e.Value = some node ∧ node.First = key := by
  unfold HashsetCachedNodeEntry.ValueIs
  cases e.Value with
  | none => simp
  | some node => simp

/-- The loop of `findIndexCore` along a chain. -/
theorem findIndexCore_loop_spec [DecidableEq C] (t : TableType C U) (key : C) (hv : Nat)
    (l : List Nat) :
    ∀ (a fuel : Nat), HashSetBase.Seg t.E t.SizeMask (a : Int) (a :: l) (-1) →
      (∀ i ∈ a :: l, (t.E i).HashValue = hv) → (a :: l).length ≤ fuel →
      ∃ x, HashSetBase.findIndexCore.loop t key hv fuel a = some x ∧
        ((x = -1 ∧ ∀ i ∈ a :: l, (t.E i).ValueIs key = false) ∨
         (∃ i ∈ a :: l, x = (i : Int) ∧ (t.E i).ValueIs key = true)) := by
  induction l with
  | nil =>
    intro a fuel hseg hh hf
    obtain ⟨f, rfl⟩ : ∃ f, fuel = f + 1 := ⟨fuel - 1, by simp at hf; omega⟩
    rw [Seg_cons, Seg_nil] at hseg
    obtain ⟨_, _, _, hn⟩ := hseg
    unfold HashSetBase.findIndexCore.loop
    by_cases hk : (t.E a).ValueIs key = true
    · refine ⟨(a : Int), ?_, Or.inr ⟨a, List.mem_cons_self _ _, rfl, hk⟩⟩
      rw [if_pos ⟨hh a (List.mem_cons_self _ _), hk⟩]
    · refine ⟨-1, ?_, Or.inl ⟨rfl, ?_⟩⟩
      · rw [if_neg (fun h => hk h.2), if_pos hn]
      · intro i hi
        rcases List.mem_cons.mp hi with rfl | hi
        · simpa using hk
        · cases hi
  | cons b l ih =>
    intro a fuel hseg hh hf
    obtain ⟨f, rfl⟩ : ∃ f, fuel = f + 1 := ⟨fuel - 1, by simp at hf; omega⟩
    rw [Seg_cons] at hseg
    obtain ⟨_, _, _, hn⟩ := hseg
    have hnb : (t.E a).NextInChain = (b : Int) := by
      rw [Seg_cons] at hn; exact hn.1
    unfold HashSetBase.findIndexCore.loop
    by_cases hk : (t.E a).ValueIs key = true
    · refine ⟨(a : Int), ?_, Or.inr ⟨a, List.mem_cons_self _ _, rfl, hk⟩⟩
      rw [if_pos ⟨hh a (List.mem_cons_self _ _), hk⟩]
    · rw [if_neg (fun h => hk h.2), if_neg (by rw [hnb]; omega), hnb, Int.toNat_ofNat]
      rw [hnb] at hn
      obtain ⟨x, hx, hres⟩ := ih b f hn (fun i hi => hh i (List.mem_cons_of_mem _ hi))
        (by simp at hf ⊢; omega)
      refine ⟨x, hx, ?_⟩
      rcases hres with ⟨h1, h2⟩ | ⟨i, hi, h1, h2⟩
      · left
        refine ⟨h1, ?_⟩
        intro i hi
        rcases List.mem_cons.mp hi with rfl | hi
        · simpa using hk
        · exact h2 i hi
      · right
        exact ⟨i, List.mem_cons_of_mem _ hi, h1, h2⟩

end HashLemmas
section HashLemmas2

variable {C U : Type}

theorem Chains_head (E : Nat → HashsetCachedNodeEntry C U) (m : Nat) (ch : Nat → List Nat)
    (hc : HashSetBase.Chains E m ch) (r : Nat) (hne : ch r ≠ []) :
    ∃ l, ch r = r :: l ∧ r ≤ m ∧ HashSetBase.Live E r ∧ (E r).HashValue = r := by
  obtain ⟨_, h2, h3, _⟩ := hc
  have hs := h2 r hne
  cases hl : ch r with
  | nil => exact absurd hl hne
  | cons a l =>
    rw [hl, Seg_cons] at hs
    obtain ⟨h5, h6, h7, _⟩ := hs
    have : a = r := by omega
    subst this
    exact ⟨l, rfl, h6, h7, h3 a a (by rw [hl]; exact List.mem_cons_self _ _)⟩

theorem Chains_empty (E : Nat → HashsetCachedNodeEntry C U) (m : Nat) (ch : Nat → List Nat)
    (hc : HashSetBase.Chains E m ch) (r : Nat)
    (hr : ¬ HashSetBase.Live E r ∨ (E r).HashValue ≠ r) : ch r = [] := by
  by_contra hne
  obtain ⟨l, _, _, h1, h2⟩ := Chains_head E m ch hc r hne
  rcases hr with h | h
  · exact h h1
  · exact h h2

theorem Chains_mem (E : Nat → HashsetCachedNodeEntry C U) (m : Nat) (ch : Nat → List Nat)
    (hc : HashSetBase.Chains E m ch) (r i : Nat) (hi : i ∈ ch r) :
    i ≤ m ∧ HashSetBase.Live E i ∧ (E i).HashValue = r := by
  have hne : ch r ≠ [] := List.ne_nil_of_mem hi
  obtain ⟨_, h2, h3, _⟩ := hc
  obtain ⟨a, b⟩ := Seg_mem E m (ch r) _ _ (h2 r hne) i hi
  exact ⟨a, b, h3 r i hi⟩

theorem Chains_length (E : Nat → HashsetCachedNodeEntry C U) (m : Nat) (ch : Nat → List Nat)
    (hc : HashSetBase.Chains E m ch) (r : Nat) : (ch r).length ≤ m + 1 :=
  hs_nodup_length_le (ch r) m (hc.1 r) (fun i hi => (Chains_mem E m ch hc r i hi).1)

/-- The search `findIndexCore` on a table that satisfies the invariant: it
returns -1 when no entry holds the key, else the index of the entry that does. -/
theorem findIndexCore_spec [DecidableEq C] (HashF : C → Nat) (t : TableType C U)
    (hw : t.WF HashF) (key : C) :
    ∃ x, HashSetBase.findIndexCore t key (HashF key &&& t.SizeMask) = some x ∧
      ((x = -1 ∧ ∀ i, i ≤ t.SizeMask → HashSetBase.Live t.E i →
          (t.E i).ValueIs key = false) ∨
       (∃ i : Nat, x = (i : Int) ∧ i ≤ t.SizeMask ∧ HashSetBase.Live t.E i ∧
          (t.E i).ValueIs key = true)) := by
  obtain ⟨ch, hc⟩ := hw.chains
  have hkey : ∀ i, i ≤ t.SizeMask → HashSetBase.Live t.E i → (t.E i).ValueIs key = true →
      i ∈ ch (HashF key &&& t.SizeMask) := by
    intro i hi hl hk
    obtain ⟨node, hn, hh⟩ := hw.nodes.1 i hi hl
    obtain ⟨node2, hn2, hf⟩ := (ValueIs_iff _ _).mp hk
    rw [hn] at hn2
    cases hn2
    rw [hf] at hh
    rw [← hh]
    exact hc.2.2.2 i hi hl
  unfold HashSetBase.findIndexCore
  by_cases h0 : (t.E (HashF key &&& t.SizeMask)).IsEmpty = true ∨
      (t.E (HashF key &&& t.SizeMask)).HashValue ≠ HashF key &&& t.SizeMask
  · rw [if_pos h0]
    refine ⟨-1, rfl, Or.inl ⟨rfl, ?_⟩⟩
    have hemp : ch (HashF key &&& t.SizeMask) = [] := by
      apply Chains_empty t.E t.SizeMask ch hc
      rcases h0 with h | h
      · left
        rw [Live_iff]
        simp [h]
      · right; exact h
    intro i hi hl
    by_contra hk
    have hk2 : (t.E i).ValueIs key = true := by simpa using hk
    have := hkey i hi hl hk2
    rw [hemp] at this
    cases this
  · rw [if_neg h0]
    have h1 : HashSetBase.Live t.E (HashF key &&& t.SizeMask) := by
      rw [Live_iff]
      by_contra h
      exact h0 (Or.inl (by simpa using h))
    have h2 : (t.E (HashF key &&& t.SizeMask)).HashValue = HashF key &&& t.SizeMask := by
      by_contra h
      exact h0 (Or.inr h)
    have hmem := hc.2.2.2 _ (hs_land_le _ _) h1
    rw [h2] at hmem
    obtain ⟨l, hl, _⟩ := Chains_head t.E t.SizeMask ch hc _ (List.ne_nil_of_mem hmem)
    have hseg := hc.2.1 _ (List.ne_nil_of_mem hmem)
    have hlen := Chains_length t.E t.SizeMask ch hc (HashF key &&& t.SizeMask)
    rw [hl] at hseg hlen
    obtain ⟨x, hx, hres⟩ := findIndexCore_loop_spec t key (HashF key &&& t.SizeMask) l
      (HashF key &&& t.SizeMask) (t.SizeMask + 1) hseg
      (fun i hi => hc.2.2.1 _ i (by rw [hl]; exact hi)) hlen
    refine ⟨x, hx, ?_⟩
    rcases hres with ⟨a, b⟩ | ⟨i, hi, a, b⟩
    · left
      refine ⟨a, ?_⟩
      intro i hi hlive
      by_contra hk
      have hk2 : (t.E i).ValueIs key = true := by simpa using hk
      have := hkey i hi hlive hk2
      rw [hl] at this
      rw [b i this] at hk2
      cases hk2
    · right
      have := Chains_mem t.E t.SizeMask ch hc _ i (by rw [hl]; exact hi)
      exact ⟨i, a, this.1, this.2.1, b⟩

theorem Holds_unique (HashF : C → Nat) (t : TableType C U) (hw : t.WF HashF) (k : C)
    (v w : U) (hv : t.Holds k v) (hw2 : t.Holds k w) : v = w := by
  obtain ⟨i, hi, hli, hvi⟩ := hv
  obtain ⟨j, hj, hlj, hvj⟩ := hw2
  have := hw.nodes.2 i j _ _ hi hj hli hlj hvi hvj rfl
  subst this
  rw [hvi] at hvj
  cases hvj
  rfl

/-- The function `GetAlt` on a hash set that satisfies the invariant. -/
theorem GetAlt_spec [DecidableEq C] (HashF : C → Nat) (h : HashSetBase C U)
    (hw : h.WF HashF) (key : C) :
    (∀ v, h.Holds key v →
      HashSetBase.GetAlt HashF h key = some (some { First := key, Second := v })) ∧
    ((∀ v, ¬ h.Holds key v) → HashSetBase.GetAlt HashF h key = some none) := by
  unfold HashSetBase.GetAlt HashSetBase.findIndexAlt
  cases hp : h.pTable with
  | none =>
    refine ⟨?_, fun _ => rfl⟩
    intro v hv
    unfold HashSetBase.Holds at hv
    rw [hp] at hv
    exact absurd hv id
  | some t =>
    have hwt : t.WF HashF := by
      unfold HashSetBase.WF at hw
      rw [hp] at hw
      exact hw
    have hH : ∀ v, h.Holds key v ↔ t.Holds key v := by
      intro v
      unfold HashSetBase.Holds
      rw [hp]
    obtain ⟨x, hx, hres⟩ := findIndexCore_spec HashF t hwt key
    simp only [hx]
    rcases hres with ⟨rfl, hno⟩ | ⟨i, rfl, hi, hl, hk⟩
    · have habs : ∀ v, ¬ t.Holds key v := by
        rintro v ⟨i, hi, hl, hv⟩
        have := hno i hi hl
        unfold HashsetCachedNodeEntry.ValueIs at this
        rw [hv] at this
        simp at this
      refine ⟨?_, ?_⟩
      · intro v hv
        exact absurd ((hH v).mp hv) (habs v)
      · intro _
        rfl
    · obtain ⟨node, hn, hf⟩ := (ValueIs_iff _ _).mp hk
      have hnode : node = { First := key, Second := node.Second } := by
        cases node
        simp only [HashNode.mk.injEq, and_true]
        exact hf
      have hholds : t.Holds key node.Second := ⟨i, hi, hl, by rw [hn, ← hnode]⟩
      refine ⟨?_, ?_⟩
      · intro v hv
        have := Holds_unique HashF t hwt key v node.Second ((hH v).mp hv) hholds
        subst this
        simp only [Int.natCast_nonneg, ge_iff_le, if_true, Int.toNat_ofNat, hn]
        rw [← hnode]
      · intro hno
        exact absurd ((hH _).mpr hholds) (hno _)

/-- The function `Hash::Get` on a table that satisfies the invariant: it returns
true and stores the value when the table holds the key, and returns false and
leaves the value pointed to alone when it does not. -/
theorem Hash_Get_spec [DecidableEq C] (HashF : C → Nat) (h : Hash C U)
    (hw : h.mHash.WF HashF) (key : C) (pvalue : Option U) :
    (∀ v, h.mHash.Holds key v →
      Hash.Get HashF h key pvalue = some (true, pvalue.map (fun _ => v))) ∧
    ((∀ v, ¬ h.mHash.Holds key v) → Hash.Get HashF h key pvalue = some (false, pvalue)) := by
  obtain ⟨h1, h2⟩ := GetAlt_spec HashF h.mHash hw key
  unfold Hash.Get
  refine ⟨?_, ?_⟩
  · intro v hv
    rw [h1 v hv]
  · intro hno
    rw [h2 hno]

end HashLemmas2

section HashLemmas3

variable {C U : Type}

theorem node_eta (n : HashNode C U) : n = { First := n.First, Second := n.Second } := by
  cases n; rfl

theorem Holds_of_value (t : TableType C U) (i : Nat) (n : HashNode C U)
    (hi : i ≤ t.SizeMask) (hl : HashSetBase.Live t.E i) (hv : (t.E i).Value = some n) :
    t.Holds n.First n.Second :=
  ⟨i, hi, hl, by rw [hv, ← node_eta]⟩

/-- A node placed in an empty entry. -/
theorem layout_place (HashF : C → Nat) (t t2 : TableType C U) (idx : Nat)
    (node : HashNode C U) (hm : t2.SizeMask = t.SizeMask)
    (hn : HashSetBase.Nodes HashF t.E t.SizeMask) (hidx : idx ≤ t.SizeMask)
    (he : ¬ HashSetBase.Live t.E idx) (hl2 : HashSetBase.Live t2.E idx)
    (hv2 : (t2.E idx).Value = some node)
    (hh2 : (t2.E idx).HashValue = HashF node.First &&& t.SizeMask)
    (habs : ∀ v, ¬ t.Holds node.First v)
    (hsame : ∀ i, i ≠ idx → (t2.E i).Value = (t.E i).Value ∧
      (t2.E i).HashValue = (t.E i).HashValue ∧
      (HashSetBase.Live t2.E i ↔ HashSetBase.Live t.E i)) :
    HashSetBase.Nodes HashF t2.E t2.SizeMask ∧
    (HashSetBase.liveSet t2.E t2.SizeMask).card =
      (HashSetBase.liveSet t.E t.SizeMask).card + 1 ∧
    (∀ k v, t2.Holds k v ↔ (t.Holds k v ∨ (k = node.First ∧ v = node.Second))) := by
  rw [hm]
  refine ⟨⟨?_, ?_⟩, ?_, ?_⟩
  · intro i hi hl
    by_cases h : i = idx
    · subst h
      exact ⟨node, hv2, hh2⟩
    · obtain ⟨a, b, c⟩ := hsame i h
      rw [a, b]
      exact hn.1 i hi (c.mp hl)
  · intro i j ni nj hi hj hli hlj hvi hvj hf
    by_cases h1 : i = idx
    · by_cases h2 : j = idx
      · rw [h1, h2]
      · exfalso
        subst h1
        obtain ⟨a, _, c⟩ := hsame j h2
        rw [hv2] at hvi
        cases hvi
        rw [a] at hvj
        have := Holds_of_value t j nj hj (c.mp hlj) hvj
        rw [← hf] at this
        exact habs _ this
    · by_cases h2 : j = idx
      · exfalso
        subst h2
        obtain ⟨a, _, c⟩ := hsame i h1
        rw [hv2] at hvj
        cases hvj
        rw [a] at hvi
        have := Holds_of_value t i ni hi (c.mp hli) hvi
        rw [hf] at this
        exact habs _ this
      · obtain ⟨a, _, c⟩ := hsame i h1
        obtain ⟨a2, _, c2⟩ := hsame j h2
        rw [a] at hvi
        rw [a2] at hvj
        exact hn.2 i j ni nj hi hj (c.mp hli) (c2.mp hlj) hvi hvj hf
  · have hset : HashSetBase.liveSet t2.E t.SizeMask =
        insert idx (HashSetBase.liveSet t.E t.SizeMask) := by
      ext i
      rw [Finset.mem_insert, mem_liveSet, mem_liveSet]
      by_cases h : i = idx
      · subst h
        simp [hidx, hl2]
      · simp only [h, false_or, (hsame i h).2.2]
    rw [hset, Finset.card_insert_of_not_mem]
    rw [mem_liveSet]
    exact fun h => he h.2
  · intro k v
    constructor
    · rintro ⟨i, hi, hl, hv⟩
      rw [hm] at hi
      by_cases h : i = idx
      · subst h
        rw [hv2] at hv
        cases hv
        exact Or.inr ⟨rfl, rfl⟩
      · obtain ⟨a, _, c⟩ := hsame i h
        rw [a] at hv
        exact Or.inl ⟨i, hi, c.mp hl, hv⟩
    · rintro (⟨i, hi, hl, hv⟩ | ⟨rfl, rfl⟩)
      · have h : i ≠ idx := by
          rintro rfl
          exact he hl
        obtain ⟨a, _, c⟩ := hsame i h
        exact ⟨i, by rw [hm]; exact hi, c.mpr hl, by rw [a]; exact hv⟩
      · exact ⟨idx, by rw [hm]; exact hidx, hl2, by rw [hv2, ← node_eta]⟩

/-- A node moved from the entry `a` to the empty entry `b`. -/
theorem layout_move (HashF : C → Nat) (t t2 : TableType C U) (a b : Nat)
    (hm : t2.SizeMask = t.SizeMask)
    (hn : HashSetBase.Nodes HashF t.E t.SizeMask) (ha : a ≤ t.SizeMask)
    (hb : b ≤ t.SizeMask) (hla : HashSetBase.Live t.E a) (heb : ¬ HashSetBase.Live t.E b)
    (hea2 : ¬ HashSetBase.Live t2.E a) (hlb2 : HashSetBase.Live t2.E b)
    (hv2 : (t2.E b).Value = (t.E a).Value)
    (hh2 : (t2.E b).HashValue = (t.E a).HashValue)
    (hsame : ∀ i, i ≠ a → i ≠ b → (t2.E i).Value = (t.E i).Value ∧
      (t2.E i).HashValue = (t.E i).HashValue ∧
      (HashSetBase.Live t2.E i ↔ HashSetBase.Live t.E i)) :
    HashSetBase.Nodes HashF t2.E t2.SizeMask ∧
    (HashSetBase.liveSet t2.E t2.SizeMask).card =
      (HashSetBase.liveSet t.E t.SizeMask).card ∧
    (∀ k v, t2.Holds k v ↔ t.Holds k v) := by
  rw [hm]
  have hab : a ≠ b := by
    rintro rfl
    exact heb hla
  -- the old entry that an entry of the new table holds
  have hsrc : ∀ i, i ≤ t.SizeMask → HashSetBase.Live t2.E i →
      ∃ j, j ≤ t.SizeMask ∧ HashSetBase.Live t.E j ∧ (t2.E i).Value = (t.E j).Value ∧
        (t2.E i).HashValue = (t.E j).HashValue ∧ (j = a ↔ i = b) := by
    intro i hi hl
    by_cases h1 : i = b
    · subst h1
      exact ⟨a, ha, hla, hv2, hh2, by simp⟩
    · have h2 : i ≠ a := by
        rintro rfl
        exact hea2 hl
      obtain ⟨x, y, z⟩ := hsame i h2 h1
      exact ⟨i, hi, z.mp hl, x, y, by simp [h1, h2]⟩
  refine ⟨⟨?_, ?_⟩, ?_, ?_⟩
  · intro i hi hl
    obtain ⟨j, hj, hlj, x, y, _⟩ := hsrc i hi hl
    rw [x, y]
    exact hn.1 j hj hlj
  · intro i j ni nj hi hj hli hlj hvi hvj hf
    obtain ⟨i2, hi2, hli2, x, _, z⟩ := hsrc i hi hli
    obtain ⟨j2, hj2, hlj2, x2, _, z2⟩ := hsrc j hj hlj
    rw [x] at hvi
    rw [x2] at hvj
    have := hn.2 i2 j2 ni nj hi2 hj2 hli2 hlj2 hvi hvj hf
    subst this
    by_cases h : i2 = a
    · rw [z.mp h, z2.mp h]
    · have e1 : i ≠ b := fun e => h (z.mpr e)
      have e2 : j ≠ b := fun e => h (z2.mpr e)
      by_contra hne
      -- both entries hold the node of an old entry other than `a`: they are that entry
      have f1 : i = i2 := by
        by_contra hc
        by_cases h1 : i = a
        · subst h1; exact hea2 hli
        · obtain ⟨v1, _, _⟩ := hsame i h1 e1
          have hl1 := (hsame i h1 e1).2.2.mp hli
          rw [← x, v1] at hvi
          obtain ⟨nn, hnn⟩ : ∃ nn, (t.E i).Value = some nn := ⟨ni, hvi⟩
          have hv2b : (t.E i2).Value = some ni := by rw [← x, v1]; exact hvi
          exact hc (hn.2 i i2 ni ni hi hi2 hl1 hli2 hvi hv2b rfl)
      have f2 : j = i2 := by
        by_contra hc
        by_cases h1 : j = a
        · subst h1; exact hea2 hlj
        · obtain ⟨v1, _, _⟩ := hsame j h1 e2
          have hl1 := (hsame j h1 e2).2.2.mp hlj
          have hv2b : (t.E i2).Value = some nj := hvj
          have hvj2 : (t.E j).Value = some nj := by rw [← v1, x2]; exact hvj
          exact hc (hn.2 j i2 nj nj hj hi2 hl1 hli2 hvj2 hv2b rfl)
      exact hne (f1.trans f2.symm)
  · have hset : HashSetBase.liveSet t2.E t.SizeMask =
        insert b ((HashSetBase.liveSet t.E t.SizeMask).erase a) := by
      ext i
      rw [Finset.mem_insert, Finset.mem_erase, mem_liveSet, mem_liveSet]
      by_cases h1 : i = b
      · subst h1
        simp [hb, hlb2]
      · by_cases h2 : i = a
        · subst h2
          simp [h1, hea2]
        · simp only [h1, h2, false_or, ne_eq, not_false_eq_true, true_and,
            (hsame i h2 h1).2.2]
    rw [hset, Finset.card_insert_of_not_mem, Finset.card_erase_of_mem]
    · have : 0 < (HashSetBase.liveSet t.E t.SizeMask).card :=
        Finset.card_pos.mpr ⟨a, (mem_liveSet _ _ _).mpr ⟨ha, hla⟩⟩
      omega
    · exact (mem_liveSet _ _ _).mpr ⟨ha, hla⟩
    · rw [Finset.mem_erase, mem_liveSet]
      exact fun h => heb h.2.2
  · intro k v
    constructor
    · rintro ⟨i, hi, hl, hv⟩
      rw [hm] at hi
      obtain ⟨j, hj, hlj, x, _, _⟩ := hsrc i hi hl
      exact ⟨j, hj, hlj, by rw [← x]; exact hv⟩
    · rintro ⟨i, hi, hl, hv⟩
      by_cases h1 : i = a
      · subst h1
        exact ⟨b, by rw [hm]; exact hb, hlb2, by rw [hv2]; exact hv⟩
      · have h2 : i ≠ b := by
          rintro rfl
          exact heb hl
        obtain ⟨x, _, z⟩ := hsame i h1 h2
        exact ⟨i, by rw [hm]; exact hi, z.mpr hl, by rw [x]; exact hv⟩

/-- The node of the entry `x` destructed. -/
theorem layout_clear (HashF : C → Nat) (t t2 : TableType C U) (x : Nat)
    (node : HashNode C U) (hm : t2.SizeMask = t.SizeMask)
    (hn : HashSetBase.Nodes HashF t.E t.SizeMask) (hx : x ≤ t.SizeMask)
    (hlx : HashSetBase.Live t.E x) (hvx : (t.E x).Value = some node)
    (hex2 : ¬ HashSetBase.Live t2.E x)
    (hsame : ∀ i, i ≠ x → (t2.E i).Value = (t.E i).Value ∧
      (t2.E i).HashValue = (t.E i).HashValue ∧
      (HashSetBase.Live t2.E i ↔ HashSetBase.Live t.E i)) :
    HashSetBase.Nodes HashF t2.E t2.SizeMask ∧
    (HashSetBase.liveSet t2.E t2.SizeMask).card + 1 =
      (HashSetBase.liveSet t.E t.SizeMask).card ∧
    (∀ k v, t2.Holds k v ↔ (t.Holds k v ∧ k ≠ node.First)) := by
  rw [hm]
  have hne : ∀ i, HashSetBase.Live t2.E i → i ≠ x := by
    rintro i hl rfl
    exact hex2 hl
  refine ⟨⟨?_, ?_⟩, ?_, ?_⟩
  · intro i hi hl
    obtain ⟨a, b, c⟩ := hsame i (hne i hl)
    rw [a, b]
    exact hn.1 i hi (c.mp hl)
  · intro i j ni nj hi hj hli hlj hvi hvj hf
    obtain ⟨a, _, c⟩ := hsame i (hne i hli)
    obtain ⟨a2, _, c2⟩ := hsame j (hne j hlj)
    rw [a] at hvi
    rw [a2] at hvj
    exact hn.2 i j ni nj hi hj (c.mp hli) (c2.mp hlj) hvi hvj hf
  · have hset : HashSetBase.liveSet t2.E t.SizeMask =
        (HashSetBase.liveSet t.E t.SizeMask).erase x := by
      ext i
      rw [Finset.mem_erase, mem_liveSet, mem_liveSet]
      by_cases h : i = x
      · subst h
        simp [hex2]
      · simp only [h, ne_eq, not_false_eq_true, true_and, (hsame i h).2.2]
    rw [hset, Finset.card_erase_of_mem ((mem_liveSet _ _ _).mpr ⟨hx, hlx⟩)]
    have : 0 < (HashSetBase.liveSet t.E t.SizeMask).card :=
      Finset.card_pos.mpr ⟨x, (mem_liveSet _ _ _).mpr ⟨hx, hlx⟩⟩
    omega
  · intro k v
    constructor
    · rintro ⟨i, hi, hl, hv⟩
      rw [hm] at hi
      obtain ⟨a, _, c⟩ := hsame i (hne i hl)
      rw [a] at hv
      refine ⟨⟨i, hi, c.mp hl, hv⟩, ?_⟩
      rintro rfl
      exact hne i hl (hn.2 i x _ _ hi hx (c.mp hl) hlx hv hvx rfl)
    · rintro ⟨⟨i, hi, hl, hv⟩, hk⟩
      have h : i ≠ x := by
        rintro rfl
        rw [hvx] at hv
        cases hv
        exact hk rfl
      obtain ⟨a, _, c⟩ := hsame i h
      exact ⟨i, by rw [hm]; exact hi, c.mpr hl, by rw [a]; exact hv⟩

end HashLemmas3
section HashLemmas4

variable {C U : Type}

theorem findBlank_steps (t : TableType C U) (n : Nat) (hm : t.SizeMask + 1 = 2 ^ n) :
    ∀ (fuel cur : Nat),
      (∃ j, 1 ≤ j ∧ j ≤ fuel ∧ (t.E ((cur + j) % (t.SizeMask + 1))).IsEmpty = true) →
      ∃ b, HashSetBase.add.findBlank t fuel cur = some b ∧ b ≤ t.SizeMask ∧
        (t.E b).IsEmpty = true := by
  intro fuel
  induction fuel with
  | zero =>
    rintro cur ⟨j, h1, h2, _⟩
    omega
  | succ f ih =>
    rintro cur ⟨j, h1, h2, h3⟩
    unfold HashSetBase.add.findBlank
    have hland : (cur + 1) &&& t.SizeMask = (cur + 1) % (t.SizeMask + 1) :=
      hs_land_mod _ _ n hm
    by_cases he : (t.E ((cur + 1) &&& t.SizeMask)).IsEmpty = true
    · rw [if_pos he]
      exact ⟨_, rfl, hs_land_le _ _, he⟩
    · rw [if_neg he]
      apply ih
      have hj : j ≠ 1 := by
        rintro rfl
        rw [hland] at he
        exact he h3
      refine ⟨j - 1, by omega, by omega, ?_⟩
      rw [hland, Nat.mod_add_mod]
      have : cur + 1 + (j - 1) = cur + j := by omega
      rw [this]
      exact h3

/-- The search for a blank entry finds one when the table has an empty entry. -/
theorem findBlank_spec (t : TableType C U) (n : Nat) (hm : t.SizeMask + 1 = 2 ^ n)
    (cur e : Nat) (he : e ≤ t.SizeMask) (hemp : (t.E e).IsEmpty = true) :
    ∃ b, HashSetBase.add.findBlank t (t.SizeMask + 1) cur = some b ∧ b ≤ t.SizeMask ∧
      (t.E b).IsEmpty = true := by
  apply findBlank_steps t n hm
  have hc : cur % (t.SizeMask + 1) < t.SizeMask + 1 := Nat.mod_lt _ (by omega)
  by_cases h : cur % (t.SizeMask + 1) < e
  · refine ⟨e - cur % (t.SizeMask + 1), by omega, by omega, ?_⟩
    rw [Nat.add_mod, Nat.mod_eq_of_lt (by omega : e - cur % (t.SizeMask + 1) < t.SizeMask + 1)]
    have : cur % (t.SizeMask + 1) + (e - cur % (t.SizeMask + 1)) = e := by omega
    rw [this, Nat.mod_eq_of_lt (by omega)]
    exact hemp
  · refine ⟨e + (t.SizeMask + 1) - cur % (t.SizeMask + 1), by omega, by omega, ?_⟩
    have h2 : (cur + (e + (t.SizeMask + 1) - cur % (t.SizeMask + 1))) % (t.SizeMask + 1) = e := by
      have hdiv := Nat.div_add_mod cur (t.SizeMask + 1)
      have : cur + (e + (t.SizeMask + 1) - cur % (t.SizeMask + 1)) =
          e + (t.SizeMask + 1) * (cur / (t.SizeMask + 1) + 1) := by
        rw [Nat.mul_add, Nat.mul_one]
        omega
      rw [this, Nat.add_mul_mod_self_left, Nat.mod_eq_of_lt (by omega)]
    rw [h2]
    exact hemp

theorem exists_empty (t : TableType C U) (hc : t.EntryCount = (HashSetBase.liveSet t.E
    t.SizeMask).card) (hroom : t.EntryCount ≤ t.SizeMask) :
    ∃ e, e ≤ t.SizeMask ∧ (t.E e).IsEmpty = true := by
  by_contra hno
  have hsub : Finset.range (t.SizeMask + 1) ⊆ HashSetBase.liveSet t.E t.SizeMask := by
    intro e he
    rw [Finset.mem_range] at he
    rw [mem_liveSet, Live_iff]
    refine ⟨by omega, ?_⟩
    by_contra h
    exact hno ⟨e, by omega, by simpa using h⟩
  have := Finset.card_le_card hsub
  rw [Finset.card_range, ← hc] at this
  omega

/-- The search for the entry that links to `index` along a chain. -/
theorem findPrev_spec (t : TableType C U) (index p : Nat) (l : List Nat) :
    ∀ (c fuel : Nat), HashSetBase.Seg t.E t.SizeMask (c : Int) (l ++ [p]) (index : Int) →
      index ∉ l ++ [p] → (l ++ [p]).length ≤ fuel →
      HashSetBase.add.findPrev t index fuel c = some p := by
  induction l with
  | nil =>
    intro c fuel hseg _ hf
    obtain ⟨f, rfl⟩ : ∃ f, fuel = f + 1 := ⟨fuel - 1, by simp at hf; omega⟩
    rw [List.nil_append, Seg_cons, Seg_nil] at hseg
    obtain ⟨h1, _, _, h4⟩ := hseg
    have : c = p := by omega
    subst this
    unfold HashSetBase.add.findPrev
    rw [if_pos h4]
  | cons a l ih =>
    intro c fuel hseg hnot hf
    obtain ⟨f, rfl⟩ : ∃ f, fuel = f + 1 := ⟨fuel - 1, by simp at hf; omega⟩
    rw [List.cons_append, Seg_cons] at hseg
    obtain ⟨h1, _, _, h4⟩ := hseg
    have hca : c = a := by omega
    subst hca
    have hnext : ∃ b, b ∈ l ++ [p] ∧ (t.E c).NextInChain = (b : Int) := by
      cases hl : l ++ [p] with
      | nil => simp at hl
      | cons b r =>
        rw [hl, Seg_cons] at h4
        exact ⟨b, List.mem_cons_self _ _, h4.1⟩
    obtain ⟨b, hb, hnb⟩ := hnext
    have hbi : b ≠ index := by
      rintro rfl
      exact hnot (List.mem_cons_of_mem _ hb)
    unfold HashSetBase.add.findPrev
    rw [if_neg (by rw [hnb]; omega), if_neg (by rw [hnb]; omega), hnb, Int.toNat_ofNat]
    rw [hnb] at h4
    exact ih b f h4 (fun h => hnot (List.mem_cons_of_mem _ h)) (by simp at hf ⊢; omega)

end HashLemmas4

section HashLemmas5

variable {C U : Type}

theorem Live_of_next (E : Nat → HashsetCachedNodeEntry C U) (i : Nat) (n : Int)
    (h : (E i).NextInChain = n) (hn : n ≠ -2) : HashSetBase.Live E i := by
  unfold HashSetBase.Live
  rw [h]
  exact hn

theorem not_Live_iff (E : Nat → HashsetCachedNodeEntry C U) (i : Nat) :
    ¬ HashSetBase.Live E i ↔ (E i).IsEmpty = true := by
  rw [Live_iff]
  simp

/-- The first case of `add`: the natural entry is empty. -/
theorem placed_empty (HashF : C → Nat) (t t2 : TableType C U) (hw : t.WF HashF)
    (node : HashNode C U) (idx : Nat) (hidx : idx = HashF node.First &&& t.SizeMask)
    (habs : ∀ v, ¬ t.Holds node.First v) (hemp : (t.E idx).IsEmpty = true)
    (ht2 : t2 = { t with
      EntryCount := t.EntryCount + 1
      E := Function.update t.E idx
        { NextInChain := -1, HashValue := idx, Value := some node } }) :
    t2.WF HashF ∧ ∀ k v, t2.Holds k v ↔ (t.Holds k v ∨ (k = node.First ∧ v = node.Second)) := by
  have hle : idx ≤ t.SizeMask := by rw [hidx]; exact hs_land_le _ _
  have he : ¬ HashSetBase.Live t.E idx := (not_Live_iff _ _).mpr hemp
  have hm : t2.SizeMask = t.SizeMask := by rw [ht2]
  have hE : t2.E = Function.update t.E idx
      { NextInChain := -1, HashValue := idx, Value := some node } := by rw [ht2]
  have hat : t2.E idx = { NextInChain := -1, HashValue := idx, Value := some node } := by
    rw [hE, Function.update_same]
  have hoth : ∀ i, i ≠ idx → t2.E i = t.E i := by
    intro i hi
    rw [hE, Function.update_noteq hi]
  have hl2 : HashSetBase.Live t2.E idx := Live_of_next _ _ (-1) (by rw [hat]) (by decide)
  obtain ⟨hn2, hc2, hh2⟩ := layout_place HashF t t2 idx node hm hw.nodes hle he hl2
    (by rw [hat]) (by rw [hat, hidx]) habs
    (fun i hi => by
      unfold HashSetBase.Live
      rw [hoth i hi]
      exact ⟨rfl, rfl, Iff.rfl⟩)
  refine ⟨⟨?_, ?_, hn2, ?_⟩, hh2⟩
  · rw [hm]; exact hw.pow
  · rw [hc2, ← hw.count, ht2]
  · obtain ⟨ch, hc⟩ := hw.chains
    have hlive : ∀ r i, i ∈ ch r → i ≠ idx := by
      rintro r i hi rfl
      exact he (Chains_mem _ _ _ hc r i hi).2.1
    refine ⟨fun r => if r = idx then [idx] else ch r, ?_, ?_, ?_, ?_⟩
    · intro r
      by_cases hr : r = idx
      · simp [hr]
      · simp only [hr, if_false]
        exact hc.1 r
    · intro r hne
      rw [hm]
      by_cases hr : r = idx
      · simp only [hr, if_true]
        rw [Seg_cons, Seg_nil]
        exact ⟨rfl, hle, hl2, by rw [hat]⟩
      · simp only [hr, if_false] at hne ⊢
        exact Seg_frame t.E t2.E _ _ _ _ (fun i hi => hoth i (hlive r i hi)) (hc.2.1 r hne)
    · intro r i hi
      by_cases hr : r = idx
      · simp only [hr, if_true, List.mem_singleton] at hi
        rw [hi, hat, hr]
      · simp only [hr, if_false] at hi
        rw [hoth i (hlive r i hi)]
        exact hc.2.2.1 r i hi
    · intro i hi hl
      rw [hm] at hi
      by_cases h : i = idx
      · rw [h, hat]
        simp
      · rw [hoth i h]
        have hl1 : HashSetBase.Live t.E i := by
          unfold HashSetBase.Live at hl ⊢
          rw [← hoth i h]; exact hl
        have hmem := hc.2.2.2 i hi hl1
        have hr : (t.E i).HashValue ≠ idx := by
          intro hr
          rw [hr] at hmem
          exact he (Chains_head _ _ _ hc idx (List.ne_nil_of_mem hmem)).choose_spec.2.2.1
        simp only [hr, if_false]
        exact hmem

end HashLemmas5
section HashLemmas6

variable {C U : Type}

/-- The second case of `add`: the natural entry is the head of the chain of the
new node, which is moved to the blank entry. -/
theorem placed_collision (HashF : C → Nat) (t t2 : TableType C U) (hw : t.WF HashF)
    (node : HashNode C U) (idx b : Nat) (hidx : idx = HashF node.First &&& t.SizeMask)
    (habs : ∀ v, ¬ t.Holds node.First v) (hlive : HashSetBase.Live t.E idx)
    (hhash : (t.E idx).HashValue = idx) (hb : b ≤ t.SizeMask)
    (hbe : ¬ HashSetBase.Live t.E b)
    (ht2 : t2 = { t with
      EntryCount := t.EntryCount + 1
      E := Function.update (Function.update t.E b (t.E idx)) idx
        { NextInChain := (b : Int), HashValue := idx, Value := some node } }) :
    t2.WF HashF ∧ ∀ k v, t2.Holds k v ↔ (t.Holds k v ∨ (k = node.First ∧ v = node.Second)) := by
  have hle : idx ≤ t.SizeMask := by rw [hidx]; exact hs_land_le _ _
  have hbi : b ≠ idx := by
    rintro rfl
    exact hbe hlive
  have hm : t2.SizeMask = t.SizeMask := by rw [ht2]
  have hE : t2.E = Function.update (Function.update t.E b (t.E idx)) idx
      { NextInChain := (b : Int), HashValue := idx, Value := some node } := by rw [ht2]
  have hat : t2.E idx = { NextInChain := (b : Int), HashValue := idx, Value := some node } := by
    rw [hE, Function.update_same]
  have hatb : t2.E b = t.E idx := by
    rw [hE, Function.update_noteq hbi, Function.update_same]
  have hoth : ∀ i, i ≠ idx → i ≠ b → t2.E i = t.E i := by
    intro i h1 h2
    rw [hE, Function.update_noteq h1, Function.update_noteq h2]
  have hl2 : HashSetBase.Live t2.E idx :=
    Live_of_next _ _ (b : Int) (by rw [hat]) (by omega)
  have hlb2 : HashSetBase.Live t2.E b := by
    unfold HashSetBase.Live at hlive ⊢
    rw [hatb]; exact hlive
  -- the nodes
  obtain ⟨t1, ht1⟩ : ∃ t1 : TableType C U, t1 = { t with
      E := Function.update (Function.update t.E b (t.E idx)) idx (t.E idx).Clear } := ⟨_, rfl⟩
  have hm1 : t1.SizeMask = t.SizeMask := by rw [ht1]
  have h1at : t1.E idx = (t.E idx).Clear := by rw [ht1]; simp
  have h1b : t1.E b = t.E idx := by
    rw [ht1]
    simp only []
    rw [Function.update_noteq hbi, Function.update_same]
  have h1oth : ∀ i, i ≠ idx → i ≠ b → t1.E i = t.E i := by
    intro i h1 h2
    rw [ht1]
    simp only []
    rw [Function.update_noteq h1, Function.update_noteq h2]
  have he1 : ¬ HashSetBase.Live t1.E idx := by
    unfold HashSetBase.Live
    rw [h1at]
    simp [HashsetCachedNodeEntry.Clear]
  obtain ⟨hn1, hc1, hh1⟩ := layout_move HashF t t1 idx b hm1 hw.nodes hle hb hlive hbe he1
    (by unfold HashSetBase.Live at hlive ⊢; rw [h1b]; exact hlive) (by rw [h1b]) (by rw [h1b])
    (fun i h1 h2 => by
      unfold HashSetBase.Live
      rw [h1oth i h1 h2]
      exact ⟨rfl, rfl, Iff.rfl⟩)
  rw [hm1] at hn1 hc1
  obtain ⟨hn2, hc2, hh2⟩ := layout_place HashF t1 t2 idx node (by rw [hm, hm1])
    (by rw [hm1]; exact hn1) (by rw [hm1]; exact hle) he1 hl2 (by rw [hat])
    (by rw [hat, hm1, hidx]) (fun v hv => habs v ((hh1 _ _).mp hv))
    (fun i hi => by
      unfold HashSetBase.Live
      by_cases h2 : i = b
      · rw [h2, hatb, h1b]
        exact ⟨rfl, rfl, Iff.rfl⟩
      · rw [hoth i hi h2, h1oth i hi h2]
        exact ⟨rfl, rfl, Iff.rfl⟩)
  rw [hm1] at hc2
  refine ⟨⟨?_, ?_, hn2, ?_⟩, ?_⟩
  · rw [hm]; exact hw.pow
  · rw [hc2, hc1, ← hw.count, ht2]
  · obtain ⟨ch, hc⟩ := hw.chains
    have hmem := hc.2.2.2 idx hle hlive
    rw [hhash] at hmem
    obtain ⟨tl, htl, _⟩ := Chains_head _ _ _ hc idx (List.ne_nil_of_mem hmem)
    have hnb : ∀ r i, i ∈ ch r → i ≠ b := by
      rintro r i hi rfl
      exact hbe (Chains_mem _ _ _ hc r i hi).2.1
    have hni : ∀ r i, r ≠ idx → i ∈ ch r → i ≠ idx := by
      rintro r i hr hi rfl
      exact hr ((Chains_mem _ _ _ hc r i hi).2.2.symm.trans hhash)
    have hnd := hc.1 idx
    rw [htl, List.nodup_cons] at hnd
    have htlmem : ∀ i, i ∈ tl → i ∈ ch idx := by
      intro i hi
      rw [htl]
      exact List.mem_cons_of_mem _ hi
    have htlne : ∀ i, i ∈ tl → i ≠ idx := by
      rintro i hi rfl
      exact hnd.1 hi
    have hseg := hc.2.1 idx (List.ne_nil_of_mem hmem)
    rw [htl, Seg_cons] at hseg
    refine ⟨fun r => if r = idx then idx :: b :: tl else ch r, ?_, ?_, ?_, ?_⟩
    · intro r
      by_cases hr : r = idx
      · simp only [hr, if_true, List.nodup_cons, List.mem_cons, not_or]
        exact ⟨⟨fun h => hbi h.symm, hnd.1⟩, fun h => hnb idx b (htlmem b h) rfl, hnd.2⟩
      · simp only [hr, if_false]
        exact hc.1 r
    · intro r hne
      rw [hm]
      by_cases hr : r = idx
      · simp only [hr, if_true]
        rw [Seg_cons, hat, Seg_cons, hatb]
        refine ⟨rfl, hle, hl2, rfl, hb, hlb2, ?_⟩
        exact Seg_frame t.E t2.E _ _ _ _
          (fun i hi => hoth i (htlne i hi) (hnb idx i (htlmem i hi))) hseg.2.2.2
      · simp only [hr, if_false] at hne ⊢
        exact Seg_frame t.E t2.E _ _ _ _
          (fun i hi => hoth i (hni r i hr hi) (hnb r i hi)) (hc.2.1 r hne)
    · intro r i hi
      by_cases hr : r = idx
      · simp only [hr, if_true, List.mem_cons] at hi
        rcases hi with rfl | rfl | hi
        · rw [hat, hr]
        · rw [hatb, hhash, hr]
        · rw [hoth i (htlne i hi) (hnb idx i (htlmem i hi)), hr]
          exact hc.2.2.1 idx i (htlmem i hi)
      · simp only [hr, if_false] at hi
        rw [hoth i (hni r i hr hi) (hnb r i hi)]
        exact hc.2.2.1 r i hi
    · intro i hi hl
      rw [hm] at hi
      by_cases h1 : i = idx
      · rw [h1, hat]
        simp
      · by_cases h2 : i = b
        · rw [h2, hatb, hhash]
          simp
        · rw [hoth i h1 h2]
          have hl1 : HashSetBase.Live t.E i := by
            unfold HashSetBase.Live at hl ⊢
            rw [← hoth i h1 h2]; exact hl
          have hmem2 := hc.2.2.2 i hi hl1
          by_cases hr : (t.E i).HashValue = idx
          · rw [hr] at hmem2 ⊢
            rw [htl] at hmem2
            simp only [if_true, List.mem_cons]
            rcases List.mem_cons.mp hmem2 with h | h
            · exact absurd h h1
            · exact Or.inr (Or.inr h)
          · simp only [hr, if_false]
            exact hmem2
  · intro k v
    rw [hh2, hh1]

end HashLemmas6
section HashLemmas7

variable {C U : Type}

theorem hs_nodup_replace (l1 l2 : List Nat) (x y : Nat) (h : (l1 ++ x :: l2).Nodup)
    (hy : y ∉ l1 ++ x :: l2) : (l1 ++ y :: l2).Nodup := by
  rw [List.nodup_append] at h ⊢
  obtain ⟨h1, h2, h3⟩ := h
  rw [List.nodup_cons] at h2 ⊢
  simp only [List.mem_append, List.mem_cons, not_or] at hy
  refine ⟨h1, ⟨hy.2.2, h2.2⟩, ?_⟩
  intro a ha1 ha2
  rcases List.mem_cons.mp ha2 with rfl | ha2
  · exact hy.1 ha1
  · exact h3 ha1 (List.mem_cons_of_mem _ ha2)

theorem hs_nodup_remove (l1 l2 : List Nat) (x : Nat) (h : (l1 ++ x :: l2).Nodup) :
    (l1 ++ l2).Nodup ∧ x ∉ l1 ++ l2 := by
  rw [List.nodup_append] at h ⊢
  obtain ⟨h1, h2, h3⟩ := h
  rw [List.nodup_cons] at h2
  refine ⟨⟨h1, h2.2, fun a ha1 ha2 => h3 ha1 (List.mem_cons_of_mem _ ha2)⟩, ?_⟩
  simp only [List.mem_append, not_or]
  exact ⟨fun hx => h3 hx (List.mem_cons_self _ _), h2.1⟩

/-- The third case of `add`: the natural entry belongs to another chain; it is
moved to the blank entry and its predecessor linked to that. -/
theorem placed_collider (HashF : C → Nat) (t : TableType C U) (hw : t.WF HashF)
    (node : HashNode C U) (idx b : Nat) (hidx : idx = HashF node.First &&& t.SizeMask)
    (habs : ∀ v, ¬ t.Holds node.First v) (hlive : HashSetBase.Live t.E idx)
    (hhash : (t.E idx).HashValue ≠ idx) (hb : b ≤ t.SizeMask)
    (hbe : ¬ HashSetBase.Live t.E b) :
    ∃ p, HashSetBase.add.findPrev t idx (t.SizeMask + 1) (t.E idx).HashValue = some p ∧
    (∀ t2 : TableType C U, t2 = { t with
      EntryCount := t.EntryCount + 1
      E := Function.update
        (Function.update (Function.update t.E b (t.E idx)) p
          { Function.update t.E b (t.E idx) p with NextInChain := (b : Int) }) idx
        { NextInChain := -1, HashValue := idx, Value := some node } } →
    t2.WF HashF ∧
      ∀ k v, t2.Holds k v ↔ (t.Holds k v ∨ (k = node.First ∧ v = node.Second))) := by
  have hle : idx ≤ t.SizeMask := by rw [hidx]; exact hs_land_le _ _
  have hbi : b ≠ idx := by
    rintro rfl
    exact hbe hlive
  obtain ⟨ch, hc⟩ := hw.chains
  -- the chain of the collider
  have hmem := hc.2.2.2 idx hle hlive
  obtain ⟨pre, post, hsplit⟩ := List.append_of_mem hmem
  obtain ⟨tl, htl, _⟩ := Chains_head _ _ _ hc _ (List.ne_nil_of_mem hmem)
  have hpre : pre ≠ [] := by
    rintro rfl
    rw [htl, List.nil_append] at hsplit
    exact hhash (List.cons.inj hsplit).1
  obtain ⟨pre0, p, hpp⟩ : ∃ pre0 p, pre = pre0 ++ [p] := by
    rcases List.eq_nil_or_concat pre with h | ⟨l, a, h⟩
    · exact absurd h hpre
    · exact ⟨l, a, by rw [h, List.concat_eq_append]⟩
  subst hpp
  have hnd := hc.1 (t.E idx).HashValue
  rw [hsplit] at hnd
  have hseg := hc.2.1 _ (List.ne_nil_of_mem hmem)
  rw [hsplit, Seg_append] at hseg
  obtain ⟨x, hseg1, hseg2⟩ := hseg
  have hx : x = (idx : Int) := by
    rw [Seg_cons] at hseg2; exact hseg2.1
  subst hx
  have hnotin : idx ∉ pre0 ++ [p] := (List.disjoint_of_nodup_append hnd).symm
    (List.mem_cons_self _ _)
  have hlen := Chains_length _ _ _ hc (t.E idx).HashValue
  rw [hsplit] at hlen
  have hfind := findPrev_spec t idx p pre0 (t.E idx).HashValue (t.SizeMask + 1) hseg1 hnotin
    (by simp at hlen ⊢; omega)
  refine ⟨p, hfind, ?_⟩
  intro t2 ht2
  -- facts about the entries concerned
  have hpin : p ∈ ch (t.E idx).HashValue := by
    rw [hsplit]; simp
  obtain ⟨hple, hplive, hphash⟩ := Chains_mem _ _ _ hc _ p hpin
  have hpb : p ≠ b := by
    rintro rfl
    exact hbe hplive
  have hpi : p ≠ idx := by
    rintro rfl
    exact hnotin (by simp)
  rw [Seg_append] at hseg1
  obtain ⟨y, hseg0, hsegp⟩ := hseg1
  rw [Seg_cons, Seg_nil] at hsegp
  obtain ⟨hy, _, _, hpnext⟩ := hsegp
  subst hy
  rw [Seg_cons] at hseg2
  have hE : t2.E = Function.update
        (Function.update (Function.update t.E b (t.E idx)) p
          { Function.update t.E b (t.E idx) p with NextInChain := (b : Int) }) idx
        { NextInChain := -1, HashValue := idx, Value := some node } := by rw [ht2]
  have hm : t2.SizeMask = t.SizeMask := by rw [ht2]
  have hat : t2.E idx = { NextInChain := -1, HashValue := idx, Value := some node } := by
    rw [hE, Function.update_same]
  have hatp : t2.E p = { t.E p with NextInChain := (b : Int) } := by
    rw [hE, Function.update_noteq hpi, Function.update_same, Function.update_noteq hpb]
  have hatb : t2.E b = t.E idx := by
    rw [hE, Function.update_noteq hbi, Function.update_noteq hpb.symm, Function.update_same]
  have hoth : ∀ i, i ≠ idx → i ≠ b → i ≠ p → t2.E i = t.E i := by
    intro i h1 h2 h3
    rw [hE, Function.update_noteq h1, Function.update_noteq h3, Function.update_noteq h2]
  have hl2 : HashSetBase.Live t2.E idx := Live_of_next _ _ (-1) (by rw [hat]) (by decide)
  have hlp2 : HashSetBase.Live t2.E p := Live_of_next _ _ (b : Int) (by rw [hatp]) (by omega)
  have hlb2 : HashSetBase.Live t2.E b := by
    unfold HashSetBase.Live at hlive ⊢
    rw [hatb]; exact hlive
  -- the nodes
  obtain ⟨t1, ht1⟩ : ∃ t1 : TableType C U, t1 = { t with
      E := Function.update (Function.update t.E b (t.E idx)) idx (t.E idx).Clear } := ⟨_, rfl⟩
  have hm1 : t1.SizeMask = t.SizeMask := by rw [ht1]
  have h1at : t1.E idx = (t.E idx).Clear := by rw [ht1]; simp
  have h1b : t1.E b = t.E idx := by
    rw [ht1]
    simp only []
    rw [Function.update_noteq hbi, Function.update_same]
  have h1oth : ∀ i, i ≠ idx → i ≠ b → t1.E i = t.E i := by
    intro i h1 h2
    rw [ht1]
    simp only []
    rw [Function.update_noteq h1, Function.update_noteq h2]
  have he1 : ¬ HashSetBase.Live t1.E idx := by
    unfold HashSetBase.Live
    rw [h1at]
    simp [HashsetCachedNodeEntry.Clear]
  obtain ⟨hn1, hc1, hh1⟩ := layout_move HashF t t1 idx b hm1 hw.nodes hle hb hlive hbe he1
    (by unfold HashSetBase.Live at hlive ⊢; rw [h1b]; exact hlive) (by rw [h1b]) (by rw [h1b])
    (fun i h1 h2 => by
      unfold HashSetBase.Live
      rw [h1oth i h1 h2]
      exact ⟨rfl, rfl, Iff.rfl⟩)
  rw [hm1] at hn1 hc1
  obtain ⟨hn2, hc2, hh2⟩ := layout_place HashF t1 t2 idx node (by rw [hm, hm1])
    (by rw [hm1]; exact hn1) (by rw [hm1]; exact hle) he1 hl2 (by rw [hat])
    (by rw [hat, hm1, hidx]) (fun v hv => habs v ((hh1 _ _).mp hv))
    (fun i hi => by
      by_cases h2 : i = b
      · unfold HashSetBase.Live
        rw [h2, hatb, h1b]
        exact ⟨rfl, rfl, Iff.rfl⟩
      · by_cases h3 : i = p
        · rw [h3]
          refine ⟨?_, ?_, ?_⟩
          · rw [hatp, h1oth p hpi hpb]
          · rw [hatp, h1oth p hpi hpb]
          · unfold HashSetBase.Live at hplive ⊢
            rw [h1oth p hpi hpb, hatp]
            exact ⟨fun _ => hplive, fun _ => by simp⟩
        · unfold HashSetBase.Live
          rw [hoth i hi h2 h3, h1oth i hi h2]
          exact ⟨rfl, rfl, Iff.rfl⟩)
  rw [hm1] at hc2
  refine ⟨⟨?_, ?_, hn2, ?_⟩, ?_⟩
  · rw [hm]; exact hw.pow
  · rw [hc2, hc1, ← hw.count, ht2]
  · have hnb : ∀ r i, i ∈ ch r → i ≠ b := by
      rintro r i hi rfl
      exact hbe (Chains_mem _ _ _ hc r i hi).2.1
    have hother : ∀ r i, r ≠ (t.E idx).HashValue → i ∈ ch r → i ≠ idx ∧ i ≠ b ∧ i ≠ p := by
      intro r i hr hi
      refine ⟨?_, hnb r i hi, ?_⟩
      · rintro rfl
        exact hr (Chains_mem _ _ _ hc r i hi).2.2.symm
      · rintro rfl
        exact hr ((Chains_mem _ _ _ hc r i hi).2.2.symm.trans hphash)
    have hidxch : ch idx = [] := Chains_empty _ _ _ hc idx (Or.inr hhash)
    have hnd0 : ∀ i, i ∈ pre0 → i ≠ idx ∧ i ≠ b ∧ i ≠ p := by
      intro i hi
      have hin : i ∈ ch (t.E idx).HashValue := by rw [hsplit]; simp [hi]
      refine ⟨?_, hnb _ i hin, ?_⟩
      · rintro rfl
        exact hnotin (by simp [hi])
      · rintro rfl
        have := (List.nodup_append.mp hnd).1
        rw [List.nodup_append] at this
        exact this.2.2 hi (List.mem_singleton_self _)
    have hndp : ∀ i, i ∈ post → i ≠ idx ∧ i ≠ b ∧ i ≠ p := by
      intro i hi
      have hin : i ∈ ch (t.E idx).HashValue := by rw [hsplit]; simp [hi]
      have h2 := (List.nodup_append.mp hnd).2.1
      rw [List.nodup_cons] at h2
      refine ⟨?_, hnb _ i hin, ?_⟩
      · rintro rfl
        exact h2.1 hi
      · rintro rfl
        exact (List.disjoint_of_nodup_append hnd) (by simp) (List.mem_cons_of_mem _ hi)
    refine ⟨fun r => if r = idx then [idx] else
      if r = (t.E idx).HashValue then (pre0 ++ [p]) ++ b :: post else ch r, ?_, ?_, ?_, ?_⟩
    · intro r
      by_cases hr : r = idx
      · simp [hr]
      · by_cases hr2 : r = (t.E idx).HashValue
        · subst hr2
          simp only [hr, if_false, if_true]
          apply hs_nodup_replace _ _ idx b hnd
          rw [← hsplit]
          exact fun h => hnb _ b h rfl
        · simp only [hr, if_false, hr2]
          exact hc.1 r
    · intro r hne
      rw [hm]
      by_cases hr : r = idx
      · simp only [hr, if_true]
        rw [Seg_cons, Seg_nil]
        exact ⟨rfl, hle, hl2, by rw [hat]⟩
      · by_cases hr2 : r = (t.E idx).HashValue
        · subst hr2
          simp only [hr, if_false, if_true]
          rw [Seg_append]
          refine ⟨(b : Int), ?_, ?_⟩
          · rw [Seg_append]
            refine ⟨(p : Int), ?_, ?_⟩
            · exact Seg_frame t.E t2.E _ _ _ _
                (fun i hi => hoth i (hnd0 i hi).1 (hnd0 i hi).2.1 (hnd0 i hi).2.2) hseg0
            · rw [Seg_cons, Seg_nil]
              exact ⟨rfl, hple, hlp2, by rw [hatp]⟩
          · rw [Seg_cons, hatb]
            refine ⟨rfl, hb, hlb2, ?_⟩
            exact Seg_frame t.E t2.E _ _ _ _
              (fun i hi => hoth i (hndp i hi).1 (hndp i hi).2.1 (hndp i hi).2.2) hseg2.2.2.2
        · simp only [hr, if_false, hr2] at hne ⊢
          exact Seg_frame t.E t2.E _ _ _ _
            (fun i hi => hoth i (hother r i hr2 hi).1 (hother r i hr2 hi).2.1
              (hother r i hr2 hi).2.2) (hc.2.1 r hne)
    · intro r i hi
      by_cases hr : r = idx
      · simp only [hr, if_true, List.mem_singleton] at hi
        rw [hi, hat, hr]
      · by_cases hr2 : r = (t.E idx).HashValue
        · subst hr2
          simp only [hr, if_false, if_true, List.mem_append, List.mem_cons,
            List.mem_singleton, List.not_mem_nil, or_false] at hi
          rcases hi with (hi | rfl) | rfl | hi
          · rw [hoth i (hnd0 i hi).1 (hnd0 i hi).2.1 (hnd0 i hi).2.2]
            exact hc.2.2.1 _ i (by rw [hsplit]; simp [hi])
          · rw [hatp]
            exact hphash
          · rw [hatb]
          · rw [hoth i (hndp i hi).1 (hndp i hi).2.1 (hndp i hi).2.2]
            exact hc.2.2.1 _ i (by rw [hsplit]; simp [hi])
        · simp only [hr, if_false, hr2] at hi
          rw [hoth i (hother r i hr2 hi).1 (hother r i hr2 hi).2.1 (hother r i hr2 hi).2.2]
          exact hc.2.2.1 r i hi
    · intro i hi hl
      rw [hm] at hi
      by_cases h1 : i = idx
      · rw [h1, hat]
        simp
      · by_cases h2 : i = b
        · rw [h2, hatb]
          simp [hhash]
        · by_cases h3 : i = p
          · rw [h3, hatp]
            simp only []
            rw [hphash]
            simp [hhash]
          · rw [hoth i h1 h2 h3]
            have hl1 : HashSetBase.Live t.E i := by
              unfold HashSetBase.Live at hl ⊢
              rw [← hoth i h1 h2 h3]; exact hl
            have hmem2 := hc.2.2.2 i hi hl1
            by_cases hr : (t.E i).HashValue = idx
            · rw [hr, hidxch] at hmem2
              cases hmem2
            · by_cases hr2 : (t.E i).HashValue = (t.E idx).HashValue
              · rw [hr2] at hmem2 ⊢
                rw [hsplit] at hmem2
                simp only [hhash, if_false, if_true, List.mem_append, List.mem_cons,
                  List.mem_singleton, List.not_mem_nil, or_false] at hmem2 ⊢
                rcases hmem2 with (h | h) | h | h
                · exact Or.inl (Or.inl h)
                · exact absurd h h3
                · exact absurd h h1
                · exact Or.inr (Or.inr h)
              · simp only [hr, if_false, hr2]
                exact hmem2
  · intro k v
    rw [hh2, hh1]

end HashLemmas7
section HashLemmas8

variable {C U : Type}

/-- Lines 771-838 of `add` on a table that satisfies the invariant, does not hold
the key and has an empty entry: the node is placed, the invariant holds again,
and the table holds what it held and the new node. -/
theorem placed_spec (HashF : C → Nat) (t : TableType C U) (hw : t.WF HashF)
    (node : HashNode C U) (habs : ∀ v, ¬ t.Holds node.First v)
    (hroom : t.EntryCount ≤ t.SizeMask) :
    ∃ t2, HashSetBase.add.placed t node (HashF node.First) = some t2 ∧ t2.WF HashF ∧
      t2.SizeMask = t.SizeMask ∧ t2.EntryCount = t.EntryCount + 1 ∧
      ∀ k v, t2.Holds k v ↔ (t.Holds k v ∨ (k = node.First ∧ v = node.Second)) := by
  unfold HashSetBase.add.placed
  simp only []
  by_cases hemp : (t.E (HashF node.First &&& t.SizeMask)).IsEmpty = true
  · rw [if_pos hemp]
    obtain ⟨a, b⟩ := placed_empty HashF t _ hw node _ rfl habs hemp rfl
    exact ⟨_, rfl, a, rfl, rfl, b⟩
  · rw [if_neg hemp]
    have hlive : HashSetBase.Live t.E (HashF node.First &&& t.SizeMask) := by
      rw [Live_iff]; simpa using hemp
    obtain ⟨n, _, hpow⟩ := hw.pow
    obtain ⟨e, he, hee⟩ := exists_empty t hw.count hroom
    obtain ⟨b, hfb, hb, hbe⟩ := findBlank_spec t n hpow (HashF node.First &&& t.SizeMask) e he
      hee
    rw [hfb]
    simp only []
    have hbl : ¬ HashSetBase.Live t.E b := (not_Live_iff _ _).mpr hbe
    by_cases hh : (t.E (HashF node.First &&& t.SizeMask)).HashValue =
        HashF node.First &&& t.SizeMask
    · rw [if_pos hh]
      obtain ⟨a, c⟩ := placed_collision HashF t _ hw node _ b rfl habs hlive hh hb hbl rfl
      exact ⟨_, rfl, a, rfl, rfl, c⟩
    · rw [if_neg hh]
      obtain ⟨p, hp, hres⟩ := placed_collider HashF t hw node _ b rfl habs hlive hh hb hbl
      rw [hp]
      simp only []
      obtain ⟨a, c⟩ := hres _ rfl
      exact ⟨_, rfl, a, rfl, rfl, c⟩

end HashLemmas8

section HashLemmas9

variable {C U : Type}

/-- The indices below `n` of the entries that hold a node. -/
theorem liveSet_succ (E : Nat → HashsetCachedNodeEntry C U) (n : Nat) :
    HashSetBase.liveSet E (n + 1) =
      if (E (n + 1)).NextInChain ≠ -2 then insert (n + 1) (HashSetBase.liveSet E n)
      else HashSetBase.liveSet E n := by
  unfold HashSetBase.liveSet
  rw [Finset.range_succ, Finset.filter_insert]

theorem liveSet_zero (E : Nat → HashsetCachedNodeEntry C U) :
    HashSetBase.liveSet E 0 = if (E 0).NextInChain ≠ -2 then {0} else ∅ := by
  unfold HashSetBase.liveSet
  rw [Finset.range_one, Finset.filter_singleton]

theorem liveSet_card_le (E : Nat → HashsetCachedNodeEntry C U) (m : Nat) :
    (HashSetBase.liveSet E m).card ≤ m + 1 := by
  have := Finset.card_le_card (Finset.filter_subset (fun i => (E i).NextInChain ≠ -2)
    (Finset.range (m + 1)))
  rw [Finset.card_range] at this
  exact this

/-- A new table, all of whose entries are empty, satisfies the invariant. -/
theorem empty_table_WF (HashF : C → Nat) (t0 : TableType C U) (n : Nat) (hn : 3 ≤ n)
    (hc : t0.EntryCount = 0) (hm : t0.SizeMask = 2 ^ n - 1)
    (he : ∀ i, (t0.E i).NextInChain = -2) :
    t0.WF HashF ∧ ∀ k v, ¬ t0.Holds k v := by
  have hpos : 0 < 2 ^ n := Nat.pos_pow_of_pos _ (by decide)
  have hnl : ∀ i, ¬ HashSetBase.Live t0.E i := by
    intro i h
    exact h (he i)
  refine ⟨⟨⟨n, hn, by omega⟩, ?_, ⟨?_, ?_⟩, ⟨fun _ => [], ?_, ?_, ?_, ?_⟩⟩, ?_⟩
  · rw [hc]
    symm
    rw [Finset.card_eq_zero]
    ext i
    rw [mem_liveSet]
    simp only [Finset.not_mem_empty, iff_false, not_and]
    exact fun _ => hnl i
  · intro i _ hl
    exact absurd hl (hnl i)
  · intro i j _ _ _ _ hl
    exact absurd hl (hnl i)
  · intro r; exact List.nodup_nil
  · intro r h; exact absurd rfl h
  · intro r i hi; cases hi
  · intro i _ hl
    exact absurd hl (hnl i)
  · rintro k v ⟨i, _, hl, _⟩
    exact hnl i hl

/-- The function `add` on a hash set that satisfies the invariant, does not hold
the key and needs no expansion. -/
theorem add_no_expand (UpperBit : Nat → Nat) (HashF : C → Nat) (depth : Nat)
    (h : HashSetBase C U) (t : TableType C U) (hp : h.pTable = some t) (hw : t.WF HashF)
    (hload : t.EntryCount * 5 ≤ (t.SizeMask + 1) * 4)
    (node : HashNode C U) (habs : ∀ v, ¬ t.Holds node.First v) :
    ∃ t2, HashSetBase.add UpperBit HashF (depth + 1) h node (HashF node.First) =
        some { pTable := some t2 } ∧ t2.WF HashF ∧
      t2.SizeMask = t.SizeMask ∧ t2.EntryCount = t.EntryCount + 1 ∧
      ∀ k v, t2.Holds k v ↔ (t.Holds k v ∨ (k = node.First ∧ v = node.Second)) := by
  obtain ⟨t2, h1, h2, h3, h4, h5⟩ := placed_spec HashF t hw node habs (by omega)
  refine ⟨t2, ?_, h2, h3, h4, h5⟩
  unfold HashSetBase.add HashSetBase.CheckExpand
  simp only [hp]
  rw [if_neg (by omega)]
  simp only [hp, h1]

/-- The copy loop of `setRawCapacity`, lines 899-911, up to the entry `n`. -/
theorem rehash_fold (UpperBit : Nat → Nat) (HashF : C → Nat) (depth : Nat)
    (t : TableType C U) (hw : t.WF HashF) (t0 : TableType C U) (hw0 : t0.WF HashF)
    (hc0 : t0.EntryCount = 0) (hh0 : ∀ k v, ¬ t0.Holds k v)
    (hsize : (t.SizeMask + 1) * 2 ≤ t0.SizeMask + 1) :
    ∀ n, n ≤ t.SizeMask + 1 →
      ∃ tn, (List.range n).foldlM
        (fun (nh : HashSetBase C U) (i : Nat) =>
          if (t.E i).IsEmpty = false then
            match (t.E i).Value with
            | some node => HashSetBase.add UpperBit HashF (depth + 1) nh node (HashF node.First)
            | none => none
          else some nh) { pTable := some t0 } = some { pTable := some tn } ∧
        tn.WF HashF ∧ tn.SizeMask = t0.SizeMask ∧
        tn.EntryCount = ((Finset.range n).filter (fun i => (t.E i).NextInChain ≠ -2)).card ∧
        ∀ k v, tn.Holds k v ↔
          ∃ i, i < n ∧ HashSetBase.Live t.E i ∧ (t.E i).Value = some { First := k, Second := v } := by
  intro n
  induction n with
  | zero =>
    intro _
    refine ⟨t0, rfl, hw0, rfl, ?_, ?_⟩
    · rw [hc0]; rfl
    · intro k v
      constructor
      · intro h; exact absurd h (hh0 k v)
      · rintro ⟨i, hi, _⟩; omega
  | succ n ih =>
    intro hn
    obtain ⟨tn, hfold, hwn, hmn, hcn, hhn⟩ := ih (by omega)
    rw [List.range_succ, List.foldlM_append, hfold]
    simp only [Option.bind_eq_bind, Option.some_bind, List.foldlM_cons, List.foldlM_nil]
    have hcard : ((Finset.range n).filter (fun i => (t.E i).NextInChain ≠ -2)).card ≤ n := by
      have := Finset.card_le_card (Finset.filter_subset (fun i => (t.E i).NextInChain ≠ -2)
        (Finset.range n))
      rw [Finset.card_range] at this
      exact this
    by_cases hl : HashSetBase.Live t.E n
    · have hemp : (t.E n).IsEmpty = false := (Live_iff _ _).mp hl
      obtain ⟨node, hnode, _⟩ := hw.nodes.1 n (by omega) hl
      have habs : ∀ v, ¬ tn.Holds node.First v := by
        intro v hv
        obtain ⟨i, hi, hli, hvi⟩ := (hhn _ _).mp hv
        have := hw.nodes.2 i n _ _ (by omega) (by omega) hli hl hvi hnode rfl
        omega
      obtain ⟨t2, h1, h2, h3, h4, h5⟩ := add_no_expand UpperBit HashF depth
        { pTable := some tn } tn rfl hwn (by rw [hcn, hmn]; omega) node habs
      refine ⟨t2, ?_, h2, h3.trans hmn, ?_, ?_⟩
      · simp only [hemp, if_true, hnode]
        rw [h1]
        rfl
      · have hl2 : (t.E n).NextInChain ≠ -2 := hl
        rw [h4, hcn, Finset.range_succ, Finset.filter_insert, if_pos hl2,
          Finset.card_insert_of_not_mem]
        simp
      · intro k v
        rw [h5, hhn]
        constructor
        · rintro (⟨i, hi, hli, hvi⟩ | ⟨rfl, rfl⟩)
          · exact ⟨i, by omega, hli, hvi⟩
          · exact ⟨n, by omega, hl, by rw [hnode, ← node_eta]⟩
        · rintro ⟨i, hi, hli, hvi⟩
          by_cases hin : i = n
          · subst hin
            rw [hnode] at hvi
            cases hvi
            exact Or.inr ⟨rfl, rfl⟩
          · exact Or.inl ⟨i, by omega, hli, hvi⟩
    · have hemp : (t.E n).IsEmpty = true := (not_Live_iff _ _).mp hl
      refine ⟨tn, ?_, hwn, hmn, ?_, ?_⟩
      · simp [hemp]
      · have hl2 : ¬ (t.E n).NextInChain ≠ -2 := hl
        rw [hcn, Finset.range_succ, Finset.filter_insert, if_neg hl2]
      · intro k v
        rw [hhn]
        constructor
        · rintro ⟨i, hi, hli, hvi⟩
          exact ⟨i, by omega, hli, hvi⟩
        · rintro ⟨i, hi, hli, hvi⟩
          have : i ≠ n := by
            rintro rfl
            exact hl hli
          exact ⟨i, by omega, hli, hvi⟩

end HashLemmas9
section HashLemmas10

variable {C U : Type}

theorem hs_pow_ge (n : Nat) (h : 8 ≤ 2 ^ n) : 3 ≤ n := by
  by_contra hlt
  have h2 : n ≤ 2 := by omega
  have := Nat.pow_le_pow_right (by decide : 0 < 2) h2
  omega

theorem HashSetBase_eta (h : HashSetBase C U) (t : TableType C U) (hp : h.pTable = some t) :
    h = { pTable := some t } := by
  cases h
  simp only [HashSetBase.mk.injEq]
  exact hp

/-- The function `setRawCapacity` on a hash set that satisfies the invariant, for
a new size of at least 8 and at least twice the old size. -/
theorem setRawCapacity_spec (UpperBit : Nat → Nat) (HashF : C → Nat) (depth : Nat)
    (hU : ∀ n, n ≤ 2 ^ (UpperBit (n - 1) + 1)) (h : HashSetBase C U) (hw : h.WF HashF)
    (newSize : Nat) (h8 : 8 ≤ newSize)
    (hbig : ∀ t, h.pTable = some t → (t.SizeMask + 1) * 2 ≤ newSize) :
    ∃ t1, HashSetBase.setRawCapacity UpperBit
        (fun nh node => HashSetBase.add UpperBit HashF (depth + 1) nh node (HashF node.First))
        h newSize = some { pTable := some t1 } ∧
      t1.WF HashF ∧ t1.EntryCount = h.GetSize ∧ newSize ≤ t1.SizeMask + 1 ∧
      ∀ k v, t1.Holds k v ↔ h.Holds k v := by
  have hsz := hU newSize
  have hn3 : 3 ≤ UpperBit (newSize - 1) + 1 := hs_pow_ge _ (by omega)
  have hpos : 0 < 2 ^ (UpperBit (newSize - 1) + 1) := Nat.pos_pow_of_pos _ (by decide)
  obtain ⟨t0, ht0⟩ : ∃ t0 : TableType C U, t0 =
      { EntryCount := 0, SizeMask := 2 ^ (UpperBit (newSize - 1) + 1) - 1,
        E := fun _ => { NextInChain := -2, HashValue := 0, Value := none } } := ⟨_, rfl⟩
  obtain ⟨hw0, hh0⟩ := empty_table_WF HashF t0 _ hn3 (by rw [ht0]) (by rw [ht0])
    (by intro i; rw [ht0])
  have hm0 : t0.SizeMask + 1 = 2 ^ (UpperBit (newSize - 1) + 1) := by
    rw [ht0]
    simp only []
    omega
  unfold HashSetBase.setRawCapacity
  rw [if_neg (by omega)]
  simp only [HashMinSize]
  rw [if_neg (by omega), ← ht0]
  cases hp : h.pTable with
  | none =>
    refine ⟨t0, rfl, hw0, ?_, by omega, ?_⟩
    · unfold HashSetBase.GetSize
      rw [hp, ht0]
    · intro k v
      unfold HashSetBase.Holds
      rw [hp]
      simp only [iff_false]
      exact hh0 k v
  | some t =>
    have hwt : t.WF HashF := by
      unfold HashSetBase.WF at hw
      rw [hp] at hw
      exact hw
    obtain ⟨tn, hfold, hwn, hmn, hcn, hhn⟩ := rehash_fold UpperBit HashF depth t hwt t0 hw0
      (by rw [ht0]) hh0 (by rw [hm0]; exact (hbig t hp).trans hsz) (t.SizeMask + 1) (le_refl _)
    refine ⟨tn, hfold, hwn, ?_, by rw [hmn]; omega, ?_⟩
    · unfold HashSetBase.GetSize
      rw [hp, hcn]
      exact hwt.count.symm
    · intro k v
      unfold HashSetBase.Holds
      rw [hp, hhn]
      constructor
      · rintro ⟨i, hi, hl, hv⟩
        exact ⟨i, by omega, hl, hv⟩
      · rintro ⟨i, hi, hl, hv⟩
        exact ⟨i, by omega, hl, hv⟩

/-- The function `CheckExpand` on a hash set that satisfies the invariant: the
table then has an empty entry and holds what it held. -/
theorem CheckExpand_spec (UpperBit : Nat → Nat) (HashF : C → Nat) (depth : Nat)
    (hU : ∀ n, n ≤ 2 ^ (UpperBit (n - 1) + 1)) (h : HashSetBase C U) (hw : h.WF HashF) :
    ∃ t1, HashSetBase.CheckExpand UpperBit
        (fun nh node => HashSetBase.add UpperBit HashF (depth + 1) nh node (HashF node.First))
        h = some { pTable := some t1 } ∧
      t1.WF HashF ∧ t1.EntryCount = h.GetSize ∧ t1.EntryCount ≤ t1.SizeMask ∧
      (∀ k v, t1.Holds k v ↔ h.Holds k v) ∧
      (∀ t, h.pTable = some t → t.EntryCount * 5 > (t.SizeMask + 1) * 4 →
        (t.SizeMask + 1) * 2 ≤ t1.SizeMask + 1) := by
  unfold HashSetBase.CheckExpand
  cases hp : h.pTable with
  | none =>
    simp only []
    obtain ⟨t1, h1, h2, h3, h4, h5⟩ := setRawCapacity_spec UpperBit HashF depth hU h hw
      HashMinSize (by decide) (by intro t ht; rw [hp] at ht; cases ht)
    refine ⟨t1, h1, h2, h3, ?_, h5, ?_⟩
    · rw [h3]
      unfold HashSetBase.GetSize
      rw [hp]
      exact Nat.zero_le _
    · intro t ht
      cases ht
  | some t =>
    simp only []
    have hwt : t.WF HashF := by
      unfold HashSetBase.WF at hw
      rw [hp] at hw
      exact hw
    obtain ⟨n, hn, hpow⟩ := hwt.pow
    have h8 : 8 ≤ t.SizeMask + 1 := by
      rw [hpow]
      exact Nat.pow_le_pow_right (by decide : 0 < 2) hn
    have hsize : h.GetSize = t.EntryCount := by
      unfold HashSetBase.GetSize
      rw [hp]
    by_cases hload : t.EntryCount * 5 > (t.SizeMask + 1) * 4
    · rw [if_pos hload]
      obtain ⟨t1, h1, h2, h3, h4, h5⟩ := setRawCapacity_spec UpperBit HashF depth hU h hw
        ((t.SizeMask + 1) * 2) (by omega)
        (by intro t' ht; rw [hp] at ht; cases ht; exact le_refl _)
      refine ⟨t1, h1, h2, h3, ?_, h5, ?_⟩
      · rw [h3, hsize, hwt.count]
        have := liveSet_card_le t.E t.SizeMask
        omega
      · intro t' ht' _
        cases ht'
        exact h4
    · rw [if_neg hload]
      refine ⟨t, by rw [HashSetBase_eta h t hp], hwt, hsize.symm, by omega, ?_, ?_⟩
      · intro k v
        unfold HashSetBase.Holds
        rw [hp]
      · intro t' ht' hl
        cases ht'
        exact absurd hl hload

/-- The function `add` on a hash set that satisfies the invariant and does not
hold the key: with a nesting depth of at least 2 it returns, the invariant holds
again, the size has grown by one, and the set holds what it held and the new
node. -/
theorem add_spec (UpperBit : Nat → Nat) (HashF : C → Nat) (depth : Nat)
    (hU : ∀ n, n ≤ 2 ^ (UpperBit (n - 1) + 1)) (h : HashSetBase C U) (hw : h.WF HashF)
    (node : HashNode C U) (habs : ∀ v, ¬ h.Holds node.First v) :
    ∃ h2, HashSetBase.add UpperBit HashF (depth + 2) h node (HashF node.First) = some h2 ∧
      h2.WF HashF ∧ h2.GetSize = h.GetSize + 1 ∧
      (∀ k v, h2.Holds k v ↔ (h.Holds k v ∨ (k = node.First ∧ v = node.Second))) ∧
      (∀ t t2, h.pTable = some t → h2.pTable = some t2 →
        t.EntryCount * 5 > (t.SizeMask + 1) * 4 → (t.SizeMask + 1) * 2 ≤ t2.SizeMask + 1) := by
  obtain ⟨t1, h1, hw1, hc1, hroom, hh1, hx1⟩ := CheckExpand_spec UpperBit HashF depth hU h hw
  obtain ⟨t2, p1, p2, p3, p4, p5⟩ := placed_spec HashF t1 hw1 node
    (fun v hv => habs v ((hh1 _ _).mp hv)) hroom
  refine ⟨{ pTable := some t2 }, ?_, p2, ?_, ?_, ?_⟩
  · unfold HashSetBase.add
    rw [h1]
    simp only [p1]
  · show t2.EntryCount = h.GetSize + 1
    rw [p4, hc1]
  · intro k v
    show t2.Holds k v ↔ _
    rw [p5, hh1]
  · intro t t2' ht ht2 hl
    cases ht2
    rw [p3]
    exact hx1 t ht hl

end HashLemmas10
section HashLemmas11

variable {C U : Type}

theorem Seg_next (E E2 : Nat → HashsetCachedNodeEntry C U) (m : Nat) (l : List Nat) :
    ∀ (a f : Int), (∀ i ∈ l, (E2 i).NextInChain = (E i).NextInChain) →
      HashSetBase.Seg E m a l f → HashSetBase.Seg E2 m a l f := by
  induction l with
  | nil => intro a f _ h; exact h
  | cons i l ih =>
    intro a f heq h
    rw [Seg_cons] at h ⊢
    obtain ⟨h1, h2, h3, h4⟩ := h
    have hi := heq i (List.mem_cons_self _ _)
    refine ⟨h1, h2, ?_, ?_⟩
    · unfold HashSetBase.Live at h3 ⊢
      rw [hi]; exact h3
    · rw [hi]
      exact ih _ _ (fun j hj => heq j (List.mem_cons_of_mem _ hj)) h4

/-- The branch of `Set` for a key that the table holds: the node of its entry is
assigned. -/
theorem Set_replace (HashF : C → Nat) (t t2 : TableType C U) (hw : t.WF HashF)
    (node : HashNode C U) (idx : Nat) (hidx : idx ≤ t.SizeMask)
    (hlive : HashSetBase.Live t.E idx) (hkey : ∃ old, (t.E idx).Value = some old ∧
      old.First = node.First)
    (ht2 : t2 = { t with
      E := Function.update t.E idx { t.E idx with Value := some node } }) :
    t2.WF HashF ∧ t2.EntryCount = t.EntryCount ∧
    ∀ k v, t2.Holds k v ↔
      ((k = node.First ∧ v = node.Second) ∨ (k ≠ node.First ∧ t.Holds k v)) := by
  obtain ⟨old, hold, hof⟩ := hkey
  have hm : t2.SizeMask = t.SizeMask := by rw [ht2]
  have hE : t2.E = Function.update t.E idx { t.E idx with Value := some node } := by rw [ht2]
  have hat : t2.E idx = { t.E idx with Value := some node } := by
    rw [hE, Function.update_same]
  have hoth : ∀ i, i ≠ idx → t2.E i = t.E i := by
    intro i hi
    rw [hE, Function.update_noteq hi]
  have hnext : ∀ i, (t2.E i).NextInChain = (t.E i).NextInChain := by
    intro i
    by_cases h : i = idx
    · rw [h, hat]
    · rw [hoth i h]
  have hhash : ∀ i, (t2.E i).HashValue = (t.E i).HashValue := by
    intro i
    by_cases h : i = idx
    · rw [h, hat]
    · rw [hoth i h]
  have hlv : ∀ i, HashSetBase.Live t2.E i ↔ HashSetBase.Live t.E i := by
    intro i
    unfold HashSetBase.Live
    rw [hnext]
  have hval : ∀ i n2, (t2.E i).Value = some n2 →
      ∃ n1, (t.E i).Value = some n1 ∧ n1.First = n2.First := by
    intro i n2 hv
    by_cases h : i = idx
    · rw [h, hat] at hv
      cases hv
      rw [h]
      exact ⟨old, hold, hof⟩
    · rw [hoth i h] at hv
      exact ⟨n2, hv, rfl⟩
  refine ⟨⟨?_, ?_, ⟨?_, ?_⟩, ?_⟩, by rw [ht2], ?_⟩
  · rw [hm]; exact hw.pow
  · have : HashSetBase.liveSet t2.E t2.SizeMask = HashSetBase.liveSet t.E t.SizeMask := by
      ext i
      rw [mem_liveSet, mem_liveSet, hm, hlv]
    rw [this, ← hw.count, ht2]
  · intro i hi hl
    rw [hm] at hi ⊢
    obtain ⟨n1, hn1, hh1⟩ := hw.nodes.1 i hi ((hlv i).mp hl)
    by_cases h : i = idx
    · subst h
      rw [hold] at hn1
      cases hn1
      refine ⟨node, by rw [hat], ?_⟩
      rw [hhash, hh1, hof]
    · exact ⟨n1, by rw [hoth i h]; exact hn1, by rw [hhash]; exact hh1⟩
  · intro i j ni nj hi hj hli hlj hvi hvj hf
    rw [hm] at hi hj
    obtain ⟨n1, a1, b1⟩ := hval i ni hvi
    obtain ⟨n2, a2, b2⟩ := hval j nj hvj
    exact hw.nodes.2 i j n1 n2 hi hj ((hlv i).mp hli) ((hlv j).mp hlj) a1 a2
      (by rw [b1, b2, hf])
  · obtain ⟨ch, hc⟩ := hw.chains
    refine ⟨ch, hc.1, ?_, ?_, ?_⟩
    · intro r hne
      rw [hm]
      exact Seg_next t.E t2.E _ _ _ _ (fun i _ => hnext i) (hc.2.1 r hne)
    · intro r i hi
      rw [hhash]
      exact hc.2.2.1 r i hi
    · intro i hi hl
      rw [hm] at hi
      rw [hhash]
      exact hc.2.2.2 i hi ((hlv i).mp hl)
  · intro k v
    constructor
    · rintro ⟨i, hi, hl, hv⟩
      rw [hm] at hi
      by_cases h : i = idx
      · rw [h, hat] at hv
        cases hv
        exact Or.inl ⟨rfl, rfl⟩
      · right
        rw [hoth i h] at hv
        refine ⟨?_, ⟨i, hi, (hlv i).mp hl, hv⟩⟩
        intro hk
        exact h (hw.nodes.2 i idx _ _ hi hidx ((hlv i).mp hl) hlive hv hold
          (by rw [hof]; exact hk))
    · rintro (⟨rfl, rfl⟩ | ⟨hk, i, hi, hl, hv⟩)
      · exact ⟨idx, by rw [hm]; exact hidx, (hlv idx).mpr hlive, by rw [hat, ← node_eta]⟩
      · have h : i ≠ idx := by
          rintro rfl
          rw [hold] at hv
          cases hv
          exact hk hof
        exact ⟨i, by rw [hm]; exact hi, (hlv i).mpr hl, by rw [hoth i h]; exact hv⟩

theorem absent_of_ValueIs [DecidableEq C] (t : TableType C U) (key : C)
    (h : ∀ i, i ≤ t.SizeMask → HashSetBase.Live t.E i → (t.E i).ValueIs key = false) :
    ∀ v, ¬ t.Holds key v := by
  rintro v ⟨i, hi, hl, hv⟩
  have := h i hi hl
  unfold HashsetCachedNodeEntry.ValueIs at this
  rw [hv] at this
  simp at this

/-- The function `Set` of the hash set on a hash set that satisfies the
invariant: with a nesting depth of at least 2 it returns, the invariant holds
again, the set holds the node under its key and what it held under the other
keys, and the size grows by one exactly when the key was absent. -/
theorem HashSetBase_Set_spec [DecidableEq C] (UpperBit : Nat → Nat) (HashF : C → Nat)
    (depth : Nat) (hU : ∀ n, n ≤ 2 ^ (UpperBit (n - 1) + 1)) (h : HashSetBase C U)
    (hw : h.WF HashF) (node : HashNode C U) :
    ∃ h2, HashSetBase.Set UpperBit HashF (depth + 2) h node = some h2 ∧ h2.WF HashF ∧
      (∀ k v, h2.Holds k v ↔
        ((k = node.First ∧ v = node.Second) ∨ (k ≠ node.First ∧ h.Holds k v))) ∧
      ((∃ v, h.Holds node.First v) → h2.GetSize = h.GetSize) ∧
      ((∀ v, ¬ h.Holds node.First v) → h2.GetSize = h.GetSize + 1) ∧
      ((∀ v, ¬ h.Holds node.First v) → ∀ t t2, h.pTable = some t → h2.pTable = some t2 →
        t.EntryCount * 5 > (t.SizeMask + 1) * 4 → (t.SizeMask + 1) * 2 ≤ t2.SizeMask + 1) := by
  have hadd : (∀ v, ¬ h.Holds node.First v) →
      ∃ h2, HashSetBase.add UpperBit HashF (depth + 2) h node (HashF node.First) = some h2 ∧
        h2.WF HashF ∧
        (∀ k v, h2.Holds k v ↔
          ((k = node.First ∧ v = node.Second) ∨ (k ≠ node.First ∧ h.Holds k v))) ∧
        ((∃ v, h.Holds node.First v) → h2.GetSize = h.GetSize) ∧
        ((∀ v, ¬ h.Holds node.First v) → h2.GetSize = h.GetSize + 1) ∧
        ((∀ v, ¬ h.Holds node.First v) → ∀ t t2, h.pTable = some t → h2.pTable = some t2 →
          t.EntryCount * 5 > (t.SizeMask + 1) * 4 →
          (t.SizeMask + 1) * 2 ≤ t2.SizeMask + 1) := by
    intro habs
    obtain ⟨h2, a1, a2, a3, a4, a5⟩ := add_spec UpperBit HashF depth hU h hw node habs
    refine ⟨h2, a1, a2, ?_, ?_, fun _ => a3, fun _ => a5⟩
    · intro k v
      rw [a4]
      constructor
      · rintro (hh | hn)
        · right
          refine ⟨?_, hh⟩
          rintro rfl
          exact habs v hh
        · exact Or.inl hn
      · rintro (hn | ⟨_, hh⟩)
        · exact Or.inr hn
        · exact Or.inl hh
    · rintro ⟨v, hv⟩
      exact absurd hv (habs v)
  unfold HashSetBase.Set
  cases hp : h.pTable with
  | none =>
    simp only []
    have hres := hadd (by
      intro v hv
      unfold HashSetBase.Holds at hv
      rw [hp] at hv
      exact hv)
    rw [hp] at hres
    exact hres
  | some t =>
    simp only []
    have hwt : t.WF HashF := by
      unfold HashSetBase.WF at hw
      rw [hp] at hw
      exact hw
    have hH : ∀ k v, h.Holds k v ↔ t.Holds k v := by
      intro k v
      unfold HashSetBase.Holds
      rw [hp]
    obtain ⟨x, hx, hres⟩ := findIndexCore_spec HashF t hwt node.First
    rw [hx]
    simp only []
    rcases hres with ⟨rfl, hno⟩ | ⟨i, rfl, hi, hl, hk⟩
    · rw [if_neg (by decide)]
      have hres := hadd (fun v hv => absent_of_ValueIs t node.First hno v ((hH _ _).mp hv))
      rw [hp] at hres
      exact hres
    · rw [if_pos (Int.natCast_nonneg i), Int.toNat_ofNat]
      obtain ⟨a1, a2, a3⟩ := Set_replace HashF t _ hwt node i hi hl
        ((ValueIs_iff _ _).mp hk) rfl
      obtain ⟨old, hold, hof⟩ := (ValueIs_iff _ _).mp hk
      have hpres : t.Holds node.First old.Second :=
        ⟨i, hi, hl, by rw [hold, ← hof, ← node_eta]⟩
      refine ⟨_, rfl, a1, ?_, ?_, ?_, ?_⟩
      · intro k v
        show TableType.Holds _ k v ↔ _
        rw [a3, hH]
      · intro _
        show TableType.EntryCount _ = _
        unfold HashSetBase.GetSize
        rw [hp]
      · intro habs
        exact absurd ((hH _ _).mpr hpres) (habs _)
      · intro habs
        exact absurd ((hH _ _).mpr hpres) (habs _)

end HashLemmas11

section HashLemmas12

variable {C U : Type}

theorem RemoveAlt_loop_absent [DecidableEq C] (t : TableType C U) (key : C) (r : Nat)
    (l : List Nat) :
    ∀ (a fuel : Nat) (prev : Int),
      HashSetBase.Seg t.E t.SizeMask (a : Int) (a :: l) (-1) →
      (∀ i ∈ a :: l, (t.E i).ValueIs key = false) → (a :: l).length ≤ fuel →
      HashSetBase.RemoveAlt.loop t key r fuel prev a = some none := by
  induction l with
  | nil =>
    intro a fuel prev hseg hno hf
    obtain ⟨f, rfl⟩ : ∃ f, fuel = f + 1 := ⟨fuel - 1, by simp at hf; omega⟩
    rw [Seg_cons, Seg_nil] at hseg
    unfold HashSetBase.RemoveAlt.loop
    rw [if_pos (Or.inr (hno a (List.mem_cons_self _ _))), if_pos hseg.2.2.2]
  | cons b l ih =>
    intro a fuel prev hseg hno hf
    obtain ⟨f, rfl⟩ : ∃ f, fuel = f + 1 := ⟨fuel - 1, by simp at hf; omega⟩
    rw [Seg_cons] at hseg
    obtain ⟨_, _, _, hn⟩ := hseg
    have hnb : (t.E a).NextInChain = (b : Int) := by
      rw [Seg_cons] at hn; exact hn.1
    unfold HashSetBase.RemoveAlt.loop
    rw [if_pos (Or.inr (hno a (List.mem_cons_self _ _))), if_neg (by rw [hnb]; omega), hnb,
      Int.toNat_ofNat]
    rw [hnb] at hn
    exact ih b f (a : Int) hn (fun i hi => hno i (List.mem_cons_of_mem _ hi))
      (by simp at hf ⊢; omega)

theorem RemoveAlt_loop_found [DecidableEq C] (t : TableType C U) (key : C) (r x : Nat)
    (f : Int) (pre : List Nat) :
    ∀ (a fuel : Nat) (prev : Int),
      HashSetBase.Seg t.E t.SizeMask (a : Int) (pre ++ [x]) f →
      (∀ i ∈ pre ++ [x], (t.E i).HashValue = r) →
      (∀ i ∈ pre, (t.E i).ValueIs key = false) → (t.E x).ValueIs key = true →
      (pre ++ [x]).length ≤ fuel →
      ∃ p, HashSetBase.RemoveAlt.loop t key r fuel prev a = some (some (p, x)) ∧
        ((pre = [] ∧ p = prev) ∨ (∃ (pre0 : List Nat) (q : Nat), pre = pre0 ++ [q] ∧ p = (q : Int))) := by
  induction pre with
  | nil =>
    intro a fuel prev hseg hh _ hx hf
    obtain ⟨g, rfl⟩ : ∃ g, fuel = g + 1 := ⟨fuel - 1, by simp at hf; omega⟩
    rw [List.nil_append, Seg_cons] at hseg
    have hax : a = x := by omega
    subst hax
    refine ⟨prev, ?_, Or.inl ⟨rfl, rfl⟩⟩
    unfold HashSetBase.RemoveAlt.loop
    have hha : (t.E a).HashValue = r := hh a (by simp)
    rw [if_neg]
    rw [not_or]
    refine ⟨?_, ?_⟩
    · simp [hha]
    · simp [hx]
  | cons i pre ih =>
    intro a fuel prev hseg hh hno hx hf
    obtain ⟨g, rfl⟩ : ∃ g, fuel = g + 1 := ⟨fuel - 1, by simp at hf; omega⟩
    rw [List.cons_append, Seg_cons] at hseg
    obtain ⟨h1, _, _, h4⟩ := hseg
    have hai : a = i := by omega
    subst hai
    have hnext : ∃ b : Nat, (t.E a).NextInChain = (b : Int) := by
      cases hl : pre ++ [x] with
      | nil => simp at hl
      | cons b rest =>
        rw [hl, Seg_cons] at h4
        exact ⟨b, h4.1⟩
    obtain ⟨b, hnb⟩ := hnext
    unfold HashSetBase.RemoveAlt.loop
    rw [if_pos (Or.inr (hno a (List.mem_cons_self _ _))), if_neg (by rw [hnb]; omega), hnb,
      Int.toNat_ofNat]
    rw [hnb] at h4
    obtain ⟨p, hp, hres⟩ := ih b g (a : Int) h4
      (fun j hj => hh j (List.mem_cons_of_mem _ hj))
      (fun j hj => hno j (List.mem_cons_of_mem _ hj)) hx (by simp at hf ⊢; omega)
    refine ⟨p, hp, Or.inr ?_⟩
    rcases hres with ⟨rfl, rfl⟩ | ⟨pre0, q, rfl, rfl⟩
    · exact ⟨[], a, rfl, rfl⟩
    · exact ⟨a :: pre0, q, rfl, rfl⟩

theorem hs_first_split (P : Nat → Bool) (l : List Nat) (h : ∃ i ∈ l, P i = true) :
    ∃ pre x post, l = pre ++ x :: post ∧ (∀ i ∈ pre, P i = false) ∧ P x = true := by
  induction l with
  | nil =>
    obtain ⟨i, hi, _⟩ := h
    cases hi
  | cons a l ih =>
    by_cases ha : P a = true
    · exact ⟨[], a, l, rfl, fun _ hi => (by cases hi), ha⟩
    · have : ∃ i ∈ l, P i = true := by
        obtain ⟨i, hi, hp⟩ := h
        rcases List.mem_cons.mp hi with rfl | hi
        · exact absurd hp ha
        · exact ⟨i, hi, hp⟩
      obtain ⟨pre, x, post, h1, h2, h3⟩ := ih this
      refine ⟨a :: pre, x, post, by rw [h1]; rfl, ?_, h3⟩
      intro i hi
      rcases List.mem_cons.mp hi with rfl | hi
      · simpa using ha
      · exact h2 i hi

end HashLemmas12
section HashLemmas13

variable {C U : Type}

theorem Clear_not_Live (E : Nat → HashsetCachedNodeEntry C U) (i : Nat)
    (e : HashsetCachedNodeEntry C U) (h : E i = e.Clear) : ¬ HashSetBase.Live E i := by
  unfold HashSetBase.Live
  rw [h]
  simp [HashsetCachedNodeEntry.Clear]

theorem liveSet_pos (t : TableType C U) (HashF : C → Nat) (hw : t.WF HashF) (x : Nat)
    (hx : x ≤ t.SizeMask) (hl : HashSetBase.Live t.E x) : 0 < t.EntryCount := by
  rw [hw.count]
  exact Finset.card_pos.mpr ⟨x, (mem_liveSet _ _ _).mpr ⟨hx, hl⟩⟩

/-- The entry found by `RemoveAlt` is the only one of its chain. -/
theorem unlink_last (HashF : C → Nat) (t t2 : TableType C U) (hw : t.WF HashF)
    (ch : Nat → List Nat) (hc : HashSetBase.Chains t.E t.SizeMask ch) (x : Nat)
    (node : HashNode C U) (hnode : (t.E x).Value = some node) (hch : ch x = [x])
    (hm : t2.SizeMask = t.SizeMask) (hcount : t2.EntryCount = t.EntryCount - 1)
    (hE : t2.E = Function.update t.E x (t.E x).Clear) :
    t2.WF HashF ∧ t2.EntryCount + 1 = t.EntryCount ∧
    ∀ k v, t2.Holds k v ↔ (t.Holds k v ∧ k ≠ node.First) := by
  obtain ⟨hx, hlx, hhx⟩ := Chains_mem _ _ _ hc x x (by rw [hch]; simp)
  have hat : t2.E x = (t.E x).Clear := by rw [hE, Function.update_same]
  have hoth : ∀ i, i ≠ x → t2.E i = t.E i := by
    intro i hi
    rw [hE, Function.update_noteq hi]
  have he2 := Clear_not_Live t2.E x _ hat
  obtain ⟨hn2, hc2, hh2⟩ := layout_clear HashF t t2 x node hm hw.nodes hx hlx hnode he2
    (fun i hi => by
      unfold HashSetBase.Live
      rw [hoth i hi]
      exact ⟨rfl, rfl, Iff.rfl⟩)
  have hpos := liveSet_pos t HashF hw x hx hlx
  refine ⟨⟨?_, ?_, hn2, ?_⟩, by omega, hh2⟩
  · rw [hm]; exact hw.pow
  · have := hw.count
    omega
  · have hnx : ∀ r i, r ≠ x → i ∈ ch r → i ≠ x := by
      rintro r i hr hi rfl
      exact hr ((Chains_mem _ _ _ hc r i hi).2.2.symm.trans hhx)
    refine ⟨fun r => if r = x then [] else ch r, ?_, ?_, ?_, ?_⟩
    · intro r
      by_cases hr : r = x
      · simp [hr]
      · simp only [hr, if_false]
        exact hc.1 r
    · intro r hne
      rw [hm]
      by_cases hr : r = x
      · simp [hr] at hne
      · simp only [hr, if_false] at hne ⊢
        exact Seg_frame t.E t2.E _ _ _ _ (fun i hi => hoth i (hnx r i hr hi)) (hc.2.1 r hne)
    · intro r i hi
      by_cases hr : r = x
      · simp [hr] at hi
      · simp only [hr, if_false] at hi
        rw [hoth i (hnx r i hr hi)]
        exact hc.2.2.1 r i hi
    · intro i hi hl
      rw [hm] at hi
      have hix : i ≠ x := by
        rintro rfl
        exact he2 hl
      rw [hoth i hix]
      have hl1 : HashSetBase.Live t.E i := by
        unfold HashSetBase.Live at hl ⊢
        rw [← hoth i hix]; exact hl
      have hmem := hc.2.2.2 i hi hl1
      have hr : (t.E i).HashValue ≠ x := by
        intro hr
        rw [hr, hch] at hmem
        exact hix (List.mem_singleton.mp hmem)
      simp only [hr, if_false]
      exact hmem

/-- The entry found by `RemoveAlt` is the head of its chain and has a follower,
which is moved into its place. -/
theorem unlink_head (HashF : C → Nat) (t t2 : TableType C U) (hw : t.WF HashF)
    (ch : Nat → List Nat) (hc : HashSetBase.Chains t.E t.SizeMask ch) (x f : Nat)
    (post : List Nat) (node : HashNode C U) (hnode : (t.E x).Value = some node)
    (hch : ch x = x :: f :: post)
    (hm : t2.SizeMask = t.SizeMask) (hcount : t2.EntryCount = t.EntryCount - 1)
    (hE : t2.E = Function.update (Function.update t.E x (t.E f)) f (t.E f).Clear) :
    t2.WF HashF ∧ t2.EntryCount + 1 = t.EntryCount ∧
    ∀ k v, t2.Holds k v ↔ (t.Holds k v ∧ k ≠ node.First) := by
  obtain ⟨hx, hlx, hhx⟩ := Chains_mem _ _ _ hc x x (by rw [hch]; simp)
  obtain ⟨hf, hlf, hhf⟩ := Chains_mem _ _ _ hc x f (by rw [hch]; simp)
  have hnd := hc.1 x
  rw [hch] at hnd
  have hfx : f ≠ x := by
    rintro rfl
    simp at hnd
  have hatf : t2.E f = (t.E f).Clear := by rw [hE, Function.update_same]
  have hatx : t2.E x = t.E f := by
    rw [hE, Function.update_noteq hfx.symm, Function.update_same]
  have hoth : ∀ i, i ≠ x → i ≠ f → t2.E i = t.E i := by
    intro i h1 h2
    rw [hE, Function.update_noteq h2, Function.update_noteq h1]
  have hef2 := Clear_not_Live t2.E f _ hatf
  have hlx2 : HashSetBase.Live t2.E x := by
    unfold HashSetBase.Live at hlf ⊢
    rw [hatx]; exact hlf
  -- the nodes
  obtain ⟨t1, ht1⟩ : ∃ t1 : TableType C U, t1 = { t with
      E := Function.update t.E x (t.E x).Clear } := ⟨_, rfl⟩
  have hm1 : t1.SizeMask = t.SizeMask := by rw [ht1]
  have h1x : t1.E x = (t.E x).Clear := by rw [ht1]; simp
  have h1oth : ∀ i, i ≠ x → t1.E i = t.E i := by
    intro i h1
    rw [ht1]
    simp only []
    rw [Function.update_noteq h1]
  have he1 := Clear_not_Live t1.E x _ h1x
  obtain ⟨hn1, hc1, hh1⟩ := layout_clear HashF t t1 x node hm1 hw.nodes hx hlx hnode he1
    (fun i hi => by
      unfold HashSetBase.Live
      rw [h1oth i hi]
      exact ⟨rfl, rfl, Iff.rfl⟩)
  rw [hm1] at hn1 hc1
  obtain ⟨hn2, hc2, hh2⟩ := layout_move HashF t1 t2 f x (by rw [hm, hm1])
    (by rw [hm1]; exact hn1) (by rw [hm1]; exact hf) (by rw [hm1]; exact hx)
    (by unfold HashSetBase.Live at hlf ⊢; rw [h1oth f hfx]; exact hlf) he1 hef2 hlx2
    (by rw [hatx, h1oth f hfx]) (by rw [hatx, h1oth f hfx])
    (fun i h1 h2 => by
      unfold HashSetBase.Live
      rw [hoth i h2 h1, h1oth i h2]
      exact ⟨rfl, rfl, Iff.rfl⟩)
  rw [hm1] at hc2
  have hpos := liveSet_pos t HashF hw x hx hlx
  refine ⟨⟨?_, ?_, hn2, ?_⟩, by omega, ?_⟩
  · rw [hm]; exact hw.pow
  · have := hw.count
    omega
  · have hseg := hc.2.1 x (by rw [hch]; simp)
    rw [hch, Seg_cons, Seg_cons] at hseg
    obtain ⟨_, _, _, _, _, _, hsegp⟩ := hseg
    have hnx : ∀ r i, r ≠ x → i ∈ ch r → i ≠ x ∧ i ≠ f := by
      intro r i hr hi
      refine ⟨?_, ?_⟩
      · rintro rfl
        exact hr ((Chains_mem _ _ _ hc r i hi).2.2.symm.trans hhx)
      · rintro rfl
        exact hr ((Chains_mem _ _ _ hc r i hi).2.2.symm.trans hhf)
    have hpost : ∀ i, i ∈ post → i ≠ x ∧ i ≠ f := by
      intro i hi
      simp only [List.nodup_cons, List.mem_cons, not_or] at hnd
      refine ⟨?_, ?_⟩
      · rintro rfl
        exact hnd.1.2 hi
      · rintro rfl
        exact hnd.2.1 hi
    refine ⟨fun r => if r = x then x :: post else ch r, ?_, ?_, ?_, ?_⟩
    · intro r
      by_cases hr : r = x
      · simp only [hr, if_true]
        simp only [List.nodup_cons, List.mem_cons, not_or] at hnd ⊢
        exact ⟨hnd.1.2, hnd.2.2⟩
      · simp only [hr, if_false]
        exact hc.1 r
    · intro r hne
      rw [hm]
      by_cases hr : r = x
      · simp only [hr, if_true]
        rw [Seg_cons, hatx]
        exact ⟨rfl, hx, hlx2, Seg_frame t.E t2.E _ _ _ _
          (fun i hi => hoth i (hpost i hi).1 (hpost i hi).2) hsegp⟩
      · simp only [hr, if_false] at hne ⊢
        exact Seg_frame t.E t2.E _ _ _ _
          (fun i hi => hoth i (hnx r i hr hi).1 (hnx r i hr hi).2) (hc.2.1 r hne)
    · intro r i hi
      by_cases hr : r = x
      · simp only [hr, if_true, List.mem_cons] at hi
        rcases hi with rfl | hi
        · rw [hatx, hhf, hr]
        · rw [hoth i (hpost i hi).1 (hpost i hi).2, hr]
          exact hc.2.2.1 x i (by rw [hch]; simp [hi])
      · simp only [hr, if_false] at hi
        rw [hoth i (hnx r i hr hi).1 (hnx r i hr hi).2]
        exact hc.2.2.1 r i hi
    · intro i hi hl
      rw [hm] at hi
      have hif : i ≠ f := by
        rintro rfl
        exact hef2 hl
      by_cases hix : i = x
      · rw [hix, hatx, hhf]
        simp
      · rw [hoth i hix hif]
        have hl1 : HashSetBase.Live t.E i := by
          unfold HashSetBase.Live at hl ⊢
          rw [← hoth i hix hif]; exact hl
        have hmem := hc.2.2.2 i hi hl1
        by_cases hr : (t.E i).HashValue = x
        · rw [hr, hch] at hmem
          rw [hr]
          simp only [if_true, List.mem_cons] at hmem ⊢
          rcases hmem with h | h | h
          · exact absurd h hix
          · exact absurd h hif
          · exact Or.inr h
        · simp only [hr, if_false]
          exact hmem
  · intro k v
    rw [hh2, hh1]

end HashLemmas13
section HashLemmas14

variable {C U : Type}

/-- The entry found by `RemoveAlt` is not the head of its chain: its predecessor
is linked to its follower. -/
theorem unlink_inner (HashF : C → Nat) (t t2 : TableType C U) (hw : t.WF HashF)
    (ch : Nat → List Nat) (hc : HashSetBase.Chains t.E t.SizeMask ch) (r x q : Nat)
    (pre0 post : List Nat) (node : HashNode C U) (hnode : (t.E x).Value = some node)
    (hch : ch r = (pre0 ++ [q]) ++ x :: post)
    (hm : t2.SizeMask = t.SizeMask) (hcount : t2.EntryCount = t.EntryCount - 1)
    (hE : t2.E = Function.update
      (Function.update t.E q { t.E q with NextInChain := (t.E x).NextInChain }) x
      (Function.update t.E q { t.E q with NextInChain := (t.E x).NextInChain } x).Clear) :
    t2.WF HashF ∧ t2.EntryCount + 1 = t.EntryCount ∧
    ∀ k v, t2.Holds k v ↔ (t.Holds k v ∧ k ≠ node.First) := by
  obtain ⟨hx, hlx, hhx⟩ := Chains_mem _ _ _ hc r x (by rw [hch]; simp)
  obtain ⟨hq, hlq, hhq⟩ := Chains_mem _ _ _ hc r q (by rw [hch]; simp)
  have hnd := hc.1 r
  rw [hch] at hnd
  have hnotin : x ∉ pre0 ++ [q] := (List.disjoint_of_nodup_append hnd).symm
    (List.mem_cons_self _ _)
  have hqx : q ≠ x := by
    rintro rfl
    exact hnotin (by simp)
  have hatx : t2.E x = (t.E x).Clear := by
    rw [hE, Function.update_same, Function.update_noteq hqx.symm]
  have hatq : t2.E q = { t.E q with NextInChain := (t.E x).NextInChain } := by
    rw [hE, Function.update_noteq hqx, Function.update_same]
  have hoth : ∀ i, i ≠ x → i ≠ q → t2.E i = t.E i := by
    intro i h1 h2
    rw [hE, Function.update_noteq h1, Function.update_noteq h2]
  have hex2 := Clear_not_Live t2.E x _ hatx
  have hlq2 : HashSetBase.Live t2.E q := by
    unfold HashSetBase.Live at hlx ⊢
    rw [hatq]; exact hlx
  obtain ⟨hn2, hc2, hh2⟩ := layout_clear HashF t t2 x node hm hw.nodes hx hlx hnode hex2
    (fun i hi => by
      by_cases h2 : i = q
      · rw [h2]
        refine ⟨by rw [hatq], by rw [hatq], ?_⟩
        exact ⟨fun _ => hlq, fun _ => hlq2⟩
      · unfold HashSetBase.Live
        rw [hoth i hi h2]
        exact ⟨rfl, rfl, Iff.rfl⟩)
  have hpos := liveSet_pos t HashF hw x hx hlx
  refine ⟨⟨?_, ?_, hn2, ?_⟩, by omega, hh2⟩
  · rw [hm]; exact hw.pow
  · have := hw.count
    omega
  · have hseg := hc.2.1 r (by rw [hch]; simp)
    rw [hch, Seg_append] at hseg
    obtain ⟨b1, hseg1, hseg2⟩ := hseg
    rw [Seg_cons] at hseg2
    obtain ⟨hb1, _, _, hsegp⟩ := hseg2
    subst hb1
    rw [Seg_append] at hseg1
    obtain ⟨b0, hseg0, hsegq⟩ := hseg1
    rw [Seg_cons, Seg_nil] at hsegq
    obtain ⟨hb0, _, _, _⟩ := hsegq
    subst hb0
    have hnx : ∀ s i, s ≠ r → i ∈ ch s → i ≠ x ∧ i ≠ q := by
      intro s i hs hi
      refine ⟨?_, ?_⟩
      · rintro rfl
        exact hs ((Chains_mem _ _ _ hc s i hi).2.2.symm.trans hhx)
      · rintro rfl
        exact hs ((Chains_mem _ _ _ hc s i hi).2.2.symm.trans hhq)
    have hpre : ∀ i, i ∈ pre0 → i ≠ x ∧ i ≠ q := by
      intro i hi
      refine ⟨?_, ?_⟩
      · rintro rfl
        exact hnotin (by simp [hi])
      · rintro rfl
        have := (List.nodup_append.mp hnd).1
        rw [List.nodup_append] at this
        exact this.2.2 hi (List.mem_singleton_self _)
    have hpost : ∀ i, i ∈ post → i ≠ x ∧ i ≠ q := by
      intro i hi
      have h2 := (List.nodup_append.mp hnd).2.1
      rw [List.nodup_cons] at h2
      refine ⟨?_, ?_⟩
      · rintro rfl
        exact h2.1 hi
      · rintro rfl
        exact (List.disjoint_of_nodup_append hnd) (by simp) (List.mem_cons_of_mem _ hi)
    refine ⟨fun s => if s = r then (pre0 ++ [q]) ++ post else ch s, ?_, ?_, ?_, ?_⟩
    · intro s
      by_cases hs : s = r
      · simp only [hs, if_true]
        exact (hs_nodup_remove _ _ x hnd).1
      · simp only [hs, if_false]
        exact hc.1 s
    · intro s hne
      rw [hm]
      by_cases hs : s = r
      · simp only [hs, if_true]
        rw [Seg_append]
        refine ⟨(t.E x).NextInChain, ?_, ?_⟩
        · rw [Seg_append]
          refine ⟨(q : Int), ?_, ?_⟩
          · exact Seg_frame t.E t2.E _ _ _ _
              (fun i hi => hoth i (hpre i hi).1 (hpre i hi).2) hseg0
          · rw [Seg_cons, Seg_nil]
            exact ⟨rfl, hq, hlq2, by rw [hatq]⟩
        · exact Seg_frame t.E t2.E _ _ _ _
            (fun i hi => hoth i (hpost i hi).1 (hpost i hi).2) hsegp
      · simp only [hs, if_false] at hne ⊢
        exact Seg_frame t.E t2.E _ _ _ _
          (fun i hi => hoth i (hnx s i hs hi).1 (hnx s i hs hi).2) (hc.2.1 s hne)
    · intro s i hi
      by_cases hs : s = r
      · simp only [hs, if_true, List.mem_append, List.mem_cons, List.mem_singleton,
          List.not_mem_nil, or_false] at hi
        rcases hi with (hi | rfl) | hi
        · rw [hoth i (hpre i hi).1 (hpre i hi).2, hs]
          exact hc.2.2.1 r i (by rw [hch]; simp [hi])
        · rw [hatq, hs]
          exact hhq
        · rw [hoth i (hpost i hi).1 (hpost i hi).2, hs]
          exact hc.2.2.1 r i (by rw [hch]; simp [hi])
      · simp only [hs, if_false] at hi
        rw [hoth i (hnx s i hs hi).1 (hnx s i hs hi).2]
        exact hc.2.2.1 s i hi
    · intro i hi hl
      rw [hm] at hi
      have hix : i ≠ x := by
        rintro rfl
        exact hex2 hl
      by_cases hiq : i = q
      · rw [hiq, hatq]
        simp only []
        rw [hhq]
        simp
      · rw [hoth i hix hiq]
        have hl1 : HashSetBase.Live t.E i := by
          unfold HashSetBase.Live at hl ⊢
          rw [← hoth i hix hiq]; exact hl
        have hmem := hc.2.2.2 i hi hl1
        by_cases hr : (t.E i).HashValue = r
        · rw [hr, hch] at hmem
          rw [hr]
          simp only [if_true, List.mem_append, List.mem_cons, List.mem_singleton,
            List.not_mem_nil, or_false] at hmem ⊢
          rcases hmem with (h | h) | h | h
          · exact Or.inl (Or.inl h)
          · exact absurd h hiq
          · exact absurd h hix
          · exact Or.inr h
        · simp only [hr, if_false]
          exact hmem

end HashLemmas14
section HashLemmas15

variable {C U : Type}

theorem RemoveAlt_cases [DecidableEq C] (HashF : C → Nat) (h : HashSetBase C U)
    (hw : h.WF HashF) (key : C) :
    ((∀ v, ¬ h.Holds key v) ∧ HashSetBase.RemoveAlt HashF h key = some (false, h)) ∨
    (∃ v h2, h.Holds key v ∧ HashSetBase.RemoveAlt HashF h key = some (true, h2) ∧
      h2.WF HashF ∧ h2.GetSize + 1 = h.GetSize ∧
      (∀ k w, h2.Holds k w ↔ (h.Holds k w ∧ k ≠ key)) ∧
      ∃ t t2 x, h.pTable = some t ∧ h2.pTable = some t2 ∧ x ≤ t.SizeMask ∧
        (t.E x).ValueIs key = true ∧
        ((x = HashF key &&& t.SizeMask ∧ (t.E x).NextInChain = -1 ∧
            t2.E = Function.update t.E x (t.E x).Clear) ∨
         (x = HashF key &&& t.SizeMask ∧ ∃ f : Nat, (t.E x).NextInChain = (f : Int) ∧ f ≠ x ∧
            t2.E = Function.update (Function.update t.E x (t.E f)) f (t.E f).Clear) ∨
         (x ≠ HashF key &&& t.SizeMask ∧ ∃ q : Nat, q ≠ x ∧
            (t.E q).NextInChain = (x : Int) ∧
            t2.E = Function.update
              (Function.update t.E q { t.E q with NextInChain := (t.E x).NextInChain }) x
              (t.E x).Clear))) := by
  unfold HashSetBase.RemoveAlt
  cases hp : h.pTable with
  | none =>
    left
    refine ⟨?_, rfl⟩
    intro v hv
    unfold HashSetBase.Holds at hv
    rw [hp] at hv
    exact hv
  | some t =>
    simp only []
    have hwt : t.WF HashF := by
      unfold HashSetBase.WF at hw
      rw [hp] at hw
      exact hw
    have hH : ∀ k v, h.Holds k v ↔ t.Holds k v := by
      intro k v
      unfold HashSetBase.Holds
      rw [hp]
    have hG : h.GetSize = t.EntryCount := by
      unfold HashSetBase.GetSize
      rw [hp]
    obtain ⟨ch, hc⟩ := hwt.chains
    have hkey : ∀ i, i ≤ t.SizeMask → HashSetBase.Live t.E i → (t.E i).ValueIs key = true →
        i ∈ ch (HashF key &&& t.SizeMask) := by
      intro i hi hl hk
      obtain ⟨node, hn, hh⟩ := hwt.nodes.1 i hi hl
      obtain ⟨node2, hn2, hf⟩ := (ValueIs_iff _ _).mp hk
      rw [hn] at hn2
      cases hn2
      rw [hf] at hh
      rw [← hh]
      exact hc.2.2.2 i hi hl
    have hholds : ∀ v, t.Holds key v → ∃ i, i ∈ ch (HashF key &&& t.SizeMask) ∧
        (t.E i).ValueIs key = true := by
      rintro v ⟨i, hi, hl, hv⟩
      have hk : (t.E i).ValueIs key = true := (ValueIs_iff _ _).mpr ⟨_, hv, rfl⟩
      exact ⟨i, hkey i hi hl hk, hk⟩
    by_cases h0 : (t.E (HashF key &&& t.SizeMask)).IsEmpty = true ∨
        (t.E (HashF key &&& t.SizeMask)).HashValue ≠ HashF key &&& t.SizeMask
    · rw [if_pos h0]
      left
      refine ⟨?_, rfl⟩
      have hemp : ch (HashF key &&& t.SizeMask) = [] := by
        apply Chains_empty t.E t.SizeMask ch hc
        rcases h0 with h1 | h1
        · left
          rw [Live_iff]
          simp [h1]
        · right; exact h1
      intro v hv
      obtain ⟨i, hi, _⟩ := hholds v ((hH _ _).mp hv)
      rw [hemp] at hi
      cases hi
    · rw [if_neg h0]
      have h1 : HashSetBase.Live t.E (HashF key &&& t.SizeMask) := by
        rw [Live_iff]
        by_contra hh
        exact h0 (Or.inl (by simpa using hh))
      have h2 : (t.E (HashF key &&& t.SizeMask)).HashValue = HashF key &&& t.SizeMask := by
        by_contra hh
        exact h0 (Or.inr hh)
      have hmem := hc.2.2.2 _ (hs_land_le _ _) h1
      rw [h2] at hmem
      obtain ⟨tl, htl, _⟩ := Chains_head t.E t.SizeMask ch hc _ (List.ne_nil_of_mem hmem)
      have hseg := hc.2.1 _ (List.ne_nil_of_mem hmem)
      have hlen := Chains_length t.E t.SizeMask ch hc (HashF key &&& t.SizeMask)
      by_cases hex : ∃ i ∈ ch (HashF key &&& t.SizeMask), (t.E i).ValueIs key = true
      · right
        obtain ⟨pre, x, post, hsplit, hpre, hx⟩ :=
          hs_first_split (fun i => (t.E i).ValueIs key) _ hex
        have hsplit2 : ch (HashF key &&& t.SizeMask) = (pre ++ [x]) ++ post := by
          rw [hsplit]; simp
        obtain ⟨hxle, hxl, hxh⟩ := Chains_mem _ _ _ hc _ x (by rw [hsplit]; simp)
        obtain ⟨node, hnode, hnf⟩ := (ValueIs_iff _ _).mp hx
        have hseg2 := hseg
        rw [hsplit2, Seg_append] at hseg2
        obtain ⟨f, hsegx, _⟩ := hseg2
        obtain ⟨p, hloop, hp2⟩ := RemoveAlt_loop_found t key (HashF key &&& t.SizeMask) x f
          pre (HashF key &&& t.SizeMask) (t.SizeMask + 1) (-1) hsegx
          (fun i hi => hc.2.2.1 _ i (by rw [hsplit2]; exact List.mem_append_left _ hi)) hpre hx
          (by rw [hsplit2] at hlen; simp at hlen ⊢; omega)
        rw [hloop]
        simp only []
        have hpres : t.Holds key node.Second := ⟨x, hxle, hxl, by rw [hnode, ← hnf, ← node_eta]⟩
        have hfin : ∀ t2 : TableType C U,
            (t2.WF HashF ∧ t2.EntryCount + 1 = t.EntryCount ∧
              ∀ k v, t2.Holds k v ↔ (t.Holds k v ∧ k ≠ node.First)) →
            (HashSetBase.WF HashF { pTable := some t2 } ∧
              HashSetBase.GetSize ({ pTable := some t2 } : HashSetBase C U) + 1 = h.GetSize ∧
              ∀ k w, HashSetBase.Holds ({ pTable := some t2 } : HashSetBase C U) k w ↔
                (h.Holds k w ∧ k ≠ key)) := by
          rintro t2 ⟨a1, a2, a3⟩
          refine ⟨a1, by rw [hG]; exact a2, ?_⟩
          intro k w
          show t2.Holds k w ↔ _
          rw [a3, hH, hnf]
        have hnd := hc.1 (HashF key &&& t.SizeMask)
        rcases hp2 with ⟨rfl, rfl⟩ | ⟨pre0, q, rfl, rfl⟩
        · -- the entry found is the head of its chain
          rw [List.nil_append] at hsplit
          have hxi : x = HashF key &&& t.SizeMask := by
            rw [htl] at hsplit
            exact (List.cons.inj hsplit).1.symm
          rw [← hxi] at hsplit hseg hnd
          rw [hsplit, Seg_cons] at hseg
          by_cases hend : (t.E x).NextInChain = -1
          · have hpost : post = [] := by
              cases post with
              | nil => rfl
              | cons j rest =>
                rw [Seg_cons] at hseg
                have := hseg.2.2.2.1
                omega
            rw [hpost] at hsplit
            have hE : (HashSetBase.RemoveAlt.unlink t (HashF key &&& t.SizeMask) (-1) x).E =
                Function.update t.E x (t.E x).Clear := by
              rw [← hxi]
              unfold HashSetBase.RemoveAlt.unlink
              simp [HashsetCachedNodeEntry.IsEndOfChain, hend]
            have hres := unlink_last HashF t
              (HashSetBase.RemoveAlt.unlink t (HashF key &&& t.SizeMask) (-1) x) hwt ch hc x node
              hnode hsplit rfl rfl hE
            obtain ⟨b1, b2, b3⟩ := hfin _ hres
            exact ⟨node.Second, _, (hH _ _).mpr hpres, rfl, b1, b2, b3, t, _, x, rfl, rfl, hxle,
              hx, Or.inl ⟨hxi, hend, hE⟩⟩
          · obtain ⟨j, rest, hpost⟩ : ∃ j rest, post = j :: rest := by
              cases post with
              | nil =>
                rw [Seg_nil] at hseg
                exact absurd hseg.2.2.2 hend
              | cons j rest => exact ⟨j, rest, rfl⟩
            rw [hpost] at hsplit hseg
            have hnj : (t.E x).NextInChain = (j : Int) := by
              rw [Seg_cons] at hseg
              exact hseg.2.2.2.1
            have hjx : j ≠ x := by
              rintro rfl
              rw [hsplit] at hnd
              simp at hnd
            have hE : (HashSetBase.RemoveAlt.unlink t (HashF key &&& t.SizeMask) (-1) x).E =
                Function.update (Function.update t.E x (t.E j)) j (t.E j).Clear := by
              rw [← hxi]
              unfold HashSetBase.RemoveAlt.unlink
              simp [HashsetCachedNodeEntry.IsEndOfChain, hnj]
            have hres := unlink_head HashF t
              (HashSetBase.RemoveAlt.unlink t (HashF key &&& t.SizeMask) (-1) x) hwt ch hc x j
              rest node hnode hsplit rfl rfl hE
            obtain ⟨b1, b2, b3⟩ := hfin _ hres
            exact ⟨node.Second, _, (hH _ _).mpr hpres, rfl, b1, b2, b3, t, _, x, rfl, rfl, hxle,
              hx, Or.inr (Or.inl ⟨hxi, j, hnj, hjx, hE⟩)⟩
        · -- the entry found has a predecessor
          rw [hsplit2] at hnd
          have hnotin : x ∉ pre0 ++ [q] := by
            intro hin
            have := (List.nodup_append.mp hnd).1
            rw [List.nodup_append] at this
            exact this.2.2 hin (List.mem_singleton_self _)
          have hqx : q ≠ x := by
            rintro rfl
            exact hnotin (by simp)
          have hne : HashF key &&& t.SizeMask ≠ x := by
            intro he
            have hhead : HashF key &&& t.SizeMask ∈ pre0 ++ [q] := by
              have hh := htl
              rw [hsplit2] at hh
              cases hl : pre0 ++ [q] with
              | nil => simp at hl
              | cons a rest =>
                rw [List.append_assoc, List.append_assoc, ← List.append_assoc, hl] at hh
                rw [(List.cons.inj hh).1]
                exact List.mem_cons_self _ _
            rw [he] at hhead
            exact hnotin hhead
          have hqnext : (t.E q).NextInChain = (x : Int) := by
            rw [Seg_append] at hsegx
            obtain ⟨b, hs1, hs2⟩ := hsegx
            rw [Seg_cons] at hs2
            have hb := hs2.1
            subst hb
            rw [Seg_append] at hs1
            obtain ⟨b0, _, hs3⟩ := hs1
            rw [Seg_cons, Seg_nil] at hs3
            exact hs3.2.2.2
          have hE : (HashSetBase.RemoveAlt.unlink t (HashF key &&& t.SizeMask) (q : Int) x).E =
              Function.update
                (Function.update t.E q { t.E q with NextInChain := (t.E x).NextInChain }) x
                (Function.update t.E q { t.E q with NextInChain := (t.E x).NextInChain } x).Clear
              := by
            unfold HashSetBase.RemoveAlt.unlink
            simp [hne]
          have hE2 : (HashSetBase.RemoveAlt.unlink t (HashF key &&& t.SizeMask) (q : Int) x).E =
              Function.update
                (Function.update t.E q { t.E q with NextInChain := (t.E x).NextInChain }) x
                (t.E x).Clear := by
            rw [hE, Function.update_noteq hqx.symm]
          have hres := unlink_inner HashF t
            (HashSetBase.RemoveAlt.unlink t (HashF key &&& t.SizeMask) (q : Int) x) hwt ch hc
            (HashF key &&& t.SizeMask) x q pre0 post node hnode hsplit rfl rfl hE
          obtain ⟨b1, b2, b3⟩ := hfin _ hres
          exact ⟨node.Second, _, (hH _ _).mpr hpres, rfl, b1, b2, b3, t, _, x, rfl, rfl, hxle,
            hx, Or.inr (Or.inr ⟨fun e => hne e.symm, q, hqx, hqnext, hE2⟩)⟩
      · left
        have hno : ∀ i ∈ ch (HashF key &&& t.SizeMask), (t.E i).ValueIs key = false := by
          intro i hi
          by_contra hk
          exact hex ⟨i, hi, by simpa using hk⟩
        rw [htl] at hseg hlen hno
        rw [RemoveAlt_loop_absent t key _ tl _ _ _ hseg hno hlen]
        refine ⟨?_, rfl⟩
        intro v hv
        obtain ⟨i, hi, hk⟩ := hholds v ((hH _ _).mp hv)
        rw [htl] at hi
        rw [hno i hi] at hk
        cases hk

/-- The function `RemoveAlt` on a hash set that satisfies the invariant: it
returns true exactly when the set holds the key; the invariant then holds
again, the size is one less, and the set holds what it held under the other
keys. A call that returns false leaves the set as it is. -/
theorem RemoveAlt_spec [DecidableEq C] (HashF : C → Nat) (h : HashSetBase C U)
    (hw : h.WF HashF) (key : C) :
    (∀ v, h.Holds key v →
      ∃ h2, HashSetBase.RemoveAlt HashF h key = some (true, h2) ∧ h2.WF HashF ∧
        h2.GetSize + 1 = h.GetSize ∧ ∀ k w, h2.Holds k w ↔ (h.Holds k w ∧ k ≠ key)) ∧
    ((∀ v, ¬ h.Holds key v) → HashSetBase.RemoveAlt HashF h key = some (false, h)) := by
  rcases RemoveAlt_cases HashF h hw key with ⟨habs, hr⟩ | ⟨v, h2, hv, hr, a1, a2, a3, _⟩
  · exact ⟨fun v hv => absurd hv (habs v), fun _ => hr⟩
  · exact ⟨fun _ _ => ⟨h2, hr, a1, a2, a3⟩, fun habs => absurd hv (habs v)⟩

end HashLemmas15

section HashLemmas16

variable {C U : Type}

theorem Hash_Get_present [DecidableEq C] (HashF : C → Nat) (h : Hash C U)
    (hw : h.mHash.WF HashF) (key : C) :
    Hash.Get HashF h key none = some (true, none) ↔ ∃ v, h.mHash.Holds key v := by
  obtain ⟨h1, h2⟩ := Hash_Get_spec HashF h hw key none
  constructor
  · intro hg
    by_contra hno
    rw [h2 (fun v hv => hno ⟨v, hv⟩)] at hg
    cases hg
  · rintro ⟨v, hv⟩
    rw [h1 v hv]
    rfl

theorem Hash_Get_absent [DecidableEq C] (HashF : C → Nat) (h : Hash C U)
    (hw : h.mHash.WF HashF) (key : C) :
    Hash.Get HashF h key none = some (false, none) ↔ ∀ v, ¬ h.mHash.Holds key v := by
  obtain ⟨h1, h2⟩ := Hash_Get_spec HashF h hw key none
  constructor
  · intro hg v hv
    rw [h1 v hv] at hg
    cases hg
  · intro hno
    exact h2 hno

theorem Hash_Get_congr [DecidableEq C] (HashF : C → Nat) (h h2 : Hash C U)
    (hw : h.mHash.WF HashF) (hw2 : h2.mHash.WF HashF) (key : C) (pvalue : Option U)
    (heq : ∀ v, h2.mHash.Holds key v ↔ h.mHash.Holds key v) :
    Hash.Get HashF h2 key pvalue = Hash.Get HashF h key pvalue := by
  obtain ⟨a1, a2⟩ := Hash_Get_spec HashF h hw key pvalue
  obtain ⟨b1, b2⟩ := Hash_Get_spec HashF h2 hw2 key pvalue
  by_cases hex : ∃ v, h.mHash.Holds key v
  · obtain ⟨v, hv⟩ := hex
    rw [a1 v hv, b1 v ((heq v).mpr hv)]
  · have hno : ∀ v, ¬ h.mHash.Holds key v := fun v hv => hex ⟨v, hv⟩
    rw [a2 hno, b2 (fun v hv => hno v ((heq v).mp hv))]

theorem Hash_Get_total [DecidableEq C] (HashF : C → Nat) (h : Hash C U)
    (hw : h.mHash.WF HashF) (key : C) :
    Hash.Get HashF h key none = some (true, none) ∨
      Hash.Get HashF h key none = some (false, none) := by
  by_cases hex : ∃ v, h.mHash.Holds key v
  · exact Or.inl ((Hash_Get_present HashF h hw key).mpr hex)
  · exact Or.inr ((Hash_Get_absent HashF h hw key).mpr (fun v hv => hex ⟨v, hv⟩))

/-- The function `Hash::Set` in terms of the nodes held. -/
theorem Hash_Set_spec [DecidableEq C] (UpperBit : Nat → Nat) (HashF : C → Nat)
    (depth : Nat) (hU : ∀ n, n ≤ 2 ^ (UpperBit (n - 1) + 1)) (h : Hash C U)
    (hw : h.mHash.WF HashF) (k : C) (v : U) :
    ∃ h2, Hash.Set UpperBit HashF (depth + 2) h k v = some h2 ∧ h2.mHash.WF HashF ∧
      (∀ k2 w, h2.mHash.Holds k2 w ↔ ((k2 = k ∧ w = v) ∨ (k2 ≠ k ∧ h.mHash.Holds k2 w))) ∧
      ((∃ w, h.mHash.Holds k w) → h2.GetSize = h.GetSize) ∧
      ((∀ w, ¬ h.mHash.Holds k w) → h2.GetSize = h.GetSize + 1) ∧
      ((∀ w, ¬ h.mHash.Holds k w) → ∀ t t2, h.mHash.pTable = some t →
        h2.mHash.pTable = some t2 → t.EntryCount * 5 > (t.SizeMask + 1) * 4 →
        (t.SizeMask + 1) * 2 ≤ t2.SizeMask + 1) := by
  obtain ⟨m, a1, a2, a3, a4, a5, a6⟩ := HashSetBase_Set_spec UpperBit HashF depth hU h.mHash hw
    { First := k, Second := v }
  refine ⟨{ mHash := m }, ?_, a2, a3, a4, a5, a6⟩
  unfold Hash.Set
  rw [a1]

/-- The function `Hash::Add` of a key that the table does not hold, in terms of the
nodes held. -/
theorem Hash_Add_spec [DecidableEq C] (UpperBit : Nat → Nat) (HashF : C → Nat)
    (depth : Nat) (hU : ∀ n, n ≤ 2 ^ (UpperBit (n - 1) + 1)) (h : Hash C U)
    (hw : h.mHash.WF HashF) (k : C) (v : U) (habs : ∀ w, ¬ h.mHash.Holds k w) :
    ∃ h2, Hash.Add UpperBit HashF (depth + 2) h k v = some h2 ∧ h2.mHash.WF HashF ∧
      h2.GetSize = h.GetSize + 1 ∧
      (∀ k2 w, h2.mHash.Holds k2 w ↔ (h.mHash.Holds k2 w ∨ (k2 = k ∧ w = v))) := by
  obtain ⟨m, a1, a2, a3, a4, _⟩ := add_spec UpperBit HashF depth hU h.mHash hw
    { First := k, Second := v } habs
  refine ⟨{ mHash := m }, ?_, a2, a3, a4⟩
  unfold Hash.Add HashSetBase.Add
  rw [a1]

/-- Every table built by `Set`, `Remove` and `Add` of absent keys satisfies the
invariant of the hash set. -/
theorem Built_WF [DecidableEq C] (UpperBit : Nat → Nat) (HashF : C → Nat)
    (hU : ∀ n, n ≤ 2 ^ (UpperBit (n - 1) + 1)) (h : Hash C U)
    (hb : Hash.Built UpperBit HashF h) : h.mHash.WF HashF := by
  induction hb with
  | empty => trivial
  | set h h2 depth k v _ hs ih =>
    obtain ⟨h3, a1, a2, _⟩ := Hash_Set_spec UpperBit HashF depth hU h ih k v
    rw [a1] at hs
    cases hs
    exact a2
  | add h h2 depth k v _ hg ha ih =>
    obtain ⟨h3, a1, a2, _⟩ := Hash_Add_spec UpperBit HashF depth hU h ih k v
      ((Hash_Get_absent HashF h ih k).mp hg)
    rw [a1] at ha
    cases ha
    exact a2
  | remove h h2 k b _ hr ih =>
    unfold Hash.Remove at hr
    rcases RemoveAlt_cases HashF h.mHash ih k with ⟨_, e⟩ | ⟨_, m2, _, e, a1, _⟩
    · rw [e] at hr
      cases hr
      exact ih
    · rw [e] at hr
      cases hr
      exact a1

/-- Every table that `Hash::Set` builds from a built table is a built table. -/
theorem SetAll_Built [DecidableEq C] (UpperBit : Nat → Nat) (HashF : C → Nat)
    (depth : Nat) (hU : ∀ n, n ≤ 2 ^ (UpperBit (n - 1) + 1)) (l : List (C × U)) :
    ∀ (h : Hash C U), Hash.Built UpperBit HashF h →
      ∃ h2, Hash.SetAll UpperBit HashF (depth + 2) h l = some h2 ∧
        Hash.Built UpperBit HashF h2 := by
  induction l with
  | nil =>
    intro h hb
    exact ⟨h, rfl, hb⟩
  | cons kv l ih =>
    intro h hb
    obtain ⟨h1, a1, _⟩ := Hash_Set_spec UpperBit HashF depth hU h
      (Built_WF UpperBit HashF hU h hb) kv.1 kv.2
    obtain ⟨h2, b1, b2⟩ := ih h1 (Hash.Built.set h h1 depth kv.1 kv.2 hb a1)
    refine ⟨h2, ?_, b2⟩
    unfold Hash.SetAll at b1 ⊢
    rw [List.foldlM_cons, a1]
    exact b1

theorem sampleUpperBit_go_spec (fuel : Nat) :
    ∀ n, n ≤ fuel → n < 2 ^ (sampleUpperBit.go fuel n + 1) := by
  induction fuel with
  | zero =>
    intro n hn
    have : n = 0 := by omega
    subst this
    simp [sampleUpperBit.go]
  | succ f ih =>
    intro n hn
    unfold sampleUpperBit.go
    by_cases h2 : n < 2
    · rw [if_pos h2]
      simp
      omega
    · rw [if_neg h2]
      have := ih (n / 2) (by omega)
      rw [Nat.pow_succ]
      omega

theorem sampleUpperBit_spec (n : Nat) : n ≤ 2 ^ (sampleUpperBit (n - 1) + 1) := by
  have := sampleUpperBit_go_spec (n - 1) (n - 1) (le_refl _)
  unfold sampleUpperBit
  omega

theorem sampleHash_Built : Hash.Built sampleUpperBit IdentityHash sampleHash := by
  obtain ⟨h2, a1, a2⟩ := SetAll_Built sampleUpperBit IdentityHash 0 sampleUpperBit_spec
    [(1, 10), (9, 90), (2, 20), (17, 170), (3, 30), (4, 40), (5, 50)]
    { mHash := { pTable := none } } Hash.Built.empty
  unfold sampleHash
  rw [a1]
  exact a2

end HashLemmas16

/-! ## The claims -/

/-- C1: for an item whose vertex fence is pending, `Evict` returns 0, marks the
item destroyed without releasing it (`destroy` is called with `freeMemory =
false`), pushes it to the front of `PendingFree`, calls `Free` on neither buffer
set (the log gains the entry of `Evict` and that `destroy` only, and both sets
keep their allocator state), and leaves `VBSizeEvictedInMap` unchanged. -/
theorem Evict_pending_defers (env : Collaborators A) (s : MeshCache A) (p : MeshCacheItem)
    (pallocator : Option AllocAddrRef) (h : p.FencePending = true) :
    (Evict env s p pallocator).1 = 0 ∧
    (Evict env s p pallocator).2.CacheList.PendingFree =
      { p with MType := MeshType.Mesh_Destroyed } :: (s.CacheList.RemoveNode p.id).PendingFree ∧
    (Evict env s p pallocator).2.Log =
      s.Log ++ [Event.Evict p.id (s.CacheList.ListOf p.id) s.VBSizeEvictedInMap,
                Event.Destroy p.id false] ∧
    (Evict env s p pallocator).2.VertexBuffers = s.VertexBuffers ∧
    (Evict env s p pallocator).2.IndexBuffers = s.IndexBuffers ∧
    (Evict env s p pallocator).2.VBSizeEvictedInMap = s.VBSizeEvictedInMap := by
  rw [Evict_pending_eq env s p pallocator h]
  exact ⟨rfl, rfl, rfl, rfl, rfl, rfl⟩

/-- Witness of C1: a pending item of `PrevFrame`, evicted with no filter. -/
theorem Evict_pending_defers_witness :
    (Evict sampleEnv (sampleCache [] [sampleItem 1 (some 0) (some 1) 40 10 true] [] [] 1000 7)
        (sampleItem 1 (some 0) (some 1) 40 10 true) none).2.VBSizeEvictedInMap = 7 :=
  (Evict_pending_defers sampleEnv _ (sampleItem 1 (some 0) (some 1) 40 10 true) none rfl).2.2.2.2.2

/-- Counterexample to C2: `sampleChunkCache` has a chunk buffer 2 that holds the
vertex range of item 7, whose fence is pending. `EndFrame` finds 183 bytes of
slack, selects buffer 2 and runs `evictMeshesInBuffer`; `Evict` defers item 7
and returns 0, and lines 612-616 then call `VertexBuffers.Free` for the range of
item 7 although its fence is still pending, as it is afterwards in
`PendingFree`. -/
theorem EndFrame_frees_range_of_pending_item :
    Event.Free .Vertex (some 7) true 10 2 0 10 ∈ (EndFrame sampleEnv sampleChunkCache).Log ∧
      (EndFrame sampleEnv sampleChunkCache).CacheList.PendingFree =
        [{ sampleItem 7 none (some 1) 10 4 true with MType := .Mesh_Destroyed }] := by
  decide

/-- C2, amended: `Evict` and `allocBuffer` never call `Free` for a range of an
item whose fence is pending. `EndFrame` calls `Free` for such a range only for
ranges that lie in a buffer of `ChunkBuffers`, the buffers its shrink step
removes: when `Evict` has deferred a pending item, `evictMeshesInBuffer` frees
the ranges of that item in the buffer being removed. -/
theorem pending_ranges_freed_only_in_removed_chunks (env : Collaborators A) (s : MeshCache A) :
    (∀ p pallocator, FreesPendingOnlyIn [] s (Evict env s p pallocator).2) ∧
    (∀ k size waitForCache, FreesPendingOnlyIn [] s (allocBuffer env s k size waitForCache).2) ∧
    FreesPendingOnlyIn (s.ChunkBuffers.map (fun b => b.id)) s (EndFrame env s) := by
  refine ⟨?_, ?_, ?_⟩
  · intro p pallocator
    exact FreesPendingOnlyIn.of_log (Evict_evicts env s p pallocator).log
      (fun k owner size b offset freed h => by simp [Event.evictOnly] at h)
  · intro k size waitForCache
    exact FreesPendingOnlyIn.of_log (allocBuffer_log env s k size waitForCache)
      (fun k owner size b offset freed h => by simp [Event.allocOnly, Event.evictOnly] at h)
  · exact FreesPendingOnlyIn.of_log (EndFrame_shrinks env s).log
      (fun k owner size b offset freed h => by simpa [Event.shrinkOnly] using h)

/-- C3: for an item whose vertex fence is not pending, `Evict` frees the vertex
range in the vertex set when `pVertexBuffer` is non-null and the index range in
the index set when `pIndexBuffer` is non-null (`vbfree`, `ibfree` are the bytes
those calls return, 0 for a null pointer), destroys the item (`destroy` with
`freeMemory = true`, the item leaves its list), and returns `vbfree + ibfree`
without a filter, `vbfree` when the filter is the vertex allocator and `ibfree`
for any other filter. -/
theorem Evict_clear_frees (env : Collaborators A) (s : MeshCache A) (p : MeshCacheItem)
    (pallocator : Option AllocAddrRef) (h : p.FencePending = false) :
    (Evict env s p pallocator).1 =
      (match pallocator with
       | none => (Evict.vb env s p).1 + (Evict.ib env s p).1
       | some a => if a = AllocAddrRef.VertexAllocator then (Evict.vb env s p).1
                   else (Evict.ib env s p).1) ∧
    (p.pVertexBuffer = none → (Evict.vb env s p).1 = 0) ∧
    (p.pIndexBuffer = none → (Evict.ib env s p).1 = 0) ∧
    (Evict env s p pallocator).2.Log =
      s.Log ++ [Event.Evict p.id (s.CacheList.ListOf p.id) s.VBSizeEvictedInMap]
        ++ (match p.pVertexBuffer with
            | some b => [Event.Free .Vertex (some p.id) false p.VBAllocSize b p.VBAllocOffset
                          (Evict.vb env s p).1]
            | none => [])
        ++ (match p.pIndexBuffer with
            | some b => [Event.Free .Index (some p.id) false p.IBAllocSize b p.IBAllocOffset
                          (Evict.ib env s p).1]
            | none => [])
        ++ [Event.Destroy p.id true] ∧
    (Evict env s p pallocator).2.VertexBuffers.Allocator = (Evict.vb env s p).2 ∧
    (Evict env s p pallocator).2.IndexBuffers.Allocator = (Evict.ib env s p).2 ∧
    (Evict env s p pallocator).2.CacheList = s.CacheList.RemoveNode p.id := by
  rw [Evict_clear_eq env s p pallocator h]
  refine ⟨?_, ?_, ?_, rfl, rfl, rfl, rfl⟩
  · cases pallocator <;> rfl
  · intro hv; simp [Evict.vb, hv]
  · intro hi; simp [Evict.ib, hi]

/-- Witness of C3: a clear item of 40 vertex and 10 index bytes, evicted with
the index allocator as filter, reports the 10 index bytes. -/
theorem Evict_clear_frees_witness :
    (Evict sampleEnv (sampleCache [] [sampleItem 1 (some 0) (some 1) 40 10 false] [] [] 1000 7)
        (sampleItem 1 (some 0) (some 1) 40 10 false) (some .IndexAllocator)).1 = 10 :=
  (Evict_clear_frees sampleEnv _ (sampleItem 1 (some 0) (some 1) 40 10 false)
    (some .IndexAllocator) rfl).1

/-- Evaluation for C4: `sampleChunkCache` holds item 7, fence pending, in chunk
buffer 2. The first `EndFrame` selects buffer 2 for shrinking and queues it on
`PendingDestructionBuffers` without deleting it, but `evictMeshesInBuffer` has
nulled the pointer of item 7 to it. At the second `EndFrame` the fence of item 7
is still pending (it stays in `PendingFree`), yet `destroyPendingBuffers` finds
no item that refers to buffer 2 and deletes it. -/
theorem EndFrame_deletes_chunk_of_pending_item :
    (EndFrame sampleEnv sampleChunkCache).PendingDestructionBuffers =
        [⟨2, .Vertex, 100, .AT_Chunk⟩] ∧
      Event.Delete 2 ∉ (EndFrame sampleEnv sampleChunkCache).Log ∧
      (EndFrame sampleEnv (EndFrame sampleEnv sampleChunkCache)).CacheList.PendingFree =
        [{ sampleItem 7 none (some 1) 10 4 true with MType := .Mesh_Destroyed }] ∧
      Event.Delete 2 ∈ (EndFrame sampleEnv (EndFrame sampleEnv sampleChunkCache)).Log ∧
      (EndFrame sampleEnv (EndFrame sampleEnv sampleChunkCache)).PendingDestructionBuffers = [] := by
  decide

/-- C5: with the limit and the guard's sum representable in `UPInt`, a call of
`allocBuffer` either leaves the buffers, the chunk list and the total size as
they were, or adds exactly one chunk buffer `b`; in that case the guard
`getTotalSize() + MinSupportedGranularity <= Params.MemLimit` held, the
subtraction `Params.MemLimit - getTotalSize()` did not underflow, the requested
size is at most that difference, and the new total size is at most
`Params.MemLimit`. -/
theorem allocBuffer_growth_within_limit (env : Collaborators A) (s : MeshCache A)
    (k : BufferKind) (size : Nat) (waitForCache : Bool)
    (hlim : s.Params.MemLimit < 2 ^ UPIntBits)
    (hfit : getTotalSize s + env.MinSupportedGranularity < 2 ^ UPIntBits) :
    ((allocBuffer env s k size waitForCache).2.ChunkBuffers = s.ChunkBuffers ∧
      (allocBuffer env s k size waitForCache).2.VertexBuffers.Buffers = s.VertexBuffers.Buffers ∧
      (allocBuffer env s k size waitForCache).2.IndexBuffers.Buffers = s.IndexBuffers.Buffers ∧
      getTotalSize (allocBuffer env s k size waitForCache).2 = getTotalSize s) ∨
    (∃ b : MeshBuffer,
      (allocBuffer env s k size waitForCache).2.ChunkBuffers = s.ChunkBuffers ++ [b] ∧
      ((allocBuffer env s k size waitForCache).2.mbs k).Buffers = (s.mbs k).Buffers ++ [b] ∧
      getTotalSize s + env.MinSupportedGranularity ≤ s.Params.MemLimit ∧
      getTotalSize s ≤ s.Params.MemLimit ∧
      subUPInt s.Params.MemLimit (getTotalSize s) = s.Params.MemLimit - getTotalSize s ∧
      b.Size ≤ s.Params.MemLimit - getTotalSize s ∧
      getTotalSize (allocBuffer env s k size waitForCache).2 = getTotalSize s + b.Size ∧
      getTotalSize (allocBuffer env s k size waitForCache).2 ≤ s.Params.MemLimit) := by
  rcases allocBuffer_outcome env s k size waitForCache with hk | ⟨hg, b, hb, hs, _, _, _⟩
  · exact Or.inl ⟨hk.chunk, hk.vbuffers, hk.ibuffers, hk.sameTotal⟩
  · right
    have hguard : getTotalSize s + env.MinSupportedGranularity ≤ s.Params.MemLimit := by
      simpa [addUPInt, Nat.mod_eq_of_lt hfit] using hg
    have hle : getTotalSize s ≤ s.Params.MemLimit := by omega
    have hsub : subUPInt s.Params.MemLimit (getTotalSize s)
        = s.Params.MemLimit - getTotalSize s := by
      have ht : getTotalSize s < 2 ^ UPIntBits := by omega
      unfold subUPInt
      rw [Nat.mod_eq_of_lt hlim, Nat.mod_eq_of_lt ht]
      have e : s.Params.MemLimit + 2 ^ UPIntBits - getTotalSize s
          = (s.Params.MemLimit - getTotalSize s) + 2 ^ UPIntBits := by omega
      rw [e, Nat.add_mod_right]
      exact Nat.mod_eq_of_lt (by omega)
    have hsize : b.Size ≤ s.Params.MemLimit - getTotalSize s := by
      rw [hs, allocBuffer.allocSize, hsub]
      exact Nat.min_le_left _ _
    refine ⟨b, hb.chunk, hb.buffers, hguard, hle, hsub, hsize, hb.grownTotal, ?_⟩
    rw [hb.grownTotal]
    omega

/-- Witness of C5: the full sample cache with 30 bytes of headroom grows by one
chunk buffer and its total size stays within the limit of 130 bytes. -/
theorem allocBuffer_growth_within_limit_witness :
    (allocBuffer sampleEnv sampleTightCache .Vertex 25 false).2.ChunkBuffers
        = [⟨2, .Vertex, 30, .AT_Chunk⟩] ∧
      getTotalSize (allocBuffer sampleEnv sampleTightCache .Vertex 25 false).2 ≤ 130 := by
  refine ⟨by decide, ?_⟩
  rcases allocBuffer_growth_within_limit sampleEnv sampleTightCache .Vertex 25 false
      (by decide) (by decide) with h | ⟨b, _, _, _, _, _, _, _, h⟩
  · rw [h.2.2.2]; decide
  · exact h

/-- Counterexample to C6: in `sampleBusyCache` the counter equals the limit of 50
at the check, so the MRU walk starts; its first eviction (item 1, 40 vertex
bytes) frees less than the 60 bytes requested and raises the counter to 90, and
the walk then enters `Evict` for the `PrevFrame` item 2 with the counter at 90,
above the limit. -/
theorem allocBuffer_evicts_beyond_limit :
    Event.Evict 2 (some .MCL_PrevFrame) 90 ∈
        (allocBuffer sampleEnv sampleBusyCache .Vertex 60 false).2.Log ∧
      sampleBusyCache.Params.VBLockEvictSizeLimit = 50 := by
  decide

/-- C6, amended: after a failed direct suballocation, `allocBuffer` checks
`VBSizeEvictedInMap` against `Params.VBLockEvictSizeLimit` once, before the MRU
walk over `PrevFrame` and the waiting walk over `ThisFrame`. If the counter
exceeds the limit at that check the call returns false and the log gains
nothing more; otherwise the first entry into `Evict` made after the check is
made with the counter as it was at the check, hence at most the limit. The
counter is not checked again before the later evictions of the same call. -/
theorem allocBuffer_walks_start_within_limit (env : Collaborators A) (s : MeshCache A)
    (k : BufferKind) (size : Nat) (waitForCache : Bool)
    (hfail : env.AllocatorAlloc (s.mbs k).Allocator size = none) :
    ∃ l, (allocBuffer env s k size waitForCache).2.Log =
        (allocBuffer.atLimitCheck env s k size).2.Log ++ l ∧
      ((allocBuffer.atLimitCheck env s k size).2.VBSizeEvictedInMap >
          s.Params.VBLockEvictSizeLimit →
        l = [] ∧ (allocBuffer env s k size waitForCache).1 = none) ∧
      ∀ id tier c, l.find? Event.isEvict = some (Event.Evict id tier c) →
        c = (allocBuffer.atLimitCheck env s k size).2.VBSizeEvictedInMap ∧
        c ≤ s.Params.VBLockEvictSizeLimit := by
  rw [allocBuffer_of_direct_failure env s k size waitForCache hfail]
  have hp : (allocBuffer.atLimitCheck env s k size).2.Params = s.Params :=
    beforeLimitCheck_params env _ k size
  unfold allocBuffer.slowPath
  unfold allocBuffer.atLimitCheck at hp ⊢
  generalize allocBuffer.beforeLimitCheck env
    { s with Log := s.Log ++ [Event.Alloc k size false] } k size = b at hp
  rcases b with ⟨o, t⟩
  simp only at hp
  cases o with
  | none => exact ⟨[], by simp, fun _ => ⟨rfl, rfl⟩, by simp⟩
  | some need =>
    dsimp only
    rw [hp]
    by_cases hc : t.VBSizeEvictedInMap > s.Params.VBLockEvictSizeLimit
    · rw [if_pos hc]
      exact ⟨[], by simp, fun _ => ⟨rfl, rfl⟩, by simp⟩
    · rw [if_neg hc]
      obtain ⟨l, hl, hcase⟩ := afterLimitCheck_startsAt env t k size waitForCache need
      refine ⟨l, hl, fun h => absurd h hc, ?_⟩
      intro id tier c hfind
      rcases hcase with ⟨hn, _⟩ | ⟨id', tier', hs⟩
      · rw [hn] at hfind; cases hfind
      · rw [hs] at hfind
        have hcc : t.VBSizeEvictedInMap = c := by
          have := Option.some.inj hfind
          injection this
        exact ⟨hcc.symm, by omega⟩

/-- Witness of C6, amended: in `sampleBusyCache` the first eviction after the
check is made with the counter at 50, the limit. -/
theorem allocBuffer_walks_start_within_limit_witness :
    ∃ l, (allocBuffer sampleEnv sampleBusyCache .Vertex 60 false).2.Log =
        (allocBuffer.atLimitCheck sampleEnv sampleBusyCache .Vertex 60).2.Log ++ l ∧
      ∀ id tier c, l.find? Event.isEvict = some (Event.Evict id tier c) → c ≤ 50 := by
  obtain ⟨l, hl, _, h⟩ :=
    allocBuffer_walks_start_within_limit sampleEnv sampleBusyCache .Vertex 60 false rfl
  exact ⟨l, hl, fun id tier c hf => (h id tier c hf).2⟩

/-- C7: `LockBuffers` sets `VBSizeEvictedInMap` to 0, and `AllocCacheItem` on an
unmapped cache proceeds exactly as on the cache `LockBuffers` returns. `Evict`
leaves the counter alone for a pending item and adds the vertex allocation
size of the item, cast to `unsigned`, for a clear one. `UnlockBuffers` keeps the
counter, and `EndFrame`, `allocBuffer` and `AllocCacheItem` on a mapped cache
never decrease it. -/
theorem VBSizeEvictedInMap_reset_only_by_lock (env : Collaborators A) (s : MeshCache A) :
    (LockBuffers s).2.VBSizeEvictedInMap = 0 ∧
    (∀ meshType vertexBufferSize indexCount waitForCache, s.Mapped = false →
      AllocCacheItem env s meshType vertexBufferSize indexCount waitForCache =
        AllocCacheItem env (LockBuffers s).2 meshType vertexBufferSize indexCount waitForCache) ∧
    (∀ p pallocator, (Evict env s p pallocator).2.VBSizeEvictedInMap =
      s.VBSizeEvictedInMap + (if p.FencePending then 0 else p.VBAllocSize % 2 ^ 32)) ∧
    (∀ p pallocator, p.FencePending = false → p.VBAllocSize < 2 ^ 32 →
      (Evict env s p pallocator).2.VBSizeEvictedInMap = s.VBSizeEvictedInMap + p.VBAllocSize) ∧
    (UnlockBuffers s).VBSizeEvictedInMap = s.VBSizeEvictedInMap ∧
    s.VBSizeEvictedInMap ≤ (EndFrame env s).VBSizeEvictedInMap ∧
    (∀ k size waitForCache,
      s.VBSizeEvictedInMap ≤ (allocBuffer env s k size waitForCache).2.VBSizeEvictedInMap) ∧
    (∀ meshType vertexBufferSize indexCount waitForCache, s.Mapped = true →
      s.VBSizeEvictedInMap ≤
        (AllocCacheItem env s meshType vertexBufferSize indexCount
          waitForCache).2.2.VBSizeEvictedInMap) := by
  have hev : ∀ p pallocator, (Evict env s p pallocator).2.VBSizeEvictedInMap =
      s.VBSizeEvictedInMap + (if p.FencePending then 0 else p.VBAllocSize % 2 ^ 32) := by
    intro p pallocator
    cases h : p.FencePending
    · rw [Evict_clear_eq env s p pallocator h]; simp
    · rw [Evict_pending_eq env s p pallocator h]; simp
  refine ⟨rfl, ?_, hev, ?_, rfl, (EndFrame_shrinks env s).counter,
    fun k size w => allocBuffer_counter env s k size w,
    fun mt vs ic w hm => AllocCacheItem_counter env s mt vs ic w hm⟩
  · intro mt vs ic w hm
    simp [AllocCacheItem, LockBuffers, hm]
  · intro p pallocator hp hlt
    rw [hev, hp, Nat.mod_eq_of_lt hlt]
    simp

/-- Witness of C7: on the mapped `sampleBusyCache`, whose counter is 50, a request
that evicts both `PrevFrame` items leaves the counter at 130. -/
theorem VBSizeEvictedInMap_reset_only_by_lock_witness :
    sampleBusyCache.VBSizeEvictedInMap ≤
        (AllocCacheItem sampleEnv sampleBusyCache .Mesh_Regular 60 2
          false).2.2.VBSizeEvictedInMap ∧
      (AllocCacheItem sampleEnv sampleBusyCache .Mesh_Regular 60 2
          false).2.2.VBSizeEvictedInMap = 130 :=
  ⟨(VBSizeEvictedInMap_reset_only_by_lock sampleEnv sampleBusyCache).2.2.2.2.2.2.2
      .Mesh_Regular 60 2 false rfl, by decide⟩

/-- C8: when the first direct suballocation succeeds, `allocBuffer` returns that
buffer and offset, and the cache is as before except for the allocator of the
target set and the log entry of that `Alloc`: no reclamation, eviction, wait or
buffer creation takes place, and `VBSizeEvictedInMap`, `ChunkBuffers` and the
lists are unchanged, whatever the value of the eviction counter. -/
theorem allocBuffer_direct_success (env : Collaborators A) (s : MeshCache A) (k : BufferKind)
    (size : Nat) (waitForCache : Bool) (b off : Nat) (a : A)
    (h : env.AllocatorAlloc (s.mbs k).Allocator size = some (b, off, a)) :
    allocBuffer env s k size waitForCache =
      (some (b, off), { s.setMbs k { s.mbs k with Allocator := a } with
                          Log := s.Log ++ [Event.Alloc k size true] }) ∧
    (allocBuffer env s k size waitForCache).2.VBSizeEvictedInMap = s.VBSizeEvictedInMap ∧
    (allocBuffer env s k size waitForCache).2.ChunkBuffers = s.ChunkBuffers ∧
    (allocBuffer env s k size waitForCache).2.CacheList = s.CacheList ∧
    (allocBuffer env s k size waitForCache).2.Log = s.Log ++ [Event.Alloc k size true] := by
  have e : allocBuffer env s k size waitForCache =
      (some (b, off), { s.setMbs k { s.mbs k with Allocator := a } with
                          Log := s.Log ++ [Event.Alloc k size true] }) := by
    simp [allocBuffer, MeshCache.Alloc, h]
  rw [e]
  cases k <;> exact ⟨rfl, rfl, rfl, rfl, rfl⟩

/-- Witness of C8: with 30 bytes free in the vertex set and the eviction counter
far above the limit, a request of 25 bytes is served directly. -/
theorem allocBuffer_direct_success_witness :
    (allocBuffer sampleEnv sampleRoomyCache .Vertex 25 false).2.Log =
      [Event.Alloc .Vertex 25 true] :=
  (allocBuffer_direct_success sampleEnv sampleRoomyCache .Vertex 25 false 0 0 5 rfl).2.2.2.2

/-- C9: when the direct suballocation fails, PendingFree reclamation for the
target allocator is the first thing `allocBuffer` does: every later log entry of
the call follows those of the reclamation. If the reclamation reports success,
the rest of the call is the eviction-limit check and the final suballocation
only; the only items passed to `Evict` during the call are items of
`PendingFree`, no buffer creation is attempted, and the buffers of both sets and
`ChunkBuffers` are unchanged. -/
theorem allocBuffer_reclaims_first (env : Collaborators A) (s : MeshCache A) (k : BufferKind)
    (size : Nat) (waitForCache : Bool)
    (hfail : env.AllocatorAlloc (s.mbs k).Allocator size = none) :
    LogExt (fun e => e.allocOnly = true) (allocBuffer.reclaimed env s k size).2
      (allocBuffer env s k size waitForCache).2 ∧
    ((allocBuffer.reclaimed env s k size).1 = true →
      allocBuffer env s k size waitForCache =
        (if (allocBuffer.reclaimed env s k size).2.VBSizeEvictedInMap >
            (allocBuffer.reclaimed env s k size).2.Params.VBLockEvictSizeLimit
         then (none, (allocBuffer.reclaimed env s k size).2)
         else (allocBuffer.reclaimed env s k size).2.Alloc env k size) ∧
      LogExt (ReclaimOnly (s.CacheList.PendingFree.map (fun q => q.id)))
        s (allocBuffer env s k size waitForCache).2 ∧
      (allocBuffer env s k size waitForCache).2.ChunkBuffers = s.ChunkBuffers ∧
      (allocBuffer env s k size waitForCache).2.VertexBuffers.Buffers = s.VertexBuffers.Buffers ∧
      (allocBuffer env s k size waitForCache).2.IndexBuffers.Buffers = s.IndexBuffers.Buffers) := by
  have hslow := allocBuffer_of_direct_failure env s k size waitForCache hfail
  refine ⟨?_, ?_⟩
  · rw [hslow]
    exact slowPath_log_after_reclaim env _ k size waitForCache
  · intro hrec
    have heq : allocBuffer env s k size waitForCache =
        (if (allocBuffer.reclaimed env s k size).2.VBSizeEvictedInMap >
            (allocBuffer.reclaimed env s k size).2.Params.VBLockEvictSizeLimit
         then (none, (allocBuffer.reclaimed env s k size).2)
         else (allocBuffer.reclaimed env s k size).2.Alloc env k size) := by
      rw [hslow]
      unfold allocBuffer.reclaimed at hrec ⊢
      simp only [allocBuffer.slowPath, allocBuffer.beforeLimitCheck, hrec, Bool.not_true,
        growOrEvict_satisfied, afterLimitCheck_satisfied]
    have hk0 := reclaimed_keeps env s k size
    have hl0 := reclaimed_log env s k size
    refine ⟨heq, ?_⟩
    rw [heq]
    split
    · exact ⟨hl0, hk0.chunk, hk0.vbuffers, hk0.ibuffers⟩
    · have hk1 := hk0.ktrans (Alloc_keeps env (allocBuffer.reclaimed env s k size).2 k size)
      exact ⟨hl0.ltrans ((Alloc_log env _ k size).lmono ReclaimOnly.of_alloc),
        hk1.chunk, hk1.vbuffers, hk1.ibuffers⟩

/-- Witness of C9: in the full sample cache a clear `PendingFree` item of 40
vertex bytes is reclaimed for a request of 25 bytes; no buffer is created. -/
theorem allocBuffer_reclaims_first_witness :
    (allocBuffer sampleEnv sampleReclaimCache .Vertex 25 false).2.ChunkBuffers =
      sampleReclaimCache.ChunkBuffers :=
  ((allocBuffer_reclaims_first sampleEnv sampleReclaimCache .Vertex 25 false rfl).2
    (by decide)).2.2.1

/-- Counterexample to C10: in the full sample cache the vertex set has growth
granularity 55 (and `Params.MemGranularity` is 100), but only 30 bytes of
headroom remain under the limit of 130; a request of 25 bytes makes
`allocBuffer` create a chunk buffer of 30 bytes, so the total size rises from
100 to 130, not by a granularity. -/
theorem allocBuffer_chunk_smaller_than_granularity :
    (allocBuffer sampleEnv sampleTightCache .Vertex 25 false).2.ChunkBuffers
        = [⟨2, .Vertex, 30, .AT_Chunk⟩] ∧
      sampleTightCache.VertexBuffers.Granularity = 55 ∧
      sampleTightCache.Params.MemGranularity = 100 ∧
      getTotalSize sampleTightCache = 100 ∧
      getTotalSize (allocBuffer sampleEnv sampleTightCache .Vertex 25 false).2 = 130 := by
  decide

/-- C10, amended: a call of `allocBuffer` creates at most one chunk buffer, and
its size is `min (Params.MemLimit - getTotalSize()) (growth granularity of the
target set)` with the subtraction taken in `UPInt`: never more than the
granularity, exactly the granularity when the headroom reaches it, and the
headroom otherwise. The buffer has class `AT_Chunk` and holds the request, and
the growth raises the total size by exactly the size of that buffer. -/
theorem allocBuffer_chunk_size (env : Collaborators A) (s : MeshCache A)
    (k : BufferKind) (size : Nat) (waitForCache : Bool) :
    (allocBuffer env s k size waitForCache).2.ChunkBuffers = s.ChunkBuffers ∨
    (∃ b : MeshBuffer,
      (allocBuffer env s k size waitForCache).2.ChunkBuffers = s.ChunkBuffers ++ [b] ∧
      b.Size = min (subUPInt s.Params.MemLimit (getTotalSize s)) (s.mbs k).Granularity ∧
      b.Size ≤ (s.mbs k).Granularity ∧
      ((s.mbs k).Granularity ≤ subUPInt s.Params.MemLimit (getTotalSize s) →
        b.Size = (s.mbs k).Granularity) ∧
      (subUPInt s.Params.MemLimit (getTotalSize s) ≤ (s.mbs k).Granularity →
        b.Size = subUPInt s.Params.MemLimit (getTotalSize s)) ∧
      b.AType = .AT_Chunk ∧ b.BufferType = k ∧ size ≤ b.Size ∧
      getTotalSize (allocBuffer env s k size waitForCache).2 = getTotalSize s + b.Size) := by
  rcases allocBuffer_outcome env s k size waitForCache with hk | ⟨_, b, hb, hs, hsz, ht, hkind⟩
  · exact Or.inl hk.chunk
  · right
    rw [allocBuffer.allocSize] at hs
    refine ⟨b, hb.chunk, hs, ?_, ?_, ?_, ht, hkind, hsz, hb.grownTotal⟩
    · rw [hs]; exact Nat.min_le_right _ _
    · intro h; rw [hs]; exact Nat.min_eq_right h
    · intro h; rw [hs]; exact Nat.min_eq_left h

/-- Witness of C10, amended: in the full sample cache the headroom of 30 bytes is
below the granularity of 55, and the new chunk buffer has 30 bytes. -/
theorem allocBuffer_chunk_size_witness :
    (allocBuffer sampleEnv sampleTightCache .Vertex 25 false).2.ChunkBuffers
        = sampleTightCache.ChunkBuffers ∨
    ∃ b : MeshBuffer,
      (allocBuffer sampleEnv sampleTightCache .Vertex 25 false).2.ChunkBuffers
        = sampleTightCache.ChunkBuffers ++ [b] ∧ b.Size = 30 := by
  rcases allocBuffer_chunk_size sampleEnv sampleTightCache .Vertex 25 false with
    h | ⟨c, hc, _, _, _, h, _⟩
  · exact Or.inl h
  · exact Or.inr ⟨c, hc, (h (by decide)).trans (by decide)⟩

/-! ## Claims C11..C15: the fallback walks of `allocBuffer` and `AllocCacheItem` -/

/-- C11: the MRU fallback of `allocBuffer` (lines 726-748) calls `Evict` only on items
of `PrevFrame` whose fence is clear, waits on no fence and frees no range of an item
whose fence is pending; when the items of `PrevFrame` are distinct, every item of
`PrevFrame` whose fence is pending is still in `PrevFrame` after the walk. -/
theorem mruWalk_skips_pending (env : Collaborators A) (k : BufferKind) (size fuel : Nat)
    (s : MeshCache A) :
    LogExt (fun ev => ((∀ id, ev ≠ Event.Wait id) ∧
        ∀ id t c, ev = Event.Evict id t c → ClearInPrevFrame s id) ∧
        ev.evictOnly = true) s (allocBuffer.mruWalk env k size fuel s).2 ∧
    ((s.CacheList.PrevFrame.map (fun q => q.id)).Nodup →
      ∀ q ∈ s.CacheList.PrevFrame, q.FencePending = true →
        q ∈ (allocBuffer.mruWalk env k size fuel s).2.CacheList.PrevFrame) := by
  obtain ⟨E, hE, hc⟩ := mruWalk_removes env k size fuel s
  refine ⟨?_, ?_⟩
  · refine LogExt.both ?_ (mruWalk_evicts env k size fuel s).log
    obtain ⟨l, hl, hp⟩ := hE.log
    exact ⟨l, hl, fun ev hev => ⟨(hp ev hev).1, fun id t c h => hc id ((hp ev hev).2 id t c h)⟩⟩
  · intro hnd q hq hpend
    have hs := hE.slots .MCL_PrevFrame (by decide)
    simp only [MeshCacheListSet.GetSlot] at hs
    rw [hs, List.mem_filter]
    refine ⟨hq, ?_⟩
    simp only [Bool.not_eq_true', List.contains_eq_any_beq, List.any_eq_false, beq_iff_eq]
    intro x hx hxq
    obtain ⟨p, hp, hid, hclear⟩ := hc x hx
    have : p = q := List.inj_on_of_nodup_map hnd hp hq (by rw [hid, hxq])
    rw [this, hpend] at hclear
    cases hclear

/-- Witness of C11: in the sample cache, the walk for 30 vertex bytes evicts the
clear item 2 and leaves the pending item 1 in `PrevFrame`. -/
theorem mruWalk_skips_pending_witness :
    sampleItem 1 (some 0) (some 1) 40 10 true ∈
      (allocBuffer.mruWalk sampleEnv .Vertex 30 2 sampleMixedCache).2.CacheList.PrevFrame :=
  (mruWalk_skips_pending sampleEnv .Vertex 30 2 sampleMixedCache).2 (by decide) _
    (by decide) rfl

/-- Counterexample to C12: with three clear items of 40 vertex bytes in `PrevFrame`
and a request of 60 bytes, the walk evicts item 3 although the two evictions
before it already freed 80 bytes in the vertex allocator, and `allocBuffer`
still fails. -/
theorem allocBuffer_mru_walk_overshoots :
    (allocBuffer sampleEnv sampleWalkCache .Vertex 60 false).1 = none ∧
    (allocBuffer sampleEnv sampleWalkCache .Vertex 60 false).2.Log =
      [Event.Alloc .Vertex 60 false,
       Event.Evict 1 (some .MCL_PrevFrame) 0,
       Event.Free .Vertex (some 1) false 40 0 0 40,
       Event.Free .Index (some 1) false 10 1 0 10,
       Event.Destroy 1 true,
       Event.Evict 2 (some .MCL_PrevFrame) 40,
       Event.Free .Vertex (some 2) false 40 0 0 40,
       Event.Free .Index (some 2) false 10 1 0 10,
       Event.Destroy 2 true,
       Event.Evict 3 (some .MCL_PrevFrame) 80,
       Event.Free .Vertex (some 3) false 40 0 0 40,
       Event.Free .Index (some 3) false 10 1 0 10,
       Event.Destroy 3 true] ∧
    (allocBuffer sampleEnv sampleWalkCache .Vertex 60 false).2.CacheList.PrevFrame = [] := by
  decide

/-- C12, amended: the MRU fallback of `allocBuffer` evicts the first item of
`PrevFrame` whose fence is clear and stops exactly when that single call of `Evict`
returns at least the requested size; otherwise it starts again from the front.
It ends without success only when every item left in `PrevFrame` has a pending
fence, and with success only right after a call of `Evict` that returned at
least the requested size. -/
theorem mruWalk_stops_on_single_return (env : Collaborators A) (k : BufferKind)
    (size : Nat) (s : MeshCache A) :
    (∀ fuel, s.CacheList.PrevFrame.find? (fun p => !p.FencePending) = none →
      allocBuffer.mruWalk env k size fuel s = (true, s)) ∧
    (∀ fuel p, s.CacheList.PrevFrame.find? (fun p => !p.FencePending) = some p →
      size ≤ (Evict env s p (some (allocatorOf k))).1 →
      allocBuffer.mruWalk env k size (fuel + 1) s =
        (false, (Evict env s p (some (allocatorOf k))).2)) ∧
    (∀ fuel p, s.CacheList.PrevFrame.find? (fun p => !p.FencePending) = some p →
      (Evict env s p (some (allocatorOf k))).1 < size →
      allocBuffer.mruWalk env k size (fuel + 1) s =
        allocBuffer.mruWalk env k size fuel (Evict env s p (some (allocatorOf k))).2) ∧
    ((allocBuffer.mruWalk env k size s.CacheList.PrevFrame.length s).1 = true →
      ∀ q ∈ (allocBuffer.mruWalk env k size s.CacheList.PrevFrame.length s).2.CacheList.PrevFrame,
        q.FencePending = true) ∧
    ((allocBuffer.mruWalk env k size s.CacheList.PrevFrame.length s).1 = false →
      ∃ t p, t.CacheList.PrevFrame.find? (fun q => !q.FencePending) = some p ∧
        size ≤ (Evict env t p (some (allocatorOf k))).1 ∧
        (allocBuffer.mruWalk env k size s.CacheList.PrevFrame.length s).2 =
          (Evict env t p (some (allocatorOf k))).2) := by
  refine ⟨?_, ?_, ?_, ?_, ?_⟩
  · intro fuel h
    cases fuel with
    | zero => rfl
    | succ n => rw [allocBuffer.mruWalk, h]
  · intro fuel p h hge
    rw [allocBuffer.mruWalk, h]
    exact if_pos hge
  · intro fuel p h hlt
    rw [allocBuffer.mruWalk, h]
    exact if_neg (Nat.not_le.mpr hlt)
  · exact mruWalk_exhausts env k size _ s (Nat.le_refl _)
  · exact mruWalk_hit env k size _ s

/-- Witness of C12, amended: in the sample cache with three clear items of 40 bytes, a
request of 30 bytes stops the walk at the first eviction. -/
theorem mruWalk_stops_on_single_return_witness :
    allocBuffer.mruWalk sampleEnv .Vertex 30 3 sampleWalkCache =
      (false, (Evict sampleEnv sampleWalkCache (sampleItem 1 (some 0) (some 1) 40 10 false)
        (some (allocatorOf .Vertex))).2) :=
  (mruWalk_stops_on_single_return sampleEnv .Vertex 30 sampleWalkCache).2.1 2 _
    (by decide) (by decide)

/-- C13: with `waitForCache = false`, `allocBuffer` waits on no fence, calls `Evict`
only on items of `PendingFree`, of `LRUTail` or of `PrevFrame` with a clear fence,
and frees no range of an item whose fence is pending, so that `PendingFree` is not
flushed by force; when no item of `ThisFrame` is also one of those, `ThisFrame`
is left as it was. -/
theorem allocBuffer_no_wait_spares_ThisFrame (env : Collaborators A) (s : MeshCache A)
    (k : BufferKind) (size : Nat) :
    LogExt (fun ev => ((∀ id, ev ≠ Event.Wait id) ∧
        ∀ id t c, ev = Event.Evict id t c → EvictableWithoutWait s id) ∧
        ∀ kind owner sz b off freed, ev ≠ Event.Free kind owner true sz b off freed)
      s (allocBuffer env s k size false).2 ∧
    ((∀ q ∈ s.CacheList.ThisFrame, ¬ EvictableWithoutWait s q.id) →
      (allocBuffer env s k size false).2.CacheList.ThisFrame = s.CacheList.ThisFrame) := by
  obtain ⟨E, hE, hc⟩ := allocBuffer_removes env s k size
  refine ⟨?_, ?_⟩
  · have h1 : LogExt (fun ev => (∀ id, ev ≠ Event.Wait id) ∧
        ∀ id t c, ev = Event.Evict id t c → EvictableWithoutWait s id) s
        (allocBuffer env s k size false).2 := by
      obtain ⟨l, hl, hp⟩ := hE.log
      exact ⟨l, hl, fun ev hev =>
        ⟨(hp ev hev).1, fun id t c h => hc id ((hp ev hev).2 id t c h)⟩⟩
    have h2 : LogExt (fun ev => ∀ kind owner sz b off freed,
        ev ≠ Event.Free kind owner true sz b off freed) s
        (allocBuffer env s k size false).2 := by
      obtain ⟨l, hl, hp⟩ := allocBuffer_log env s k size false
      refine ⟨l, hl, fun ev hev kind owner sz b off freed h => ?_⟩
      have := hp ev hev
      rw [h] at this
      simp [Event.allocOnly, Event.evictOnly] at this
    exact LogExt.both h1 h2
  · intro hnot
    have hs := hE.slots .MCL_ThisFrame (by decide)
    simp only [MeshCacheListSet.GetSlot] at hs
    rw [hs, List.filter_eq_self]
    intro q hq
    simp only [Bool.not_eq_true', List.contains_eq_any_beq, List.any_eq_false, beq_iff_eq]
    intro x hx hxq
    exact hnot q hq (hxq ▸ hc x hx)

/-- Witness of C13: the sample cache whose only item, item 7 of `ThisFrame`, has a
pending fence keeps that item when a request of 30 vertex bytes fails. -/
theorem allocBuffer_no_wait_spares_ThisFrame_witness :
    (allocBuffer sampleEnv
        (sampleCache [sampleItem 7 (some 0) (some 1) 40 10 true] [] [] [] 100 0)
        .Vertex 30 false).2.CacheList.ThisFrame =
      [sampleItem 7 (some 0) (some 1) 40 10 true] :=
  (allocBuffer_no_wait_spares_ThisFrame sampleEnv
    (sampleCache [sampleItem 7 (some 0) (some 1) 40 10 true] [] [] [] 100 0) .Vertex 30).2
    (by
      intro q hq h
      rcases h with h | h | ⟨p, hp, _⟩
      · simp [tierIds, MeshCacheListSet.GetSlot, sampleCache] at h
      · simp [tierIds, MeshCacheListSet.GetSlot, sampleCache] at h
      · simp [sampleCache] at hp)

/-- Evaluation for C14: in the sample cache whose only item is the pending item 3 of `PendingFree`
(40 vertex bytes), `allocBuffer` for 30 vertex bytes with `waitForCache = true`
flushes `PendingFree` by force and then returns failure: its log holds the single
suballocation attempt made on entry and none after the flush, although the
allocator would then serve the request. -/
theorem allocBuffer_forced_flush_without_retry :
    (allocBuffer sampleEnv sampleForcedCache .Vertex 30 true).1 = none ∧
    (allocBuffer sampleEnv sampleForcedCache .Vertex 30 true).2.Log =
      [Event.Alloc .Vertex 30 false,
       Event.Wait 3,
       Event.Evict 3 (some .MCL_PendingFree) 0,
       Event.Free .Vertex (some 3) false 40 0 0 40,
       Event.Free .Index (some 3) false 10 1 0 10,
       Event.Destroy 3 true] ∧
    (allocBuffer sampleEnv sampleForcedCache .Vertex 30 true).2.CacheList.PendingFree = [] ∧
    sampleEnv.AllocatorAlloc
      (allocBuffer sampleEnv sampleForcedCache .Vertex 30 true).2.VertexBuffers.Allocator 30 =
        some (0, 0, 10) := by
  decide

/-- Counterexample to C15: in the empty sample cache, whose vertex granularity is 55
and whose vertex reserve buffer has 80 free bytes, a request of 60 vertex bytes
and two indices succeeds. -/
theorem AllocCacheItem_oversized_request_succeeds :
    sampleFreeCache.VertexBuffers.Granularity < 60 ∧
    (AllocCacheItem sampleEnv sampleFreeCache .Mesh_Regular 60 2 false).1 =
      AllocResult.Alloc_Success := by
  decide

/-- C15, amended: `AllocCacheItem` returns `Alloc_Fail_TooBig` exactly when its call
of `allocBuffer` for the vertex range fails and the vertex size exceeds the vertex
granularity, or that call succeeds, its call of `allocBuffer` for the index range
fails and the index size in bytes exceeds the index granularity. -/
theorem AllocCacheItem_too_big_iff (env : Collaborators A) (s : MeshCache A)
    (meshType : MeshType) (vertexBufferSize indexCount : Nat) (waitForCache : Bool) :
    (AllocCacheItem env s meshType vertexBufferSize indexCount waitForCache).1 =
        AllocResult.Alloc_Fail_TooBig ↔
      ((allocBuffer env (AllocCacheItem.entered s) .Vertex vertexBufferSize waitForCache).1
          = none ∧ s.VertexBuffers.Granularity < vertexBufferSize) ∨
      ((allocBuffer env (AllocCacheItem.entered s) .Vertex vertexBufferSize waitForCache).1
          ≠ none ∧
        (allocBuffer env
          (allocBuffer env (AllocCacheItem.entered s) .Vertex vertexBufferSize waitForCache).2
          .Index (indexCount * sizeofIndexType) waitForCache).1 = none ∧
        s.IndexBuffers.Granularity < indexCount * sizeofIndexType) := by
  rw [AllocCacheItem_entered]
  have hm := entered_mapped s
  have hv : ((allocBuffer env (AllocCacheItem.entered s) .Vertex vertexBufferSize
      waitForCache).2.mbs .Vertex).Granularity = (s.mbs .Vertex).Granularity := by
    rw [allocBuffer_gran, entered_gran]
  have hi : ((allocBuffer env (allocBuffer env (AllocCacheItem.entered s) .Vertex
      vertexBufferSize waitForCache).2 .Index (indexCount * sizeofIndexType)
      waitForCache).2.mbs .Index).Granularity = (s.mbs .Index).Granularity := by
    rw [allocBuffer_gran, allocBuffer_gran, entered_gran]
  simp only [MeshCache.mbs] at hv hi
  generalize AllocCacheItem.entered s = e at hm hv hi ⊢
  unfold AllocCacheItem
  simp only [hm, Bool.not_true, Bool.false_and, Bool.false_eq_true, if_false]
  generalize allocBuffer env e .Vertex vertexBufferSize waitForCache = v at hv hi ⊢
  rcases v with ⟨_ | ⟨pvb, vbOffset⟩, sv⟩
  · dsimp only at hv ⊢
    simp only [MeshBufferSet.CheckAllocationSize, hv]
    by_cases h : vertexBufferSize ≤ s.VertexBuffers.Granularity
    · simp [h, Nat.not_lt.mpr h]
    · simp [h, Nat.not_le.mp h]
  · dsimp only at hi ⊢
    generalize allocBuffer env sv .Index (indexCount * sizeofIndexType) waitForCache = i
      at hi ⊢
    rcases i with ⟨_ | ⟨pib, ibOffset⟩, si⟩
    · dsimp only at hi ⊢
      simp only [MeshBufferSet.CheckAllocationSize, hi]
      by_cases h : indexCount * sizeofIndexType ≤ s.IndexBuffers.Granularity
      · simp [h, Nat.not_lt.mpr h]
      · simp [h, Nat.not_le.mp h]
    · dsimp only
      split <;> simp

/-! ## Claims C16..C18: the shrink step of `EndFrame` -/

/-- C16: when the allocated total, the expected size and the sizes of the chunk
buffers are below 2^63, the value `extraSpace` of `EndFrame` is the total minus
`base + floor(base / 4)` with `base` the size of `PrevFrame` plus the smaller of the
size of `LRUTail` and `Params.LRUTailSize`; the chunk list `EndFrame` leaves is the
one obtained by removing buffers from the back, subtracting each size from the
slack, exactly while the slack exceeds `Params.MemGranularity` and a buffer is
left; nothing is removed when the slack is at most the granularity; and the loop
ends within as many rounds as there are chunk buffers. -/
theorem EndFrame_shrink_step (env : Collaborators A) (s : MeshCache A)
    (htotal : getTotalSize (EndFrame.beforeShrink env s) < 2 ^ 63)
    (hexp : shrinkBase (EndFrame.beforeShrink env s) +
      shrinkBase (EndFrame.beforeShrink env s) / 4 < 2 ^ 63)
    (hgran : s.Params.MemGranularity < 2 ^ 63)
    (hsizes : ∀ p ∈ s.ChunkBuffers, p.Size < 2 ^ 63) :
    EndFrame.extraSpace (EndFrame.beforeShrink env s) =
      shrinkSlack (EndFrame.beforeShrink env s) ∧
    (EndFrame env s).ChunkBuffers =
      shrinkSpec (s.Params.MemGranularity : Int) (shrinkSlack (EndFrame.beforeShrink env s))
        s.ChunkBuffers ∧
    (shrinkSlack (EndFrame.beforeShrink env s) ≤ (s.Params.MemGranularity : Int) →
      EndFrame env s = EndFrame.beforeShrink env s) ∧
    (∀ n, EndFrame env s =
      EndFrame.shrinkLoop env (s.ChunkBuffers.length + n)
        (EndFrame.extraSpace (EndFrame.beforeShrink env s)) (EndFrame.beforeShrink env s)) := by
  have hx := extraSpace_eq (EndFrame.beforeShrink env s) htotal hexp
  have hg : toSPInt (s.Params.MemGranularity : Int) = (s.Params.MemGranularity : Int) :=
    toSPInt_of_range _ (by omega) (by omega)
  have hlo : -(2 ^ 63) ≤ shrinkSlack (EndFrame.beforeShrink env s) := by
    unfold shrinkSlack; omega
  have hhi : shrinkSlack (EndFrame.beforeShrink env s) < 2 ^ 63 := by
    unfold shrinkSlack; omega
  refine ⟨hx, ?_, ?_, ?_⟩
  · rw [EndFrame_eq_shrinkLoop, hx]
    have := shrinkLoop_spec env (EndFrame.beforeShrink env s).ChunkBuffers.length
      (shrinkSlack (EndFrame.beforeShrink env s)) (EndFrame.beforeShrink env s) (Nat.le_refl _)
      (by rw [beforeShrink_params]; exact hgran) hlo hhi
      (by rw [beforeShrink_chunk]; exact hsizes)
    rw [this, beforeShrink_params, beforeShrink_chunk]
  · intro hle
    rw [EndFrame_eq_shrinkLoop]
    apply shrinkLoop_idle
    rw [beforeShrink_params, hg, hx]
    omega
  · intro n
    rw [EndFrame_eq_shrinkLoop, ← beforeShrink_chunk env s, shrinkLoop_more_fuel]

/-- Witness of C16: in the sample cache with the two chunk buffers of 100 bytes,
the slack of 300 bytes against a granularity of 100 removes both. -/
theorem EndFrame_shrink_step_witness :
    (EndFrame sampleEnv sampleTwoChunkCache).ChunkBuffers =
      shrinkSpec (sampleTwoChunkCache.Params.MemGranularity : Int)
        (shrinkSlack (EndFrame.beforeShrink sampleEnv sampleTwoChunkCache))
        sampleTwoChunkCache.ChunkBuffers :=
  (EndFrame_shrink_step sampleEnv sampleTwoChunkCache (by decide) (by decide) (by decide)
    (by decide)).2.1

/-- C17: `allocBuffer` leaves `ChunkBuffers` as it is or appends one buffer it has
created with the class `AT_Chunk`, so that the chunk and pending-destruction
lists hold `AT_Chunk` buffers only; `EndFrame` keeps this, deletes only buffers
with the identity of a buffer of these two lists, and a buffer of a buffer set
with the class `AT_Reserve` is still in its set after `EndFrame` and is not
deleted by it. -/
theorem EndFrame_destroys_chunk_buffers_only (env : Collaborators A) (s : MeshCache A) :
    (∀ k size w,
      ((allocBuffer env s k size w).2.ChunkBuffers = s.ChunkBuffers ∨
        ∃ b, b.AType = AllocType.AT_Chunk ∧
          b ∈ ((allocBuffer env s k size w).2.mbs k).Buffers ∧
          (allocBuffer env s k size w).2.ChunkBuffers = s.ChunkBuffers ++ [b]) ∧
      (ChunksOnly s → ChunksOnly (allocBuffer env s k size w).2)) ∧
    (ChunksOnly s → ChunksOnly (EndFrame env s)) ∧
    (∀ b ∈ (EndFrame env s).ChunkBuffers ++ (EndFrame env s).PendingDestructionBuffers,
      b ∈ s.ChunkBuffers ++ s.PendingDestructionBuffers) ∧
    LogExt (DeletesIn ((s.ChunkBuffers ++ s.PendingDestructionBuffers).map (fun c => c.id)))
      s (EndFrame env s) ∧
    (∀ k b, b ∈ (s.mbs k).Buffers → b.AType = AllocType.AT_Reserve → ChunksOnly s →
      (∀ c ∈ s.ChunkBuffers ++ s.PendingDestructionBuffers, c.id = b.id → c = b) →
      b ∈ ((EndFrame env s).mbs k).Buffers ∧
      LogExt (fun ev => ev ≠ Event.Delete b.id) s (EndFrame env s)) := by
  obtain ⟨h1, h2, h3⟩ := EndFrame_destroys env (s.ChunkBuffers ++ s.PendingDestructionBuffers) s
    (fun _ h => h)
  refine ⟨?_, ?_, h1, h3, ?_⟩
  · intro k size w
    obtain ⟨hc, hp⟩ := allocBuffer_chunk_cases env s k size w
    refine ⟨hc, ?_⟩
    intro hs b hb
    rw [hp] at hb
    rcases hc with hc | ⟨c, hat, _, hc⟩
    · rw [hc] at hb; exact hs b hb
    · rw [hc] at hb
      rcases List.mem_append.mp hb with h | h
      · rcases List.mem_append.mp h with h' | h'
        · exact hs b (List.mem_append_left _ h')
        · rw [List.mem_singleton.mp h']; exact hat
      · exact hs b (List.mem_append_right _ h)
  · intro hs b hb
    exact hs b (h1 b hb)
  · intro k b hb hres hs hinj
    have hn : b.id ∉ (s.ChunkBuffers ++ s.PendingDestructionBuffers).map (fun c => c.id) := by
      intro hin
      obtain ⟨c, hc, hid⟩ := List.mem_map.mp hin
      have := hs c hc
      rw [hinj c hc hid, hres] at this
      cases this
    refine ⟨h2 k b hb hn, h3.lmono ?_⟩
    intro ev hev heq
    exact hn (hev b.id heq)

/-- Witness of C17: in the sample cache grown by the chunk buffers 2 and 3, the
vertex reserve buffer 0 is still in the vertex set after `EndFrame`. -/
theorem EndFrame_destroys_chunk_buffers_only_witness :
    (⟨0, .Vertex, 80, .AT_Reserve⟩ : MeshBuffer) ∈
      ((EndFrame sampleEnv sampleGrownCache).mbs .Vertex).Buffers :=
  ((EndFrame_destroys_chunk_buffers_only sampleEnv sampleGrownCache).2.2.2.2 .Vertex
    ⟨0, .Vertex, 80, .AT_Reserve⟩ (by decide) rfl (by unfold ChunksOnly; decide)
    (by decide)).1

/-- Counterexample to C18: in the sample cache grown by the chunk buffer 2 and then
by the chunk buffer 3, `EndFrame` finds a slack of 150 bytes against a granularity
of 100, deletes the buffer 3 created last and keeps the buffer 2 created first. -/
theorem EndFrame_removes_newest_chunk_first :
    sampleGrownCache.ChunkBuffers =
      [⟨2, .Vertex, 55, .AT_Chunk⟩, ⟨3, .Vertex, 55, .AT_Chunk⟩] ∧
    sampleGrownCache.Log =
      [Event.Alloc .Vertex 50 false, Event.Create .Vertex 55 .AT_Chunk true,
       Event.Alloc .Vertex 50 true,
       Event.Alloc .Vertex 50 false, Event.Create .Vertex 55 .AT_Chunk true,
       Event.Alloc .Vertex 50 true] ∧
    EndFrame.extraSpace (EndFrame.beforeShrink sampleEnv sampleGrownCache) = 150 ∧
    (EndFrame sampleEnv sampleGrownCache).ChunkBuffers = [⟨2, .Vertex, 55, .AT_Chunk⟩] ∧
    (EndFrame sampleEnv sampleGrownCache).Log = sampleGrownCache.Log ++ [Event.Delete 3] := by
  decide

/-- C18, amended: `allocBuffer` appends a chunk buffer it creates at the back of
`ChunkBuffers`, and `EndFrame` removes chunk buffers from the back: the list it
leaves is a front part of the list it found, so that the buffers it destroys are
the ones created last, the latest created first. -/
theorem EndFrame_keeps_oldest_chunks (env : Collaborators A) (s : MeshCache A) :
    (∃ removed, s.ChunkBuffers = (EndFrame env s).ChunkBuffers ++ removed) ∧
    (∀ n x p, s.ChunkBuffers.getLast? = some p →
      x > toSPInt (s.Params.MemGranularity : Int) →
      EndFrame.shrinkLoop env (n + 1) x s =
        EndFrame.shrinkLoop env n (toSPInt (x - toSPInt (p.Size : Int)))
          (EndFrame.shrinkRound env s p) ∧
      (EndFrame.shrinkRound env s p).ChunkBuffers = s.ChunkBuffers.dropLast) ∧
    (∀ k size w, (allocBuffer env s k size w).2.ChunkBuffers = s.ChunkBuffers ∨
      ∃ b, ((allocBuffer env s k size w).2.mbs k).Buffers = (s.mbs k).Buffers ++ [b] ∧
        (allocBuffer env s k size w).2.ChunkBuffers = s.ChunkBuffers ++ [b]) := by
  refine ⟨?_, ?_, ?_⟩
  · obtain ⟨removed, hr⟩ := shrinkLoop_prefix env
      (EndFrame.beforeShrink env s).ChunkBuffers.length
      (EndFrame.extraSpace (EndFrame.beforeShrink env s)) (EndFrame.beforeShrink env s)
    rw [beforeShrink_chunk] at hr
    rw [EndFrame_eq_shrinkLoop, beforeShrink_chunk]
    exact ⟨removed, hr⟩
  · intro n x p hp hx
    refine ⟨?_, shrinkRound_chunk env s p⟩
    rw [shrinkLoop_succ, hp]
    exact if_pos hx
  · intro k size w
    rcases allocBuffer_outcome env s k size w with hk | ⟨_, b, hb, _⟩
    · exact Or.inl hk.chunk
    · exact Or.inr ⟨b, hb.buffers, hb.chunk⟩

/-- Witness of C18, amended: in the grown sample cache a round of the shrink loop with a
slack of 150 bytes takes the buffer 3, the last of `ChunkBuffers`, off the list. -/
theorem EndFrame_keeps_oldest_chunks_witness :
    (EndFrame.shrinkRound sampleEnv sampleGrownCache ⟨3, .Vertex, 55, .AT_Chunk⟩).ChunkBuffers =
      sampleGrownCache.ChunkBuffers.dropLast :=
  ((EndFrame_keeps_oldest_chunks sampleEnv sampleGrownCache).2.1 1 150
    ⟨3, .Vertex, 55, .AT_Chunk⟩ (by decide) (by decide)).2

/-! ## Claims C19, C20: initialization and statistics -/

/-- C19: when `Initialize` has found an update method and initialized the staging
buffer, `Params.MemReserve` is not zero and `allocCacheBuffers` fails for the
reserve, `Initialize` returns false with the cache reset: no HAL attached, no
buffer in either set, no chunk buffer. With separate index buffers
`allocCacheBuffers` fails exactly when the creation of the vertex or of the index
buffer fails, and in the second case the vertex buffer just created is destroyed:
it is deleted and no buffer of its identity is left in the vertex set. -/
theorem Initialize_reserve_failure (env : Collaborators A) (dev : Device A)
    (c : MeshCacheGL A) (phal : Nat)
    (hm : Initialize.findMethod dev ≠ .BufferUpdate_Count)
    (hs : dev.StagingInitialize (adjustMeshCacheParams dev c.core.Params).StagingBufferSize
      = true)
    (hr : c.core.Params.MemReserve ≠ 0)
    (hf : (allocCacheBuffers env (Initialize.prepared dev c phal) c.core.Params.MemReserve
      .AT_Reserve).1 = false) :
    ((Initialize env dev c phal).1 = false ∧
      (Initialize env dev c phal).2.pHal = none ∧
      (Initialize env dev c phal).2.core.VertexBuffers.Buffers = [] ∧
      (Initialize env dev c phal).2.core.IndexBuffers.Buffers = [] ∧
      (Initialize env dev c phal).2.core.ChunkBuffers = []) ∧
    (∀ (d : MeshCacheGL A) (size : Nat) (type : AllocType),
      d.UseSeparateIndexBuffers = true →
      ((d.core.CreateBuffer env .Vertex (calcVBGranularity size) type).1 = none →
        (allocCacheBuffers env d size type).1 = false) ∧
      (∀ pvb, (d.core.CreateBuffer env .Vertex (calcVBGranularity size) type).1 = some pvb →
        ((d.core.CreateBuffer env .Vertex (calcVBGranularity size) type).2.CreateBuffer env
          .Index (calcIBGranularity size (calcVBGranularity size)) type).1 = none →
        (allocCacheBuffers env d size type).1 = false ∧
        (∀ b ∈ (allocCacheBuffers env d size type).2.core.VertexBuffers.Buffers,
          b.id ≠ pvb.id) ∧
        (allocCacheBuffers env d size type).2.core.Log = d.core.Log ++
          [Event.Create .Vertex (calcVBGranularity size) type true,
           Event.Create .Index (calcIBGranularity size (calcVBGranularity size)) type false,
           Event.Delete pvb.id]) ∧
      (∀ pvb pib,
        (d.core.CreateBuffer env .Vertex (calcVBGranularity size) type).1 = some pvb →
        ((d.core.CreateBuffer env .Vertex (calcVBGranularity size) type).2.CreateBuffer env
          .Index (calcIBGranularity size (calcVBGranularity size)) type).1 = some pib →
        (allocCacheBuffers env d size type).1 = true)) := by
  refine ⟨?_, ?_⟩
  · have hres : (Initialize.prepared dev c phal).core.Params.MemReserve =
        c.core.Params.MemReserve := adjustMeshCacheParams_reserve dev c.core.Params
    have hI : Initialize env dev c phal = (false, Reset env (allocCacheBuffers env
        (Initialize.prepared dev c phal) c.core.Params.MemReserve .AT_Reserve).2) := by
      unfold Initialize
      simp only [hm, hs, hres, hr, hf, createStaticVertexBuffers, if_false, Bool.not_true,
        Bool.false_eq_true, ne_eq, not_false_eq_true, if_true, Bool.not_false]
    have hp : (allocCacheBuffers env (Initialize.prepared dev c phal)
        c.core.Params.MemReserve .AT_Reserve).2.pHal = some phal := by
      rw [allocCacheBuffers_pHal]; rfl
    obtain ⟨a, _, b, d, e⟩ := Reset_attached env _ phal hp
    rw [hI]
    exact ⟨rfl, a, b, d, e⟩
  · intro d size type hsep
    refine ⟨?_, ?_, ?_⟩
    · intro hv
      unfold allocCacheBuffers
      simp only [hsep, if_true, hv]
    · intro pvb hv hi
      have hlog : (MeshCache.DestroyBuffer env
          (MeshCache.CreateBuffer env
            (MeshCache.CreateBuffer env d.core BufferKind.Vertex (calcVBGranularity size)
              type).2
            BufferKind.Index (calcIBGranularity size (calcVBGranularity size)) type).2
          BufferKind.Vertex pvb true).Log = d.core.Log ++
          [Event.Create .Vertex (calcVBGranularity size) type true,
           Event.Create .Index (calcIBGranularity size (calcVBGranularity size)) type false,
           Event.Delete pvb.id] := by
        unfold MeshCache.CreateBuffer at hv hi ⊢
        split at hv
        · rename_i h1
          simp only [h1, if_true] at hi ⊢
          split at hi
          · cases hi
          · rename_i h2
            simp [MeshCache.DestroyBuffer, MeshCache.setMbs, MeshCache.mbs, h2]
        · cases hv
      unfold allocCacheBuffers
      simp only [hsep, if_true, hv, hi]
      refine ⟨trivial, ?_, hlog⟩
      intro b hb
      simp only [MeshCache.DestroyBuffer, MeshCache.setMbs, MeshCache.mbs, if_true,
        List.mem_filter, bne_iff_ne] at hb
      exact hb.2
    · intro pvb pib hv hi
      unfold allocCacheBuffers
      simp only [hsep, if_true, hv, hi]

/-- Witness of C19: on a fresh sample cache with a reserve of 100 bytes and a
device that refuses index buffers, `Initialize` returns false and leaves no HAL
and no buffer. -/
theorem Initialize_reserve_failure_witness :
    (Initialize sampleEnvNoIndex sampleDevice sampleFreshGL 7).1 = false ∧
    (Initialize sampleEnvNoIndex sampleDevice sampleFreshGL 7).2.pHal = none ∧
    (Initialize sampleEnvNoIndex sampleDevice sampleFreshGL 7).2.core.VertexBuffers.Buffers
      = [] ∧
    (Initialize sampleEnvNoIndex sampleDevice sampleFreshGL 7).2.core.IndexBuffers.Buffers
      = [] ∧
    (Initialize sampleEnvNoIndex sampleDevice sampleFreshGL 7).2.core.ChunkBuffers = [] :=
  (Initialize_reserve_failure sampleEnvNoIndex sampleDevice sampleFreshGL 7 (by decide)
    (by decide) (by decide) (by decide)).1

/-- C20: `GetStats` stores in `TotalSize`, at the entry of each buffer kind, the
total size of that buffer set, and in `UsedSize` the free size of the allocator of
that set converted to bytes, not the bytes in use; every other entry is zero. -/
theorem GetStats_UsedSize_is_free_size (dev : Device A) (c : MeshCacheGL A) :
    (GetStats dev c).TotalSize ((GetStats.memType dev c + dev.MeshBuffer_Index) % 2 ^ 32) =
      c.core.IndexBuffers.GetTotalSize ∧
    (GetStats dev c).UsedSize ((GetStats.memType dev c + dev.MeshBuffer_Index) % 2 ^ 32) =
      (dev.GetFreeSize c.core.IndexBuffers.Allocator * 2 ^ dev.MeshCache_AllocatorUnitShift)
        % 2 ^ UPIntBits ∧
    ((GetStats.memType dev c + dev.MeshBuffer_Vertex) % 2 ^ 32 ≠
        (GetStats.memType dev c + dev.MeshBuffer_Index) % 2 ^ 32 →
      (GetStats dev c).TotalSize ((GetStats.memType dev c + dev.MeshBuffer_Vertex) % 2 ^ 32) =
        c.core.VertexBuffers.GetTotalSize ∧
      (GetStats dev c).UsedSize ((GetStats.memType dev c + dev.MeshBuffer_Vertex) % 2 ^ 32) =
        (dev.GetFreeSize c.core.VertexBuffers.Allocator *
          2 ^ dev.MeshCache_AllocatorUnitShift) % 2 ^ UPIntBits) ∧
    (∀ j, j ≠ (GetStats.memType dev c + dev.MeshBuffer_Vertex) % 2 ^ 32 →
      j ≠ (GetStats.memType dev c + dev.MeshBuffer_Index) % 2 ^ 32 →
      (GetStats dev c).TotalSize j = 0 ∧ (GetStats dev c).UsedSize j = 0) := by
  unfold GetStats GetStats.memType
  dsimp only
  generalize ((if c.BufferUpdate ≠ BufferUpdateType.BufferUpdate_ClientBuffers
    then dev.MeshBuffer_GpuMem else 0) + dev.MeshBuffer_Vertex) % 2 ^ 32 = v
  generalize ((if c.BufferUpdate ≠ BufferUpdateType.BufferUpdate_ClientBuffers
    then dev.MeshBuffer_GpuMem else 0) + dev.MeshBuffer_Index) % 2 ^ 32 = i
  refine ⟨Function.update_same _ _ _, Function.update_same _ _ _, ?_, ?_⟩
  · intro h
    rw [Function.update_noteq h, Function.update_noteq h]
    exact ⟨Function.update_same _ _ _, Function.update_same _ _ _⟩
  · intro j hv hi
    rw [Function.update_noteq hi, Function.update_noteq hi, Function.update_noteq hv,
      Function.update_noteq hv]
    exact ⟨rfl, rfl⟩

/-- Witness of C20: in the sample cache whose vertex reserve buffer of 80 bytes is
entirely free, so that no byte is in use, `GetStats` reports a used size of 80
bytes for the vertex entry. -/
theorem GetStats_UsedSize_is_free_size_witness :
    ((GetStats sampleDevice sampleFreeGL).TotalSize 2 = 80 ∧
      (GetStats sampleDevice sampleFreeGL).UsedSize 2 = 80) ∧
    sampleFreeGL.core.VertexBuffers.GetTotalSize -
      sampleDevice.GetFreeSize sampleFreeGL.core.VertexBuffers.Allocator *
        2 ^ sampleDevice.MeshCache_AllocatorUnitShift = 0 :=
  ⟨(GetStats_UsedSize_is_free_size sampleDevice sampleFreeGL).2.2.1 (by decide), by decide⟩

/-! ## Claims C21..C22: mapping and the choice of the update method -/

/-- C21: under the client-buffer strategy, let the mapped pointer of every buffer
concerned be null or its client block, as the strategy maintains. A buffer that
`DoMap` maps is, after `Unmap`, mapped by `DoMap` at the same pointer, with the
same client block and bytes and no further call to the heap. For an item whose two
maps succeed, `LockMeshCacheItem` returns `vbase + VBAllocOffset` and
`ibase + IBAllocOffset`, where `vbase` and `ibase` are the client blocks of its
buffers; after the caller has written the bytes `w` and `UnmapAll` has run, a second
`LockMeshCacheItem` returns the same two pointers, makes no call to the heap, and
the blocks hold the bytes `w`. -/
theorem LockMeshCacheItem_round_trip (h : MapCollaborators) (ms : MapState)
    (p : MeshCacheItem) (pvb pib : Nat) (w : Nat → Nat → Nat)
    (hv : p.pVertexBuffer = some pvb) (hi : p.pIndexBuffer = some pib)
    (hcv : ms.ClientInv pvb) (hci : ms.ClientInv pib)
    (hokv : (Map h .BufferUpdate_ClientBuffers ms pvb p.VBAllocOffset p.VBAllocSize).1 ≠ 0)
    (hoki : (Map h .BufferUpdate_ClientBuffers
      (Map h .BufferUpdate_ClientBuffers ms pvb p.VBAllocOffset p.VBAllocSize).2 pib
      p.IBAllocOffset p.IBAllocSize).1 ≠ 0) :
    (∀ id offset size offset2 size2, ms.ClientInv id →
      (DoMap h .BufferUpdate_ClientBuffers ms id offset size).1 = true →
      (DoMap h .BufferUpdate_ClientBuffers
        (Unmap .BufferUpdate_ClientBuffers
          (DoMap h .BufferUpdate_ClientBuffers ms id offset size).2 id) id offset2 size2).1
        = true ∧
      ((DoMap h .BufferUpdate_ClientBuffers
        (Unmap .BufferUpdate_ClientBuffers
          (DoMap h .BufferUpdate_ClientBuffers ms id offset size).2 id) id offset2
          size2).2.Buffers id).pData =
        ((DoMap h .BufferUpdate_ClientBuffers ms id offset size).2.Buffers id).pData ∧
      ((DoMap h .BufferUpdate_ClientBuffers
        (Unmap .BufferUpdate_ClientBuffers
          (DoMap h .BufferUpdate_ClientBuffers ms id offset size).2 id) id offset2
          size2).2.Buffers id).BufferData =
        ((DoMap h .BufferUpdate_ClientBuffers ms id offset size).2.Buffers id).BufferData ∧
      ((DoMap h .BufferUpdate_ClientBuffers
        (Unmap .BufferUpdate_ClientBuffers
          (DoMap h .BufferUpdate_ClientBuffers ms id offset size).2 id) id offset2
          size2).2.Buffers id).Data =
        ((DoMap h .BufferUpdate_ClientBuffers ms id offset size).2.Buffers id).Data ∧
      (DoMap h .BufferUpdate_ClientBuffers
        (Unmap .BufferUpdate_ClientBuffers
          (DoMap h .BufferUpdate_ClientBuffers ms id offset size).2 id) id offset2
          size2).2.Calls =
        (DoMap h .BufferUpdate_ClientBuffers ms id offset size).2.Calls) ∧
    (∃ vbase ibase ms1 ms2,
      LockMeshCacheItem h .BufferUpdate_ClientBuffers ms p =
        some ((vbase + p.VBAllocOffset, ibase + p.IBAllocOffset), ms1) ∧
      (ms1.Buffers pvb).BufferData = vbase ∧ (ms1.Buffers pib).BufferData = ibase ∧
      LockMeshCacheItem h .BufferUpdate_ClientBuffers
          (UnmapAll .BufferUpdate_ClientBuffers (ms1.write w)) p =
        some ((vbase + p.VBAllocOffset, ibase + p.IBAllocOffset), ms2) ∧
      (ms2.Buffers pvb).BufferData = vbase ∧ (ms2.Buffers pib).BufferData = ibase ∧
      (ms2.Buffers pvb).Data = w pvb ∧ (ms2.Buffers pib).Data = w pib ∧
      ms2.Calls = ms1.Calls) := by
  constructor
  · intro id offset size offset2 size2 hinv hok
    simp only [DoMap_client] at hok ⊢
    obtain ⟨_, m2, _, _, _⟩ := mapped_client_spec h ms id
    have m2 := m2 id hinv
    generalize DoMap.mapped h .BufferUpdate_ClientBuffers ms id = M at hok m2 ⊢
    have hp : (M.Buffers id).pData ≠ 0 := by simpa using hok
    clear hok
    have hb : (M.Buffers id).pData = (M.Buffers id).BufferData := by
      rcases m2 with h0 | h0
      · exact absurd h0 hp
      · exact h0
    obtain ⟨u1, u2, _, u4, u5⟩ := Unmap_spec .BufferUpdate_ClientBuffers M id id
    rw [mapped_client_of_block h _ id u4 (by rw [u1, ← hb]; exact hp)]
    simp only [Function.update_same, u1, u2, u5, ← hb, hp, ne_eq, not_false_eq_true,
      decide_True, and_self]
  · -- first cycle
    obtain ⟨v1, v2, _, v4⟩ := Map_client h ms pvb p.VBAllocOffset p.VBAllocSize
    generalize hV : Map h .BufferUpdate_ClientBuffers ms pvb p.VBAllocOffset p.VBAllocSize = V
      at *
    obtain ⟨i1, i2, _, i4⟩ := Map_client h V.2 pib p.IBAllocOffset p.IBAllocSize
    generalize hI : Map h .BufferUpdate_ClientBuffers V.2 pib p.IBAllocOffset p.IBAllocSize = I
      at *
    have bv : (V.2.Buffers pvb).BufferData = V.1 := v4 hcv hokv
    have bi : (I.2.Buffers pib).BufferData = I.1 := i4 (v1 pib hci) hoki
    have bv2 : (I.2.Buffers pvb).BufferData = V.1 := by
      rw [(i2 pvb (by rw [bv]; exact hokv)).1, bv]
    -- unlock
    obtain ⟨uv1, uv2, uv3, _⟩ := UnmapAll_write .BufferUpdate_ClientBuffers I.2 w pvb
    obtain ⟨ui1, ui2, ui3, uc⟩ := UnmapAll_write .BufferUpdate_ClientBuffers I.2 w pib
    generalize hU : UnmapAll .BufferUpdate_ClientBuffers (I.2.write w) = U at *
    -- second cycle
    obtain ⟨s1, s2, s3, _⟩ := Map_client h U pvb p.VBAllocOffset p.VBAllocSize
    generalize hV2 : Map h .BufferUpdate_ClientBuffers U pvb p.VBAllocOffset p.VBAllocSize = V2
      at *
    obtain ⟨_, t2, t3, _⟩ := Map_client h V2.2 pib p.IBAllocOffset p.IBAllocSize
    generalize hI2 : Map h .BufferUpdate_ClientBuffers V2.2 pib p.IBAllocOffset
      p.IBAllocSize = I2 at *
    have nv : (U.Buffers pvb).BufferData ≠ 0 := by rw [uv1, bv2]; exact hokv
    have ni : (U.Buffers pib).BufferData ≠ 0 := by rw [ui1, bi]; exact hoki
    have cv := uv3 (i1 pvb (v1 pvb hcv))
    have ci := ui3 (i1 pib (v1 pib hci))
    obtain ⟨sv, sc⟩ := s3 cv nv
    have ki := s2 pib ni
    have kv := s2 pvb nv
    have ni2 : (V2.2.Buffers pib).BufferData ≠ 0 := by rw [ki.1]; exact ni
    have nv2 : (V2.2.Buffers pvb).BufferData ≠ 0 := by rw [kv.1]; exact nv
    obtain ⟨ti, tc⟩ := t3 (s1 pib ci) ni2
    have li := t2 pib ni2
    have lv := t2 pvb nv2
    refine ⟨V.1, I.1, I.2, I2.2, ?_, bv2, bi, ?_, ?_, ?_, ?_, ?_, ?_⟩
    · unfold LockMeshCacheItem
      rw [hv, hi]
      simp only [hV, hI]
    · unfold LockMeshCacheItem
      rw [hv, hi]
      simp only [hU, hV2, hI2]
      rw [sv, uv1, bv2, ti, ki.1, ui1, bi]
    · rw [lv.1, kv.1, uv1, bv2]
    · rw [li.1, ki.1, ui1, bi]
    · rw [lv.2, kv.2, uv2]
    · rw [li.2, ki.2, ui2]
    · rw [tc, sc, uc]

/-- Witness of C21: on a heap that grants every block, the item 7 with vertex
buffer 2 and index buffer 1 is locked in the blocks 4096 and 8192; after the bytes
7 were written and the buffers unmapped, the second lock returns the same
pointers and the blocks hold the bytes written. -/
theorem LockMeshCacheItem_round_trip_witness :
    (Map sampleHeap .BufferUpdate_ClientBuffers sampleMapState 2 16 10).1 = 4096 ∧
    (Map sampleHeap .BufferUpdate_ClientBuffers
      (Map sampleHeap .BufferUpdate_ClientBuffers sampleMapState 2 16 10).2 1 8 4).1 = 8192 ∧
    (∃ vbase ibase ms1 ms2,
      LockMeshCacheItem sampleHeap .BufferUpdate_ClientBuffers sampleMapState
          sampleMappedItem =
        some ((vbase + 16, ibase + 8), ms1) ∧
      (ms1.Buffers 2).BufferData = vbase ∧ (ms1.Buffers 1).BufferData = ibase ∧
      LockMeshCacheItem sampleHeap .BufferUpdate_ClientBuffers
          (UnmapAll .BufferUpdate_ClientBuffers (ms1.write (fun _ _ => 7)))
          sampleMappedItem =
        some ((vbase + 16, ibase + 8), ms2) ∧
      (ms2.Buffers 2).BufferData = vbase ∧ (ms2.Buffers 1).BufferData = ibase ∧
      (ms2.Buffers 2).Data = (fun _ => 7) ∧ (ms2.Buffers 1).Data = (fun _ => 7) ∧
      ms2.Calls = ms1.Calls) :=
  ⟨by decide, by decide,
    (LockMeshCacheItem_round_trip sampleHeap sampleMapState
      sampleMappedItem 2 1 (fun _ _ => 7) rfl rfl
      (Or.inl rfl) (Or.inl rfl) (by decide) (by decide)).2⟩

/-- C23, counterexample: the table built by `Set(1, 10)`, `Add(1, 11)` and `Set` of
the keys 2, 3, 4, 5, 7 has seven entries in a table of size 8, two of them with
the key 1; `Get(1)` returns 11. `Set(6, 60)` expands the table, and afterwards
`Get(1)` returns 10: a key other than the one set is found with another value. -/
theorem Hash_Set_changes_duplicate_key :
    sampleDupHash.GetSize = 7 ∧
    Hash.Get IdentityHash sampleDupHash 1 (some 0) = some (true, some 11) ∧
    (Hash.Set sampleUpperBit IdentityHash 2 sampleDupHash 6 60).map Hash.GetSize = some 8 ∧
    (Hash.Set sampleUpperBit IdentityHash 2 sampleDupHash 6 60).bind
      (fun h2 => Hash.Get IdentityHash h2 1 (some 0)) = some (true, some 10) := by
  decide

/-- C23, amended: let the table be built from the empty table by `Set`, by `Remove`
and by `Add` of keys that `Get` does not find, and let `Alg::UpperBit` be as the
assertion of line 877 requires. Then `Set(k, v)` returns a table built in this
way, and afterwards `Get(k, pvalue)` returns true and stores `v`; `GetSize` has
grown by one if `Get(k)` failed before and is unchanged if it succeeded; for every
other key `Get` returns what it returned before, also when the insertion expands
the table, which it does to at least twice the size when more than 4/5 of the
entries are in use. `Get` on a key that is absent returns false and leaves the
value pointed to alone. -/
theorem Hash_Set_then_Get {C U : Type} [DecidableEq C] (UpperBit : Nat → Nat)
    (HashF : C → Nat) (depth : Nat) (hU : ∀ n, n ≤ 2 ^ (UpperBit (n - 1) + 1))
    (h : Hash C U) (hb : Hash.Built UpperBit HashF h) (k : C) (v : U) :
    (∀ k2 pvalue,
      (Hash.Get HashF h k2 none = some (true, none) ∨
        Hash.Get HashF h k2 none = some (false, none)) ∧
      (Hash.Get HashF h k2 none = some (false, none) →
        Hash.Get HashF h k2 pvalue = some (false, pvalue))) ∧
    ∃ h2, Hash.Set UpperBit HashF (depth + 2) h k v = some h2 ∧
      Hash.Built UpperBit HashF h2 ∧
      (∀ pvalue, Hash.Get HashF h2 k pvalue = some (true, pvalue.map (fun _ => v))) ∧
      (Hash.Get HashF h k none = some (false, none) → h2.GetSize = h.GetSize + 1) ∧
      (Hash.Get HashF h k none = some (true, none) → h2.GetSize = h.GetSize) ∧
      (∀ k2 pvalue, k2 ≠ k → Hash.Get HashF h2 k2 pvalue = Hash.Get HashF h k2 pvalue) ∧
      (∀ t t2, h.mHash.pTable = some t → h2.mHash.pTable = some t2 →
        Hash.Get HashF h k none = some (false, none) →
        t.EntryCount * 5 > (t.SizeMask + 1) * 4 →
        (t.SizeMask + 1) * 2 ≤ t2.SizeMask + 1) := by
  have hw : h.mHash.WF HashF := Built_WF UpperBit HashF hU h hb
  refine ⟨?_, ?_⟩
  · intro k2 pvalue
    refine ⟨Hash_Get_total HashF h hw k2, ?_⟩
    intro habs
    exact (Hash_Get_spec HashF h hw k2 pvalue).2 ((Hash_Get_absent HashF h hw k2).mp habs)
  · obtain ⟨h2, a1, a2, a3, a4, a5, a6⟩ := Hash_Set_spec UpperBit HashF depth hU h hw k v
    refine ⟨h2, a1, Hash.Built.set h h2 depth k v hb a1, ?_, ?_, ?_, ?_, ?_⟩
    · intro pvalue
      exact (Hash_Get_spec HashF h2 a2 k pvalue).1 v ((a3 k v).mpr (Or.inl ⟨rfl, rfl⟩))
    · intro habs
      exact a5 ((Hash_Get_absent HashF h hw k).mp habs)
    · intro hpres
      exact a4 ((Hash_Get_present HashF h hw k).mp hpres)
    · intro k2 pvalue hne
      apply Hash_Get_congr HashF h h2 hw a2 k2 pvalue
      intro w
      rw [a3]
      constructor
      · rintro (⟨e, _⟩ | ⟨_, hh⟩)
        · exact absurd e hne
        · exact hh
      · intro hh
        exact Or.inr ⟨hne, hh⟩
    · intro t t2 ht ht2 habs
      exact a6 ((Hash_Get_absent HashF h hw k).mp habs) t t2 ht ht2

/-- Witness of C23: the sample table of seven entries in a table of size 8 is
built by `Set` alone; `Set(6, 60)` makes it expand, after which `Get(6)` returns
60, the size is 8 and the key 17 is found as before. -/
theorem Hash_Set_then_Get_witness :
    (∀ n, n ≤ 2 ^ (sampleUpperBit (n - 1) + 1)) ∧
    Hash.Built sampleUpperBit IdentityHash sampleHash ∧
    sampleHash.GetSize = 7 ∧
    Hash.Get IdentityHash sampleHash 6 none = some (false, none) ∧
    (Hash.Set sampleUpperBit IdentityHash 2 sampleHash 6 60).map Hash.GetSize = some 8 ∧
    ∃ h2, Hash.Set sampleUpperBit IdentityHash 2 sampleHash 6 60 = some h2 ∧
      Hash.Built sampleUpperBit IdentityHash h2 ∧
      (∀ pvalue, Hash.Get IdentityHash h2 6 pvalue = some (true, pvalue.map (fun _ => 60))) ∧
      (Hash.Get IdentityHash sampleHash 6 none = some (false, none) →
        h2.GetSize = sampleHash.GetSize + 1) ∧
      (Hash.Get IdentityHash sampleHash 6 none = some (true, none) →
        h2.GetSize = sampleHash.GetSize) ∧
      (∀ k2 pvalue, k2 ≠ 6 →
        Hash.Get IdentityHash h2 k2 pvalue = Hash.Get IdentityHash sampleHash k2 pvalue) ∧
      (∀ t t2, sampleHash.mHash.pTable = some t → h2.mHash.pTable = some t2 →
        Hash.Get IdentityHash sampleHash 6 none = some (false, none) →
        t.EntryCount * 5 > (t.SizeMask + 1) * 4 →
        (t.SizeMask + 1) * 2 ≤ t2.SizeMask + 1) :=
  ⟨sampleUpperBit_spec, sampleHash_Built, by decide, by decide, by decide,
    (Hash_Set_then_Get sampleUpperBit IdentityHash 0 sampleUpperBit_spec sampleHash
      sampleHash_Built 6 60).2⟩

/-- C24, counterexample: in the table built by `Set(1, 10)`, `Add(1, 11)` and `Set`
of the keys 2, 3, 4, 5, 7 the key 1 is held twice. `Remove(1)` returns true and
the size falls from 7 to 6, yet `Get(1)` still succeeds, with the value 10. -/
theorem Hash_Remove_leaves_duplicate_key :
    Hash.Get IdentityHash sampleDupHash 1 (some 0) = some (true, some 11) ∧
    (Hash.Remove IdentityHash sampleDupHash 1).map (fun r => (r.1, r.2.GetSize)) =
      some (true, 6) ∧
    (Hash.Remove IdentityHash sampleDupHash 1).bind
      (fun r => Hash.Get IdentityHash r.2 1 (some 0)) = some (true, some 10) := by
  decide

/-- C24, amended: let the table be built from the empty table by `Set`, by `Remove`
and by `Add` of keys that `Get` does not find, and let `Alg::UpperBit` be as the
assertion of line 877 requires. `Remove(k)` returns, and it returns true exactly
when `Get(k)` succeeds. When `Get(k)` fails, `Remove` returns false and leaves the
table as it is. When `Get(k)` succeeds, the table returned is built in this way
again, `Get(k)` fails, `GetSize` is one less, and for every other key `Get`
returns what it returned before; the entry `x` that held `k` is the natural entry
and the last of its chain, and is cleared; or it is the natural entry and has a
follower, which is copied into it and cleared; or it is not the natural entry,
and is cleared after its predecessor got its link. -/
theorem Hash_Remove_then_Get {C U : Type} [DecidableEq C] (UpperBit : Nat → Nat)
    (HashF : C → Nat) (hU : ∀ n, n ≤ 2 ^ (UpperBit (n - 1) + 1))
    (h : Hash C U) (hb : Hash.Built UpperBit HashF h) (k : C) :
    (∃ r, Hash.Remove HashF h k = some r ∧
      (r.1 = true ↔ Hash.Get HashF h k none = some (true, none))) ∧
    (Hash.Get HashF h k none = some (false, none) →
      Hash.Remove HashF h k = some (false, h)) ∧
    (Hash.Get HashF h k none = some (true, none) →
      ∃ h2, Hash.Remove HashF h k = some (true, h2) ∧ Hash.Built UpperBit HashF h2 ∧
        (∀ pvalue, Hash.Get HashF h2 k pvalue = some (false, pvalue)) ∧
        h2.GetSize + 1 = h.GetSize ∧
        (∀ k2 pvalue, k2 ≠ k → Hash.Get HashF h2 k2 pvalue = Hash.Get HashF h k2 pvalue) ∧
        ∃ t t2 x, h.mHash.pTable = some t ∧ h2.mHash.pTable = some t2 ∧ x ≤ t.SizeMask ∧
          (t.E x).ValueIs k = true ∧
          ((x = HashF k &&& t.SizeMask ∧ (t.E x).NextInChain = -1 ∧
              t2.E = Function.update t.E x (t.E x).Clear) ∨
           (x = HashF k &&& t.SizeMask ∧ ∃ f : Nat, (t.E x).NextInChain = (f : Int) ∧ f ≠ x ∧
              t2.E = Function.update (Function.update t.E x (t.E f)) f (t.E f).Clear) ∨
           (x ≠ HashF k &&& t.SizeMask ∧ ∃ q : Nat, q ≠ x ∧
              (t.E q).NextInChain = (x : Int) ∧
              t2.E = Function.update
                (Function.update t.E q { t.E q with NextInChain := (t.E x).NextInChain }) x
                (t.E x).Clear))) := by
  have hw : h.mHash.WF HashF := Built_WF UpperBit HashF hU h hb
  have hrem : ∀ r, HashSetBase.RemoveAlt HashF h.mHash k = some r →
      Hash.Remove HashF h k = some (r.1, { mHash := r.2 }) := by
    intro r hr
    unfold Hash.Remove
    rw [hr]
  rcases RemoveAlt_cases HashF h.mHash hw k with
    ⟨habs, hr⟩ | ⟨v, m2, hv, hr, a1, a2, a3, a4⟩
  · have hget := (Hash_Get_absent HashF h hw k).mpr habs
    have hr2 : Hash.Remove HashF h k = some (false, h) := by
      rw [hrem _ hr]
    refine ⟨⟨_, hr2, ?_⟩, fun _ => hr2, ?_⟩
    · rw [hget]
      simp
    · intro hp
      rw [hget] at hp
      cases hp
  · have hget := (Hash_Get_present HashF h hw k).mpr ⟨v, hv⟩
    have hr2 : Hash.Remove HashF h k = some (true, { mHash := m2 }) := hrem _ hr
    refine ⟨⟨_, hr2, ?_⟩, ?_, ?_⟩
    · simp [hget]
    · intro hp
      rw [hget] at hp
      cases hp
    · intro _
      refine ⟨{ mHash := m2 }, hr2, Hash.Built.remove h _ k true hb hr2, ?_, a2, ?_, a4⟩
      · intro pvalue
        apply (Hash_Get_spec HashF { mHash := m2 } a1 k pvalue).2
        intro w hw2
        exact ((a3 k w).mp hw2).2 rfl
      · intro k2 pvalue hne
        apply Hash_Get_congr HashF h { mHash := m2 } hw a1 k2 pvalue
        intro w
        show m2.Holds k2 w ↔ _
        rw [a3]
        exact ⟨fun hh => hh.1, fun hh => ⟨hh, hne⟩⟩

/-- Witness of C24: in the sample table, built by `Set` alone, the key 17 sits in
its natural entry 1 and has the follower 9 in the entry 6; `Remove(17)` returns
true, `Remove(25)` returns false, and afterwards the size is 6. -/
theorem Hash_Remove_then_Get_witness :
    (∀ n, n ≤ 2 ^ (sampleUpperBit (n - 1) + 1)) ∧
    Hash.Built sampleUpperBit IdentityHash sampleHash ∧
    Hash.Get IdentityHash sampleHash 17 none = some (true, none) ∧
    (Hash.Remove IdentityHash sampleHash 17).map (fun r => (r.1, r.2.GetSize)) =
      some (true, 6) ∧
    (Hash.Remove IdentityHash sampleHash 25).map (fun r => (r.1, r.2.GetSize)) =
      some (false, 7) ∧
    ∃ h2, Hash.Remove IdentityHash sampleHash 17 = some (true, h2) ∧
      Hash.Built sampleUpperBit IdentityHash h2 ∧
      (∀ pvalue, Hash.Get IdentityHash h2 17 pvalue = some (false, pvalue)) ∧
      h2.GetSize + 1 = sampleHash.GetSize ∧
      (∀ k2 pvalue, k2 ≠ 17 →
        Hash.Get IdentityHash h2 k2 pvalue = Hash.Get IdentityHash sampleHash k2 pvalue) :=
  ⟨sampleUpperBit_spec, sampleHash_Built, by decide, by decide, by decide,
    (((Hash_Remove_then_Get sampleUpperBit IdentityHash sampleUpperBit_spec sampleHash
      sampleHash_Built 17).2.2 (by decide)).imp
      (fun _ hx => ⟨hx.1, hx.2.1, hx.2.2.1, hx.2.2.2.1, hx.2.2.2.2.1⟩))⟩

/-! ## Claim C25: the inverse of a `Matrix3x4` -/

/-- C25: over a field with exact arithmetic, the determinant that `GetInverse`
tests is `GetDeterminant()`. When it is not zero, `MultiplyMatrix` of `M` and
`M.GetInverse()`, in either order, is the identity matrix. When it is zero,
`GetInverse` returns the identity matrix with the translation of `M` negated. -/
theorem GetInverse_inverts {T : Type} [Field T] [DecidableEq T] (m : Matrix3x4 T) :
    Matrix3x4.GetInverse.det m = m.GetDeterminant ∧
    (m.GetDeterminant ≠ 0 →
      Matrix3x4.MultiplyMatrix m m.GetInverse = Matrix3x4.SetIdentity ∧
      Matrix3x4.MultiplyMatrix m.GetInverse m = Matrix3x4.SetIdentity) ∧
    (m.GetDeterminant = 0 →
      m.GetInverse = { (Matrix3x4.SetIdentity : Matrix3x4 T) with
        M03 := -m.M03, M13 := -m.M13, M23 := -m.M23 }) :=
  ⟨GetInverse_det_eq m, GetInverse_regular m, GetInverse_singular m⟩

/-- Witness of C25: the sample matrix has determinant 25, and its product with
its inverse is the identity matrix. -/
theorem GetInverse_inverts_witness :
    sampleMatrix.GetDeterminant = 25 ∧ sampleMatrix.GetDeterminant ≠ 0 ∧
    Matrix3x4.MultiplyMatrix sampleMatrix sampleMatrix.GetInverse = Matrix3x4.SetIdentity ∧
    Matrix3x4.MultiplyMatrix sampleMatrix.GetInverse sampleMatrix = Matrix3x4.SetIdentity :=
  ⟨by norm_num [Matrix3x4.GetDeterminant, sampleMatrix],
    by norm_num [Matrix3x4.GetDeterminant, sampleMatrix],
    (GetInverse_inverts sampleMatrix).2.1
      (by norm_num [Matrix3x4.GetDeterminant, sampleMatrix])⟩


/-! ## Claims C26..C30: failure paths, parameters and granularities -/

/-- Counterexample to C26: in the empty sample cache with free reserve buffers and
a heap that grants no cache item, both allocations of a request of 30 vertex
bytes and two indices succeed, the item is not created, and the result is
`Alloc_StateError`, neither `Alloc_Fail_TooBig` nor `Alloc_Fail`; both ranges are
freed. -/
theorem AllocCacheItem_state_error_on_item_failure :
    (AllocCacheItem sampleEnvNoItem sampleFreeCache .Mesh_Regular 30 2 false).1 =
      AllocResult.Alloc_StateError ∧
    (AllocCacheItem sampleEnvNoItem sampleFreeCache .Mesh_Regular 30 2 false).2.1 = none ∧
    (AllocCacheItem sampleEnvNoItem sampleFreeCache .Mesh_Regular 30 2 false).2.2.Log =
      [Event.Alloc .Vertex 30 true, Event.Alloc .Index 4 true,
       Event.Free .Vertex none false 30 0 0 30, Event.Free .Index none false 4 0 0 4] := by
  decide

/-- C26, amended: `AllocCacheItem` creates a cache item only when it returns
`Alloc_Success`. When the vertex allocation fails the index allocation is not
attempted and the result is `Alloc_Fail_TooBig` if `CheckAllocationSize` of the
vertex set rejects the size and `Alloc_Fail` otherwise; when the index allocation
fails after the vertex allocation the vertex range is freed with the same size,
buffer and offset and the result is chosen in the same way by the index set; when
both allocations succeed and the item cannot be created both ranges are freed and
the result is `Alloc_StateError`. -/
theorem AllocCacheItem_failure_paths (env : Collaborators A) (s : MeshCache A)
    (meshType : MeshType) (vertexBufferSize indexCount : Nat) (waitForCache : Bool) :
    ((AllocCacheItem env s meshType vertexBufferSize indexCount waitForCache).1 ≠
        AllocResult.Alloc_Success →
      (AllocCacheItem env s meshType vertexBufferSize indexCount waitForCache).2.1 = none) ∧
    ((allocBuffer env (AllocCacheItem.entered s) .Vertex vertexBufferSize waitForCache).1
        = none →
      AllocCacheItem env s meshType vertexBufferSize indexCount waitForCache =
        (if (allocBuffer env (AllocCacheItem.entered s) .Vertex vertexBufferSize
              waitForCache).2.VertexBuffers.CheckAllocationSize vertexBufferSize = false
          then AllocResult.Alloc_Fail_TooBig else AllocResult.Alloc_Fail,
         none,
         (allocBuffer env (AllocCacheItem.entered s) .Vertex vertexBufferSize
           waitForCache).2)) ∧
    (∀ pvb vbOffset (t : MeshCache A),
      allocBuffer env (AllocCacheItem.entered s) .Vertex vertexBufferSize waitForCache =
        (some (pvb, vbOffset), t) →
      ((allocBuffer env t .Index (indexCount * sizeofIndexType) waitForCache).1 = none →
        AllocCacheItem env s meshType vertexBufferSize indexCount waitForCache =
          (if (allocBuffer env t .Index (indexCount * sizeofIndexType)
                waitForCache).2.IndexBuffers.CheckAllocationSize
                  (indexCount * sizeofIndexType) = false
            then AllocResult.Alloc_Fail_TooBig else AllocResult.Alloc_Fail,
           none,
           ((allocBuffer env t .Index (indexCount * sizeofIndexType) waitForCache).2.Free env
             .Vertex none false vertexBufferSize pvb vbOffset).2)) ∧
      (∀ pib ibOffset (u : MeshCache A),
        allocBuffer env t .Index (indexCount * sizeofIndexType) waitForCache =
          (some (pib, ibOffset), u) →
        env.ItemCreate u.NextItemId = false →
        AllocCacheItem env s meshType vertexBufferSize indexCount waitForCache =
          (AllocResult.Alloc_StateError, none,
           (((u.Free env .Vertex none false vertexBufferSize pvb vbOffset).2).Free env
             .Index none false (indexCount * sizeofIndexType) pib ibOffset).2))) := by
  rw [AllocCacheItem_entered]
  have hm := entered_mapped s
  generalize AllocCacheItem.entered s = e at hm ⊢
  unfold AllocCacheItem
  simp only [hm, Bool.not_true, Bool.false_and, Bool.false_eq_true, if_false]
  generalize allocBuffer env e .Vertex vertexBufferSize waitForCache = v
  rcases v with ⟨_ | ⟨pvb, vbOffset⟩, sv⟩
  · refine ⟨fun _ => rfl, ?_, ?_⟩
    · intro _
      dsimp only
      cases sv.VertexBuffers.CheckAllocationSize vertexBufferSize <;> rfl
    · intro _ _ _ h
      cases h
  · dsimp only
    refine ⟨?_, ?_, ?_⟩
    · generalize allocBuffer env sv .Index (indexCount * sizeofIndexType) waitForCache = i
      rcases i with ⟨_ | ⟨pib, ibOffset⟩, si⟩
      · exact fun _ => rfl
      · dsimp only
        split
        · intro h; exact absurd rfl h
        · exact fun _ => rfl
    · intro h
      cases h
    · intro pvb1 vbOffset1 t ht
      cases ht
      refine ⟨?_, ?_⟩
      · intro hi
        generalize allocBuffer env sv .Index (indexCount * sizeofIndexType) waitForCache
          = i at hi
        rcases i with ⟨_ | ⟨pib, ibOffset⟩, si⟩
        · dsimp only
          cases si.IndexBuffers.CheckAllocationSize (indexCount * sizeofIndexType) <;> rfl
        · cases hi
      · intro pib ibOffset u hu hc
        rw [hu]
        dsimp only
        rw [if_neg (by rw [hc]; decide)]

/-- Witness of C26, amended: in the empty sample cache a request of 30 vertex bytes
and 50 indices gets its vertex range, fails for the 100 index bytes above the
index granularity of 44, frees the vertex range and returns `Alloc_Fail_TooBig`. -/
theorem AllocCacheItem_failure_paths_witness :
    (AllocCacheItem sampleEnv sampleFreeCache .Mesh_Regular 30 50 false).1 =
      AllocResult.Alloc_Fail_TooBig ∧
    (AllocCacheItem sampleEnv sampleFreeCache .Mesh_Regular 30 50 false).2.1 = none ∧
    Event.Free .Vertex none false 30 0 0 30 ∈
      (AllocCacheItem sampleEnv sampleFreeCache .Mesh_Regular 30 50 false).2.2.Log := by
  have h := ((AllocCacheItem_failure_paths sampleEnv sampleFreeCache .Mesh_Regular 30 50
    false).2.2 0 0 _ rfl).1 (by decide)
  rw [h]
  decide

/-- C27: when the direct suballocation fails and, at the check of line 720,
`VBSizeEvictedInMap` exceeds `Params.VBLockEvictSizeLimit`, `allocBuffer` returns
false whatever the value of `needMoreSpace` that the reclamation, the LRU eviction
or the growth before the check have left; the state it leaves is the state at the
check, so that a chunk buffer created before the check stays in its set and on
`ChunkBuffers`, and after the failed suballocation of line 674 no further
suballocation is attempted. -/
theorem allocBuffer_fails_over_limit (env : Collaborators A) (s : MeshCache A)
    (k : BufferKind) (size : Nat) (w : Bool) (need : Bool)
    (hfail : env.AllocatorAlloc (s.mbs k).Allocator size = none)
    (hreach : (allocBuffer.atLimitCheck env s k size).1 = some need)
    (hover : (allocBuffer.atLimitCheck env s k size).2.Params.VBLockEvictSizeLimit <
      (allocBuffer.atLimitCheck env s k size).2.VBSizeEvictedInMap) :
    allocBuffer env s k size w = (none, (allocBuffer.atLimitCheck env s k size).2) ∧
    (∃ l, (allocBuffer env s k size w).2.Log = s.Log ++ Event.Alloc k size false :: l ∧
      ∀ e ∈ l, NoAlloc e) ∧
    (∀ b, Grew env k size { s with Log := s.Log ++ [Event.Alloc k size false] }
        (allocBuffer.atLimitCheck env s k size).2 →
      (allocBuffer env s k size w).2.ChunkBuffers.getLast? = some b →
      b ∈ ((allocBuffer env s k size w).2.mbs k).Buffers ∧ b.AType = AllocType.AT_Chunk) := by
  have h1 : allocBuffer env s k size w =
      (none, (allocBuffer.atLimitCheck env s k size).2) := by
    rw [allocBuffer_of_direct_failure env s k size w hfail]
    unfold allocBuffer.slowPath
    unfold allocBuffer.atLimitCheck at hreach hover ⊢
    generalize allocBuffer.beforeLimitCheck env
      { s with Log := s.Log ++ [Event.Alloc k size false] } k size = b at hreach hover
    rcases b with ⟨o, t⟩
    dsimp only at hreach hover ⊢
    subst hreach
    dsimp only
    rw [if_pos hover]
  refine ⟨h1, ?_, ?_⟩
  · rw [h1]
    obtain ⟨l, hl, hp⟩ := beforeLimitCheck_noAlloc env
      { s with Log := s.Log ++ [Event.Alloc k size false] } k size
    refine ⟨l, ?_, hp⟩
    show (allocBuffer.beforeLimitCheck env
      { s with Log := s.Log ++ [Event.Alloc k size false] } k size).2.Log = _
    rw [hl]
    simp
  · intro b hg hlast
    rw [h1] at hlast ⊢
    obtain ⟨_, c, hc, _, _, hat, _⟩ := hg
    dsimp only at hlast ⊢
    rw [hc.chunk, List.getLast?_append, List.getLast?_singleton] at hlast
    have hcb : c = b := by simpa [Option.or] using hlast
    subst hcb
    exact ⟨by rw [hc.buffers]; simp, hat⟩

/-- Witness of C27: in the full sample cache with the counter at 60 above the
limit of 50, a request of 30 vertex bytes creates the chunk buffer 2 of 55 bytes
and then fails at the check; the buffer stays on `ChunkBuffers`. -/
theorem allocBuffer_fails_over_limit_witness :
    allocBuffer sampleEnv (sampleCache [] [] [] [] 1000 60) .Vertex 30 false =
      (none, (allocBuffer.atLimitCheck sampleEnv (sampleCache [] [] [] [] 1000 60)
        .Vertex 30).2) ∧
    (allocBuffer.atLimitCheck sampleEnv (sampleCache [] [] [] [] 1000 60)
        .Vertex 30).2.ChunkBuffers = [⟨2, .Vertex, 55, .AT_Chunk⟩] :=
  ⟨(allocBuffer_fails_over_limit sampleEnv (sampleCache [] [] [] [] 1000 60) .Vertex 30 false
    false (by decide) (by decide) (by decide)).1, by decide⟩

/-- C28: the scan loops of `evictMeshesInBuffer` end within as many rounds as the
scanned list has items; when the function returns, no item of any list refers to
the buffer through `pVertexBuffer` or `pIndexBuffer`; it returns true exactly when
every `Evict` call it made returned a non-zero byte count; and for an item whose
`Evict` returned 0 it sets `evictionFailed`, frees each range of the item that
lies in the buffer and sets the pointers of the item to that buffer to null. -/
theorem evictMeshesInBuffer_clears_buffer (env : Collaborators A) (s : MeshCache A)
    (pbuffer : Nat) :
    (∀ t, ∀ q ∈ (evictMeshesInBuffer env s pbuffer).2.CacheList.GetSlot t,
      q.pVertexBuffer ≠ some pbuffer ∧ q.pIndexBuffer ≠ some pbuffer) ∧
    ((evictMeshesInBuffer env s pbuffer).1 = true ↔
      ∀ r ∈ evictMeshesInBuffer.returns env s pbuffer, r ≠ 0) ∧
    (∀ t (acc : Bool × MeshCache A) n,
      evictMeshesInBuffer.scan env pbuffer t ((acc.2.CacheList.GetSlot t).length + n) acc =
        evictMeshesInBuffer.scan env pbuffer t (acc.2.CacheList.GetSlot t).length acc) ∧
    (∀ t fuel (acc : Bool × MeshCache A) p,
      (acc.2.CacheList.GetSlot t).find? (fun q => q.refers pbuffer) = some p →
      (Evict env acc.2 p none).1 = 0 →
      evictMeshesInBuffer.scan env pbuffer t (fuel + 1) acc =
        evictMeshesInBuffer.scan env pbuffer t fuel
          (true, evictMeshesInBuffer.release env (Evict env acc.2 p none).2 pbuffer p)) ∧
    (∀ (u : MeshCache A) p t,
      (evictMeshesInBuffer.release env u pbuffer p).CacheList.GetSlot t =
        (u.CacheList.GetSlot t).map (nullify pbuffer p) ∧
      (evictMeshesInBuffer.release env u pbuffer p).Log = u.Log ++
        ((if p.pVertexBuffer = some pbuffer then
            [Event.Free .Vertex (some p.id) p.FencePending p.VBAllocSize pbuffer
              p.VBAllocOffset
              (env.AllocatorFree u.VertexBuffers.Allocator p.VBAllocSize pbuffer
                p.VBAllocOffset).1]
          else []) ++
         (if p.pIndexBuffer = some pbuffer then
            [Event.Free .Index (some p.id) p.FencePending p.IBAllocSize pbuffer
              p.IBAllocOffset
              (env.AllocatorFree u.IndexBuffers.Allocator p.IBAllocSize pbuffer
                p.IBAllocOffset).1]
          else []))) := by
  refine ⟨?_, evictMeshesInBuffer_returns env s pbuffer, ?_, ?_, ?_⟩
  · intro t q hq
    have := evictMeshesInBuffer_no_referrer env s pbuffer t q hq
    simpa [MeshCacheItem.refers] using this
  · intro t acc n
    induction n with
    | zero => rfl
    | succ m ih =>
      rw [← Nat.add_assoc, scan_fuel env pbuffer t _ acc
        (le_trans (List.countP_le_length _) (Nat.le_add_right _ _)), ih]
  · intro t fuel acc p hp h0
    rw [evictMeshesInBuffer.scan, hp]
    exact if_pos h0
  · intro u p t
    exact ⟨release_slot env u pbuffer p t, release_log env u pbuffer p⟩

/-- Witness of C28: in the sample cache whose pending item 7 holds a range in the
chunk buffer 2, the scan of `ThisFrame` for that buffer gets 0 from `Evict`, sets
`evictionFailed` and releases the range. -/
theorem evictMeshesInBuffer_clears_buffer_witness :
    evictMeshesInBuffer.scan sampleEnv 2 .MCL_ThisFrame 1 (false, sampleChunkCache) =
      evictMeshesInBuffer.scan sampleEnv 2 .MCL_ThisFrame 0
        (true, evictMeshesInBuffer.release sampleEnv
          (Evict sampleEnv sampleChunkCache (sampleItem 7 (some 2) (some 1) 10 4 true) none).2
          2 (sampleItem 7 (some 2) (some 1) 10 4 true)) :=
  (evictMeshesInBuffer_clears_buffer sampleEnv sampleChunkCache 2).2.2.2.1 .MCL_ThisFrame 0
    (false, sampleChunkCache) (sampleItem 7 (some 2) (some 1) 10 4 true) (by decide) (by decide)

/-- C29: when `SetParams` returns true, `Params` is the argument adjusted by
`adjustMeshCacheParams`; when it returns false, `Params` is unchanged; with no HAL
attached it returns true. The adjustment caps `MaxBatchInstances` at
`SF_RENDER_MAX_BATCHES`, raises `VBLockEvictSizeLimit` to at least 256 KB and
`StagingBufferSize` to at least `2 * (MaxVerticesSizeInBatch + 2 *
MaxIndicesInBatch)` when that value fits `UPInt`, keeps every other field, and
adjusting twice equals adjusting once. -/
theorem SetParams_sets_adjusted_params (env : Collaborators A) (dev : Device A)
    (c : MeshCacheGL A) (argParams : MeshCacheParams) :
    ((SetParams env dev c argParams).1 = true →
      (SetParams env dev c argParams).2.core.Params = adjustMeshCacheParams dev argParams) ∧
    ((SetParams env dev c argParams).1 = false →
      (SetParams env dev c argParams).2.core.Params = c.core.Params) ∧
    (c.pHal = none → (SetParams env dev c argParams).1 = true) ∧
    adjustMeshCacheParams dev argParams =
      { argParams with
        MaxBatchInstances := min argParams.MaxBatchInstances dev.SF_RENDER_MAX_BATCHES,
        VBLockEvictSizeLimit := max argParams.VBLockEvictSizeLimit (1024 * 256),
        StagingBufferSize := max argParams.StagingBufferSize
          (adjustMeshCacheParams.minStaging argParams) } ∧
    (2 * (argParams.MaxVerticesSizeInBatch + 2 * argParams.MaxIndicesInBatch) < 2 ^ 64 →
      adjustMeshCacheParams.minStaging argParams =
        2 * (argParams.MaxVerticesSizeInBatch + 2 * argParams.MaxIndicesInBatch)) ∧
    adjustMeshCacheParams dev (adjustMeshCacheParams dev argParams) =
      adjustMeshCacheParams dev argParams := by
  have h := SetParams_params env dev c argParams
  refine ⟨?_, ?_, SetParams_detached env dev c argParams, adjustMeshCacheParams_eq dev argParams,
    minStaging_exact argParams, adjustMeshCacheParams_idem dev argParams⟩
  · intro ht
    rw [h, if_pos ht]
  · intro hf
    rw [h, hf]
    rfl

/-- Witness of C29: on the fresh sample cache, which has no HAL, `SetParams` with
the sample parameters returns true. -/
theorem SetParams_sets_adjusted_params_witness :
    (SetParams sampleEnv sampleDevice sampleFreshGL sampleParams).1 = true :=
  (SetParams_sets_adjusted_params sampleEnv sampleDevice sampleFreshGL sampleParams).2.2.1 rfl

/-- C30: for a size `g` that fits `UPInt`, `calcVBGranularity g` is
`16 * floor(5 * floor(g / 16) / 9)` and `calcIBGranularity g vb`, for `vb` with
`floor(vb / 16) <= floor(g / 16)` and in particular for `vb = calcVBGranularity g`,
is `16 * (floor(g / 16) - floor(vb / 16))`, no step wrapping around; both are
multiples of 16, `vb <= g`, and `vb + ib = 16 * floor(g / 16)`. With separate index
buffers a successful `allocCacheBuffers` of size `g` raises the total size by
`16 * floor(g / 16)`, which is 1 MB for a reserve of 1 MB. -/
theorem calcGranularity_split (g : Nat) (hg : g < 2 ^ 64) :
    calcVBGranularity g = 16 * (5 * (g / 16) / 9) ∧
    (∀ vb, vb / 16 ≤ g / 16 → calcIBGranularity g vb = 16 * (g / 16 - vb / 16)) ∧
    calcIBGranularity g (calcVBGranularity g) = 16 * (g / 16 - calcVBGranularity g / 16) ∧
    16 ∣ calcVBGranularity g ∧ 16 ∣ calcIBGranularity g (calcVBGranularity g) ∧
    calcVBGranularity g ≤ g ∧
    calcVBGranularity g + calcIBGranularity g (calcVBGranularity g) = 16 * (g / 16) ∧
    (∀ (env : Collaborators A) (c : MeshCacheGL A) (type : AllocType),
      c.UseSeparateIndexBuffers = true → (allocCacheBuffers env c g type).1 = true →
      getTotalSize (allocCacheBuffers env c g type).2.core =
        getTotalSize c.core + 16 * (g / 16)) ∧
    calcVBGranularity (1024 * 1024) +
      calcIBGranularity (1024 * 1024) (calcVBGranularity (1024 * 1024)) = 1024 * 1024 := by
  have hv := calcVBGranularity_eq g hg
  have hle : calcVBGranularity g / 16 ≤ g / 16 := by rw [hv]; omega
  have hi := calcIBGranularity_eq g (calcVBGranularity g) hg hle
  have hsum : calcVBGranularity g + calcIBGranularity g (calcVBGranularity g) =
      16 * (g / 16) := by
    rw [hi]
    have : calcVBGranularity g = 16 * (calcVBGranularity g / 16) := by rw [hv]; omega
    omega
  refine ⟨hv, fun vb h => calcIBGranularity_eq g vb hg h, hi, ⟨_, hv⟩, ⟨_, hi⟩, ?_, hsum, ?_, ?_⟩
  · rw [hv]; omega
  · intro env c type hsep hok
    cases hv1 : (c.core.CreateBuffer env .Vertex (calcVBGranularity g) type).1 with
    | none =>
      unfold allocCacheBuffers at hok
      simp only [hsep, if_true, hv1] at hok
      cases hok
    | some pvb =>
      cases hi1 : ((c.core.CreateBuffer env .Vertex (calcVBGranularity g) type).2.CreateBuffer
          env .Index (calcIBGranularity g (calcVBGranularity g)) type).1 with
      | none =>
        unfold allocCacheBuffers at hok
        simp only [hsep, if_true, hv1, hi1] at hok
        cases hok
      | some pib =>
        unfold allocCacheBuffers
        simp only [hsep, if_true, hv1, hi1]
        rw [CreateBuffer_total _ _ _ _ _ pib hi1, CreateBuffer_total _ _ _ _ _ pvb hv1]
        omega
  · decide

/-- Witness of C30: a reserve of 100 bytes is split into a vertex and an index
granularity of 48 bytes each, 96 bytes in all. -/
theorem calcGranularity_split_witness :
    calcVBGranularity 100 = 48 ∧ calcIBGranularity 100 (calcVBGranularity 100) = 48 ∧
    calcVBGranularity 100 + calcIBGranularity 100 (calcVBGranularity 100) = 16 * (100 / 16) :=
  ⟨by decide, by decide,
    (@calcGranularity_split Nat 100 (by decide)).2.2.2.2.2.2.1⟩

end GLMeshCache
